import Mathlib

/-!
# UnrealLineRenderer: the curve kernel `FBezierCalc`

A shallow embedding of `Source/LineRenderer/Graphics/LineRenderer/BezierCalc.cpp`.

* `float` and `double` values are elements of an arbitrary linearly ordered field `α` with
  a floor function (exact arithmetic); `int32` values are `Int`, array sizes are `Nat`.
  The section *Single precision* repeats the length table, the tessellation and the spline
  hit test with an explicit rounding `F : α → α` wherever the source stores a `float`.
* `TArray` is `List`.  A read or write whose index the surrounding loop keeps inside the
  array is `List.getD` / `List.set`; every function of the sampling interface, where the
  source can index outside an array, returns `Option`, and `none` stands for the failed
  range check of `TArray::operator[]` / `TArray::Last`.
* The engine's square root and the tolerance of `GetSafeNormal` are not part of the
  repository; they are the two fields of `Engine`.
* The recursion of `TessellateSegment` has no depth bound in the source; the embedding
  takes the recursion depth allowed as a `fuel` argument and returns `none` when it is
  used up.
-/

namespace LineRenderer

/-! ## Vectors -/

/-- Unreal's `FVector`: three coordinates. -/
@[ext]
structure FVector (α : Type) where
  X : α
  Y : α
  Z : α
deriving DecidableEq

/-- Unreal's `FVector2D`: two coordinates. -/
@[ext]
structure FVector2D (α : Type) where
  X : α
  Y : α
deriving DecidableEq

/-- The engine primitives used by the kernel that the repository does not define:
`FMath::Sqrt` and the tolerance `SMALL_NUMBER` of `FVector::GetSafeNormal`. -/
structure Engine (α : Type) where
  Sqrt : α → α
  SmallNumber : α

section Vectors

variable {α : Type} [LinearOrderedField α]

instance : Zero (FVector α) := ⟨⟨0, 0, 0⟩⟩

instance : Add (FVector α) := ⟨fun a b => ⟨a.X + b.X, a.Y + b.Y, a.Z + b.Z⟩⟩

instance : Sub (FVector α) := ⟨fun a b => ⟨a.X - b.X, a.Y - b.Y, a.Z - b.Z⟩⟩

instance : Neg (FVector α) := ⟨fun a => ⟨-a.X, -a.Y, -a.Z⟩⟩

/-- Scalar multiple `FVector * float`. -/
instance : HMul (FVector α) α (FVector α) := ⟨fun a k => ⟨a.X * k, a.Y * k, a.Z * k⟩⟩

/-- Scalar multiple `float * FVector`. -/
instance : HMul α (FVector α) (FVector α) := ⟨fun k a => ⟨k * a.X, k * a.Y, k * a.Z⟩⟩

/-- Unreal's `FVector::SizeSquared`. -/
def FVector.SizeSquared (v : FVector α) : α := v.X * v.X + v.Y * v.Y + v.Z * v.Z

/-- Unreal's `FVector::Size`. -/
def FVector.Size (E : Engine α) (v : FVector α) : α := E.Sqrt (v.X * v.X + v.Y * v.Y + v.Z * v.Z)

/-- Unreal's `FVector::Dist`. -/
def FVector.Dist (E : Engine α) (a b : FVector α) : α :=
  E.Sqrt ((b.X - a.X) * (b.X - a.X) + (b.Y - a.Y) * (b.Y - a.Y) + (b.Z - a.Z) * (b.Z - a.Z))

/-- Unreal's `FVector::GetSafeNormal`: the vector itself when it is already of unit length, the zero
vector when its squared length is below the tolerance, the vector scaled by the inverse of
its length otherwise. -/
def FVector.GetSafeNormal (E : Engine α) (v : FVector α) : FVector α :=
  let SquareSum := v.X * v.X + v.Y * v.Y + v.Z * v.Z
  if SquareSum = 1 then v
  else if SquareSum < E.SmallNumber then 0
  else
    let Scale := 1 / E.Sqrt SquareSum
    ⟨v.X * Scale, v.Y * Scale, v.Z * Scale⟩

/-- Unreal's `FVector::CrossProduct`. -/
def FVector.CrossProduct (a b : FVector α) : FVector α :=
  ⟨a.Y * b.Z - a.Z * b.Y, a.Z * b.X - a.X * b.Z, a.X * b.Y - a.Y * b.X⟩

/-- Unreal's `FMath::Clamp`: `Max(Min(X, MaxValue), MinValue)`. -/
def Clamp {β : Type} [LinearOrder β] (X MinValue MaxValue : β) : β :=
  max (min X MaxValue) MinValue

/-- Unreal's `FMath::Lerp` on scalars: `A + Alpha * (B - A)`. -/
def Lerp (A B Alpha : α) : α := A + Alpha * (B - A)

/-- Unreal's `FMath::Lerp` on vectors: `A + Alpha * (B - A)`. -/
def LerpV (A B : FVector α) (Alpha : α) : FVector α := A + Alpha * (B - A)

end Vectors

/-! ## Arrays -/

/-- Unreal's `TArray::SetNumZeroed` (and `SetNum`, whose new elements no caller reads before writing
them): keeps the first `n` elements and pads with zeros up to `n` elements. -/
def SetNumZeroed {β : Type} [Zero β] (l : List β) (n : Nat) : List β :=
  l.take n ++ List.replicate (n - l.length) 0

/-- A counted loop `for (i = lo; i < hi; ++i) st = body(i, st)`. -/
def forRange {σ : Type} (lo hi : Nat) (body : Nat → σ → σ) (init : σ) : σ :=
  (List.range' lo (hi - lo)).foldl (fun st i => body i st) init

/-! ## The calculator state -/

/-- The fields of `FBezierCalc`: the inputs copied from outside and the derived arrays. -/
structure FBezierCalc (α : Type) where
  Points : List (FVector α)
  HardCorners : Bool
  TangentStrength : α
  TessellationQuality : α
  InTangents : List (FVector α)
  OutTangents : List (FVector α)
  Tessellated : List (FVector α)
  SegmentTessIndexes : List Int
  SegmentLengths : List α
  SegmentStartLengths : List α
  TotalLength : α

section Calc

variable {α : Type} [LinearOrderedField α] [FloorRing α]

/-- A freshly constructed calculator holding the given inputs: the member initialisers of
`BezierCalc.h` leave every derived array empty and `TotalLength = 0`. -/
def FBezierCalc.fresh (Points : List (FVector α)) (HardCorners : Bool)
    (TangentStrength TessellationQuality : α) : FBezierCalc α :=
  { Points := Points, HardCorners := HardCorners, TangentStrength := TangentStrength,
    TessellationQuality := TessellationQuality, InTangents := [], OutTangents := [],
    Tessellated := [], SegmentTessIndexes := [], SegmentLengths := [],
    SegmentStartLengths := [], TotalLength := 0 }

/-- The body of the loop of the hard-corner branch of `Calculate` (lines 15-24). -/
def CalculateHardStep (E : Engine α) (i : Nat) (st : FBezierCalc α) : FBezierCalc α :=
  let st1 := { st with
    Tessellated := st.Tessellated.set i (st.Points.getD i 0),
    SegmentTessIndexes := st.SegmentTessIndexes.set i (i : Int) }
  if (i : Int) < (st.Points.length : Int) - 1 then
    { st1 with SegmentLengths :=
        st1.SegmentLengths.set i ((st.Points.getD (i + 1) 0 - st.Points.getD i 0).Size E) }
  else
    { st1 with SegmentLengths := st1.SegmentLengths.set i 0 }

/-- The hard-corner branch of `Calculate` (lines 9-24). -/
def CalculateHard (E : Engine α) (s : FBezierCalc α) : FBezierCalc α :=
  let s1 := { s with
    Tessellated := SetNumZeroed s.Tessellated s.Points.length,
    SegmentTessIndexes := SetNumZeroed s.SegmentTessIndexes s.Points.length,
    SegmentLengths := SetNumZeroed s.SegmentLengths s.Points.length }
  forRange 0 s.Points.length (CalculateHardStep E) s1

/-- The body of the loop over the interior points in `CalculateTangents` (lines 41-62). -/
def CalculateTangentsStep (E : Engine α) (i : Nat) (st : FBezierCalc α) : FBezierCalc α :=
  let PrevPoint := st.Points.getD (i - 1) 0
  let CurrPoint := st.Points.getD i 0
  let NextPoint := st.Points.getD (i + 1) 0
  let DirToPrev := (CurrPoint - PrevPoint).GetSafeNormal E
  let DirToNext := (NextPoint - CurrPoint).GetSafeNormal E
  let TangentDir := (DirToPrev + DirToNext).GetSafeNormal E
  let DistToPrev := (CurrPoint - PrevPoint).Size E
  let DistToNext := (NextPoint - CurrPoint).Size E
  { st with
    OutTangents := st.OutTangents.set i (TangentDir * st.TangentStrength * DistToNext),
    InTangents := st.InTangents.set i (TangentDir * st.TangentStrength * DistToPrev) }

/-- The out-tangent of the first point in `CalculateTangents` (lines 64-73). -/
def CalculateTangentsFirst (E : Engine α) (st : FBezierCalc α) : FBezierCalc α :=
  if st.Points.length > 1 then
    let SecondPoint := st.Points.getD 1 0
    let FirstPoint := st.Points.getD 0 0
    let TargetPointForTangent := SecondPoint - st.InTangents.getD 1 0
    let DirToNextIncomingTangent := (TargetPointForTangent - FirstPoint).GetSafeNormal E
    let DistToNext := (SecondPoint - FirstPoint).Size E
    { st with OutTangents :=
        st.OutTangents.set 0 (DirToNextIncomingTangent * st.TangentStrength * DistToNext) }
  else st

/-- The in-tangent of the last point in `CalculateTangents` (lines 76-84). -/
def CalculateTangentsLast (E : Engine α) (st : FBezierCalc α) : FBezierCalc α :=
  if st.Points.length > 2 then
    let SecondToLastPoint := st.Points.getD (st.Points.length - 2) 0
    let LastPoint := st.Points.getD (st.Points.length - 1) 0
    let TargetPointForTangent := SecondToLastPoint + st.OutTangents.getD (st.Points.length - 2) 0
    let DirFromSecondToLastOutgoingTangent := (TargetPointForTangent - LastPoint).GetSafeNormal E
    let DistToLast := (LastPoint - SecondToLastPoint).Size E
    let NewTangent := -DirFromSecondToLastOutgoingTangent * st.TangentStrength * DistToLast
    { st with InTangents := st.InTangents.set (st.Points.length - 1) NewTangent }
  else st

/-- Embedding of `FBezierCalc::CalculateTangents`. -/
def CalculateTangents (E : Engine α) (s : FBezierCalc α) : FBezierCalc α :=
  let s1 := { s with
    OutTangents := List.replicate s.Points.length 0,
    InTangents := List.replicate s.Points.length 0 }
  let s2 := forRange 1 (s.Points.length - 1) (CalculateTangentsStep E) s1
  CalculateTangentsLast E (CalculateTangentsFirst E s2)

/-- Unreal's `FMath::Modf`: the integral part (truncated towards zero) and the fractional part. -/
def Modf (x : α) : Int × α :=
  let IntPart : Int := if 0 ≤ x then ⌊x⌋ else ⌈x⌉
  (IntPart, x - (IntPart : α))

/-- Embedding of `FBezierCalc::DecomposeFloatProgress`: the pair `(Segment, Progress)`. -/
def DecomposeFloatProgress (s : FBezierCalc α) (FloatProgress : α) : Int × α :=
  Modf (Clamp FloatProgress 0 (s.Points.length : α))

/-- Embedding of `FBezierCalc::CalculateBezierPoint(float FloatProgress)`. -/
def CalculateBezierPoint (s : FBezierCalc α) (FloatProgress : α) : Option (FVector α) :=
  if FloatProgress ≥ (((s.Points.length : Int) - 1 : Int) : α) then
    s.Points.getLast?
  else
    let FloatProgress1 := Clamp FloatProgress 0 (s.Points.length : α)
    let Segment := (DecomposeFloatProgress s FloatProgress1).1
    let Progress := (DecomposeFloatProgress s FloatProgress1).2
    if Segment < 0 ∨ Segment ≥ (s.Points.length : Int) - 1 then
      some 0
    else do
      let P0 ← s.Points[Segment.toNat]?
      let Out ← s.OutTangents[Segment.toNat]?
      let P3 ← s.Points[Segment.toNat + 1]?
      let In ← s.InTangents[Segment.toNat + 1]?
      let P1 := P0 + Out
      let P2 := P3 - In
      let T := Progress
      let OneMinusT := 1 - T
      some (OneMinusT * OneMinusT * OneMinusT * P0 +
            3 * OneMinusT * OneMinusT * T * P1 +
            3 * OneMinusT * T * T * P2 +
            T * T * T * P3)

/-- Embedding of `FBezierCalc::CalculateBezierPoint(int32 Segment, float Progress)`. -/
def CalculateBezierPointSeg (s : FBezierCalc α) (Segment : Int) (Progress : α) :
    Option (FVector α) :=
  CalculateBezierPoint s
    (((Clamp Segment 0 (s.Points.length : Int) : Int) : α) + Clamp Progress 0 1)

/-- Embedding of `FBezierCalc::TessellateSegment`; `none` when the recursion depth `fuel` is used up (or
a curve sample fails its range check). -/
def TessellateSegment (E : Engine α) (s : FBezierCalc α) :
    Nat → Int → α → FVector α → α → FVector α → List (FVector α) → Option (List (FVector α))
  | 0, _, _, _, _, _, _ => none
  | fuel + 1, SegmentIndex, T0, P0, T1, P1, TesPoints => do
    let NearPoint : α := 1 / 5
    let FarPoint : α := 4 / 5
    let CurvedMidPoint ← CalculateBezierPointSeg s SegmentIndex (Lerp T0 T1 (1 / 2))
    let EffectiveQuality := Lerp 50 (1 / 100) s.TessellationQuality
    let Split : Option Bool :=
      if (CurvedMidPoint - LerpV P0 P1 (1 / 2)).Size E > EffectiveQuality then some true
      else do
        let CurvedNear ← CalculateBezierPointSeg s SegmentIndex (Lerp T0 T1 NearPoint)
        if (CurvedNear - LerpV P0 P1 NearPoint).Size E > EffectiveQuality then some true
        else do
          let CurvedFar ← CalculateBezierPointSeg s SegmentIndex (Lerp T0 T1 FarPoint)
          some (decide ((CurvedFar - LerpV P0 P1 FarPoint).Size E > EffectiveQuality))
    if (← Split) then do
      let TesPoints1 ←
        TessellateSegment E s fuel SegmentIndex T0 P0 ((T0 + T1) * (1 / 2)) CurvedMidPoint TesPoints
      TessellateSegment E s fuel SegmentIndex ((T0 + T1) * (1 / 2)) CurvedMidPoint T1 P1 TesPoints1
    else
      some (TesPoints ++ [P0, CurvedMidPoint])

/-- The polyline length accumulated by the inner loop of `CalculateBezier` (lines 113-116):
the sum of `Dist(Tessellated[j], Tessellated[j + 1])` for `j` from `From` to
`Tessellated.Num() - 2`. -/
def ChainLengthFrom (E : Engine α) (Tessellated : List (FVector α)) (From : Nat) : α :=
  forRange From (Tessellated.length - 1)
    (fun j SegmentLength =>
      SegmentLength + FVector.Dist E (Tessellated.getD j 0) (Tessellated.getD (j + 1) 0)) 0

/-- The body of the loop of `CalculateBezier` (lines 100-125). -/
def CalculateBezierStep (E : Engine α) (fuel : Nat) (st : FBezierCalc α) (i : Nat) :
    Option (FBezierCalc α) :=
  let st1 := { st with
    SegmentTessIndexes := st.SegmentTessIndexes.set i (st.Tessellated.length : Int) }
  if (i : Int) < (st.Points.length : Int) - 1 then do
    let P0 := st.Points.getD i 0
    let P1 := st.Points.getD (i + 1) 0
    let Tes ← TessellateSegment E st1 fuel (i : Int) 0 P0 1 P1 st1.Tessellated
    let SegmentLength1 := ChainLengthFrom E Tes (st1.SegmentTessIndexes.getD i 0).toNat
    let Last ← Tes.getLast?
    let SegmentLength := SegmentLength1 + FVector.Dist E Last P1
    some { st1 with
      Tessellated := Tes,
      SegmentLengths := st1.SegmentLengths.set i SegmentLength,
      SegmentStartLengths := st1.SegmentStartLengths.set i st1.TotalLength,
      TotalLength := st1.TotalLength + SegmentLength }
  else
    some { st1 with
      Tessellated := st1.Tessellated ++ [st.Points.getD i 0],
      SegmentLengths := st1.SegmentLengths.set i 0,
      SegmentStartLengths := st1.SegmentStartLengths.set i st1.TotalLength,
      TotalLength := st1.TotalLength + 0 }

/-- Embedding of `FBezierCalc::CalculateBezier`. -/
def CalculateBezier (E : Engine α) (fuel : Nat) (s : FBezierCalc α) : Option (FBezierCalc α) :=
  let s1 := { s with
    Tessellated := [],
    SegmentTessIndexes := SetNumZeroed s.SegmentTessIndexes s.Points.length,
    SegmentLengths := SetNumZeroed s.SegmentLengths s.Points.length,
    SegmentStartLengths := SetNumZeroed s.SegmentStartLengths s.Points.length }
  if s.Points.length < 2 then some s1
  else (List.range s.Points.length).foldlM (CalculateBezierStep E fuel) { s1 with TotalLength := 0 }

/-- Embedding of `FBezierCalc::Calculate`. -/
def Calculate (E : Engine α) (fuel : Nat) (s : FBezierCalc α) : Option (FBezierCalc α) :=
  if s.HardCorners then some (CalculateHard E s)
  else CalculateBezier E fuel (CalculateTangents E s)

/-- Embedding of `FBezierCalc::SlopeAtPoint`. -/
def SlopeAtPoint (E : Engine α) (s : FBezierCalc α) (FloatProgress : α) : Option (FVector α) :=
  let FloatMax : α := (s.Points.length : α)
  let FloatProgress1 := Clamp FloatProgress 0 FloatMax
  let Margin : α := 1 / 100
  let Left := Clamp (Clamp (FloatProgress1 - Margin) 0 FloatMax) 0 (FloatMax - 2 * Margin)
  let Right := Clamp (Clamp (FloatProgress1 + Margin) 0 FloatMax) (2 * Margin) FloatMax
  do
    let P0 ← CalculateBezierPoint s Left
    let P1 ← CalculateBezierPoint s Right
    some ((P1 - P0).GetSafeNormal E)

/-- Embedding of `FBezierCalc::PerpendicularAtPoint`. -/
def PerpendicularAtPoint (E : Engine α) (s : FBezierCalc α) (FloatProgress : α)
    (UpVector : FVector α) : Option (FVector α) :=
  let FloatProgress1 := Clamp FloatProgress 0 (((s.Points.length : Int) - 1 : Int) : α)
  do
    let Slope ← SlopeAtPoint E s FloatProgress1
    some ((FVector.CrossProduct Slope UpVector).GetSafeNormal E)

/-- The loop of `CalculateLinearPoint` (lines 272-288) and the fall-through after it
(line 294): the arguments `(Segment, Progress)` of the call of `CalculateBezierPoint` that
the function returns; `n` is the number of iterations left. -/
def CalculateLinearPointScan (s : FBezierCalc α) (PathLength : α) :
    Nat → Nat → Option (Int × α)
  | 0, _ => some (0, 0)
  | n + 1, Segment => do
    let LeftLength ← s.SegmentStartLengths[Segment]?
    let RightLength ← s.SegmentStartLengths[Segment + 1]?
    if LeftLength ≤ PathLength ∧ PathLength < RightLength then
      if LeftLength ≠ RightLength then
        some ((Segment : Int), (PathLength - LeftLength) / (RightLength - LeftLength))
      else
        some ((Segment : Int), 0)
    else
      CalculateLinearPointScan s PathLength n (Segment + 1)

/-- Embedding of `FBezierCalc::CalculateLinearPoint`. -/
def CalculateLinearPoint (s : FBezierCalc α) (Progress : α) : Option (FVector α) :=
  if s.Points.length = 0 then some 0
  else if s.Points.length = 1 then s.Points[0]?
  else if Progress ≤ 0 then s.Points[0]?
  else if Progress ≥ 1 then s.Points[s.Points.length - 1]?
  else do
    let PathLength := Lerp 0 s.TotalLength Progress
    let Call ← CalculateLinearPointScan s PathLength (s.Points.length - 1) 0
    CalculateBezierPointSeg s Call.1 Call.2

/-- The parametric progress at which `CalculateLinearPoint` evaluates the curve: `0` for
`Progress ≤ 0`, `N - 1` for `Progress ≥ 1`, and `Segment + t` for the pair selected by the
scan of the cumulative-length table otherwise. -/
def LinearProgress (s : FBezierCalc α) (Progress : α) : Option α :=
  if Progress ≤ 0 then some 0
  else if Progress ≥ 1 then some (((s.Points.length : Int) - 1 : Int) : α)
  else do
    let Call ← CalculateLinearPointScan s (Lerp 0 s.TotalLength Progress) (s.Points.length - 1) 0
    some ((Call.1 : α) + Call.2)

end Calc

/-! ## Hit detection

The screen projection `APlayerController::ProjectWorldLocationToScreen` is external: it is
the parameter `Project`, which returns whether the point is on screen together with the
screen position it writes to its out-parameter.  `std::numeric_limits<float>::max()` is the
parameter `FloatMax`. -/

section Hit

variable {α : Type} [LinearOrderedField α] [FloorRing α]

instance : Zero (FVector2D α) := ⟨⟨0, 0⟩⟩

instance : Add (FVector2D α) := ⟨fun a b => ⟨a.X + b.X, a.Y + b.Y⟩⟩

instance : Sub (FVector2D α) := ⟨fun a b => ⟨a.X - b.X, a.Y - b.Y⟩⟩

/-- Scalar multiple `FVector2D * float`. -/
instance : HMul (FVector2D α) α (FVector2D α) := ⟨fun a k => ⟨a.X * k, a.Y * k⟩⟩

/-- Unreal's `FVector2D::SizeSquared`. -/
def FVector2D.SizeSquared (v : FVector2D α) : α := v.X * v.X + v.Y * v.Y

/-- Unreal's `FVector2D::Size`. -/
def FVector2D.Size (E : Engine α) (v : FVector2D α) : α := E.Sqrt (v.X * v.X + v.Y * v.Y)

/-- Unreal's `FVector2D::DotProduct`. -/
def FVector2D.DotProduct (a b : FVector2D α) : α := a.X * b.X + a.Y * b.Y

/-- Unreal's `FVector2D::Distance`. -/
def FVector2D.Distance (E : Engine α) (a b : FVector2D α) : α :=
  E.Sqrt ((b.X - a.X) * (b.X - a.X) + (b.Y - a.Y) * (b.Y - a.Y))

/-- The struct `FHitDetectionResult` of `LineRendererIncludes.h`. -/
structure FHitDetectionResult (α : Type) where
  Valid : Bool
  Segment : Int
  Progress : α
  Distance : α
deriving DecidableEq

/-- The default-constructed `FHitDetectionResult`: invalid, at distance `FloatMax`. -/
def FHitDetectionResult.default (FloatMax : α) : FHitDetectionResult α :=
  { Valid := false, Segment := 0, Progress := 0, Distance := FloatMax }

/-- The body of the loop of `HitDetectPoints` (lines 306-318). -/
def HitDetectPointsStep (E : Engine α) (Project : FVector α → Bool × FVector2D α)
    (s : FBezierCalc α) (HitPos : FVector2D α) (i : Nat) (Result : FHitDetectionResult α) :
    FHitDetectionResult α :=
  let Point := s.Points.getD i 0
  let IsOnScreen := (Project Point).1
  let Projected := (Project Point).2
  let Distance := FVector2D.Distance E HitPos Projected
  if IsOnScreen = true ∧ Distance < Result.Distance then
    { Result with Segment := (i : Int), Distance := Distance, Valid := true }
  else Result

/-- Embedding of `FBezierCalc::HitDetectPoints`. -/
def HitDetectPoints (E : Engine α) (FloatMax : α) (Project : FVector α → Bool × FVector2D α)
    (s : FBezierCalc α) (HitPos : FVector2D α) : FHitDetectionResult α :=
  forRange 0 s.Points.length (HitDetectPointsStep E Project s HitPos)
    (FHitDetectionResult.default FloatMax)

/-- The inner loop `while (i >= SegmentTessIndexes[Segment + 1]) ++Segment;` of
`HitDetectSpline` (lines 342-345): the segment cursor it ends with, or `none` when it reads
past the end of `SegmentTessIndexes`.  Every iteration advances the cursor, so with
`SegmentTessIndexes.Num() + 1` iterations allowed the loop has stopped or failed before the
counter runs out. -/
def AdvanceSegment (SegmentTessIndexes : List Int) (i : Int) : Nat → Nat → Option Nat
  | 0, _ => none
  | n + 1, Segment =>
    match SegmentTessIndexes[Segment + 1]? with
    | none => none
    | some Next => if i ≥ Next then AdvanceSegment SegmentTessIndexes i n (Segment + 1)
                   else some Segment

/-- The walk state of `HitDetectSpline`: the best match so far, the segment cursor and the
length walked inside the current segment. -/
structure SplineWalk (α : Type) where
  Result : FHitDetectionResult α
  Segment : Nat
  ProgressLength : α

/-- The body of the loop of `HitDetectSpline` (lines 341-387) for the fragment `i`. -/
def HitDetectSplineStep (E : Engine α) (s : FBezierCalc α)
    (ScreenLinePoints : List (FVector2D α)) (HitPos : FVector2D α) (w : SplineWalk α)
    (i : Nat) : Option (SplineWalk α) := do
  let Segment ← AdvanceSegment s.SegmentTessIndexes (i : Int)
    (s.SegmentTessIndexes.length + 1) w.Segment
  let ProgressLength := if Segment = w.Segment then w.ProgressLength else 0
  let FromScreenPoint := ScreenLinePoints.getD i 0
  let ToScreenPoint := ScreenLinePoints.getD (i + 1) 0
  let ScreenLineVector := ToScreenPoint - FromScreenPoint
  let HitPointVector := HitPos - FromScreenPoint
  let FromTessPoint := s.Tessellated.getD i 0
  let ToTessPoint := s.Tessellated.getD (i + 1) 0
  let FragmentLength := (ToTessPoint - FromTessPoint).Size E
  let LineLengthSquared := ScreenLineVector.SizeSquared
  let Projection := FVector2D.DotProduct HitPointVector ScreenLineVector / LineLengthSquared
  let FragmentProgress := Clamp Projection 0 1
  let ClosestPoint := FromScreenPoint + ScreenLineVector * FragmentProgress
  let DistanceToPoint := (HitPos - ClosestPoint).Size E
  if DistanceToPoint < w.Result.Distance then do
    let LengthAlongLine := ProgressLength + FragmentProgress * FragmentLength
    let SegmentLength ← s.SegmentLengths[Segment]?
    let Progress := LengthAlongLine / SegmentLength
    let Result : FHitDetectionResult α :=
      if Progress ≥ 1 then
        { Valid := true, Segment := (Segment : Int) + 1, Progress := Progress - 1,
          Distance := DistanceToPoint }
      else
        { Valid := true, Segment := (Segment : Int), Progress := Progress,
          Distance := DistanceToPoint }
    some { Result := Result, Segment := Segment,
           ProgressLength := ProgressLength + FragmentLength }
  else
    some { Result := w.Result, Segment := Segment,
           ProgressLength := ProgressLength + FragmentLength }

/-- Embedding of `FBezierCalc::HitDetectSpline`; `none` stands for a failed range check of
`SegmentTessIndexes[Segment + 1]` or `SegmentLengths[Segment]`. -/
def HitDetectSpline (E : Engine α) (FloatMax : α) (Project : FVector α → Bool × FVector2D α)
    (s : FBezierCalc α) (HitPos : FVector2D α) : Option (FHitDetectionResult α) :=
  let ScreenLinePoints := s.Tessellated.map (fun TessPoint => (Project TessPoint).2)
  ((List.range (s.Tessellated.length - 1)).foldlM
    (HitDetectSplineStep E s ScreenLinePoints HitPos)
    { Result := FHitDetectionResult.default FloatMax, Segment := 0, ProgressLength := 0 }).map
    (fun w => w.Result)

end Hit

/-! ## The ribbon mesh `ULineMesh`

A shallow embedding of `Source/LineRenderer/Graphics/LineRenderer/LineMesh.cpp`.  The
engine's `FMath::Cos` and `FMath::Acos` are the two fields of `Trig`.  The calls that hand
the buffers to the renderer (`CreateMeshSection_LinearColor`,
`UpdateMeshSection_LinearColor`) do not change the buffers and are left out.  A write
`Array[Index] = Value` whose index the code does not bound by the array size is
`SetAt`, which fails the range check when the index is outside the array. -/

section Mesh

variable {α : Type} [LinearOrderedField α] [FloorRing α]

/-- The engine's trigonometric primitives used by the corner widening. -/
structure Trig (α : Type) where
  Cos : α → α
  Acos : α → α

/-- Unreal's `FVector::DotProduct`. -/
def FVector.DotProduct (a b : FVector α) : α := a.X * b.X + a.Y * b.Y + a.Z * b.Z

/-- Unreal's `FVector::operator/(float)`. -/
def FVector.DivScalar (a : FVector α) (k : α) : FVector α := ⟨a.X / k, a.Y / k, a.Z / k⟩

/-- Unreal's `FVector2D::operator/(float)`. -/
def FVector2D.DivScalar (a : FVector2D α) (k : α) : FVector2D α := ⟨a.X / k, a.Y / k⟩

/-- A checked write `Array[Index] = Value`. -/
def SetAt {β : Type} (l : List β) (i : Nat) (v : β) : Option (List β) :=
  if i < l.length then some (l.set i v) else none

/-- A checked read `Array[Index]` with an `int32` index. -/
def GetAt {β : Type} (l : List β) (i : Int) : Option β :=
  if i < 0 then none else l[i.toNat]?

/-- The struct `ULineMesh::FMeshParams`. -/
structure FMeshParams (α : Type) where
  Vertices : List (FVector α)
  Triangles : List Int
  Uvs : List (FVector2D α)

/-- The fields of `ULineMesh` that the mesh construction reads or writes. -/
structure ULineMesh (α : Type) where
  Bezier : FBezierCalc α
  UpVector : FVector α
  LineWidth : α
  StartArrow : Bool
  EndArrow : Bool
  ArrowScale : α
  DataCycle : Int
  LastVertexPositionCalculation : Int
  LineVertices : List (FVector α)
  LineTriangles : List Int
  LineUvs : List (FVector2D α)
  StartArrowMesh : FMeshParams α
  EndArrowMesh : FMeshParams α

/-- The buffers written by the loop of `CalculateVertexPositions`. -/
structure VertexLoop (α : Type) where
  TotalDistance : α
  LineVertices : List (FVector α)
  LineUvs : List (FVector2D α)

/-- The previous point used for chain point `i` (lines 111-118): the chain point before it,
or for the first point the next point mirrored through it. -/
def RibbonPrevPoint (Tessellated : List (FVector α)) (i : Nat) : FVector α :=
  let CurPoint := Tessellated.getD i 0
  let IsFirstPoint := (i = 0)
  let IsLastPoint := ((i : Int) = (Tessellated.length : Int) - 1)
  let NextPoint : FVector α := if ¬ IsLastPoint then Tessellated.getD (i + 1) 0 else 0
  if IsFirstPoint then CurPoint - (NextPoint - CurPoint)
  else Tessellated.getD (i - 1) 0

/-- The next point used for chain point `i` (lines 112-122): the chain point after it, or
for the last point (when it is not also the first) the previous point mirrored through
it. -/
def RibbonNextPoint (Tessellated : List (FVector α)) (i : Nat) : FVector α :=
  let CurPoint := Tessellated.getD i 0
  let IsFirstPoint := (i = 0)
  let IsLastPoint := ((i : Int) = (Tessellated.length : Int) - 1)
  let PrevPoint : FVector α := if ¬ IsFirstPoint then Tessellated.getD (i - 1) 0 else 0
  let NextPoint : FVector α := if ¬ IsLastPoint then Tessellated.getD (i + 1) 0 else 0
  if IsFirstPoint then NextPoint
  else if IsLastPoint then CurPoint + (CurPoint - PrevPoint)
  else NextPoint

/-- The perpendicular direction of the cross-section at chain point `i` (lines 127-135). -/
def RibbonPerpendicular (E : Engine α) (UpVector : FVector α) (Tessellated : List (FVector α))
    (i : Nat) : FVector α :=
  let CurPoint := Tessellated.getD i 0
  let IncomingDirection := (CurPoint - RibbonPrevPoint Tessellated i).GetSafeNormal E
  let OutgoingDirection := (RibbonNextPoint Tessellated i - CurPoint).GetSafeNormal E
  let AverageDirection := (IncomingDirection + OutgoingDirection).GetSafeNormal E
  (FVector.CrossProduct UpVector AverageDirection).GetSafeNormal E

/-- The effective line width at chain point `i` (lines 143-145). -/
def RibbonEffectiveLineWidth (E : Engine α) (T : Trig α) (LineWidth : α)
    (Tessellated : List (FVector α)) (i : Nat) : α :=
  let CurPoint := Tessellated.getD i 0
  let IncomingDirection := (CurPoint - RibbonPrevPoint Tessellated i).GetSafeNormal E
  let OutgoingDirection := (RibbonNextPoint Tessellated i - CurPoint).GetSafeNormal E
  let AngleDot := FVector.DotProduct IncomingDirection OutgoingDirection
  let Factor := Clamp (T.Cos (T.Acos AngleDot / 2)) (1 / 5) 1
  LineWidth / Factor

/-- The body of the loop of `CalculateVertexPositions` (lines 104-167). -/
def CalculateVertexPositionsStep (E : Engine α) (T : Trig α) (m : ULineMesh α)
    (st : VertexLoop α) (i : Nat) : Option (VertexLoop α) := do
  let CurPoint := m.Bezier.Tessellated.getD i 0
  let VertexBase := i * 2
  let IsFirstPoint := (i = 0)
  let PrevPoint := RibbonPrevPoint m.Bezier.Tessellated i
  let PerpendicularDirection := RibbonPerpendicular E m.UpVector m.Bezier.Tessellated i
  let EffectiveLineWidth := RibbonEffectiveLineWidth E T m.LineWidth m.Bezier.Tessellated i
  let C0 := CurPoint + PerpendicularDirection * (EffectiveLineWidth / 2)
  let C1 := CurPoint - PerpendicularDirection * (EffectiveLineWidth / 2)
  let Vertices1 ← SetAt st.LineVertices (VertexBase + 0) C0
  let Vertices2 ← SetAt Vertices1 (VertexBase + 1) C1
  let TotalDistance :=
    if ¬ IsFirstPoint then st.TotalDistance + FVector.Dist E PrevPoint CurPoint
    else st.TotalDistance
  let Uvs1 ← SetAt st.LineUvs VertexBase ⟨0, TotalDistance / 100⟩
  let Uvs2 ← SetAt Uvs1 (VertexBase + 1) ⟨1, TotalDistance / 100⟩
  some { TotalDistance := TotalDistance, LineVertices := Vertices2, LineUvs := Uvs2 }

/-- Embedding of `ULineMesh::CalculateVertexPositions`. -/
def CalculateVertexPositions (E : Engine α) (T : Trig α) (m : ULineMesh α) :
    Option (ULineMesh α) :=
  if m.Bezier.Points.length < 2 then some m
  else if m.LastVertexPositionCalculation = m.DataCycle then some m
  else do
    let st ← (List.range m.Bezier.Tessellated.length).foldlM
      (CalculateVertexPositionsStep E T m)
      { TotalDistance := 0, LineVertices := m.LineVertices, LineUvs := m.LineUvs }
    some { m with
      LastVertexPositionCalculation := m.DataCycle,
      LineVertices := st.LineVertices,
      LineUvs := st.LineUvs }

/-- Embedding of `ULineMesh::AddArrowHeadTriangles`; the index constants are
`ArrowRectLeftIndex = 0`, `ArrowRectRightIndex = 1`, `ArrowBarb1Index = 2`,
`ArrowBarb2Index = 3`, `ArrowMiddleIndex = 4`, `ArrowTipIndex = 5`. -/
def AddArrowHeadTriangles (ArrowMesh : FMeshParams α) (Active : Bool) : FMeshParams α :=
  if Active then
    let Triangles0 := SetNumZeroed ArrowMesh.Triangles 12
    let Triangles1 := ((Triangles0.set 0 0).set 1 5).set 2 2
    let Triangles2 := ((Triangles1.set 3 4).set 4 5).set 5 0
    let Triangles3 := ((Triangles2.set 6 4).set 7 1).set 8 5
    let Triangles4 := ((Triangles3.set 9 1).set 10 3).set 11 5
    { Vertices := SetNumZeroed ArrowMesh.Vertices 6,
      Uvs := SetNumZeroed ArrowMesh.Uvs 6,
      Triangles := Triangles4 }
  else
    { Vertices := [], Uvs := [], Triangles := [] }

/-- The points and UVs that `CalculateArrowHeadVertices` computes from the end rectangle
`P0, P1, P2, P3` (lines 232-269): the two barbs, the midpoint of the far edge and the tip. -/
structure ArrowHeadPoints (α : Type) where
  B0 : FVector α
  B1 : FVector α
  M1 : FVector α
  M1Uv : FVector2D α
  T0 : FVector α
  T0Uv : FVector2D α

/-- Lines 232-269 of `CalculateArrowHeadVertices`. -/
def ArrowHeadGeometry (E : Engine α) (ArrowScale : α) (P0 P1 P2 P3 : FVector α)
    (Uv0 Uv2 Uv3 : FVector2D α) : ArrowHeadPoints α :=
  let M0 := (P0 + P1).DivScalar 2
  let M1 := (P2 + P3).DivScalar 2
  let M1Uv := (Uv2 + Uv3).DivScalar 2
  let Direction := P3 - P2
  let LineSize := Direction.Size E
  let NormalizedDirection := Direction.GetSafeNormal E
  let BarbSizeFactor := 2 * ArrowScale
  let BackShiftFactor := 3 / 4 * ArrowScale
  let ExtensionLength := LineSize * BarbSizeFactor
  let B0 := P2 - NormalizedDirection * ExtensionLength
  let B1 := P3 + NormalizedDirection * ExtensionLength
  let BackShiftDirection := (M0 - M1).GetSafeNormal E
  let BackShiftLength := LineSize * BackShiftFactor
  let TipSize := 3 * ArrowScale
  let TipDirection := (M1 - M0).GetSafeNormal E
  let ExtPixels := LineSize * TipSize
  let UvPolarity : α := if Uv2.Y > Uv0.Y then 1 else -1
  { B0 := B0 + BackShiftDirection * BackShiftLength,
    B1 := B1 + BackShiftDirection * BackShiftLength,
    M1 := M1,
    M1Uv := M1Uv,
    T0 := M1 + TipDirection * ExtPixels,
    T0Uv := ⟨(Uv2.X + Uv3.X) / 2, Uv2.Y + ExtPixels * UvPolarity / 100⟩ }

/-- The six checked writes to `ArrowMesh.Vertices` (lines 274-289). -/
def WriteArrowVertices (Vertices : List (FVector α)) (P2 P3 : FVector α)
    (G : ArrowHeadPoints α) : Option (List (FVector α)) :=
  (SetAt Vertices 0 P2).bind fun V1 =>
  (SetAt V1 1 P3).bind fun V2 =>
  (SetAt V2 2 G.B0).bind fun V3 =>
  (SetAt V3 3 G.B1).bind fun V4 =>
  (SetAt V4 4 G.M1).bind fun V5 =>
  SetAt V5 5 G.T0

/-- The six checked writes to `ArrowMesh.Uvs` (lines 275-290); the barbs copy the UVs
written for the two rectangle corners. -/
def WriteArrowUvs (Uvs : List (FVector2D α)) (Uv2 Uv3 : FVector2D α)
    (G : ArrowHeadPoints α) : Option (List (FVector2D α)) :=
  (SetAt Uvs 0 Uv2).bind fun U1 =>
  (SetAt U1 1 Uv3).bind fun U2 =>
  U2[0]?.bind fun Left =>
  (SetAt U2 2 Left).bind fun U3 =>
  U3[1]?.bind fun Right =>
  (SetAt U3 3 Right).bind fun U4 =>
  (SetAt U4 4 G.M1Uv).bind fun U5 =>
  SetAt U5 5 G.T0Uv

/-- Embedding of `ULineMesh::CalculateArrowHeadVertices`. -/
def CalculateArrowHeadVertices (E : Engine α) (m : ULineMesh α) (ArrowMesh : FMeshParams α)
    (N0 N1 N2 N3 : Int) : Option (FMeshParams α) :=
  (GetAt m.LineVertices N0).bind fun P0 =>
  (GetAt m.LineVertices N1).bind fun P1 =>
  (GetAt m.LineVertices N2).bind fun P2 =>
  (GetAt m.LineVertices N3).bind fun P3 =>
  (GetAt m.LineUvs N2).bind fun Uv2 =>
  (GetAt m.LineUvs N3).bind fun Uv3 =>
  (GetAt m.LineUvs N0).bind fun Uv0 =>
  let G := ArrowHeadGeometry E m.ArrowScale P0 P1 P2 P3 Uv0 Uv2 Uv3
  (WriteArrowVertices ArrowMesh.Vertices P2 P3 G).bind fun Vertices =>
  (WriteArrowUvs ArrowMesh.Uvs Uv2 Uv3 G).bind fun Uvs =>
  some { ArrowMesh with Vertices := Vertices, Uvs := Uvs }

/-- Embedding of `ULineMesh::CalculateAllArrowHeadVertices`. -/
def CalculateAllArrowHeadVertices (E : Engine α) (m : ULineMesh α) : Option (ULineMesh α) := do
  let m1 ← if m.StartArrow then do
      let Arrow ← CalculateArrowHeadVertices E m m.StartArrowMesh 3 2 1 0
      some { m with StartArrowMesh := Arrow }
    else some m
  if m1.EndArrow then do
    let Last : Int := (m1.LineVertices.length : Int) - 1
    let Arrow ← CalculateArrowHeadVertices E m1 m1.EndArrowMesh (Last - 3) (Last - 2)
      (Last - 1) Last
    some { m1 with EndArrowMesh := Arrow }
  else some m1

/-- The body of the loop of `CreateMesh` that fills the triangle indices (lines 37-48). -/
def CreateMeshTrianglesStep (i : Nat) (LineTriangles : List Int) : List Int :=
  let VertexBase : Int := (i : Int) * 2
  let TriangleBase := i * 6
  (((((LineTriangles.set (TriangleBase + 0) VertexBase).set (TriangleBase + 1)
    (VertexBase + 1)).set (TriangleBase + 2) (VertexBase + 3)).set (TriangleBase + 3)
    VertexBase).set (TriangleBase + 4) (VertexBase + 3)).set (TriangleBase + 5) (VertexBase + 2)

/-- Embedding of `ULineMesh::CreateMesh`. -/
def CreateMesh (E : Engine α) (T : Trig α) (m : ULineMesh α) : Option (ULineMesh α) :=
  let NumPoints := m.Bezier.Tessellated.length
  if NumPoints ≥ 2 then do
    let NumLineVertices := NumPoints * 2
    let NumLineTriangles := (NumPoints - 1) * 6
    let m1 : ULineMesh α := { m with
      LineVertices := SetNumZeroed m.LineVertices NumLineVertices,
      LineUvs := SetNumZeroed m.LineUvs NumLineVertices,
      LineTriangles := forRange 0 (NumPoints - 1) CreateMeshTrianglesStep
        (SetNumZeroed m.LineTriangles NumLineTriangles) }
    let m2 ← CalculateVertexPositions E T m1
    let m3 : ULineMesh α := { m2 with
      StartArrowMesh := AddArrowHeadTriangles m2.StartArrowMesh m2.StartArrow,
      EndArrowMesh := AddArrowHeadTriangles m2.EndArrowMesh m2.EndArrow }
    CalculateAllArrowHeadVertices E m3
  else
    some { m with
      LineVertices := [], LineTriangles := [], LineUvs := [],
      StartArrowMesh := { Vertices := [], Triangles := [], Uvs := [] },
      EndArrowMesh := { Vertices := [], Triangles := [], Uvs := [] } }

/-- Embedding of `ULineMesh::UpdatePosition`. -/
def UpdatePosition (E : Engine α) (T : Trig α) (m : ULineMesh α) : Option (ULineMesh α) := do
  let m1 ← CalculateVertexPositions E T m
  CalculateAllArrowHeadVertices E m1

end Mesh

/-! ## A concrete engine over `ℚ`

The examples below run the kernel on rational inputs.  `ratSqrt` is a square root that is
exact on squares of rationals whose numerator and denominator are below `2 ^ 128`. -/

/-- Bitwise integer square root: tries the bits `2 ^ (i - 1), …, 2 ^ 0` in turn. -/
def natSqrtAux (n : Nat) : Nat → Nat → Nat
  | 0, r => r
  | i + 1, r => natSqrtAux n i (if (r + 2 ^ i) * (r + 2 ^ i) ≤ n then r + 2 ^ i else r)

/-- The square root on `ℚ` used by the examples. -/
def ratSqrt (q : ℚ) : ℚ := (natSqrtAux q.num.toNat 64 0 : ℚ) / (natSqrtAux q.den 64 0 : ℚ)

/-- The engine over `ℚ` used by the examples, with the tolerance `1e-8` of `GetSafeNormal`. -/
def ratEngine : Engine ℚ := ⟨ratSqrt, 1 / 100000000⟩

/-- A fresh hard-corner calculator on the two points `(0,0,0)`, `(3,4,0)`. -/
def hardExample : FBezierCalc ℚ :=
  FBezierCalc.fresh [⟨0, 0, 0⟩, ⟨3, 4, 0⟩] true (3 / 10) (95 / 100)

/-- A fresh smooth calculator on the two points `(0,0,0)`, `(4,0,0)`. -/
def smoothExample : FBezierCalc ℚ :=
  FBezierCalc.fresh [⟨0, 0, 0⟩, ⟨4, 0, 0⟩] false (3 / 10) (95 / 100)

/-- A fresh smooth calculator on the single point `(1,2,3)`. -/
def singleExample : FBezierCalc ℚ :=
  FBezierCalc.fresh [⟨1, 2, 3⟩] false (3 / 10) (95 / 100)

/-- A fresh smooth calculator without points. -/
def emptyExample : FBezierCalc ℚ :=
  FBezierCalc.fresh [] false (3 / 10) (95 / 100)

/-- A fresh smooth calculator on the three points `(0,0,0)`, `(3,4,0)`, `(6,0,0)`. -/
def cornerExample : FBezierCalc ℚ :=
  FBezierCalc.fresh [⟨0, 0, 0⟩, ⟨3, 4, 0⟩, ⟨6, 0, 0⟩] false (3 / 10) (95 / 100)

/-! ## Reference definitions

Definitions used to state the properties below: the values the spec prescribes, written
after the spec's words, and names for values the source computes inline. -/

section Reference

variable {α : Type} [LinearOrderedField α] [FloorRing α]

/-- The length that the hard-corner branch stores for index `i`: the distance to the next
point, and `0` for the last point. -/
def hardLength (E : Engine α) (Points : List (FVector α)) (i : Nat) : α :=
  if (i : Int) < (Points.length : Int) - 1 then
    (Points.getD (i + 1) 0 - Points.getD i 0).Size E
  else 0

/-- Spec 4.1, interior point: `normalize(dirPrev + dirNext)` with
`dirPrev = normalize(curr - prev)` and `dirNext = normalize(next - curr)`. -/
def TangentSolver.dir (E : Engine α) (P : List (FVector α)) (i : Nat) : FVector α :=
  ((P.getD i 0 - P.getD (i - 1) 0).GetSafeNormal E +
    (P.getD (i + 1) 0 - P.getD i 0).GetSafeNormal E).GetSafeNormal E

/-- Spec 4.1, interior point: `outTangent[i] = dir * s * dist(curr, next)`. -/
def TangentSolver.outInterior (E : Engine α) (P : List (FVector α)) (s : α) (i : Nat) :
    FVector α :=
  TangentSolver.dir E P i * s * (P.getD (i + 1) 0 - P.getD i 0).Size E

/-- Spec 4.1, interior point: `inTangent[i] = dir * s * dist(curr, prev)`. -/
def TangentSolver.inInterior (E : Engine α) (P : List (FVector α)) (s : α) (i : Nat) :
    FVector α :=
  TangentSolver.dir E P i * s * (P.getD i 0 - P.getD (i - 1) 0).Size E

/-- Spec 4.1, endpoint 0: the direction from point 0 to `point1 - inTangent[1]`, scaled by
`s * dist(p0, p1)`. -/
def TangentSolver.outFirst (E : Engine α) (P : List (FVector α)) (s : α) (In1 : FVector α) :
    FVector α :=
  ((P.getD 1 0 - In1) - P.getD 0 0).GetSafeNormal E * s * (P.getD 1 0 - P.getD 0 0).Size E

/-- Spec 4.1, endpoint `N - 1`: the direction from the last point to
`point(N-2) + outTangent[N-2]`, negated, scaled by `s * dist(p(N-2), p(N-1))`. -/
def TangentSolver.inLast (E : Engine α) (P : List (FVector α)) (s : α) (OutPrev : FVector α) :
    FVector α :=
  -((P.getD (P.length - 2) 0 + OutPrev) - P.getD (P.length - 1) 0).GetSafeNormal E * s *
    (P.getD (P.length - 1) 0 - P.getD (P.length - 2) 0).Size E

/-- The two states agree on every field except the two tangent arrays. -/
def SameExceptTangents (s st : FBezierCalc α) : Prop :=
  st.Points = s.Points ∧ st.HardCorners = s.HardCorners ∧
  st.TangentStrength = s.TangentStrength ∧ st.TessellationQuality = s.TessellationQuality ∧
  st.Tessellated = s.Tessellated ∧ st.SegmentTessIndexes = s.SegmentTessIndexes ∧
  st.SegmentLengths = s.SegmentLengths ∧ st.SegmentStartLengths = s.SegmentStartLengths ∧
  st.TotalLength = s.TotalLength

/-- The two states hold the same curve: the same inputs and the same tangent arrays. -/
def SameCurve (s st : FBezierCalc α) : Prop :=
  st.Points = s.Points ∧ st.HardCorners = s.HardCorners ∧
  st.TangentStrength = s.TangentStrength ∧ st.TessellationQuality = s.TessellationQuality ∧
  st.InTangents = s.InTangents ∧ st.OutTangents = s.OutTangents

/-- The cubic Bernstein polynomial of lines 193-204 for segment `k` at local parameter `T`,
with the tangents read by `getD`. -/
def cubicPoint (s : FBezierCalc α) (k : Nat) (T : α) : FVector α :=
  (1 - T) * (1 - T) * (1 - T) * s.Points.getD k 0 +
    3 * (1 - T) * (1 - T) * T * (s.Points.getD k 0 + s.OutTangents.getD k 0) +
    3 * (1 - T) * T * T * (s.Points.getD (k + 1) 0 - s.InTangents.getD (k + 1) 0) +
    T * T * T * s.Points.getD (k + 1) 0

end Reference

/-! ## Reference definitions for the ribbon mesh -/

section MeshReference

variable {α : Type} [LinearOrderedField α] [FloorRing α]

/-- The two meshes agree on every field except the line vertices, the line UVs and the
cycle stamp of the last vertex calculation. -/
def SameExceptRibbon (m m1 : ULineMesh α) : Prop :=
  m1.Bezier = m.Bezier ∧ m1.UpVector = m.UpVector ∧ m1.LineWidth = m.LineWidth ∧
  m1.StartArrow = m.StartArrow ∧ m1.EndArrow = m.EndArrow ∧ m1.ArrowScale = m.ArrowScale ∧
  m1.DataCycle = m.DataCycle ∧ m1.LineTriangles = m.LineTriangles ∧
  m1.StartArrowMesh = m.StartArrowMesh ∧ m1.EndArrowMesh = m.EndArrowMesh

/-- The two meshes agree on every field except the two arrowhead meshes. -/
def SameExceptArrows (m m1 : ULineMesh α) : Prop :=
  m1.Bezier = m.Bezier ∧ m1.UpVector = m.UpVector ∧ m1.LineWidth = m.LineWidth ∧
  m1.StartArrow = m.StartArrow ∧ m1.EndArrow = m.EndArrow ∧ m1.ArrowScale = m.ArrowScale ∧
  m1.DataCycle = m.DataCycle ∧
  m1.LastVertexPositionCalculation = m.LastVertexPositionCalculation ∧
  m1.LineVertices = m.LineVertices ∧ m1.LineTriangles = m.LineTriangles ∧
  m1.LineUvs = m.LineUvs

/-- The first vertex of the cross-section that `CalculateVertexPositions` writes for chain
point `i` (the value `C0` of line 148). -/
def RibbonC0 (E : Engine α) (T : Trig α) (m : ULineMesh α) (i : Nat) : FVector α :=
  m.Bezier.Tessellated.getD i 0 +
    RibbonPerpendicular E m.UpVector m.Bezier.Tessellated i *
      (RibbonEffectiveLineWidth E T m.LineWidth m.Bezier.Tessellated i / 2)

/-- The second vertex of the cross-section that `CalculateVertexPositions` writes for chain
point `i` (the value `C1` of line 149). -/
def RibbonC1 (E : Engine α) (T : Trig α) (m : ULineMesh α) (i : Nat) : FVector α :=
  m.Bezier.Tessellated.getD i 0 -
    RibbonPerpendicular E m.UpVector m.Bezier.Tessellated i *
      (RibbonEffectiveLineWidth E T m.LineWidth m.Bezier.Tessellated i / 2)
end MeshReference

/-- A stand-in over `ℚ` for the trigonometric primitives, exact at the arguments that a
straight line produces: `Acos 1 = 0` and `Cos 0 = 1`. -/
def ratTrig : Trig ℚ := ⟨fun x => 1 - x * x / 2, fun x => 1 - x⟩

/-- The hard-corner chain of the two points `(0,0,0)`, `(100,0,0)`. -/
def straightExample : FBezierCalc ℚ :=
  CalculateHard ratEngine (FBezierCalc.fresh [⟨0, 0, 0⟩, ⟨100, 0, 0⟩] true (3 / 10) (95 / 100))

/-- A mesh component with the member initialisers of `LineMesh.h` (width 10, up `(0,0,1)`,
no arrows, empty buffers) on the chain `straightExample`, in the first data cycle. -/
def meshExample : ULineMesh ℚ :=
  { Bezier := straightExample, UpVector := ⟨0, 0, 1⟩, LineWidth := 10, StartArrow := false,
    EndArrow := false, ArrowScale := 1, DataCycle := 1, LastVertexPositionCalculation := 0,
    LineVertices := [], LineTriangles := [], LineUvs := [],
    StartArrowMesh := ⟨[], [], []⟩, EndArrowMesh := ⟨[], [], []⟩ }

/-- A mesh component like `meshExample` on the hard-corner chain of the two points
`(0,0,0)`, `(1/100000,0,0)`, whose squared distance `1e-10` is below the tolerance `1e-8`
of `GetSafeNormal`. -/
def shortMeshExample : ULineMesh ℚ :=
  { Bezier := CalculateHard ratEngine
      (FBezierCalc.fresh [⟨0, 0, 0⟩, ⟨1 / 100000, 0, 0⟩] true (3 / 10) (95 / 100)),
    UpVector := ⟨0, 0, 1⟩, LineWidth := 10, StartArrow := false,
    EndArrow := false, ArrowScale := 1, DataCycle := 1, LastVertexPositionCalculation := 0,
    LineVertices := [], LineTriangles := [], LineUvs := [],
    StartArrowMesh := ⟨[], [], []⟩, EndArrowMesh := ⟨[], [], []⟩ }

/-- An orthographic stand-in for the screen projection: a point is on screen when its
`Z` is not negative, and projects to its `(X, Y)`. -/
def projectExample (p : FVector ℚ) : Bool × FVector2D ℚ := (decide (0 ≤ p.Z), ⟨p.X, p.Y⟩)

/-- The value of `std::numeric_limits<float>::max()`, `(2 - 2^-23) * 2^127`. -/
def floatMaxExample : ℚ := 340282346638528859811704183484516925440

/-! ## Reference definitions for the chain -/

section ChainReference

variable {α : Type} [LinearOrderedField α] [FloorRing α]

/-- The length of the polyline through the chain points with indices `a, a + 1, …, b`:
the sum of `Dist(Chain[j], Chain[j + 1])` for `a ≤ j < b`, accumulated in this order. -/
def PolylineLength (E : Engine α) (Chain : List (FVector α)) (a b : Nat) : α :=
  forRange a b
    (fun j Length => Length + FVector.Dist E (Chain.getD j 0) (Chain.getD (j + 1) 0)) 0
end ChainReference

/-! ## Reference definitions for recomputation -/

section PathReference

variable {α : Type} [LinearOrderedField α] [FloorRing α]

/-- The two states hold the same control points and the same tangent arrays. -/
def SamePath (s st : FBezierCalc α) : Prop :=
  st.Points = s.Points ∧ st.InTangents = s.InTangents ∧ st.OutTangents = s.OutTangents
end PathReference

/-- A calculator on `(0,0,0)`, `(3,4,0)` that was computed in smooth mode and then switched
to hard corners: the inputs of `hardExample`, with the derived state of the smooth run. -/
def switchedExample : FBezierCalc ℚ :=
  match Calculate ratEngine 1
      (FBezierCalc.fresh [⟨0, 0, 0⟩, ⟨3, 4, 0⟩] false (3 / 10) (95 / 100)) with
  | some s' => { s' with HardCorners := true }
  | none => hardExample

/-- A smooth calculator on the single point `(1,2,3)` whose previous computation left
`TotalLength = 7`: the inputs of `singleExample`. -/
def staleSingleExample : FBezierCalc ℚ :=
  { singleExample with TotalLength := 7 }

/-- The smooth three-point example with a tessellation quality of `2`, outside the valid
range: the effective tolerance `Lerp(50, 0.01, 2)` is `-49.98`. -/
def overQualityExample : FBezierCalc ℚ :=
  { cornerExample with TessellationQuality := 2 }

/-- The mesh component `meshExample` with both arrows switched on and an arrow scale
of `2`. -/
def arrowMeshExample : ULineMesh ℚ :=
  { meshExample with StartArrow := true, EndArrow := true, ArrowScale := 2 }

/-- A mesh component on the hard-corner chain of the single point `(1,2,3)`, with the given
arrow switches. -/
def degenerateMeshExample (StartArrow EndArrow : Bool) : ULineMesh ℚ :=
  { Bezier := CalculateHard ratEngine (FBezierCalc.fresh [⟨1, 2, 3⟩] true (3 / 10) (95 / 100)),
    UpVector := ⟨0, 0, 1⟩, LineWidth := 10, StartArrow := StartArrow,
    EndArrow := EndArrow, ArrowScale := 1, DataCycle := 1, LastVertexPositionCalculation := 0,
    LineVertices := [], LineTriangles := [], LineUvs := [],
    StartArrowMesh := ⟨[], [], []⟩, EndArrowMesh := ⟨[], [], []⟩ }

/-- Whether the ribbon buffers and both arrowhead buffers (vertices, UVs, triangles) are
all empty. -/
def BuffersEmpty {α : Type} (m : ULineMesh α) : Bool :=
  m.LineVertices.isEmpty && m.LineUvs.isEmpty && m.LineTriangles.isEmpty &&
  m.StartArrowMesh.Vertices.isEmpty && m.StartArrowMesh.Uvs.isEmpty &&
  m.StartArrowMesh.Triangles.isEmpty && m.EndArrowMesh.Vertices.isEmpty &&
  m.EndArrowMesh.Uvs.isEmpty && m.EndArrowMesh.Triangles.isEmpty


/-! ## Reference definitions for the corner widening -/

section WidenReference

variable {α : Type} [LinearOrderedField α] [FloorRing α]

/-- The incoming direction at chain point `i`: `normalize(cur - prev)`, with the mirrored
previous point at the first chain point. -/
def RibbonIncoming (E : Engine α) (Chain : List (FVector α)) (i : Nat) : FVector α :=
  (Chain.getD i 0 - RibbonPrevPoint Chain i).GetSafeNormal E

/-- The outgoing direction at chain point `i`: `normalize(next - cur)`, with the mirrored
next point at the last chain point. -/
def RibbonOutgoing (E : Engine α) (Chain : List (FVector α)) (i : Nat) : FVector α :=
  (RibbonNextPoint Chain i - Chain.getD i 0).GetSafeNormal E

/-- The spec's corner widening: `baseWidth / clamp(cos(acos(angleDot) / 2), 0.2, 1)`. -/
def cornerWidth (T : Trig α) (BaseWidth AngleDot : α) : α :=
  BaseWidth / Clamp (T.Cos (T.Acos AngleDot / 2)) (1 / 5) 1

/-- The spec's cross-section direction: `normalize(cross(up, normalize(incoming +
outgoing)))`. -/
def crossSectionDirection (E : Engine α) (Up Incoming Outgoing : FVector α) : FVector α :=
  (FVector.CrossProduct Up ((Incoming + Outgoing).GetSafeNormal E)).GetSafeNormal E
end WidenReference

/-! ## Reference definitions for the slope samples -/

section SlopeReference

variable {α : Type} [LinearOrderedField α] [FloorRing α]

/-- The left sample `Left` of `SlopeAtPoint` (line 236) for the progress `p`. -/
def SlopeLeft (s : FBezierCalc α) (p : α) : α :=
  let FloatMax : α := (s.Points.length : α)
  let FloatProgress1 := Clamp p 0 FloatMax
  let Margin : α := 1 / 100
  Clamp (Clamp (FloatProgress1 - Margin) 0 FloatMax) 0 (FloatMax - 2 * Margin)

/-- The right sample `Right` of `SlopeAtPoint` (line 237) for the progress `p`. -/
def SlopeRight (s : FBezierCalc α) (p : α) : α :=
  let FloatMax : α := (s.Points.length : α)
  let FloatProgress1 := Clamp p 0 FloatMax
  let Margin : α := 1 / 100
  Clamp (Clamp (FloatProgress1 + Margin) 0 FloatMax) (2 * Margin) FloatMax
end SlopeReference

/-! ## Reference definitions for path reversal -/

/-- The smooth three-point example with its points in reverse order:
`(6,0,0), (3,4,0), (0,0,0)`. -/
def cornerReversedExample : FBezierCalc ℚ :=
  FBezierCalc.fresh [⟨6, 0, 0⟩, ⟨3, 4, 0⟩, ⟨0, 0, 0⟩] false (3 / 10) (95 / 100)

/-- The smooth two-point example with its points in reverse order: `(4,0,0), (0,0,0)`. -/
def smoothReversedExample : FBezierCalc ℚ :=
  FBezierCalc.fresh [⟨4, 0, 0⟩, ⟨0, 0, 0⟩] false (3 / 10) (95 / 100)

/-! ## Reference definitions for the spline hit test -/

section HitReference

variable {α : Type} [LinearOrderedField α] [FloorRing α]

/-- The projected chain `ScreenLinePoints` that `HitDetectSpline` builds (lines 329-333). -/
def ScreenLine (Project : FVector α → Bool × FVector2D α) (s : FBezierCalc α) :
    List (FVector2D α) :=
  s.Tessellated.map (fun TessPoint => (Project TessPoint).2)

/-- The clamped projection fraction of the query `Q` on the fragment `i` of a projected
chain: `clamp(((Q - A) . (B - A)) / |B - A|^2, 0, 1)` with `A`, `B` the ends of the
fragment. -/
def FragmentProgress (Screen : List (FVector2D α)) (Q : FVector2D α) (i : Nat) : α :=
  Clamp (FVector2D.DotProduct (Q - Screen.getD i 0) (Screen.getD (i + 1) 0 - Screen.getD i 0) /
    (Screen.getD (i + 1) 0 - Screen.getD i 0).SizeSquared) 0 1

/-- The distance of the query `Q` to the fragment `i` of a projected chain:
`|Q - (A + (B - A) * t)|` with `t` the clamped projection fraction. -/
def FragmentDistance (E : Engine α) (Screen : List (FVector2D α)) (Q : FVector2D α)
    (i : Nat) : α :=
  (Q - (Screen.getD i 0 + (Screen.getD (i + 1) 0 - Screen.getD i 0) *
    FragmentProgress Screen Q i)).Size E

/-- The local progress of the closest point of fragment `j` inside the segment `k` that
starts at the chain index `start`: the chain length from `start` to the closest point,
divided by `SegmentLengths[k]`. -/
def LocalProgress (E : Engine α) (s : FBezierCalc α) (Screen : List (FVector2D α))
    (Q : FVector2D α) (start j k : Nat) : α :=
  (PolylineLength E s.Tessellated start j + FragmentProgress Screen Q j *
    (s.Tessellated.getD (j + 1) 0 - s.Tessellated.getD j 0).Size E) / s.SegmentLengths.getD k 0

/-- The result that a match on the fragment `j` of the segment `k` stores: the local
progress with its roll-over into the next segment. -/
def SplineHit (E : Engine α) (s : FBezierCalc α) (Screen : List (FVector2D α))
    (Q : FVector2D α) (start j k : Nat) : FHitDetectionResult α :=
  if LocalProgress E s Screen Q start j k ≥ 1 then
    { Valid := true, Segment := (k : Int) + 1,
      Progress := LocalProgress E s Screen Q start j k - 1,
      Distance := FragmentDistance E Screen Q j }
  else
    { Valid := true, Segment := (k : Int), Progress := LocalProgress E s Screen Q start j k,
      Distance := FragmentDistance E Screen Q j }

/-- The segment table of a computed chain over `N ≥ 2` control points: segment `k` starts
at the chain index `idx k = SegmentTessIndexes[k]`, these indices start at `0`, increase
strictly and end at the last chain index, and `SegmentLengths[k]` is the chain length of
segment `k`. -/
def ChainTable (E : Engine α) (s : FBezierCalc α) (N : Nat) (idx : Nat → Nat) : Prop :=
  2 ≤ N ∧ s.SegmentTessIndexes.length = N ∧ idx 0 = 0 ∧
  (∀ k, k + 1 < N → idx k < idx (k + 1)) ∧
  idx (N - 1) + 1 = s.Tessellated.length ∧
  (∀ k, k < N → s.SegmentTessIndexes[k]? = some (idx k : Int)) ∧
  (∀ k, k + 1 < N → s.SegmentLengths[k]? =
    some (PolylineLength E s.Tessellated (idx k) (idx (k + 1))))

/-- The initial walk state of `HitDetectSpline` (lines 337-339). -/
def SplineWalk.init (FloatMax : α) : SplineWalk α :=
  { Result := FHitDetectionResult.default FloatMax, Segment := 0, ProgressLength := 0 }

end HitReference

/-- The state that the smooth three-point example is in after `Calculate`: a chain of five
points with the start indices `0, 2, 4`. -/
def cornerChainExample : FBezierCalc ℚ :=
  (Calculate ratEngine 1 cornerExample).getD cornerExample

/-! ## Reference definitions for collinear control points -/

/-- Three control points `(0,0,0)`, `(1/100000,0,0)`, `(2/100000,0,0)` on the x-axis,
`10⁻⁵` apart, smooth mode with strength `0.3`. -/
def tinyCollinearExample : FBezierCalc ℚ :=
  FBezierCalc.fresh [⟨0, 0, 0⟩, ⟨1 / 100000, 0, 0⟩, ⟨2 / 100000, 0, 0⟩] false (3 / 10)
    (95 / 100)

/-- Three control points `(0,0,0)`, `(50,0,0)`, `(100,0,0)` on the x-axis, smooth mode with
strength `0.3`. -/
def collinearExample : FBezierCalc ℚ :=
  FBezierCalc.fresh [⟨0, 0, 0⟩, ⟨50, 0, 0⟩, ⟨100, 0, 0⟩] false (3 / 10) (95 / 100)

/-- The smooth two-point example with a tessellation quality of `3/2`, outside the valid
range: the effective tolerance `Lerp(50, 0.01, 3/2)` is `-24.985`. -/
def overQualityLineExample : FBezierCalc ℚ :=
  { smoothExample with TessellationQuality := 3 / 2 }

/-! ## Single precision

The arrays `SegmentLengths` and `SegmentStartLengths`, the field `TotalLength`
(`BezierCalc.h`), the fields `Progress` and `Distance` of `FHitDetectionResult`, the local
`SegmentLength` of `CalculateBezier`, the curve parameters `T0`, `T1`, `Progress`, `T` and
`OneMinusT` and the tolerance `EffectiveQuality` of the tessellation, and the locals
`FragmentLength`, `LineLengthSquared`, `Projection`, `FragmentProgress`, `DistanceToPoint`,
`LengthAlongLine` and `ProgressLength` of `HitDetectSpline` are `float`, while the vectors
and their lengths are `double`.  The
definitions above idealise both as one exact ordered field.  The definitions of this section
make the conversion to `float` explicit: the parameter `F` is the rounding of an exact value
to `float`, applied wherever the source assigns to one of these `float` variables, so that a
`float` sum `a + b` is `F (a + b)`.  With the identity for `F` they are the definitions
above. -/

section Single

variable {α : Type} [LinearOrderedField α] [FloorRing α]

/-- The body of the loop of the hard-corner branch of `Calculate` (lines 15-24), with the
assignment to the `float` array `SegmentLengths` rounded by `F`. -/
def CalculateHardStepF (E : Engine α) (F : α → α) (i : Nat) (st : FBezierCalc α) :
    FBezierCalc α :=
  let st1 := { st with
    Tessellated := st.Tessellated.set i (st.Points.getD i 0),
    SegmentTessIndexes := st.SegmentTessIndexes.set i (i : Int) }
  if (i : Int) < (st.Points.length : Int) - 1 then
    { st1 with SegmentLengths :=
        st1.SegmentLengths.set i (F ((st.Points.getD (i + 1) 0 - st.Points.getD i 0).Size E)) }
  else
    { st1 with SegmentLengths := st1.SegmentLengths.set i 0 }

/-- The hard-corner branch of `Calculate` (lines 9-24) in single precision. -/
def CalculateHardF (E : Engine α) (F : α → α) (s : FBezierCalc α) : FBezierCalc α :=
  let s1 := { s with
    Tessellated := SetNumZeroed s.Tessellated s.Points.length,
    SegmentTessIndexes := SetNumZeroed s.SegmentTessIndexes s.Points.length,
    SegmentLengths := SetNumZeroed s.SegmentLengths s.Points.length }
  forRange 0 s.Points.length (CalculateHardStepF E F) s1

/-- The function `FMath::Lerp` on `float` arguments: the difference, the product and the sum
are each rounded by `F`. -/
def LerpF (F : α → α) (A B Alpha : α) : α := F (A + F (Alpha * F (B - A)))

/-- Embedding of `FBezierCalc::CalculateBezierPoint(float FloatProgress)` in single
precision: the `float` local `OneMinusT` and the products of `float` factors in the four
Bernstein coefficients are rounded by `F`; the products with the `double` vectors and their
sum are not.  The fractional part that `Modf` returns is a `float` without rounding. -/
def CalculateBezierPointF (F : α → α) (s : FBezierCalc α) (FloatProgress : α) :
    Option (FVector α) :=
  if FloatProgress ≥ (((s.Points.length : Int) - 1 : Int) : α) then
    s.Points.getLast?
  else
    let FloatProgress1 := Clamp FloatProgress 0 (s.Points.length : α)
    let Segment := (DecomposeFloatProgress s FloatProgress1).1
    let Progress := (DecomposeFloatProgress s FloatProgress1).2
    if Segment < 0 ∨ Segment ≥ (s.Points.length : Int) - 1 then
      some 0
    else do
      let P0 ← s.Points[Segment.toNat]?
      let Out ← s.OutTangents[Segment.toNat]?
      let P3 ← s.Points[Segment.toNat + 1]?
      let In ← s.InTangents[Segment.toNat + 1]?
      let P1 := P0 + Out
      let P2 := P3 - In
      let T := Progress
      let OneMinusT := F (1 - T)
      some (F (F (OneMinusT * OneMinusT) * OneMinusT) * P0 +
            F (F (F (3 * OneMinusT) * OneMinusT) * T) * P1 +
            F (F (F (3 * OneMinusT) * T) * T) * P2 +
            F (F (T * T) * T) * P3)

/-- Embedding of `FBezierCalc::CalculateBezierPoint(int32 Segment, float Progress)` in
single precision: the sum `FloatProgress` is a `float`. -/
def CalculateBezierPointSegF (F : α → α) (s : FBezierCalc α) (Segment : Int)
    (Progress : α) : Option (FVector α) :=
  CalculateBezierPointF F s
    (F (((Clamp Segment 0 (s.Points.length : Int) : Int) : α) + Clamp Progress 0 1))

/-- Embedding of `FBezierCalc::TessellateSegment` in single precision: the parameters `T0`
and `T1`, the constants `0.2f` and `0.8f`, the sample parameters `Lerp(T0, T1, …)`, the
tolerance `EffectiveQuality` and the split parameter `(T0 + T1) * 0.5f` are `float`; the
vectors, their `Lerp` and the deviations are `double`.  The result is `none` when the
recursion depth `fuel` is used up (or a curve sample fails its range check). -/
def TessellateSegmentF (E : Engine α) (F : α → α) (s : FBezierCalc α) :
    Nat → Int → α → FVector α → α → FVector α → List (FVector α) → Option (List (FVector α))
  | 0, _, _, _, _, _, _ => none
  | fuel + 1, SegmentIndex, T0, P0, T1, P1, TesPoints => do
    let NearPoint : α := F (1 / 5)
    let FarPoint : α := F (4 / 5)
    let CurvedMidPoint ← CalculateBezierPointSegF F s SegmentIndex (LerpF F T0 T1 (1 / 2))
    let EffectiveQuality := F (Lerp 50 (1 / 100) s.TessellationQuality)
    let Split : Option Bool :=
      if (CurvedMidPoint - LerpV P0 P1 (1 / 2)).Size E > EffectiveQuality then some true
      else do
        let CurvedNear ← CalculateBezierPointSegF F s SegmentIndex (LerpF F T0 T1 NearPoint)
        if (CurvedNear - LerpV P0 P1 NearPoint).Size E > EffectiveQuality then some true
        else do
          let CurvedFar ← CalculateBezierPointSegF F s SegmentIndex (LerpF F T0 T1 FarPoint)
          some (decide ((CurvedFar - LerpV P0 P1 FarPoint).Size E > EffectiveQuality))
    if (← Split) then do
      let TesPoints1 ← TessellateSegmentF E F s fuel SegmentIndex T0 P0
        (F (F (T0 + T1) * (1 / 2))) CurvedMidPoint TesPoints
      TessellateSegmentF E F s fuel SegmentIndex (F (F (T0 + T1) * (1 / 2))) CurvedMidPoint
        T1 P1 TesPoints1
    else
      some (TesPoints ++ [P0, CurvedMidPoint])

/-- The inner loop of `CalculateBezier` (lines 113-116) on the `float` accumulator
`SegmentLength`: every `SegmentLength += Dist(...)` is rounded by `F`. -/
def ChainLengthFromF (E : Engine α) (F : α → α) (Tessellated : List (FVector α))
    (From : Nat) : α :=
  forRange From (Tessellated.length - 1)
    (fun j SegmentLength =>
      F (SegmentLength + FVector.Dist E (Tessellated.getD j 0) (Tessellated.getD (j + 1) 0))) 0

/-- The body of the loop of `CalculateBezier` (lines 100-125) with the tessellation in
single precision and the `float` accumulators `SegmentLength` and `TotalLength` rounded by
`F`. -/
def CalculateBezierStepF (E : Engine α) (F : α → α) (fuel : Nat) (st : FBezierCalc α)
    (i : Nat) : Option (FBezierCalc α) :=
  let st1 := { st with
    SegmentTessIndexes := st.SegmentTessIndexes.set i (st.Tessellated.length : Int) }
  if (i : Int) < (st.Points.length : Int) - 1 then do
    let P0 := st.Points.getD i 0
    let P1 := st.Points.getD (i + 1) 0
    let Tes ← TessellateSegmentF E F st1 fuel (i : Int) 0 P0 1 P1 st1.Tessellated
    let SegmentLength1 := ChainLengthFromF E F Tes (st1.SegmentTessIndexes.getD i 0).toNat
    let Last ← Tes.getLast?
    let SegmentLength := F (SegmentLength1 + FVector.Dist E Last P1)
    some { st1 with
      Tessellated := Tes,
      SegmentLengths := st1.SegmentLengths.set i SegmentLength,
      SegmentStartLengths := st1.SegmentStartLengths.set i st1.TotalLength,
      TotalLength := F (st1.TotalLength + SegmentLength) }
  else
    some { st1 with
      Tessellated := st1.Tessellated ++ [st.Points.getD i 0],
      SegmentLengths := st1.SegmentLengths.set i 0,
      SegmentStartLengths := st1.SegmentStartLengths.set i st1.TotalLength,
      TotalLength := F (st1.TotalLength + 0) }

/-- Embedding of `FBezierCalc::CalculateBezier` in single precision. -/
def CalculateBezierF (E : Engine α) (F : α → α) (fuel : Nat) (s : FBezierCalc α) :
    Option (FBezierCalc α) :=
  let s1 := { s with
    Tessellated := [],
    SegmentTessIndexes := SetNumZeroed s.SegmentTessIndexes s.Points.length,
    SegmentLengths := SetNumZeroed s.SegmentLengths s.Points.length,
    SegmentStartLengths := SetNumZeroed s.SegmentStartLengths s.Points.length }
  if s.Points.length < 2 then some s1
  else (List.range s.Points.length).foldlM (CalculateBezierStepF E F fuel)
    { s1 with TotalLength := 0 }

/-- Embedding of `FBezierCalc::Calculate` in single precision. -/
def CalculateF (E : Engine α) (F : α → α) (fuel : Nat) (s : FBezierCalc α) :
    Option (FBezierCalc α) :=
  if s.HardCorners then some (CalculateHardF E F s)
  else CalculateBezierF E F fuel (CalculateTangents E s)

/-- The body of the loop of `HitDetectSpline` (lines 341-387) for the fragment `i` in single
precision: the `float` locals and the `float` fields of the result are rounded by `F`; the
`double` vectors `ScreenLineVector`, `HitPointVector` and `ClosestPoint` are not. -/
def HitDetectSplineStepF (E : Engine α) (F : α → α) (s : FBezierCalc α)
    (ScreenLinePoints : List (FVector2D α)) (HitPos : FVector2D α) (w : SplineWalk α)
    (i : Nat) : Option (SplineWalk α) := do
  let Segment ← AdvanceSegment s.SegmentTessIndexes (i : Int)
    (s.SegmentTessIndexes.length + 1) w.Segment
  let ProgressLength := if Segment = w.Segment then w.ProgressLength else 0
  let FromScreenPoint := ScreenLinePoints.getD i 0
  let ToScreenPoint := ScreenLinePoints.getD (i + 1) 0
  let ScreenLineVector := ToScreenPoint - FromScreenPoint
  let HitPointVector := HitPos - FromScreenPoint
  let FromTessPoint := s.Tessellated.getD i 0
  let ToTessPoint := s.Tessellated.getD (i + 1) 0
  let FragmentLength := F ((ToTessPoint - FromTessPoint).Size E)
  let LineLengthSquared := F ScreenLineVector.SizeSquared
  let Projection :=
    F (FVector2D.DotProduct HitPointVector ScreenLineVector / LineLengthSquared)
  let FragmentProgress := Clamp Projection 0 1
  let ClosestPoint := FromScreenPoint + ScreenLineVector * FragmentProgress
  let DistanceToPoint := F ((HitPos - ClosestPoint).Size E)
  if DistanceToPoint < w.Result.Distance then do
    let LengthAlongLine := F (ProgressLength + F (FragmentProgress * FragmentLength))
    let SegmentLength ← s.SegmentLengths[Segment]?
    let Progress := F (LengthAlongLine / SegmentLength)
    let Result : FHitDetectionResult α :=
      if Progress ≥ 1 then
        { Valid := true, Segment := (Segment : Int) + 1, Progress := F (Progress - 1),
          Distance := DistanceToPoint }
      else
        { Valid := true, Segment := (Segment : Int), Progress := Progress,
          Distance := DistanceToPoint }
    some { Result := Result, Segment := Segment,
           ProgressLength := F (ProgressLength + FragmentLength) }
  else
    some { Result := w.Result, Segment := Segment,
           ProgressLength := F (ProgressLength + FragmentLength) }

/-- Embedding of `FBezierCalc::HitDetectSpline` in single precision. -/
def HitDetectSplineF (E : Engine α) (F : α → α) (FloatMax : α)
    (Project : FVector α → Bool × FVector2D α) (s : FBezierCalc α) (HitPos : FVector2D α) :
    Option (FHitDetectionResult α) :=
  let ScreenLinePoints := s.Tessellated.map (fun TessPoint => (Project TessPoint).2)
  ((List.range (s.Tessellated.length - 1)).foldlM
    (HitDetectSplineStepF E F s ScreenLinePoints HitPos)
    { Result := FHitDetectionResult.default FloatMax, Segment := 0, ProgressLength := 0 }).map
    (fun w => w.Result)

/-- The clamped projection fraction of the query `Q` on the fragment `i` of a projected
chain as `HitDetectSpline` computes it in `float`: the squared length of the fragment and
the quotient are rounded by `F`. -/
def FragmentProgressF (F : α → α) (Screen : List (FVector2D α)) (Q : FVector2D α)
    (i : Nat) : α :=
  Clamp (F (FVector2D.DotProduct (Q - Screen.getD i 0)
      (Screen.getD (i + 1) 0 - Screen.getD i 0) /
    F (Screen.getD (i + 1) 0 - Screen.getD i 0).SizeSquared)) 0 1

/-- The distance of the query `Q` to the fragment `i` of a projected chain as
`HitDetectSpline` computes it in `float`. -/
def FragmentDistanceF (E : Engine α) (F : α → α) (Screen : List (FVector2D α))
    (Q : FVector2D α) (i : Nat) : α :=
  F ((Q - (Screen.getD i 0 + (Screen.getD (i + 1) 0 - Screen.getD i 0) *
    FragmentProgressF F Screen Q i)).Size E)

/-- The result that `HitDetectSpline` stores in `float` for a match on the fragment `i` of
the segment `k`, with `PL` the length walked inside the segment and `L` its recorded
length. -/
def FragmentHitF (E : Engine α) (F : α → α) (s : FBezierCalc α)
    (Screen : List (FVector2D α)) (Q : FVector2D α) (i k : Nat) (PL L : α) :
    FHitDetectionResult α :=
  if F (F (PL + F (FragmentProgressF F Screen Q i *
      F ((s.Tessellated.getD (i + 1) 0 - s.Tessellated.getD i 0).Size E))) / L) ≥ 1 then
    { Valid := true, Segment := (k : Int) + 1,
      Progress := F (F (F (PL + F (FragmentProgressF F Screen Q i *
        F ((s.Tessellated.getD (i + 1) 0 - s.Tessellated.getD i 0).Size E))) / L) - 1),
      Distance := FragmentDistanceF E F Screen Q i }
  else
    { Valid := true, Segment := (k : Int),
      Progress := F (F (PL + F (FragmentProgressF F Screen Q i *
        F ((s.Tessellated.getD (i + 1) 0 - s.Tessellated.getD i 0).Size E))) / L),
      Distance := FragmentDistanceF E F Screen Q i }

/-- The polyline length of the chain points `a, a + 1, …, b` as the `float` accumulator of
`CalculateBezier` holds it: the sum of `Dist(Chain[j], Chain[j + 1])` for `a ≤ j < b`,
rounded by `F` after every addition. -/
def PolylineLengthF (E : Engine α) (F : α → α) (Chain : List (FVector α)) (a b : Nat) : α :=
  forRange a b
    (fun j Length => F (Length + FVector.Dist E (Chain.getD j 0) (Chain.getD (j + 1) 0))) 0

end Single

/-- The integer nearest to `x`, the even one of the two when `x` lies half-way between
them. -/
def roundHalfEven (x : ℚ) : Int :=
  if 1 / 2 < x - ⌊x⌋ ∨ (x - ⌊x⌋ = 1 / 2 ∧ ⌊x⌋ % 2 = 1) then ⌊x⌋ + 1 else ⌊x⌋

/-- The number of halvings that take `n` below `2`, with at most `fuel` of them counted. -/
def floorLog2Aux : Nat → Nat → Nat
  | 0, _ => 0
  | fuel + 1, n => if 2 ≤ n then floorLog2Aux fuel (n / 2) + 1 else 0

/-- The binary logarithm of `n > 0`, rounded down. -/
def floorLog2 (n : Nat) : Nat := floorLog2Aux n n

/-- The binary exponent `e` of the value `n / d > 0`, for which `2 ^ e ≤ n / d < 2 ^ (e + 1)`. -/
def binaryExponent (n d : Nat) : Int :=
  if d * 2 ^ floorLog2 n ≤ n * 2 ^ floorLog2 d then (floorLog2 n : Int) - (floorLog2 d : Int)
  else (floorLog2 n : Int) - (floorLog2 d : Int) - 1

/-- The power `2 ^ k` with an integer exponent. -/
def twoPow (k : Int) : ℚ :=
  if 0 ≤ k then ((2 ^ k.toNat : Nat) : ℚ) else 1 / ((2 ^ (-k).toNat : Nat) : ℚ)

/-- The conversion of a rational value to `float`: the nearest number with 24 significant
bits, or the nearest multiple of `2 ^ (-149)` below `2 ^ (-126)`, ties to the even one;
for values up to the largest `float`. -/
def ratFloat (q : ℚ) : ℚ :=
  if q = 0 then 0
  else
    (roundHalfEven (q * twoPow (min (23 - binaryExponent q.num.natAbs q.den) 149)) : ℚ) /
      twoPow (min (23 - binaryExponent q.num.natAbs q.den) 149)

/-- A hard-corner calculator on the two points `(0,0,0)`, `(1.1,0,0)`. -/
def hardNarrowExample : FBezierCalc ℚ :=
  FBezierCalc.fresh [⟨0, 0, 0⟩, ⟨11 / 10, 0, 0⟩] true (3 / 10) (95 / 100)

/-- A hard-corner calculator on the three points `(0,0,0)`, `(1.1,0,0)`, `(2.2,0,0)`. -/
def hardNarrowChainExample : FBezierCalc ℚ :=
  FBezierCalc.fresh [⟨0, 0, 0⟩, ⟨11 / 10, 0, 0⟩, ⟨22 / 10, 0, 0⟩] true (3 / 10) (95 / 100)

/-- A smooth calculator on the three points `(0,0,0)`, `(1.1,0,0)`, `(3.4,0,0)` of the
x-axis. -/
def smoothNarrowExample : FBezierCalc ℚ :=
  FBezierCalc.fresh [⟨0, 0, 0⟩, ⟨11 / 10, 0, 0⟩, ⟨34 / 10, 0, 0⟩] false (3 / 10) (95 / 100)

/-! # Theorems -/

set_option linter.unusedSectionVars false
set_option linter.unusedVariables false

/-! ## Loops and arrays -/

section VectorLemmas

variable {α : Type} [LinearOrderedField α]

@[simp] theorem FVector.zero_X : (0 : FVector α).X = 0 := rfl
@[simp] theorem FVector.zero_Y : (0 : FVector α).Y = 0 := rfl
@[simp] theorem FVector.zero_Z : (0 : FVector α).Z = 0 := rfl
@[simp] theorem FVector.add_X (a b : FVector α) : (a + b).X = a.X + b.X := rfl
@[simp] theorem FVector.add_Y (a b : FVector α) : (a + b).Y = a.Y + b.Y := rfl
@[simp] theorem FVector.add_Z (a b : FVector α) : (a + b).Z = a.Z + b.Z := rfl
@[simp] theorem FVector.sub_X (a b : FVector α) : (a - b).X = a.X - b.X := rfl
@[simp] theorem FVector.sub_Y (a b : FVector α) : (a - b).Y = a.Y - b.Y := rfl
@[simp] theorem FVector.sub_Z (a b : FVector α) : (a - b).Z = a.Z - b.Z := rfl
@[simp] theorem FVector.neg_X (a : FVector α) : (-a).X = -a.X := rfl
@[simp] theorem FVector.neg_Y (a : FVector α) : (-a).Y = -a.Y := rfl
@[simp] theorem FVector.neg_Z (a : FVector α) : (-a).Z = -a.Z := rfl
@[simp] theorem FVector.smul_X (k : α) (a : FVector α) : (k * a).X = k * a.X := rfl
@[simp] theorem FVector.smul_Y (k : α) (a : FVector α) : (k * a).Y = k * a.Y := rfl
@[simp] theorem FVector.smul_Z (k : α) (a : FVector α) : (k * a).Z = k * a.Z := rfl
@[simp] theorem FVector.mul_X (a : FVector α) (k : α) : (a * k).X = a.X * k := rfl
@[simp] theorem FVector.mul_Y (a : FVector α) (k : α) : (a * k).Y = a.Y * k := rfl
@[simp] theorem FVector.mul_Z (a : FVector α) (k : α) : (a * k).Z = a.Z * k := rfl

end VectorLemmas

section Loops

theorem forRange_self {σ : Type} (lo : Nat) (body : Nat → σ → σ) (init : σ) :
    forRange lo lo body init = init := by
  simp [forRange]

theorem forRange_succ {σ : Type} (lo hi : Nat) (h : lo ≤ hi) (body : Nat → σ → σ) (init : σ) :
    forRange lo (hi + 1) body init = body hi (forRange lo hi body init) := by
  unfold forRange
  have e : hi + 1 - lo = (hi - lo) + 1 := by omega
  rw [e, List.range'_1_concat, List.foldl_append]
  have e2 : lo + (hi - lo) = hi := by omega
  simp [e2]

/-- Invariant rule for a counted loop. -/
theorem forRange_induction {σ : Type} (P : Nat → σ → Prop) (lo hi : Nat) (h : lo ≤ hi)
    (body : Nat → σ → σ) (init : σ) (h0 : P lo init)
    (hstep : ∀ i st, lo ≤ i → i < hi → P i st → P (i + 1) (body i st)) :
    P hi (forRange lo hi body init) := by
  induction hi with
  | zero =>
    have : lo = 0 := by omega
    subst this
    simpa [forRange_self] using h0
  | succ n ih =>
    rcases Nat.lt_or_ge n lo with hlt | hge
    · have : lo = n + 1 := by omega
      subst this
      simpa [forRange_self] using h0
    · rw [forRange_succ lo n hge]
      exact hstep n _ hge (Nat.lt_succ_self n)
        (ih hge (fun i st h1 h2 hp => hstep i st h1 (Nat.lt_succ_of_lt h2) hp))

/-- Invariant rule for a counted loop whose body can fail. -/
theorem foldlM_range_induction {σ : Type} (P : Nat → σ → Prop) (n : Nat)
    (f : σ → Nat → Option σ) (init r : σ)
    (hr : (List.range n).foldlM f init = some r) (h0 : P 0 init)
    (hstep : ∀ i st st', i < n → P i st → f st i = some st' → P (i + 1) st') :
    P n r := by
  induction n generalizing r with
  | zero =>
    simp at hr
    subst hr
    exact h0
  | succ k ih =>
    rw [List.range_succ, List.foldlM_append] at hr
    cases hm : (List.range k).foldlM f init with
    | none => simp [hm] at hr
    | some m =>
      simp [hm] at hr
      exact hstep k m r (Nat.lt_succ_self k)
        (ih m hm (fun i st st' h1 hp hf => hstep i st st' (Nat.lt_succ_of_lt h1) hp hf)) hr

theorem length_SetNumZeroed {β : Type} [Zero β] (l : List β) (n : Nat) :
    (SetNumZeroed l n).length = n := by
  simp [SetNumZeroed]
  omega

end Loops

/-! ## Hard-corner mode -/

section Hard

variable {α : Type} [LinearOrderedField α] [FloorRing α]

/-- What the hard-corner branch leaves in the calculator: the three arrays it fills, and
every other field untouched. -/
theorem CalculateHard_spec (E : Engine α) (s : FBezierCalc α) :
    (CalculateHard E s).Points = s.Points ∧
    (CalculateHard E s).TotalLength = s.TotalLength ∧
    (CalculateHard E s).SegmentStartLengths = s.SegmentStartLengths ∧
    (CalculateHard E s).InTangents = s.InTangents ∧
    (CalculateHard E s).OutTangents = s.OutTangents ∧
    (CalculateHard E s).Tessellated.length = s.Points.length ∧
    (CalculateHard E s).SegmentTessIndexes.length = s.Points.length ∧
    (CalculateHard E s).SegmentLengths.length = s.Points.length ∧
    ∀ i, i < s.Points.length →
      (CalculateHard E s).Tessellated[i]? = s.Points[i]? ∧
      (CalculateHard E s).SegmentTessIndexes[i]? = some (i : Int) ∧
      (CalculateHard E s).SegmentLengths[i]? = some (hardLength E s.Points i) := by
  unfold CalculateHard
  refine forRange_induction
    (fun k st =>
      st.Points = s.Points ∧ st.TotalLength = s.TotalLength ∧
      st.SegmentStartLengths = s.SegmentStartLengths ∧
      st.InTangents = s.InTangents ∧ st.OutTangents = s.OutTangents ∧
      st.Tessellated.length = s.Points.length ∧
      st.SegmentTessIndexes.length = s.Points.length ∧
      st.SegmentLengths.length = s.Points.length ∧
      ∀ i, i < k →
        st.Tessellated[i]? = s.Points[i]? ∧
        st.SegmentTessIndexes[i]? = some (i : Int) ∧
        st.SegmentLengths[i]? = some (hardLength E s.Points i))
    0 s.Points.length (Nat.zero_le _) (CalculateHardStep E) _ ?_ ?_
  · simp [length_SetNumZeroed]
  · rintro i st _ hi ⟨hP, hT, hS, hI, hO, hl1, hl2, hl3, hpt⟩
    have hget : (s.Points.getD i 0 : FVector α) = s.Points[i] := by
      simp [List.getD_eq_getElem?_getD, List.getElem?_eq_getElem hi]
    unfold CalculateHardStep
    split_ifs with hc
    · refine ⟨hP, hT, hS, hI, hO, by simpa using hl1, by simpa using hl2, by simpa using hl3, ?_⟩
      intro j hj
      rcases Nat.lt_succ_iff_lt_or_eq.mp hj with hlt | rfl
      · have hne : i ≠ j := by omega
        simp only [List.getElem?_set_ne hne]
        exact hpt j hlt
      · simp only [hP]
        rw [List.getElem?_set_self (by omega), List.getElem?_set_self (by omega),
          List.getElem?_set_self (by omega)]
        refine ⟨by rw [hget, List.getElem?_eq_getElem hi], rfl, ?_⟩
        rw [hP] at hc
        simp [hardLength, hc]
    · refine ⟨hP, hT, hS, hI, hO, by simpa using hl1, by simpa using hl2, by simpa using hl3, ?_⟩
      intro j hj
      rcases Nat.lt_succ_iff_lt_or_eq.mp hj with hlt | rfl
      · have hne : i ≠ j := by omega
        simp only [List.getElem?_set_ne hne]
        exact hpt j hlt
      · simp only [hP]
        rw [List.getElem?_set_self (by omega), List.getElem?_set_self (by omega),
          List.getElem?_set_self (by omega)]
        refine ⟨by rw [hget, List.getElem?_eq_getElem hi], rfl, ?_⟩
        rw [hP] at hc
        simp [hardLength, hc]

/-- In hard-corner mode the tessellated chain is the list of control points. -/
theorem CalculateHard_Tessellated (E : Engine α) (s : FBezierCalc α) :
    (CalculateHard E s).Tessellated = s.Points := by
  obtain ⟨_, _, _, _, _, hl, _, _, hpt⟩ := CalculateHard_spec E s
  apply List.ext_getElem?
  intro n
  rcases Nat.lt_or_ge n s.Points.length with h | h
  · exact (hpt n h).1
  · rw [List.getElem?_eq_none (by omega), List.getElem?_eq_none h]

/-- With the identity for `F` the single-precision hard-corner branch is the exact one. -/
theorem CalculateHardF_exact (E : Engine α) (s : FBezierCalc α) :
    CalculateHardF E (fun x => x) s = CalculateHard E s := rfl

/-- What the hard-corner branch leaves in the calculator in single precision: the three
arrays it fills, and every other field untouched. -/
theorem CalculateHardF_spec (E : Engine α) (F : α → α) (s : FBezierCalc α) :
    (CalculateHardF E F s).Points = s.Points ∧
    (CalculateHardF E F s).TotalLength = s.TotalLength ∧
    (CalculateHardF E F s).SegmentStartLengths = s.SegmentStartLengths ∧
    (CalculateHardF E F s).InTangents = s.InTangents ∧
    (CalculateHardF E F s).OutTangents = s.OutTangents ∧
    (CalculateHardF E F s).Tessellated.length = s.Points.length ∧
    (CalculateHardF E F s).SegmentTessIndexes.length = s.Points.length ∧
    (CalculateHardF E F s).SegmentLengths.length = s.Points.length ∧
    ∀ i, i < s.Points.length →
      (CalculateHardF E F s).Tessellated[i]? = s.Points[i]? ∧
      (CalculateHardF E F s).SegmentTessIndexes[i]? = some (i : Int) ∧
      (CalculateHardF E F s).SegmentLengths[i]? =
        some (if (i : Int) < (s.Points.length : Int) - 1 then
          F ((s.Points.getD (i + 1) 0 - s.Points.getD i 0).Size E) else 0) := by
  unfold CalculateHardF
  refine forRange_induction
    (fun k st =>
      st.Points = s.Points ∧ st.TotalLength = s.TotalLength ∧
      st.SegmentStartLengths = s.SegmentStartLengths ∧
      st.InTangents = s.InTangents ∧ st.OutTangents = s.OutTangents ∧
      st.Tessellated.length = s.Points.length ∧
      st.SegmentTessIndexes.length = s.Points.length ∧
      st.SegmentLengths.length = s.Points.length ∧
      ∀ i, i < k →
        st.Tessellated[i]? = s.Points[i]? ∧
        st.SegmentTessIndexes[i]? = some (i : Int) ∧
        st.SegmentLengths[i]? =
          some (if (i : Int) < (s.Points.length : Int) - 1 then
            F ((s.Points.getD (i + 1) 0 - s.Points.getD i 0).Size E) else 0))
    0 s.Points.length (Nat.zero_le _) (CalculateHardStepF E F) _ ?_ ?_
  · simp [length_SetNumZeroed]
  · rintro i st _ hi ⟨hP, hT, hS, hI, hO, hl1, hl2, hl3, hpt⟩
    have hget : (s.Points.getD i 0 : FVector α) = s.Points[i] := by
      simp [List.getD_eq_getElem?_getD, List.getElem?_eq_getElem hi]
    unfold CalculateHardStepF
    split_ifs with hc
    · refine ⟨hP, hT, hS, hI, hO, by simpa using hl1, by simpa using hl2, by simpa using hl3, ?_⟩
      intro j hj
      rcases Nat.lt_succ_iff_lt_or_eq.mp hj with hlt | rfl
      · have hne : i ≠ j := by omega
        simp only [List.getElem?_set_ne hne]
        exact hpt j hlt
      · simp only [hP]
        rw [List.getElem?_set_self (by omega), List.getElem?_set_self (by omega),
          List.getElem?_set_self (by omega)]
        refine ⟨by rw [hget, List.getElem?_eq_getElem hi], rfl, ?_⟩
        rw [hP] at hc
        rw [if_pos hc]
    · refine ⟨hP, hT, hS, hI, hO, by simpa using hl1, by simpa using hl2, by simpa using hl3, ?_⟩
      intro j hj
      rcases Nat.lt_succ_iff_lt_or_eq.mp hj with hlt | rfl
      · have hne : i ≠ j := by omega
        simp only [List.getElem?_set_ne hne]
        exact hpt j hlt
      · simp only [hP]
        rw [List.getElem?_set_self (by omega), List.getElem?_set_self (by omega),
          List.getElem?_set_self (by omega)]
        refine ⟨by rw [hget, List.getElem?_eq_getElem hi], rfl, ?_⟩
        rw [hP] at hc
        rw [if_neg hc]

/-- C1 (amended): for every point list with `N ≥ 2` and `HardCorners = true`, `Calculate`
(from any prior state, with any fuel) returns, the tessellated chain is the list of input
points (it has `N` entries and entry `i` is `Points[i]`), `SegmentTessIndexes[i] = i`, and
`SegmentLengths[i]` is the Euclidean distance `|Points[i+1] - Points[i]|` rounded to
`float` by the conversion `F`, for `i < N - 1`, and `0` for `i = N - 1`; it is the distance
itself when the conversion is exact on it.  The distances are taken within the `float`
range, up to `FloatMax`. -/
theorem C1_hard_corner_chain (E : Engine α) (F : α → α) (FloatMax : α) (fuel : Nat)
    (s : FBezierCalc α) (hN : 2 ≤ s.Points.length) (hH : s.HardCorners = true)
    (hmax : ∀ i, i + 1 < s.Points.length →
      (s.Points.getD (i + 1) 0 - s.Points.getD i 0).Size E ≤ FloatMax) :
    ∃ s', CalculateF E F fuel s = some s' ∧
      s'.Tessellated = s.Points ∧ s'.Tessellated.length = s.Points.length ∧
      (∀ i, i < s.Points.length →
        s'.Tessellated[i]? = s.Points[i]? ∧ s'.SegmentTessIndexes[i]? = some (i : Int)) ∧
      (∀ i, i + 1 < s.Points.length →
        s'.SegmentLengths[i]? =
          some (F ((s.Points.getD (i + 1) 0 - s.Points.getD i 0).Size E)) ∧
        (F ((s.Points.getD (i + 1) 0 - s.Points.getD i 0).Size E) =
            (s.Points.getD (i + 1) 0 - s.Points.getD i 0).Size E →
          s'.SegmentLengths[i]? =
            some ((s.Points.getD (i + 1) 0 - s.Points.getD i 0).Size E))) ∧
      s'.SegmentLengths[s.Points.length - 1]? = some 0 := by
  obtain ⟨_, _, _, _, _, hl, _, _, hpt⟩ := CalculateHardF_spec E F s
  have hT : (CalculateHardF E F s).Tessellated = s.Points := by
    apply List.ext_getElem?
    intro n
    rcases Nat.lt_or_ge n s.Points.length with h | h
    · exact (hpt n h).1
    · rw [List.getElem?_eq_none (by omega), List.getElem?_eq_none h]
  refine ⟨CalculateHardF E F s, by simp [CalculateF, hH], hT, hl, ?_, ?_, ?_⟩
  · exact fun i hi => ⟨(hpt i hi).1, (hpt i hi).2.1⟩
  · intro i hi
    have hc : (i : Int) < (s.Points.length : Int) - 1 := by omega
    have h1 := (hpt i (by omega)).2.2
    rw [if_pos hc] at h1
    exact ⟨h1, fun he => by rw [h1, he]⟩
  · have hc : ¬ (((s.Points.length - 1 : Nat) : Int) < (s.Points.length : Int) - 1) := by
      omega
    have h1 := (hpt (s.Points.length - 1) (by omega)).2.2
    rw [if_neg hc] at h1
    exact h1

/-- Witness of C1 (amended) on the points `(0,0,0), (3,4,0)` with the rational `float`
conversion: the distance `5` is a `float` and is stored unchanged. -/
theorem C1_hard_corner_chain_witness :
    (2 ≤ hardExample.Points.length ∧ hardExample.HardCorners = true) ∧
    (CalculateF ratEngine ratFloat 0 hardExample).map
      (fun s' => (s'.Tessellated, s'.SegmentTessIndexes, s'.SegmentLengths)) =
      some ([⟨0, 0, 0⟩, ⟨3, 4, 0⟩], [0, 1], [5, 0]) ∧
    ∃ s', CalculateF ratEngine ratFloat 0 hardExample = some s' ∧
      s'.Tessellated = hardExample.Points ∧
      s'.SegmentLengths[hardExample.Points.length - 1]? = some 0 := by
  have hmax : ∀ i, i < 1 →
      (hardExample.Points.getD (i + 1) 0 - hardExample.Points.getD i 0).Size ratEngine ≤
        floatMaxExample := by decide!
  obtain ⟨s', h1, h2, _, _, _, h3⟩ :=
    C1_hard_corner_chain ratEngine ratFloat floatMaxExample 0 hardExample (by decide) rfl
      (fun i hi => hmax i (by have : i + 1 < 2 := hi; omega))
  exact ⟨⟨by decide, rfl⟩, by decide!, s', h1, h2, h3⟩

/-- C1 as stated fails for a distance that is not a `float`: on the hard-corner points
`(0,0,0), (1.1,0,0)` the distance is `1.1`, and `SegmentLengths[0]` is the `float` nearest
to it, `9227469 / 2²³ = 1.10000002384185791015625`. -/
theorem C1_hard_corner_counterexample :
    hardNarrowExample.HardCorners = true ∧ hardNarrowExample.Points.length = 2 ∧
    (hardNarrowExample.Points.getD 1 0 - hardNarrowExample.Points.getD 0 0).Size ratEngine =
      11 / 10 ∧
    ratFloat (11 / 10) = 9227469 / 8388608 ∧
    (CalculateF ratEngine ratFloat 0 hardNarrowExample).map
      (fun s' => (s'.Tessellated, s'.SegmentTessIndexes, s'.SegmentLengths)) =
      some ([⟨0, 0, 0⟩, ⟨11 / 10, 0, 0⟩], [0, 1], [9227469 / 8388608, 0]) ∧
    (9227469 / 8388608 : ℚ) ≠ 11 / 10 := by
  refine ⟨rfl, rfl, by decide!, by decide!, by decide!, by decide!⟩

/-- C2 (the code at the failing input): on a fresh hard-corner calculator with the points
`(0,0,0), (3,4,0)`, whose distance is `5`, `Calculate` leaves `TotalLength = 0`; the
hard-corner branch never assigns `TotalLength`. -/
theorem C2_hard_corner_total_length_not_set :
    FVector.Dist ratEngine ⟨0, 0, 0⟩ ⟨3, 4, 0⟩ = 5 ∧
    (Calculate ratEngine 0 hardExample).map (fun s' => s'.TotalLength) = some 0 ∧
    ∀ (E : Engine ℚ) (fuel : Nat) (s : FBezierCalc ℚ), s.HardCorners = true →
      (Calculate E fuel s).map (fun s' => s'.TotalLength) = some s.TotalLength := by
  refine ⟨by decide!, by decide!, ?_⟩
  intro E fuel s hH
  simp [Calculate, hH, (CalculateHard_spec E s).2.1]

end Hard

/-! ## Tangents -/

section Tangents

variable {α : Type} [LinearOrderedField α] [FloorRing α]

theorem forRange_of_ge {σ : Type} (lo hi : Nat) (h : hi ≤ lo) (body : Nat → σ → σ) (init : σ) :
    forRange lo hi body init = init := by
  unfold forRange
  have : hi - lo = 0 := by omega
  simp [this]

/-- The state after the loop over the interior points of `CalculateTangents`. -/
theorem CalculateTangents_loop (E : Engine α) (s : FBezierCalc α) :
    let s1 : FBezierCalc α := { s with
      OutTangents := List.replicate s.Points.length 0,
      InTangents := List.replicate s.Points.length 0 }
    let s2 := forRange 1 (s.Points.length - 1) (CalculateTangentsStep E) s1
    SameExceptTangents s s2 ∧
    s2.InTangents.length = s.Points.length ∧ s2.OutTangents.length = s.Points.length ∧
    (∀ i, 1 ≤ i → i + 1 < s.Points.length →
      s2.OutTangents[i]? = some (TangentSolver.outInterior E s.Points s.TangentStrength i) ∧
      s2.InTangents[i]? = some (TangentSolver.inInterior E s.Points s.TangentStrength i)) ∧
    (∀ i, i < s.Points.length → (i < 1 ∨ s.Points.length - 1 ≤ i) →
      s2.OutTangents[i]? = some 0 ∧ s2.InTangents[i]? = some 0) := by
  intro s1 s2
  have hbase : SameExceptTangents s s1 ∧
      s1.InTangents.length = s.Points.length ∧ s1.OutTangents.length = s.Points.length ∧
      (∀ i, i < s.Points.length → s1.OutTangents[i]? = some 0 ∧ s1.InTangents[i]? = some 0) := by
    refine ⟨by simp [SameExceptTangents, s1], by simp [s1], by simp [s1], ?_⟩
    intro i hi
    simp [s1, List.getElem?_replicate, hi]
  rcases Nat.lt_or_ge (s.Points.length - 1) 1 with hsmall | hbig
  · have e : s2 = s1 := forRange_of_ge 1 _ (by omega) _ _
    rw [e]
    refine ⟨hbase.1, hbase.2.1, hbase.2.2.1, ?_, ?_⟩
    · intro i h1 h2
      omega
    · intro i hi _
      exact hbase.2.2.2 i hi
  · have key := forRange_induction
      (fun k (st : FBezierCalc α) =>
        SameExceptTangents s st ∧
        st.InTangents.length = s.Points.length ∧ st.OutTangents.length = s.Points.length ∧
        (∀ i, 1 ≤ i → i < k →
          st.OutTangents[i]? = some (TangentSolver.outInterior E s.Points s.TangentStrength i) ∧
          st.InTangents[i]? = some (TangentSolver.inInterior E s.Points s.TangentStrength i)) ∧
        (∀ i, i < s.Points.length → (i < 1 ∨ k ≤ i) →
          st.OutTangents[i]? = some 0 ∧ st.InTangents[i]? = some 0))
      1 (s.Points.length - 1) hbig (CalculateTangentsStep E) s1
      ⟨hbase.1, hbase.2.1, hbase.2.2.1, fun i h1 h2 => by omega,
        fun i hi _ => hbase.2.2.2 i hi⟩
      (by
        rintro i st h1 h2 ⟨hfr, hl1, hl2, hin, hz⟩
        have hP : st.Points = s.Points := hfr.1
        have hS : st.TangentStrength = s.TangentStrength := hfr.2.2.1
        refine ⟨?_, ?_, ?_, ?_, ?_⟩
        · simpa [SameExceptTangents, CalculateTangentsStep] using hfr
        · simp [CalculateTangentsStep, hl1]
        · simp [CalculateTangentsStep, hl2]
        · intro j hj1 hj2
          simp only [CalculateTangentsStep]
          rcases Nat.lt_succ_iff_lt_or_eq.mp hj2 with hlt | rfl
          · have hne : i ≠ j := by omega
            simp only [List.getElem?_set_ne hne]
            exact hin j hj1 hlt
          · rw [List.getElem?_set_self (by omega), List.getElem?_set_self (by omega)]
            simp [TangentSolver.outInterior, TangentSolver.inInterior, TangentSolver.dir, hP, hS]
        · intro j hj hor
          simp only [CalculateTangentsStep]
          have hne : i ≠ j := by omega
          simp only [List.getElem?_set_ne hne]
          exact hz j hj (by omega))
    refine ⟨key.1, key.2.1, key.2.2.1, ?_, ?_⟩
    · intro i h1 h2
      exact key.2.2.2.1 i h1 (by omega)
    · intro i hi hor
      exact key.2.2.2.2 i hi hor

theorem SameExceptTangents_trans {s st st' : FBezierCalc α} (h1 : SameExceptTangents s st)
    (h2 : SameExceptTangents st st') : SameExceptTangents s st' := by
  unfold SameExceptTangents at h1 h2 ⊢
  simp only [h2, h1, and_self]

theorem CalculateTangentsFirst_spec (E : Engine α) (st : FBezierCalc α) :
    SameExceptTangents st (CalculateTangentsFirst E st) ∧
    (CalculateTangentsFirst E st).InTangents = st.InTangents ∧
    (CalculateTangentsFirst E st).OutTangents =
      if st.Points.length > 1 then
        st.OutTangents.set 0
          (TangentSolver.outFirst E st.Points st.TangentStrength (st.InTangents.getD 1 0))
      else st.OutTangents := by
  unfold CalculateTangentsFirst
  split_ifs with h
  · simp [SameExceptTangents, TangentSolver.outFirst]
  · simp [SameExceptTangents]

theorem CalculateTangentsLast_spec (E : Engine α) (st : FBezierCalc α) :
    SameExceptTangents st (CalculateTangentsLast E st) ∧
    (CalculateTangentsLast E st).OutTangents = st.OutTangents ∧
    (CalculateTangentsLast E st).InTangents =
      if st.Points.length > 2 then
        st.InTangents.set (st.Points.length - 1)
          (TangentSolver.inLast E st.Points st.TangentStrength
            (st.OutTangents.getD (st.Points.length - 2) 0))
      else st.InTangents := by
  unfold CalculateTangentsLast
  split_ifs with h
  · simp [SameExceptTangents, TangentSolver.inLast]
  · simp [SameExceptTangents]

/-- What `CalculateTangents` leaves in the calculator. -/
theorem CalculateTangents_spec (E : Engine α) (s : FBezierCalc α) :
    SameExceptTangents s (CalculateTangents E s) ∧
    (CalculateTangents E s).InTangents.length = s.Points.length ∧
    (CalculateTangents E s).OutTangents.length = s.Points.length ∧
    (∀ i, 1 ≤ i → i + 1 < s.Points.length →
      (CalculateTangents E s).OutTangents[i]? =
        some (TangentSolver.outInterior E s.Points s.TangentStrength i) ∧
      (CalculateTangents E s).InTangents[i]? =
        some (TangentSolver.inInterior E s.Points s.TangentStrength i)) ∧
    (1 < s.Points.length → (CalculateTangents E s).OutTangents[0]? =
      some (TangentSolver.outFirst E s.Points s.TangentStrength
        ((CalculateTangents E s).InTangents.getD 1 0))) ∧
    (2 < s.Points.length → (CalculateTangents E s).InTangents[s.Points.length - 1]? =
      some (TangentSolver.inLast E s.Points s.TangentStrength
        ((CalculateTangents E s).OutTangents.getD (s.Points.length - 2) 0))) ∧
    (0 < s.Points.length → (CalculateTangents E s).InTangents[0]? = some 0) ∧
    (0 < s.Points.length →
      (CalculateTangents E s).OutTangents[s.Points.length - 1]? = some 0) ∧
    (s.Points.length = 2 → (CalculateTangents E s).InTangents[1]? = some 0) := by
  obtain ⟨hfr, hl1, hl2, hin, hz⟩ := CalculateTangents_loop E s
  unfold CalculateTangents
  simp only []
  generalize forRange 1 (s.Points.length - 1) (CalculateTangentsStep E)
    { s with OutTangents := List.replicate s.Points.length 0,
             InTangents := List.replicate s.Points.length 0 } = s2 at hfr hl1 hl2 hin hz
  obtain ⟨f3, i3, o3⟩ := CalculateTangentsFirst_spec E s2
  generalize CalculateTangentsFirst E s2 = s3 at f3 i3 o3
  obtain ⟨f4, o4, i4⟩ := CalculateTangentsLast_spec E s3
  generalize CalculateTangentsLast E s3 = s4 at f4 o4 i4
  have hP2 : s2.Points = s.Points := hfr.1
  have hS2 : s2.TangentStrength = s.TangentStrength := hfr.2.2.1
  have hP3 : s3.Points = s.Points := f3.1.trans hP2
  have hS3 : s3.TangentStrength = s.TangentStrength := f3.2.2.1.trans hS2
  rw [hP3, hS3, i3] at i4
  rw [hP2, hS2] at o3
  rw [o3] at o4
  have hget : ∀ (l : List (FVector α)) (n : Nat), l.getD n 0 = l[n]?.getD 0 :=
    fun l n => List.getD_eq_getElem?_getD l n 0
  refine ⟨SameExceptTangents_trans (SameExceptTangents_trans hfr f3) f4, ?_, ?_, ?_, ?_, ?_, ?_, ?_, ?_⟩
  · rw [i4]
    split_ifs <;> simp [hl1]
  · rw [o4]
    split_ifs <;> simp [hl2]
  · intro i h1 h2
    rw [o4, i4, if_pos (show s.Points.length > 1 by omega),
      if_pos (show s.Points.length > 2 by omega),
      List.getElem?_set_ne (by omega), List.getElem?_set_ne (by omega)]
    exact hin i h1 h2
  · intro h
    rw [o4, if_pos h, List.getElem?_set_self (by omega), hget, hget, i4]
    split_ifs with h2
    · rw [List.getElem?_set_ne (by omega)]
    · rfl
  · intro h
    rw [i4, if_pos h, List.getElem?_set_self (by omega), hget, hget, o4,
      if_pos (show s.Points.length > 1 by omega), o3,
      if_pos (show s.Points.length > 1 by omega), List.getElem?_set_ne (by omega)]
  · intro h
    rw [i4]
    split_ifs with h2
    · rw [List.getElem?_set_ne (by omega)]
      exact (hz 0 h (Or.inl (by omega))).2
    · exact (hz 0 h (Or.inl (by omega))).2
  · intro h
    rw [o4]
    split_ifs with h2
    · rw [List.getElem?_set_ne (by omega)]
      exact (hz _ (by omega) (Or.inr (le_refl _))).1
    · exact (hz _ (by omega) (Or.inr (le_refl _))).1
  · intro h
    rw [i4, if_neg (by omega)]
    exact (hz 1 (by omega) (Or.inr (by omega))).2

/-- C10: `CalculateTangents` equals the TangentSolver reference definition: for `N ≥ 2` it
produces `N` in-tangents and `N` out-tangents; for every interior `i`, with
`dir = normalize(normalize(P[i]-P[i-1]) + normalize(P[i+1]-P[i]))`,
`OutTangents[i] = dir*s*|P[i+1]-P[i]|` and `InTangents[i] = dir*s*|P[i]-P[i-1]|`;
`OutTangents[0] = normalize((P[1]-InTangents[1]) - P[0])*s*|P[1]-P[0]|`; and, when `N > 2`,
`InTangents[N-1] = -normalize((P[N-2]+OutTangents[N-2]) - P[N-1])*s*|P[N-1]-P[N-2]|`; the
normalisation of the zero vector is the zero vector. -/
theorem C10_tangents_match_reference (E : Engine α) (s : FBezierCalc α)
    (hN : 2 ≤ s.Points.length) :
    (CalculateTangents E s).InTangents.length = s.Points.length ∧
    (CalculateTangents E s).OutTangents.length = s.Points.length ∧
    (∀ i, 0 < i → i < s.Points.length - 1 →
      (CalculateTangents E s).OutTangents[i]? =
        some (TangentSolver.outInterior E s.Points s.TangentStrength i) ∧
      (CalculateTangents E s).InTangents[i]? =
        some (TangentSolver.inInterior E s.Points s.TangentStrength i)) ∧
    (CalculateTangents E s).OutTangents[0]? =
      some (TangentSolver.outFirst E s.Points s.TangentStrength
        ((CalculateTangents E s).InTangents.getD 1 0)) ∧
    (2 < s.Points.length → (CalculateTangents E s).InTangents[s.Points.length - 1]? =
      some (TangentSolver.inLast E s.Points s.TangentStrength
        ((CalculateTangents E s).OutTangents.getD (s.Points.length - 2) 0))) ∧
    (0 : FVector α).GetSafeNormal E = 0 := by
  obtain ⟨_, hl1, hl2, hin, hfirst, hlast, _, _, _⟩ := CalculateTangents_spec E s
  refine ⟨hl1, hl2, fun i h1 h2 => hin i h1 (by omega), hfirst (by omega), hlast, ?_⟩
  unfold FVector.GetSafeNormal
  simp only []
  split_ifs with h1 h2
  · rfl
  · rfl
  · show (⟨_, _, _⟩ : FVector α) = ⟨0, 0, 0⟩
    simp [show (0 : FVector α).X = 0 from rfl, show (0 : FVector α).Y = 0 from rfl,
      show (0 : FVector α).Z = 0 from rfl]

/-- Witness of C10 on the rational example `(0,0,0), (3,4,0), (6,0,0)` with strength `0.3`:
the tangents computed there. -/
theorem C10_tangents_match_reference_witness :
    2 ≤ cornerExample.Points.length ∧
    (CalculateTangents ratEngine cornerExample).InTangents =
      [⟨0, 0, 0⟩, ⟨3 / 2, 0, 0⟩, ⟨9 / 16, -3 / 2, 0⟩] ∧
    (CalculateTangents ratEngine cornerExample).OutTangents =
      [⟨9 / 16, 3 / 2, 0⟩, ⟨3 / 2, 0, 0⟩, ⟨0, 0, 0⟩] ∧
    TangentSolver.outInterior ratEngine cornerExample.Points (3 / 10) 1 = ⟨3 / 2, 0, 0⟩ ∧
    (CalculateTangents ratEngine cornerExample).OutTangents[1]? =
      some (TangentSolver.outInterior ratEngine cornerExample.Points
        cornerExample.TangentStrength 1) :=
  ⟨by decide, by decide!, by decide!, by decide!,
    ((C10_tangents_match_reference ratEngine cornerExample (by decide)).2.2.1 1
      (by decide) (by decide)).1⟩

end Tangents

/-! ## Parametric evaluation -/

section Sampling

variable {α : Type} [LinearOrderedField α] [FloorRing α]

theorem Clamp_eq_max {β : Type} [LinearOrder β] (x lo hi : β) (h : x ≤ hi) :
    Clamp x lo hi = max x lo := by
  simp [Clamp, min_eq_left h]

theorem Clamp_of_mem {β : Type} [LinearOrder β] (x lo hi : β) (h1 : lo ≤ x) (h2 : x ≤ hi) :
    Clamp x lo hi = x := by
  simp [Clamp, min_eq_left h2, max_eq_left h1]

theorem Modf_of_nonneg (x : α) (h : 0 ≤ x) : Modf x = (⌊x⌋, x - (⌊x⌋ : α)) := by
  simp [Modf, h]

theorem getD_of_getElem? {β : Type} (l : List β) (n : Nat) (d a : β) (h : l[n]? = some a) :
    l.getD n d = a := by
  simp [List.getD_eq_getElem?_getD, h]

/-- A progress at or beyond `N - 1` returns `Points.Last()`. -/
theorem CalculateBezierPoint_ge (s : FBezierCalc α) (p : α)
    (h : p ≥ (((s.Points.length : Int) - 1 : Int) : α)) :
    CalculateBezierPoint s p = s.Points.getLast? := by
  unfold CalculateBezierPoint
  rw [if_pos h]

/-- A non-negative progress `q` below `N - 1`, with both tangent arrays of size `N`,
evaluates the cubic of segment `⌊q⌋` at `q - ⌊q⌋`. -/
theorem CalculateBezierPoint_inner (s : FBezierCalc α) (q : α)
    (hI : s.InTangents.length = s.Points.length) (hO : s.OutTangents.length = s.Points.length)
    (h0 : 0 ≤ q) (h : q < (((s.Points.length : Int) - 1 : Int) : α)) :
    CalculateBezierPoint s q = some (cubicPoint s ⌊q⌋.toNat (q - (⌊q⌋ : α))) := by
  have hN : q ≤ (s.Points.length : α) := by
    have : (((s.Points.length : Int) - 1 : Int) : α) ≤ (s.Points.length : α) := by
      push_cast
      linarith
    linarith
  have hfl0 : 0 ≤ ⌊q⌋ := Int.floor_nonneg.mpr h0
  have hfl1 : ⌊q⌋ < (s.Points.length : Int) - 1 := Int.floor_lt.mpr h
  have hk : ⌊q⌋.toNat + 1 < s.Points.length := by omega
  unfold CalculateBezierPoint
  rw [if_neg (not_le.mpr h)]
  simp only [DecomposeFloatProgress, Clamp_of_mem q 0 _ h0 hN, Modf_of_nonneg q h0]
  rw [if_neg (by omega)]
  have e1 := List.getElem?_eq_getElem (l := s.Points) (n := ⌊q⌋.toNat) (by omega)
  have e2 := List.getElem?_eq_getElem (l := s.OutTangents) (n := ⌊q⌋.toNat) (by omega)
  have e3 := List.getElem?_eq_getElem (l := s.Points) (n := ⌊q⌋.toNat + 1) (by omega)
  have e4 := List.getElem?_eq_getElem (l := s.InTangents) (n := ⌊q⌋.toNat + 1) (by omega)
  simp only [cubicPoint, getD_of_getElem? _ _ _ _ e1, getD_of_getElem? _ _ _ _ e2,
    getD_of_getElem? _ _ _ _ e3, getD_of_getElem? _ _ _ _ e4]
  rw [e1, e2, e3, e4]
  rfl

/-- A progress below `N - 1` is first clamped to `max p 0`. -/
theorem CalculateBezierPoint_clamp (s : FBezierCalc α) (p : α)
    (h : p < (((s.Points.length : Int) - 1 : Int) : α)) (h2 : 2 ≤ s.Points.length) :
    CalculateBezierPoint s p = CalculateBezierPoint s (max p 0) := by
  have hN : p ≤ (s.Points.length : α) := by
    have : (((s.Points.length : Int) - 1 : Int) : α) ≤ (s.Points.length : α) := by
      push_cast
      linarith
    linarith
  have hpos : (0 : α) < (((s.Points.length : Int) - 1 : Int) : α) := by
    have : (0 : Int) < (s.Points.length : Int) - 1 := by omega
    exact_mod_cast this
  have hm : max p 0 < (((s.Points.length : Int) - 1 : Int) : α) := max_lt h hpos
  have hmN : max p 0 ≤ (s.Points.length : α) := by
    have : (((s.Points.length : Int) - 1 : Int) : α) ≤ (s.Points.length : α) := by
      push_cast
      linarith
    linarith
  unfold CalculateBezierPoint
  rw [if_neg (not_le.mpr h), if_neg (not_le.mpr hm)]
  have e1 : Clamp p 0 (s.Points.length : α) = max p 0 := Clamp_eq_max p 0 _ hN
  have e2 : Clamp (max p 0) 0 (s.Points.length : α) = max p 0 :=
    Clamp_of_mem _ 0 _ (le_max_right _ _) hmN
  simp only [e1, e2]

theorem SameCurve_refl (s : FBezierCalc α) : SameCurve s s :=
  ⟨rfl, rfl, rfl, rfl, rfl, rfl⟩

theorem SameCurve_trans {s st st' : FBezierCalc α} (h1 : SameCurve s st)
    (h2 : SameCurve st st') : SameCurve s st' :=
  ⟨h2.1.trans h1.1, h2.2.1.trans h1.2.1, h2.2.2.1.trans h1.2.2.1,
    h2.2.2.2.1.trans h1.2.2.2.1, h2.2.2.2.2.1.trans h1.2.2.2.2.1,
    h2.2.2.2.2.2.trans h1.2.2.2.2.2⟩

/-- The function `CalculateBezierPoint` reads only the points and the tangents. -/
theorem CalculateBezierPoint_congr {s st : FBezierCalc α} (h : SameCurve s st) (p : α) :
    CalculateBezierPoint st p = CalculateBezierPoint s p := by
  obtain ⟨a1, _, _, _, a5, a6⟩ := h
  simp only [CalculateBezierPoint, DecomposeFloatProgress, a1, a5, a6]

theorem CalculateBezierPointSeg_congr {s st : FBezierCalc α} (h : SameCurve s st) (k : Int)
    (t : α) : CalculateBezierPointSeg st k t = CalculateBezierPointSeg s k t := by
  unfold CalculateBezierPointSeg
  rw [CalculateBezierPoint_congr h, h.1]

/-- One iteration of the loop of `CalculateBezier`, when it returns. -/
theorem CalculateBezierStep_some (E : Engine α) (fuel : Nat) (st st' : FBezierCalc α) (i : Nat)
    (h : CalculateBezierStep E fuel st i = some st') :
    SameCurve st st' ∧
    st'.SegmentTessIndexes = st.SegmentTessIndexes.set i (st.Tessellated.length : Int) ∧
    st'.SegmentStartLengths = st.SegmentStartLengths.set i st.TotalLength ∧
    ∃ L, st'.SegmentLengths = st.SegmentLengths.set i L ∧
      st'.TotalLength = st.TotalLength + L ∧
      (¬ ((i : Int) < (st.Points.length : Int) - 1) →
        L = 0 ∧ st'.Tessellated = st.Tessellated ++ [st.Points.getD i 0]) ∧
      ((i : Int) < (st.Points.length : Int) - 1 →
        ∃ Tes Last,
          TessellateSegment E
            { st with SegmentTessIndexes :=
                st.SegmentTessIndexes.set i (st.Tessellated.length : Int) }
            fuel (i : Int) 0 (st.Points.getD i 0) 1 (st.Points.getD (i + 1) 0)
            st.Tessellated = some Tes ∧
          Tes.getLast? = some Last ∧ st'.Tessellated = Tes ∧
          L = ChainLengthFrom E Tes
                ((st.SegmentTessIndexes.set i (st.Tessellated.length : Int)).getD i 0).toNat +
              FVector.Dist E Last (st.Points.getD (i + 1) 0)) := by
  unfold CalculateBezierStep at h
  split_ifs at h with hc
  · simp only [Option.bind_eq_bind, Option.bind_eq_some] at h
    obtain ⟨Tes, hT, Last, hL, hst⟩ := h
    simp only [Option.some.injEq] at hst
    subst hst
    refine ⟨⟨rfl, rfl, rfl, rfl, rfl, rfl⟩, rfl, rfl, _, rfl, rfl, fun hn => absurd hc hn, ?_⟩
    intro _
    exact ⟨Tes, Last, hT, hL, rfl, rfl⟩
  · simp only [Option.some.injEq] at h
    subst h
    refine ⟨⟨rfl, rfl, rfl, rfl, rfl, rfl⟩, rfl, rfl, 0, rfl, rfl, fun _ => ⟨rfl, rfl⟩, ?_⟩
    intro hn
    exact absurd hn hc

/-- The function `CalculateBezier` changes neither the inputs nor the tangents. -/
theorem CalculateBezier_SameCurve (E : Engine α) (fuel : Nat) (s s' : FBezierCalc α)
    (h : CalculateBezier E fuel s = some s') : SameCurve s s' := by
  unfold CalculateBezier at h
  simp only [] at h
  split_ifs at h with hN
  · simp only [Option.some.injEq] at h
    subst h
    exact ⟨rfl, rfl, rfl, rfl, rfl, rfl⟩
  · exact foldlM_range_induction (fun _ st => SameCurve s st) _ _ _ _ h
      ⟨rfl, rfl, rfl, rfl, rfl, rfl⟩
      (fun i st st' _ hp hf => SameCurve_trans hp (CalculateBezierStep_some E fuel st st' i hf).1)

/-- After a smooth `Calculate` the points are the input points and both tangent arrays are
those of `CalculateTangents`, of size `N`. -/
theorem Calculate_smooth (E : Engine α) (fuel : Nat) (s s' : FBezierCalc α)
    (hH : s.HardCorners = false) (h : Calculate E fuel s = some s') :
    CalculateBezier E fuel (CalculateTangents E s) = some s' ∧
    SameCurve (CalculateTangents E s) s' ∧
    s'.Points = s.Points ∧ s'.InTangents.length = s.Points.length ∧
    s'.OutTangents.length = s.Points.length := by
  unfold Calculate at h
  simp only [hH] at h
  have hc := CalculateBezier_SameCurve E fuel _ _ h
  obtain ⟨hfr, hl1, hl2, _⟩ := CalculateTangents_spec E s
  refine ⟨h, hc, hc.1.trans hfr.1, ?_, ?_⟩
  · rw [hc.2.2.2.2.1]
    exact hl1
  · rw [hc.2.2.2.2.2]
    exact hl2

/-- At local parameter `0` the cubic of segment `k` is the control point `k`. -/
theorem cubicPoint_zero (s : FBezierCalc α) (k : Nat) :
    cubicPoint s k 0 = s.Points.getD k 0 := by
  unfold cubicPoint
  ext <;> simp

/-- With at least one point and tangent arrays of size `N`, no range check of
`CalculateBezierPoint` fails. -/
theorem CalculateBezierPoint_isSome (s : FBezierCalc α) (p : α) (hN : 1 ≤ s.Points.length)
    (hI : s.InTangents.length = s.Points.length) (hO : s.OutTangents.length = s.Points.length) :
    (CalculateBezierPoint s p).isSome = true := by
  rcases le_or_lt (((s.Points.length : Int) - 1 : Int) : α) p with h | h
  · rw [CalculateBezierPoint_ge s p h, List.getLast?_eq_getElem?,
      List.getElem?_eq_getElem (by omega)]
    rfl
  · rcases Nat.lt_or_ge s.Points.length 2 with h1 | h2
    · have hN1 : s.Points.length = 1 := by omega
      unfold CalculateBezierPoint
      rw [if_neg (not_le.mpr h)]
      simp only []
      split_ifs with hc
      · rfl
      · exfalso
        apply hc
        right
        have hc0 : (0 : α) ≤ Clamp (Clamp p 0 (s.Points.length : α)) 0 (s.Points.length : α) :=
          le_max_right _ _
        have hfl := Int.floor_nonneg.mpr hc0
        simp only [DecomposeFloatProgress, Modf_of_nonneg _ hc0]
        omega
    · rw [CalculateBezierPoint_clamp s p h h2]
      have hpos : (0 : α) < (((s.Points.length : Int) - 1 : Int) : α) := by
        have : (0 : Int) < (s.Points.length : Int) - 1 := by omega
        exact_mod_cast this
      rw [CalculateBezierPoint_inner s _ hI hO (le_max_right _ _) (max_lt h hpos)]
      rfl

/-- C3: the curve interpolates its control points: after `Calculate` in smooth mode, for
every `N ≥ 1` and every integer `k` with `0 ≤ k ≤ N - 1`,
`CalculateBezierPoint((float)k) = Points[k]`; in particular progress `0` gives the first
control point and progress `N - 1` the last one. -/
theorem C3_curve_interpolates_control_points (E : Engine α) (fuel : Nat)
    (s s' : FBezierCalc α) (hH : s.HardCorners = false)
    (hC : Calculate E fuel s = some s') (k : Nat) (hk : k < s.Points.length) :
    CalculateBezierPoint s' (k : α) = some (s.Points.getD k 0) ∧
    s.Points[k]? = some (s.Points.getD k 0) ∧
    CalculateBezierPoint s' 0 = s.Points.head? ∧
    CalculateBezierPoint s' (((s.Points.length : Int) - 1 : Int) : α) = s.Points.getLast? := by
  obtain ⟨_, _, hP, hI, hO⟩ := Calculate_smooth E fuel s s' hH hC
  rw [← hP] at hI hO
  have hget : ∀ j, j < s.Points.length → s.Points[j]? = some (s.Points.getD j 0) := by
    intro j hj
    simp [List.getD_eq_getElem?_getD, List.getElem?_eq_getElem hj]
  have main : ∀ j, j < s.Points.length →
      CalculateBezierPoint s' (j : α) = some (s.Points.getD j 0) := by
    intro j hj
    rcases Nat.lt_or_ge (j + 1) s.Points.length with h1 | h1
    · have hlt : (j : α) < (((s'.Points.length : Int) - 1 : Int) : α) := by
        have : (j : Int) < (s'.Points.length : Int) - 1 := by rw [hP]; omega
        exact_mod_cast this
      rw [CalculateBezierPoint_inner s' (j : α) hI hO (Nat.cast_nonneg j) hlt]
      simp [cubicPoint_zero, hP]
    · have hj' : j = s.Points.length - 1 := by omega
      have hge : (j : α) ≥ (((s'.Points.length : Int) - 1 : Int) : α) := by
        have : (j : Int) ≥ (s'.Points.length : Int) - 1 := by rw [hP]; omega
        exact_mod_cast this
      rw [CalculateBezierPoint_ge s' _ hge, hP, List.getLast?_eq_getElem?, ← hj']
      exact hget j hj
  refine ⟨main k hk, hget k hk, ?_, ?_⟩
  · have h0 := main 0 (by omega)
    rw [Nat.cast_zero] at h0
    rw [h0, ← hget 0 (by omega)]
    cases hp : s.Points with
    | nil => simp [hp] at hk
    | cons a l => simp
  · rw [CalculateBezierPoint_ge s' _ (by rw [hP]), hP]

/-- Witness of C3: the smooth two-point example, evaluated at `k = 1`. -/
theorem C3_curve_interpolates_control_points_witness :
    ∃ s', Calculate ratEngine 1 smoothExample = some s' ∧
      CalculateBezierPoint s' 1 = some ⟨4, 0, 0⟩ ∧
      CalculateBezierPoint s' 0 = some ⟨0, 0, 0⟩ := by
  have h : (Calculate ratEngine 1 smoothExample).isSome = true := by decide!
  obtain ⟨s', hs⟩ := Option.isSome_iff_exists.mp h
  have h1 := C3_curve_interpolates_control_points ratEngine 1 smoothExample s' rfl hs 1
    (by decide)
  exact ⟨s', hs, by simpa using h1.1, h1.2.2.1⟩

/-- C6 (the code at the failing input): with the single control point `(1,2,3)`, after a
smooth `Calculate`, progress `-1` returns the zero vector, whereas the clamped progress
`clamp(-1, 0, N-1) = 0` returns the control point: the early return for `p ≥ N - 1` precedes
the clamp, and the segment guard then rejects segment `0`. -/
theorem C6_negative_progress_on_single_point :
    (Calculate ratEngine 0 singleExample).bind (fun s' => CalculateBezierPoint s' (-1)) =
      some ⟨0, 0, 0⟩ ∧
    (Calculate ratEngine 0 singleExample).bind
      (fun s' => CalculateBezierPoint s' (Clamp (-1) 0 (((1 : Int) - 1 : Int) : ℚ))) =
      some ⟨1, 2, 3⟩ := by
  constructor <;> decide!

/-- Out-of-range progress with at least two points: `CalculateBezierPoint(p)` equals
`CalculateBezierPoint(clamp(p, 0, N-1))`. -/
theorem CalculateBezierPoint_clamp_range (s : FBezierCalc α) (p : α)
    (h2 : 2 ≤ s.Points.length) :
    CalculateBezierPoint s p =
      CalculateBezierPoint s (Clamp p 0 (((s.Points.length : Int) - 1 : Int) : α)) := by
  have hpos : (0 : α) < (((s.Points.length : Int) - 1 : Int) : α) := by
    have : (0 : Int) < (s.Points.length : Int) - 1 := by omega
    exact_mod_cast this
  rcases le_or_lt (((s.Points.length : Int) - 1 : Int) : α) p with h | h
  · have e : Clamp p 0 (((s.Points.length : Int) - 1 : Int) : α) =
        (((s.Points.length : Int) - 1 : Int) : α) := by
      unfold Clamp
      rw [min_eq_right h, max_eq_left (le_of_lt hpos)]
    rw [e, CalculateBezierPoint_ge s p h, CalculateBezierPoint_ge s _ (le_refl _)]
  · rw [Clamp_eq_max p 0 _ (le_of_lt h)]
    exact CalculateBezierPoint_clamp s p h h2

/-- C7 (counterexample): on the smooth two-point example `(0,0,0), (4,0,0)` the segment
index `5`, outside `[0, N-2] = [0, 0]`, returns the last control point `(4,0,0)`, and the
segment index `-1` with progress `1/2` returns the curve point `(49/20, 0, 0)` of segment
`0`; neither is the zero vector. -/
theorem C7_out_of_range_segment_counterexample :
    (Calculate ratEngine 1 smoothExample).bind
      (fun s' => CalculateBezierPointSeg s' 5 0) = some ⟨4, 0, 0⟩ ∧
    (Calculate ratEngine 1 smoothExample).bind
      (fun s' => CalculateBezierPointSeg s' (-1) (1 / 2)) = some ⟨49 / 20, 0, 0⟩ ∧
    (Calculate ratEngine 1 smoothExample).bind
      (fun s' => CalculateBezierPointSeg s' 0 (1 / 2)) = some ⟨49 / 20, 0, 0⟩ ∧
    (⟨4, 0, 0⟩ : FVector ℚ) ≠ 0 ∧ (⟨49 / 20, 0, 0⟩ : FVector ℚ) ≠ 0 := by
  refine ⟨by decide!, by decide!, by decide!, by decide!, by decide!⟩

/-- C7 (amended): for every `N ≥ 2`, after `Calculate` in smooth mode, a segment index
outside `[0, N-2]` is clamped, not rejected: for every `Progress`, an index `≥ N - 1`
returns the last control point, a negative index returns what segment `0` returns, and no
range check fails (the result is never the failure `none`). -/
theorem C7_out_of_range_segment_is_clamped (E : Engine α) (fuel : Nat)
    (s s' : FBezierCalc α) (hN : 2 ≤ s.Points.length) (hH : s.HardCorners = false)
    (hC : Calculate E fuel s = some s') (Segment : Int) (Progress : α) :
    ((s.Points.length : Int) - 1 ≤ Segment →
      CalculateBezierPointSeg s' Segment Progress = s.Points.getLast?) ∧
    (Segment < 0 →
      CalculateBezierPointSeg s' Segment Progress = CalculateBezierPointSeg s' 0 Progress) ∧
    (CalculateBezierPointSeg s' Segment Progress).isSome = true ∧
    s.Points.getLast?.isSome = true := by
  obtain ⟨_, _, hP, hI, hO⟩ := Calculate_smooth E fuel s s' hH hC
  rw [← hP] at hI hO
  refine ⟨?_, ?_, ?_, ?_⟩
  · intro hS
    unfold CalculateBezierPointSeg
    rw [← hP]
    apply CalculateBezierPoint_ge
    have h1 : (s'.Points.length : Int) - 1 ≤ Clamp Segment 0 (s'.Points.length : Int) := by
      rw [hP]
      unfold Clamp
      apply le_max_of_le_left
      apply le_min hS
      omega
    have h2 : (0 : α) ≤ Clamp Progress 0 1 := le_max_right _ _
    have h3 : (((s'.Points.length : Int) - 1 : Int) : α) ≤
        ((Clamp Segment 0 (s'.Points.length : Int) : Int) : α) := by exact_mod_cast h1
    linarith
  · intro hS
    unfold CalculateBezierPointSeg
    have e1 : Clamp Segment 0 (s'.Points.length : Int) = 0 := by
      unfold Clamp
      apply max_eq_right
      exact le_trans (min_le_left _ _) (le_of_lt hS)
    have e2 : Clamp (0 : Int) 0 (s'.Points.length : Int) = 0 := by
      unfold Clamp
      simp
    rw [e1, e2]
  · exact CalculateBezierPoint_isSome s' _ (by rw [hP]; omega) hI hO
  · rw [List.getLast?_eq_getElem?, List.getElem?_eq_getElem (by omega)]
    rfl

/-- Witness of C7 (amended) on the smooth two-point example, at segment index `5`. -/
theorem C7_out_of_range_segment_is_clamped_witness :
    ∃ s', Calculate ratEngine 1 smoothExample = some s' ∧
      CalculateBezierPointSeg s' 5 (1 / 2) = some ⟨4, 0, 0⟩ := by
  have h : (Calculate ratEngine 1 smoothExample).isSome = true := by decide!
  obtain ⟨s', hs⟩ := Option.isSome_iff_exists.mp h
  exact ⟨s', hs,
    (C7_out_of_range_segment_is_clamped ratEngine 1 smoothExample s' (by decide) rfl hs 5
      (1 / 2)).1 (by decide)⟩

/-- C8 (the code at the failing input): with 0 control points, after `Calculate`,
`CalculateLinearPoint` returns the zero vector, but `CalculateBezierPoint(p)` for every
`p ≥ -1`, `CalculateBezierPoint(Segment, Progress)`, `SlopeAtPoint` and
`PerpendicularAtPoint` fail the range check of `Points.Last()` on the empty array (`none`);
only `p < -1` reaches the zero-vector guard. -/
theorem C8_sampling_on_empty_point_list :
    (Calculate ratEngine 0 emptyExample).isSome = true ∧
    (Calculate ratEngine 0 emptyExample).bind (fun s' => CalculateLinearPoint s' (1 / 2)) =
      some ⟨0, 0, 0⟩ ∧
    (Calculate ratEngine 0 emptyExample).bind (fun s' => CalculateBezierPoint s' 0) = none ∧
    (Calculate ratEngine 0 emptyExample).bind (fun s' => CalculateBezierPoint s' (-2)) =
      some ⟨0, 0, 0⟩ ∧
    (Calculate ratEngine 0 emptyExample).bind
      (fun s' => CalculateBezierPointSeg s' 0 0) = none ∧
    (Calculate ratEngine 0 emptyExample).bind (fun s' => SlopeAtPoint ratEngine s' 0) = none ∧
    (Calculate ratEngine 0 emptyExample).bind
      (fun s' => PerpendicularAtPoint ratEngine s' 0 ⟨0, 0, 1⟩) = none ∧
    (∀ (s : FBezierCalc ℚ) (p : ℚ), s.Points = [] → -1 ≤ p → CalculateBezierPoint s p = none) ∧
    (∀ (s : FBezierCalc ℚ) (k : Int) (t : ℚ), s.Points = [] →
      CalculateBezierPointSeg s k t = none) := by
  refine ⟨by decide!, by decide!, by decide!, by decide!, by decide!, by decide!, by decide!,
    ?_, ?_⟩
  · intro s p hs hp
    have h : p ≥ (((s.Points.length : Int) - 1 : Int) : ℚ) := by
      rw [hs]
      simpa using hp
    rw [CalculateBezierPoint_ge s p h, hs]
    rfl
  · intro s k t hs
    unfold CalculateBezierPointSeg
    have h0 : (0 : ℚ) ≤ Clamp t 0 1 := le_max_right _ _
    have h1 : (0 : Int) ≤ Clamp k 0 (s.Points.length : Int) := le_max_right _ _
    have h2 : (0 : ℚ) ≤ ((Clamp k 0 (s.Points.length : Int) : Int) : ℚ) := by exact_mod_cast h1
    have h3 : (((s.Points.length : Int) - 1 : Int) : ℚ) = -1 := by
      rw [hs]
      simp
    have h : ((Clamp k 0 (s.Points.length : Int) : Int) : ℚ) + Clamp t 0 1 ≥
        (((s.Points.length : Int) - 1 : Int) : ℚ) := by
      rw [h3]
      linarith
    rw [CalculateBezierPoint_ge s _ h, hs]
    rfl

/-- C9 (the code at the failing input): on a fresh hard-corner calculator with the points
`(0,0,0), (3,4,0)`, after `Calculate`, `CalculateBezierPoint(0, 1/2)` fails the range check
of `OutTangents[0]` (the tangent arrays are empty), where the claim expects the point
`(3/2, 2, 0)` of the straight segment; and on a calculator that was computed in smooth mode
before, the hard-corner evaluation uses the stale tangents: for `(0,0,0), (4,0,0)` it returns
`(49/20, 0, 0)` instead of `(2, 0, 0)`. -/
theorem C9_hard_corner_evaluation_reads_tangents :
    (Calculate ratEngine 0 hardExample).bind
      (fun s' => CalculateBezierPointSeg s' 0 (1 / 2)) = none ∧
    (Calculate ratEngine 0 hardExample).map (fun s' => (s'.InTangents, s'.OutTangents)) =
      some ([], []) ∧
    LerpV (⟨0, 0, 0⟩ : FVector ℚ) ⟨3, 4, 0⟩ (1 / 2) = ⟨3 / 2, 2, 0⟩ ∧
    ((Calculate ratEngine 1 smoothExample).bind
      (fun s1 => Calculate ratEngine 0 { s1 with HardCorners := true })).bind
      (fun s' => CalculateBezierPointSeg s' 0 (1 / 2)) = some ⟨49 / 20, 0, 0⟩ ∧
    LerpV (⟨0, 0, 0⟩ : FVector ℚ) ⟨4, 0, 0⟩ (1 / 2) = ⟨2, 0, 0⟩ := by
  refine ⟨by decide!, by decide!, by decide!, by decide!, by decide!⟩

end Sampling

/-! ## The arc-length table -/

section ArcLength

variable {α : Type} [LinearOrderedField α] [FloorRing α]

theorem Dist_nonneg (E : Engine α) (hE : ∀ x, 0 ≤ E.Sqrt x) (a b : FVector α) :
    0 ≤ FVector.Dist E a b := hE _

theorem ChainLengthFrom_nonneg (E : Engine α) (hE : ∀ x, 0 ≤ E.Sqrt x)
    (Tes : List (FVector α)) (From : Nat) : 0 ≤ ChainLengthFrom E Tes From := by
  unfold ChainLengthFrom
  rcases Nat.lt_or_ge (Tes.length - 1) From with h | h
  · rw [forRange_of_ge _ _ (le_of_lt h)]
  · exact forRange_induction (fun _ (x : α) => 0 ≤ x) From (Tes.length - 1) h _ 0 (le_refl _)
      (fun i x _ _ hx => add_nonneg hx (Dist_nonneg E hE _ _))

/-- The cumulative-length table after `CalculateBezier` on at least two points: it has `N`
entries, starts at `0`, is non-decreasing, and its last entry is `TotalLength`. -/
theorem CalculateBezier_table (E : Engine α) (hE : ∀ x, 0 ≤ E.Sqrt x) (fuel : Nat)
    (s s' : FBezierCalc α) (hN : 2 ≤ s.Points.length)
    (h : CalculateBezier E fuel s = some s') :
    s'.SegmentStartLengths.length = s.Points.length ∧ 0 ≤ s'.TotalLength ∧
    (∀ i j x y, i ≤ j → j < s.Points.length → s'.SegmentStartLengths[i]? = some x →
      s'.SegmentStartLengths[j]? = some y → x ≤ y) ∧
    s'.SegmentStartLengths[0]? = some 0 ∧
    s'.SegmentStartLengths[s.Points.length - 1]? = some s'.TotalLength := by
  unfold CalculateBezier at h
  simp only [] at h
  rw [if_neg (by omega)] at h
  have key := foldlM_range_induction
    (fun k (st : FBezierCalc α) =>
      st.Points = s.Points ∧
      st.SegmentStartLengths.length = s.Points.length ∧ 0 ≤ st.TotalLength ∧
      (k = 0 → st.TotalLength = 0) ∧
      (∀ i x, i < k → st.SegmentStartLengths[i]? = some x → x ≤ st.TotalLength) ∧
      (∀ i j x y, i ≤ j → j < k → st.SegmentStartLengths[i]? = some x →
        st.SegmentStartLengths[j]? = some y → x ≤ y) ∧
      (0 < k → st.SegmentStartLengths[0]? = some 0) ∧
      (k = s.Points.length →
        st.SegmentStartLengths[s.Points.length - 1]? = some st.TotalLength))
    _ _ _ _ h
    ⟨rfl, by simp [length_SetNumZeroed], le_refl _, fun _ => rfl,
      fun i x hi => absurd hi (Nat.not_lt_zero i),
      fun i j x y _ hj => absurd hj (Nat.not_lt_zero j),
      fun h0 => absurd h0 (lt_irrefl 0), fun h0 => by omega⟩
    (by
      rintro i st st' hi ⟨hP, hlen, hTL, hz, hb, hm, h0, _⟩ hf
      obtain ⟨hsc, _, hssl, L, _, hTL', hlast, hseg⟩ := CalculateBezierStep_some E fuel st st' i hf
      have hL : 0 ≤ L := by
        by_cases hc : (i : Int) < (st.Points.length : Int) - 1
        · obtain ⟨Tes, Last, _, _, _, hLeq⟩ := hseg hc
          rw [hLeq]
          exact add_nonneg (ChainLengthFrom_nonneg E hE _ _) (Dist_nonneg E hE _ _)
        · rw [(hlast hc).1]
      have hiLen : i < st.SegmentStartLengths.length := by omega
      refine ⟨hsc.1.trans hP, by rw [hssl]; simpa using hlen, by rw [hTL']; linarith,
        fun hk => by omega, ?_, ?_, ?_, ?_⟩
      · intro j x hj hx
        rw [hTL']
        rw [hssl] at hx
        rcases Nat.lt_succ_iff_lt_or_eq.mp hj with hlt | rfl
        · rw [List.getElem?_set_ne (by omega)] at hx
          linarith [hb j x hlt hx]
        · rw [List.getElem?_set_self hiLen] at hx
          simp only [Option.some.injEq] at hx
          linarith
      · intro j1 j2 x y h12 hj2 hx hy
        rw [hssl] at hx hy
        rcases Nat.lt_succ_iff_lt_or_eq.mp hj2 with hlt | rfl
        · rw [List.getElem?_set_ne (by omega)] at hx hy
          exact hm j1 j2 x y h12 hlt hx hy
        · rw [List.getElem?_set_self hiLen] at hy
          simp only [Option.some.injEq] at hy
          rcases Nat.lt_or_ge j1 j2 with hlt | hge
          · rw [List.getElem?_set_ne (by omega)] at hx
            rw [← hy]
            exact hb j1 x hlt hx
          · have : j1 = j2 := by omega
            subst this
            rw [List.getElem?_set_self hiLen] at hx
            simp only [Option.some.injEq] at hx
            rw [← hx, ← hy]
      · intro _
        rw [hssl]
        rcases Nat.eq_zero_or_pos i with rfl | hpos
        · rw [List.getElem?_set_self hiLen, hz rfl]
        · rw [List.getElem?_set_ne (by omega)]
          exact h0 hpos
      · intro hk
        have hc : ¬ ((i : Int) < (st.Points.length : Int) - 1) := by rw [hP]; omega
        have hi' : i = s.Points.length - 1 := by omega
        rw [hssl, hTL', (hlast hc).1, ← hi', List.getElem?_set_self hiLen, add_zero])
  obtain ⟨_, hlen, hTL, _, _, hm, h0, hl⟩ := key
  exact ⟨hlen, hTL, hm, h0 (by omega), hl rfl⟩

/-- The scan of the cumulative-length table selects the segment that owns `PathLength`. -/
theorem CalculateLinearPointScan_spec (s : FBezierCalc α) (PathLength T : α)
    (hlast : s.SegmentStartLengths[s.SegmentStartLengths.length - 1]? = some T)
    (hPL : PathLength < T) :
    ∀ n k a, k + n = s.SegmentStartLengths.length - 1 →
      s.SegmentStartLengths[k]? = some a → a ≤ PathLength →
      ∃ k' a' b', k ≤ k' ∧ k' + 1 < s.SegmentStartLengths.length ∧
        s.SegmentStartLengths[k']? = some a' ∧ s.SegmentStartLengths[k' + 1]? = some b' ∧
        a' ≤ PathLength ∧ PathLength < b' ∧
        CalculateLinearPointScan s PathLength n k =
          some ((k' : Int), (PathLength - a') / (b' - a')) := by
  intro n
  induction n with
  | zero =>
    intro k a hk ha hle
    exfalso
    have : k = s.SegmentStartLengths.length - 1 := by omega
    rw [this, hlast] at ha
    simp only [Option.some.injEq] at ha
    linarith
  | succ n ih =>
    intro k a hk ha hle
    have hk1 : k + 1 < s.SegmentStartLengths.length := by omega
    have hb := List.getElem?_eq_getElem (l := s.SegmentStartLengths) (n := k + 1) hk1
    by_cases hc : a ≤ PathLength ∧ PathLength < s.SegmentStartLengths[k + 1]
    · refine ⟨k, a, _, le_refl _, hk1, ha, hb, hc.1, hc.2, ?_⟩
      have hne : a ≠ s.SegmentStartLengths[k + 1] := ne_of_lt (lt_of_le_of_lt hc.1 hc.2)
      rw [CalculateLinearPointScan]
      simp only [ha, hb, Option.bind_eq_bind, Option.some_bind]
      rw [if_pos hc, if_pos hne]
    · have hge : s.SegmentStartLengths[k + 1] ≤ PathLength := by
        by_contra hlt
        exact hc ⟨hle, not_le.mp hlt⟩
      obtain ⟨k', a', b', h1, h2, h3, h4, h5, h6, h7⟩ := ih (k + 1) _ (by omega) hb hge
      refine ⟨k', a', b', by omega, h2, h3, h4, h5, h6, ?_⟩
      rw [CalculateLinearPointScan]
      simp only [ha, hb, Option.bind_eq_bind, Option.some_bind]
      rw [if_neg hc]
      exact h7

/-- An integer progress `j < N` evaluates to the control point `j`. -/
theorem CalculateBezierPoint_at_index (s : FBezierCalc α)
    (hI : s.InTangents.length = s.Points.length) (hO : s.OutTangents.length = s.Points.length)
    (j : Nat) (hj : j < s.Points.length) :
    CalculateBezierPoint s (j : α) = some (s.Points.getD j 0) := by
  have hget : s.Points[j]? = some (s.Points.getD j 0) := by
    simp [List.getD_eq_getElem?_getD, List.getElem?_eq_getElem hj]
  rcases Nat.lt_or_ge (j + 1) s.Points.length with h1 | h1
  · have hlt : (j : α) < (((s.Points.length : Int) - 1 : Int) : α) := by
      have : (j : Int) < (s.Points.length : Int) - 1 := by omega
      exact_mod_cast this
    rw [CalculateBezierPoint_inner s (j : α) hI hO (Nat.cast_nonneg j) hlt]
    simp [cubicPoint_zero]
  · have hj' : j = s.Points.length - 1 := by omega
    have hge : (j : α) ≥ (((s.Points.length : Int) - 1 : Int) : α) := by
      have : (j : Int) ≥ (s.Points.length : Int) - 1 := by omega
      exact_mod_cast this
    rw [CalculateBezierPoint_ge s _ hge, List.getLast?_eq_getElem?, ← hj']
    exact hget

/-- The three cases of `LinearProgress` on a state whose cumulative-length table has `N`
entries ending in `TotalLength`. -/
theorem LinearProgress_cases (s : FBezierCalc α)
    (hlen : s.SegmentStartLengths.length = s.Points.length)
    (h0 : s.SegmentStartLengths[0]? = some 0)
    (hlast : s.SegmentStartLengths[s.Points.length - 1]? = some s.TotalLength)
    (hT : 0 < s.TotalLength) (u : α) :
    (u ≤ 0 ∧ LinearProgress s u = some 0) ∨
    (1 ≤ u ∧ ¬ u ≤ 0 ∧
      LinearProgress s u = some (((s.Points.length : Int) - 1 : Int) : α)) ∨
    (0 < u ∧ u < 1 ∧ ∃ k a b, k + 1 < s.Points.length ∧
      s.SegmentStartLengths[k]? = some a ∧ s.SegmentStartLengths[k + 1]? = some b ∧
      a ≤ u * s.TotalLength ∧ u * s.TotalLength < b ∧
      CalculateLinearPointScan s (Lerp 0 s.TotalLength u) (s.Points.length - 1) 0 =
        some ((k : Int), (u * s.TotalLength - a) / (b - a)) ∧
      LinearProgress s u = some ((k : α) + (u * s.TotalLength - a) / (b - a))) := by
  rcases le_or_lt u 0 with hu0 | hu0
  · left
    exact ⟨hu0, by simp [LinearProgress, hu0]⟩
  · rcases le_or_lt 1 u with hu1 | hu1
    · right
      left
      refine ⟨hu1, not_le.mpr hu0, ?_⟩
      unfold LinearProgress
      rw [if_neg (not_le.mpr hu0), if_pos hu1]
    · right
      right
      refine ⟨hu0, hu1, ?_⟩
      have hPL : Lerp 0 s.TotalLength u = u * s.TotalLength := by
        simp [Lerp]
      have hlt : u * s.TotalLength < s.TotalLength := by
        have := mul_lt_mul_of_pos_right hu1 hT
        simpa using this
      have hge : 0 ≤ u * s.TotalLength := le_of_lt (mul_pos hu0 hT)
      obtain ⟨k, a, b, _, hk, ha, hb, h1, h2, hscan⟩ :=
        CalculateLinearPointScan_spec s (u * s.TotalLength) s.TotalLength
          (by rw [hlen]; exact hlast) hlt (s.Points.length - 1) 0 0
          (by rw [hlen]; omega) h0 hge
      rw [hlen] at hk
      refine ⟨k, a, b, hk, ha, hb, h1, h2, by rw [hPL]; exact hscan, ?_⟩
      unfold LinearProgress
      rw [if_neg (not_le.mpr hu0), if_neg (not_le.mpr hu1), hPL, hscan]
      simp

/-- C5: for a smooth-mode state after `Calculate` with `N ≥ 2` and `TotalLength > 0` (and a
square root that is never negative), `CalculateLinearPoint(u)` returns `Points[0]` for every
`u ≤ 0` and the last point for every `u ≥ 1`; for `0 < u < 1` the scan selects a segment `k`
with `SegmentStartLengths[k] ≤ u*TotalLength < SegmentStartLengths[k+1]` and the curve is
evaluated at the progress
`k + (u*TotalLength - SegmentStartLengths[k]) / (SegmentStartLengths[k+1] - SegmentStartLengths[k])`;
with `LinearProgress` the progress at which the curve is evaluated (`0` for `u ≤ 0`, `N - 1`
for `u ≥ 1`), `CalculateLinearPoint(u) = CalculateBezierPoint(LinearProgress(u))` and
`u1 ≤ u2` implies `LinearProgress(u1) ≤ LinearProgress(u2)`. -/
theorem C5_linear_point_monotone (E : Engine α) (hE : ∀ x, 0 ≤ E.Sqrt x) (fuel : Nat)
    (s s' : FBezierCalc α) (hN : 2 ≤ s.Points.length) (hH : s.HardCorners = false)
    (hC : Calculate E fuel s = some s') (hT : 0 < s'.TotalLength) :
    (∀ u, u ≤ 0 → CalculateLinearPoint s' u = some (s.Points.getD 0 0)) ∧
    (∀ u, 1 ≤ u → CalculateLinearPoint s' u = s.Points.getLast?) ∧
    (∀ u, 0 < u → u < 1 → ∃ k a b, k + 1 < s.Points.length ∧
      s'.SegmentStartLengths[k]? = some a ∧ s'.SegmentStartLengths[k + 1]? = some b ∧
      a ≤ u * s'.TotalLength ∧ u * s'.TotalLength < b ∧
      LinearProgress s' u = some ((k : α) + (u * s'.TotalLength - a) / (b - a))) ∧
    (∀ u, ∃ p, LinearProgress s' u = some p ∧
      CalculateLinearPoint s' u = CalculateBezierPoint s' p) ∧
    (∀ u1 u2 p1 p2, u1 ≤ u2 → LinearProgress s' u1 = some p1 →
      LinearProgress s' u2 = some p2 → p1 ≤ p2) := by
  obtain ⟨hCB, _, hP, hI, hO⟩ := Calculate_smooth E fuel s s' hH hC
  have hPt : (CalculateTangents E s).Points = s.Points := (CalculateTangents_spec E s).1.1
  obtain ⟨hlen, _, hmono, h0, hlast⟩ :=
    CalculateBezier_table E hE fuel (CalculateTangents E s) s' (by rw [hPt]; exact hN) hCB
  rw [hPt] at hlen hmono hlast
  rw [← hP] at hI hO hlen hmono hlast hN
  have hcases := LinearProgress_cases s' hlen h0 hlast hT
  have hne0 : ¬ s'.Points.length = 0 := by omega
  have hne1 : ¬ s'.Points.length = 1 := by omega
  have hget : ∀ j, j < s'.Points.length → s'.Points[j]? = some (s'.Points.getD j 0) := by
    intro j hj
    simp [List.getD_eq_getElem?_getD, List.getElem?_eq_getElem hj]
  have hfirst : ∀ u, u ≤ 0 → CalculateLinearPoint s' u = some (s'.Points.getD 0 0) := by
    intro u hu
    unfold CalculateLinearPoint
    rw [if_neg hne0, if_neg hne1, if_pos hu]
    exact hget 0 (by omega)
  have hend : ∀ u, 1 ≤ u → CalculateLinearPoint s' u = s'.Points.getLast? := by
    intro u hu
    have hu0 : ¬ u ≤ 0 := not_le.mpr (lt_of_lt_of_le zero_lt_one hu)
    unfold CalculateLinearPoint
    rw [if_neg hne0, if_neg hne1, if_neg hu0, if_pos hu, List.getLast?_eq_getElem?]
  have hNpos : (0 : α) ≤ (((s'.Points.length : Int) - 1 : Int) : α) := by
    have : (0 : Int) ≤ (s'.Points.length : Int) - 1 := by omega
    exact_mod_cast this
  -- the local parameter selected by the scan lies in `[0, 1)`
  have ht : ∀ (a b x : α), a ≤ x → x < b → 0 ≤ (x - a) / (b - a) ∧ (x - a) / (b - a) < 1 := by
    intro a b x h1 h2
    have hba : 0 < b - a := by linarith
    refine ⟨div_nonneg (by linarith) (le_of_lt hba), ?_⟩
    rw [div_lt_one hba]
    linarith
  refine ⟨?_, ?_, ?_, ?_, ?_⟩
  · intro u hu
    rw [hfirst u hu, hP]
  · intro u hu
    rw [hend u hu, hP]
  · intro u hu0 hu1
    rcases hcases u with ⟨h, _⟩ | ⟨h, _⟩ | ⟨_, _, k, a, b, hk, ha, hb, h1, h2, _, hlp⟩
    · exact absurd hu0 (not_lt.mpr h)
    · exact absurd hu1 (not_lt.mpr h)
    · exact ⟨k, a, b, by rw [← hP]; exact hk, ha, hb, h1, h2, hlp⟩
  · intro u
    rcases hcases u with ⟨h, hlp⟩ | ⟨h, _, hlp⟩ | ⟨hu0, hu1, k, a, b, hk, ha, hb, h1, h2, hscan, hlp⟩
    · refine ⟨0, hlp, ?_⟩
      rw [hfirst u h]
      have := CalculateBezierPoint_at_index s' hI hO 0 (by omega)
      rw [Nat.cast_zero] at this
      exact this.symm
    · refine ⟨_, hlp, ?_⟩
      rw [hend u h, CalculateBezierPoint_ge s' _ (le_refl _)]
    · refine ⟨_, hlp, ?_⟩
      obtain ⟨ht0, ht1⟩ := ht a b _ h1 h2
      unfold CalculateLinearPoint
      rw [if_neg hne0, if_neg hne1, if_neg (not_le.mpr hu0), if_neg (not_le.mpr hu1)]
      simp only [hscan, Option.bind_eq_bind, Option.some_bind]
      unfold CalculateBezierPointSeg
      rw [Clamp_of_mem (k : Int) 0 _ (by omega) (by omega),
        Clamp_of_mem _ 0 1 ht0 (le_of_lt ht1)]
      simp
  · intro u1 u2 p1 p2 hu hp1 hp2
    rcases hcases u1 with ⟨h1, hl1⟩ | ⟨h1, _, hl1⟩ |
        ⟨hu10, hu11, k1, a1, b1, hk1, ha1, hb1, h11, h12, _, hl1⟩ <;>
      rcases hcases u2 with ⟨h2, hl2⟩ | ⟨h2, h2', hl2⟩ |
        ⟨hu20, hu21, k2, a2, b2, hk2, ha2, hb2, h21, h22, _, hl2⟩ <;>
      rw [hl1] at hp1 <;> rw [hl2] at hp2 <;>
      simp only [Option.some.injEq] at hp1 hp2 <;> subst hp1 <;> subst hp2
    · exact le_refl _
    · exact hNpos
    · obtain ⟨ht0, _⟩ := ht a2 b2 _ h21 h22
      have : (0 : α) ≤ (k2 : α) := Nat.cast_nonneg k2
      linarith
    · exact absurd (le_trans h1 (le_trans hu h2)) (not_le.mpr zero_lt_one)
    · exact le_refl _
    · exact absurd (lt_of_le_of_lt (le_trans h1 hu) hu21) (lt_irrefl _)
    · exact absurd (lt_of_lt_of_le hu10 (le_trans hu h2)) (lt_irrefl _)
    · obtain ⟨_, ht1⟩ := ht a1 b1 _ h11 h12
      have hk : ((k1 : Int) + 1 : Int) ≤ (s'.Points.length : Int) - 1 := by omega
      have hk' : ((k1 : α) + 1) ≤ (((s'.Points.length : Int) - 1 : Int) : α) := by
        exact_mod_cast hk
      linarith
    · obtain ⟨ht10, ht11⟩ := ht a1 b1 _ h11 h12
      obtain ⟨ht20, ht21⟩ := ht a2 b2 _ h21 h22
      have hPL : u1 * s'.TotalLength ≤ u2 * s'.TotalLength :=
        mul_le_mul_of_nonneg_right hu (le_of_lt hT)
      rcases Nat.lt_trichotomy k1 k2 with hlt | heq | hgt
      · have : ((k1 : α) + 1) ≤ (k2 : α) := by exact_mod_cast hlt
        linarith
      · subst heq
        rw [ha1] at ha2
        rw [hb1] at hb2
        simp only [Option.some.injEq] at ha2 hb2
        subst ha2
        subst hb2
        have hba : 0 < b1 - a1 := by linarith
        have : (u1 * s'.TotalLength - a1) / (b1 - a1) ≤ (u2 * s'.TotalLength - a1) / (b1 - a1) :=
          div_le_div_of_nonneg_right (by linarith) (le_of_lt hba)
        linarith
      · exfalso
        have := hmono (k2 + 1) k1 b2 a1 (by omega) (by omega) hb2 ha1
        linarith

theorem ratSqrt_nonneg (x : ℚ) : 0 ≤ ratEngine.Sqrt x :=
  div_nonneg (Nat.cast_nonneg _) (Nat.cast_nonneg _)

/-- Witness of C5 on the smooth three-point example `(0,0,0), (3,4,0), (6,0,0)`, whose two
segments have equal length: `u = 1/4` is evaluated at progress `1/2`, `u = 3/4` at progress
`3/2`. -/
theorem C5_linear_point_monotone_witness :
    ∃ s', Calculate ratEngine 1 cornerExample = some s' ∧ 0 < s'.TotalLength ∧
      LinearProgress s' (1 / 4) = some (1 / 2) ∧ LinearProgress s' (3 / 4) = some (3 / 2) ∧
      CalculateLinearPoint s' 0 = some ⟨0, 0, 0⟩ ∧
      ∀ p1 p2, LinearProgress s' (1 / 4) = some p1 → LinearProgress s' (3 / 4) = some p2 →
        p1 ≤ p2 := by
  have h : (Calculate ratEngine 1 cornerExample).isSome = true := by decide!
  obtain ⟨s', hs⟩ := Option.isSome_iff_exists.mp h
  have hT : (Calculate ratEngine 1 cornerExample).map (fun s' => s'.TotalLength) =
      some (659 / 64) := by decide!
  have h1 : (Calculate ratEngine 1 cornerExample).bind (fun s' => LinearProgress s' (1 / 4)) =
      some (1 / 2) := by decide!
  have h2 : (Calculate ratEngine 1 cornerExample).bind (fun s' => LinearProgress s' (3 / 4)) =
      some (3 / 2) := by decide!
  rw [hs] at hT h1 h2
  simp only [Option.map_some', Option.some.injEq, Option.some_bind] at hT h1 h2
  have hpos : 0 < s'.TotalLength := by
    rw [hT]
    norm_num
  have key := C5_linear_point_monotone ratEngine ratSqrt_nonneg 1 cornerExample s'
    (by decide) rfl hs hpos
  exact ⟨s', hs, hpos, h1, h2, key.1 0 (le_refl _),
    fun p1 p2 => key.2.2.2.2 (1 / 4) (3 / 4) p1 p2 (by norm_num)⟩

end ArcLength

/-! ## Tessellation and two-point lines -/

section TwoPoints
variable {α : Type} [LinearOrderedField α] [FloorRing α]

/-- The function `TessellateSegment` appends to the chain, and the first point it appends is `P0`. -/
theorem TessellateSegment_append (E : Engine α) (s : FBezierCalc α) :
    ∀ (fuel : Nat) (k : Int) (T0 : α) (P0 : FVector α) (T1 : α) (P1 : FVector α)
      (Tes R : List (FVector α)),
      TessellateSegment E s fuel k T0 P0 T1 P1 Tes = some R → ∃ rest, R = Tes ++ P0 :: rest := by
  intro fuel
  induction fuel with
  | zero =>
    intro k T0 P0 T1 P1 Tes R h
    simp [TessellateSegment] at h
  | succ n ih =>
    intro k T0 P0 T1 P1 Tes R h
    rw [TessellateSegment] at h
    simp only [Option.bind_eq_bind, Option.bind_eq_some] at h
    obtain ⟨Mid, _, b, _, h⟩ := h
    cases b with
    | true =>
      simp only [if_true, Option.bind_eq_some] at h
      obtain ⟨R1, h1, h2⟩ := h
      obtain ⟨r1, e1⟩ := ih _ _ _ _ _ _ _ h1
      obtain ⟨r2, e2⟩ := ih _ _ _ _ _ _ _ h2
      exact ⟨r1 ++ Mid :: r2, by rw [e2, e1]; simp⟩
    | false =>
      simp only [Bool.false_eq_true, if_false, Option.some.injEq] at h
      exact ⟨[Mid], h.symm⟩

/-- The function `TessellateSegment` reads the state only through the curve it holds. -/
theorem TessellateSegment_congr (E : Engine α) {s st : FBezierCalc α} (hc : SameCurve s st) :
    ∀ (fuel : Nat) (k : Int) (T0 : α) (P0 : FVector α) (T1 : α) (P1 : FVector α)
      (Tes : List (FVector α)),
      TessellateSegment E st fuel k T0 P0 T1 P1 Tes =
        TessellateSegment E s fuel k T0 P0 T1 P1 Tes := by
  intro fuel
  induction fuel with
  | zero =>
    intro k T0 P0 T1 P1 Tes
    simp [TessellateSegment]
  | succ n ih =>
    intro k T0 P0 T1 P1 Tes
    rw [TessellateSegment, TessellateSegment]
    simp only [CalculateBezierPointSeg_congr hc, hc.2.2.2.1, ih]

/-! Consequences of the two square-root laws `0 ≤ √x` and `√x * √x = x` for `x ≥ 0`. -/

theorem Sqrt_eq_zero (E : Engine α) (hsq : ∀ x, 0 ≤ x → E.Sqrt x * E.Sqrt x = x) (x : α)
    (hx : 0 ≤ x) (h : E.Sqrt x = 0) : x = 0 := by
  have := hsq x hx
  rw [h] at this
  simpa using this.symm

theorem Sqrt_one (E : Engine α) (hE : ∀ x, 0 ≤ E.Sqrt x)
    (hsq : ∀ x, 0 ≤ x → E.Sqrt x * E.Sqrt x = x) : E.Sqrt 1 = 1 := by
  have h1 := hsq 1 zero_le_one
  have : E.Sqrt 1 * E.Sqrt 1 = 1 * 1 := by rw [h1, mul_one]
  exact (mul_self_inj_of_nonneg (hE 1) zero_le_one).mp this

theorem Sqrt_mul_self_mul (E : Engine α) (hE : ∀ x, 0 ≤ E.Sqrt x)
    (hsq : ∀ x, 0 ≤ x → E.Sqrt x * E.Sqrt x = x) (c x : α) (hc : 0 ≤ c) (hx : 0 ≤ x) :
    E.Sqrt (c * c * x) = c * E.Sqrt x := by
  have h1 := hsq (c * c * x) (mul_nonneg (mul_self_nonneg c) hx)
  have h2 := hsq x hx
  apply (mul_self_inj_of_nonneg (hE _) (mul_nonneg hc (hE x))).mp
  rw [h1]
  calc c * c * x = c * c * (E.Sqrt x * E.Sqrt x) := by rw [h2]
    _ = c * E.Sqrt x * (c * E.Sqrt x) := by ring

theorem sum_squares_nonneg (a b c : α) : 0 ≤ a * a + b * b + c * c :=
  add_nonneg (add_nonneg (mul_self_nonneg a) (mul_self_nonneg b)) (mul_self_nonneg c)

theorem sum_squares_eq_zero (a b c : α) (h : a * a + b * b + c * c = 0) :
    a = 0 ∧ b = 0 ∧ c = 0 := by
  have ha := mul_self_nonneg a
  have hb := mul_self_nonneg b
  have hc := mul_self_nonneg c
  refine ⟨mul_self_eq_zero.mp (by linarith), mul_self_eq_zero.mp (by linarith),
    mul_self_eq_zero.mp (by linarith)⟩

/-- Two points at distance `0` are equal. -/
theorem Dist_eq_zero (E : Engine α) (hsq : ∀ x, 0 ≤ x → E.Sqrt x * E.Sqrt x = x)
    (a b : FVector α) (h : FVector.Dist E a b = 0) : a = b := by
  unfold FVector.Dist at h
  have h0 := Sqrt_eq_zero E hsq _ (sum_squares_nonneg _ _ _) h
  obtain ⟨hx, hy, hz⟩ := sum_squares_eq_zero _ _ _ h0
  ext <;> linarith

/-- A chain of polyline length `0` consists of copies of its first point. -/
theorem ChainLengthFrom_eq_zero (E : Engine α) (hE : ∀ x, 0 ≤ E.Sqrt x)
    (hsq : ∀ x, 0 ≤ x → E.Sqrt x * E.Sqrt x = x) (Tes : List (FVector α))
    (h : ChainLengthFrom E Tes 0 = 0) :
    ∀ j, j < Tes.length → Tes.getD j 0 = Tes.getD 0 0 := by
  unfold ChainLengthFrom at h
  have key := forRange_induction
    (fun i (acc : α) => 0 ≤ acc ∧ (acc = 0 → ∀ j, j ≤ i → Tes.getD j 0 = Tes.getD 0 0))
    0 (Tes.length - 1) (Nat.zero_le _)
    (fun j SegmentLength =>
      SegmentLength + FVector.Dist E (Tes.getD j 0) (Tes.getD (j + 1) 0)) 0
    ⟨le_refl _, fun _ j hj => by
      have : j = 0 := by omega
      rw [this]⟩
    (by
      rintro i acc _ _ ⟨hacc, hall⟩
      have hd := Dist_nonneg E hE (Tes.getD i 0) (Tes.getD (i + 1) 0)
      refine ⟨add_nonneg hacc hd, ?_⟩
      intro hz j hj
      have hz : acc + FVector.Dist E (Tes.getD i 0) (Tes.getD (i + 1) 0) = 0 := hz
      have hacc0 : acc = 0 := by linarith
      have hd0 : FVector.Dist E (Tes.getD i 0) (Tes.getD (i + 1) 0) = 0 := by linarith
      rcases Nat.lt_succ_iff_lt_or_eq.mp (Nat.lt_succ_of_le hj) with hlt | rfl
      · exact hall hacc0 j (by omega)
      · rw [← Dist_eq_zero E hsq _ _ hd0]
        exact hall hacc0 i (le_refl _))
  intro j hj
  exact key.2 h j (by omega)

/-- Scaling the normalised vector by the length gives the vector back, when its squared
length is not below the tolerance of `GetSafeNormal`. -/
theorem GetSafeNormal_mul_Size (E : Engine α) (hE : ∀ x, 0 ≤ E.Sqrt x)
    (hsq : ∀ x, 0 ≤ x → E.Sqrt x * E.Sqrt x = x) (v : FVector α) (k : α)
    (htol : E.SmallNumber ≤ v.SizeSquared) :
    v.GetSafeNormal E * k * v.Size E = k * v := by
  unfold FVector.SizeSquared at htol
  unfold FVector.GetSafeNormal FVector.Size
  simp only []
  split_ifs with h1 h2
  · rw [h1, Sqrt_one E hE hsq]
    ext <;> simp <;> ring
  · exact absurd htol (not_le.mpr h2)
  · have hq := sum_squares_nonneg v.X v.Y v.Z
    have hs := hsq _ hq
    by_cases h0 : E.Sqrt (v.X * v.X + v.Y * v.Y + v.Z * v.Z) = 0
    · have hz := Sqrt_eq_zero E hsq _ hq h0
      obtain ⟨hx, hy, hz⟩ := sum_squares_eq_zero _ _ _ hz
      ext <;> simp [hx, hy, hz]
    · ext
      · show v.X * (1 / E.Sqrt _) * k * E.Sqrt _ = k * v.X
        field_simp
        ring
      · show v.Y * (1 / E.Sqrt _) * k * E.Sqrt _ = k * v.Y
        field_simp
        ring
      · show v.Z * (1 / E.Sqrt _) * k * E.Sqrt _ = k * v.Z
        field_simp
        ring

/-- When the first two control points differ, `TotalLength` is positive after
`CalculateBezier`. -/
theorem CalculateBezier_TotalLength_pos (E : Engine α) (hE : ∀ x, 0 ≤ E.Sqrt x)
    (hsq : ∀ x, 0 ≤ x → E.Sqrt x * E.Sqrt x = x) (fuel : Nat) (s s' : FBezierCalc α)
    (hN : 2 ≤ s.Points.length) (hne : s.Points.getD 0 0 ≠ s.Points.getD 1 0)
    (h : CalculateBezier E fuel s = some s') : 0 < s'.TotalLength := by
  unfold CalculateBezier at h
  simp only [] at h
  rw [if_neg (by omega)] at h
  have key := foldlM_range_induction
    (fun k (st : FBezierCalc α) =>
      st.Points = s.Points ∧ st.SegmentTessIndexes.length = s.Points.length ∧
      0 ≤ st.TotalLength ∧ (k = 0 → st.Tessellated = []) ∧ (0 < k → 0 < st.TotalLength))
    _ _ _ _ h
    ⟨rfl, by simp [length_SetNumZeroed], le_refl _, fun _ => rfl,
      fun h0 => absurd h0 (lt_irrefl 0)⟩
    (by
      rintro i st st' hi ⟨hP, hlen, hTL, hz, hpos⟩ hf
      obtain ⟨hsc, hsti, _, L, _, hTL', hlast, hseg⟩ := CalculateBezierStep_some E fuel st st' i hf
      have hL : 0 ≤ L := by
        by_cases hc : (i : Int) < (st.Points.length : Int) - 1
        · obtain ⟨Tes, Last, _, _, _, hLeq⟩ := hseg hc
          rw [hLeq]
          exact add_nonneg (ChainLengthFrom_nonneg E hE _ _) (Dist_nonneg E hE _ _)
        · rw [(hlast hc).1]
      refine ⟨hsc.1.trans hP, by rw [hsti]; simpa using hlen, by rw [hTL']; linarith,
        fun hk => by omega, ?_⟩
      intro _
      rw [hTL']
      rcases Nat.eq_zero_or_pos i with rfl | hipos
      · have hc : ((0 : Nat) : Int) < (st.Points.length : Int) - 1 := by rw [hP]; omega
        obtain ⟨Tes, Last, hT, hLast, _, hLeq⟩ := hseg hc
        have hfrom : ((st.SegmentTessIndexes.set 0 (st.Tessellated.length : Int)).getD 0 0).toNat
            = 0 := by
          rw [getD_of_getElem? _ _ _ _ (List.getElem?_set_self (by omega)), hz rfl]
          rfl
        rw [hfrom] at hLeq
        obtain ⟨rest, hrest⟩ := TessellateSegment_append E _ _ _ _ _ _ _ _ _ hT
        rw [hz rfl, List.nil_append] at hrest
        have hchain := ChainLengthFrom_nonneg E hE Tes 0
        have hdist := Dist_nonneg E hE Last (st.Points.getD (0 + 1) 0)
        rcases lt_or_eq_of_le hL with hlt | heq
        · linarith
        · exfalso
          have hc0 : ChainLengthFrom E Tes 0 = 0 := by linarith
          have hd0 : FVector.Dist E Last (st.Points.getD (0 + 1) 0) = 0 := by linarith
          have hall := ChainLengthFrom_eq_zero E hE hsq Tes hc0
          have hTlen : 0 < Tes.length := by rw [hrest]; simp
          have hlastget : Tes.getD (Tes.length - 1) 0 = Last := by
            rw [List.getLast?_eq_getElem?] at hLast
            exact getD_of_getElem? _ _ _ _ hLast
          have hfirst : Tes.getD 0 0 = st.Points.getD 0 0 := by rw [hrest]; rfl
          have e1 : Last = st.Points.getD 0 0 := by
            rw [← hlastget, hall _ (by omega), hfirst]
          have e2 : Last = st.Points.getD (0 + 1) 0 := Dist_eq_zero E hsq _ _ hd0
          apply hne
          rw [← hP, ← e1, e2]
      · have := hpos hipos
        linarith)
  exact key.2.2.2.2 (by omega)

/-- The tangents of a two-point line: the out-tangent of the first point is the chord
scaled by the strength, the in-tangent of the second point stays zero. -/
theorem twoPoint_tangents (E : Engine α) (hE : ∀ x, 0 ≤ E.Sqrt x)
    (hsq : ∀ x, 0 ≤ x → E.Sqrt x * E.Sqrt x = x) (st : FBezierCalc α) (A B : FVector α)
    (hP : st.Points = [A, B]) (htol : E.SmallNumber ≤ (B - A).SizeSquared) :
    (CalculateTangents E st).Points = [A, B] ∧
    (CalculateTangents E st).InTangents.length = 2 ∧
    (CalculateTangents E st).OutTangents.length = 2 ∧
    (CalculateTangents E st).OutTangents.getD 0 0 = st.TangentStrength * (B - A) ∧
    (CalculateTangents E st).InTangents.getD 1 0 = 0 := by
  obtain ⟨hfr, hl1, hl2, _, hfirst, _, _, _, hin1⟩ := CalculateTangents_spec E st
  have hlen : st.Points.length = 2 := by rw [hP]; rfl
  have hI1 := getD_of_getElem? _ _ 0 _ (hin1 hlen)
  refine ⟨hfr.1.trans hP, by rw [hl1, hlen], by rw [hl2, hlen], ?_, hI1⟩
  rw [getD_of_getElem? _ _ 0 _ (hfirst (by omega)), hI1]
  unfold TangentSolver.outFirst
  have e : st.Points.getD 1 0 - (0 : FVector α) - st.Points.getD 0 0 = B - A := by
    rw [hP]
    ext <;> simp
  have e2 : st.Points.getD 1 0 - st.Points.getD 0 0 = B - A := by
    rw [hP]
    rfl
  rw [e, e2]
  exact GetSafeNormal_mul_Size E hE hsq (B - A) _ htol

/-- The curve of a two-point line whose tangents are `k * (B - A)` and `0`: at local
parameter `x` in `[0, 1)` it is `A + (3(1-x)²x k + 3(1-x)x² + x³) (B - A)`. -/
theorem twoPoint_curve (s : FBezierCalc α) (A B : FVector α) (k x : α)
    (hP : s.Points = [A, B]) (hI : s.InTangents.length = 2) (hO : s.OutTangents.length = 2)
    (hOut : s.OutTangents.getD 0 0 = k * (B - A)) (hIn : s.InTangents.getD 1 0 = 0)
    (hx0 : 0 ≤ x) (hx1 : x < 1) :
    CalculateBezierPointSeg s 0 x =
      some (A + (3 * (1 - x) * (1 - x) * x * k + 3 * (1 - x) * x * x + x * x * x) * (B - A)) := by
  have hlen : s.Points.length = 2 := by rw [hP]; rfl
  unfold CalculateBezierPointSeg
  rw [Clamp_of_mem (0 : Int) 0 _ (le_refl _) (by omega), Clamp_of_mem x 0 1 hx0 (le_of_lt hx1)]
  simp only [Int.cast_zero, zero_add]
  have hlt : x < (((s.Points.length : Int) - 1 : Int) : α) := by
    rw [hlen]
    simpa using hx1
  rw [CalculateBezierPoint_inner s x (by rw [hI, hlen]) (by rw [hO, hlen]) hx0 hlt]
  have hfl : ⌊x⌋ = 0 := Int.floor_eq_zero_iff.mpr ⟨hx0, hx1⟩
  rw [hfl]
  simp only [Int.toNat_zero, Int.cast_zero, sub_zero, cubicPoint, hOut, hIn, zero_add]
  have eA : s.Points.getD 0 0 = A := by rw [hP]; rfl
  have eB : s.Points.getD 1 0 = B := by rw [hP]; rfl
  rw [eA, eB]
  congr 1
  ext <;> simp <;> ring

/-- C4 (amended): for a two-point line with distinct points `A`, `B` in smooth mode, with
strength `s` in `(0, 0.5]`, `|B - A|²` not below the tolerance of `GetSafeNormal` and an exact
square root, after `Calculate` the point `CalculateLinearPoint(0.5)` is
`A + (1/2 + 3s/8)(B - A)`: it lies at distance `(1/2 + 3s/8)·L` from `A`, with
`L = |B - A|`. -/
theorem C4_two_point_half_progress (E : Engine α) (hE : ∀ x, 0 ≤ E.Sqrt x)
    (hsq : ∀ x, 0 ≤ x → E.Sqrt x * E.Sqrt x = x) (fuel : Nat) (st s' : FBezierCalc α)
    (A B : FVector α) (hP : st.Points = [A, B]) (hH : st.HardCorners = false) (hAB : A ≠ B)
    (htol : E.SmallNumber ≤ (B - A).SizeSquared)
    (hs0 : 0 < st.TangentStrength) (hs1 : st.TangentStrength ≤ 1 / 2)
    (hC : Calculate E fuel st = some s') :
    CalculateLinearPoint s' (1 / 2) =
      some (A + (1 / 2 + 3 * st.TangentStrength / 8) * (B - A)) ∧
    ((A + (1 / 2 + 3 * st.TangentStrength / 8) * (B - A)) - A).Size E =
      (1 / 2 + 3 * st.TangentStrength / 8) * (B - A).Size E := by
  have hlen : st.Points.length = 2 := by rw [hP]; rfl
  obtain ⟨hCB, hc, hP', hI, hO⟩ := Calculate_smooth E fuel st s' hH hC
  obtain ⟨tP, _, _, tOut, tIn⟩ := twoPoint_tangents E hE hsq st A B hP htol
  have tlen : (CalculateTangents E st).Points.length = 2 := by rw [tP]; rfl
  obtain ⟨slen, _, _, h0, hlast⟩ :=
    CalculateBezier_table E hE fuel (CalculateTangents E st) s' (by omega) hCB
  have hTpos : 0 < s'.TotalLength :=
    CalculateBezier_TotalLength_pos E hE hsq fuel (CalculateTangents E st) s' (by omega)
      (by rw [tP]; exact hAB) hCB
  rw [tlen] at slen hlast
  have hlen' : s'.Points.length = 2 := by rw [hP', hlen]
  have hmid : (0 : α) < 1 / 2 := by norm_num
  have hmid1 : (1 / 2 : α) < 1 := by norm_num
  constructor
  · rcases LinearProgress_cases s' (by rw [slen, hlen']) h0 (by rw [hlen']; exact hlast) hTpos
        (1 / 2) with ⟨h, _⟩ | ⟨h, _⟩ | ⟨_, _, k, a, b, hk, ha, hb, _, _, hscan, _⟩
    · exact absurd hmid (not_lt.mpr h)
    · exact absurd hmid1 (not_lt.mpr h)
    · have hk0 : k = 0 := by omega
      subst hk0
      rw [h0] at ha
      rw [show 0 + 1 = 2 - 1 from rfl, hlast] at hb
      simp only [Option.some.injEq] at ha hb
      subst ha
      subst hb
      unfold CalculateLinearPoint
      rw [if_neg (by omega), if_neg (by omega), if_neg (not_le.mpr hmid),
        if_neg (not_le.mpr hmid1)]
      simp only [hscan, Option.bind_eq_bind, Option.some_bind]
      have ht : (1 / 2 * s'.TotalLength - 0) / (s'.TotalLength - 0) = 1 / 2 := by
        have hne : s'.TotalLength ≠ 0 := ne_of_gt hTpos
        field_simp
        ring
      rw [ht]
      have hcurve := twoPoint_curve s' A B st.TangentStrength (1 / 2) (by rw [hP', hP])
        (by rw [hI, hlen]) (by rw [hO, hlen]) (by rw [hc.2.2.2.2.2]; exact tOut)
        (by rw [hc.2.2.2.2.1]; exact tIn) (le_of_lt hmid) hmid1
      have hcoef : 3 * (1 - 1 / 2) * (1 - 1 / 2) * (1 / 2) * st.TangentStrength +
          3 * (1 - 1 / 2) * (1 / 2) * (1 / 2) + 1 / 2 * (1 / 2) * (1 / 2) =
          1 / 2 + 3 * st.TangentStrength / 8 := by
        ring
      rw [hcoef] at hcurve
      simpa using hcurve
  · have hcpos : (0 : α) ≤ 1 / 2 + 3 * st.TangentStrength / 8 := by linarith
    unfold FVector.Size
    have e : ∀ (p q c : α), (p + c * (q - p) - p) * (p + c * (q - p) - p) =
        c * c * ((q - p) * (q - p)) := by
      intro p q c
      ring
    simp only [FVector.sub_X, FVector.sub_Y, FVector.sub_Z, FVector.add_X, FVector.add_Y,
      FVector.add_Z, FVector.smul_X, FVector.smul_Y, FVector.smul_Z, e]
    rw [← mul_add, ← mul_add]
    exact Sqrt_mul_self_mul E hE hsq _ _ hcpos (sum_squares_nonneg _ _ _)

/-- C4 (counterexample): on the smooth two-point example `A = (0,0,0)`, `B = (4,0,0)` with
strength `0.3`, of length `L = 4`, `CalculateLinearPoint(0.5)` is `(49/20, 0, 0)`, at distance
`49/20` from `A`, not `L/2 = 2`. -/
theorem C4_two_point_half_progress_counterexample :
    (Calculate ratEngine 1 smoothExample).bind (fun s' => CalculateLinearPoint s' (1 / 2)) =
      some ⟨49 / 20, 0, 0⟩ ∧
    FVector.Size ratEngine ((⟨49 / 20, 0, 0⟩ : FVector ℚ) - ⟨0, 0, 0⟩) = 49 / 20 ∧
    FVector.Size ratEngine ((⟨4, 0, 0⟩ : FVector ℚ) - ⟨0, 0, 0⟩) = 4 ∧
    (49 / 20 : ℚ) ≠ 4 / 2 := by
  refine ⟨by decide!, by decide!, by decide!, by decide!⟩

/-- The leaf case of `TessellateSegment`: when none of the three deviations exceeds the
tolerance, the call appends `P0` and the curve midpoint. -/
theorem TessellateSegment_leaf (E : Engine α) (s : FBezierCalc α) (fuel : Nat) (k : Int)
    (T0 : α) (P0 : FVector α) (T1 : α) (P1 : FVector α) (Tes : List (FVector α))
    (M Nr Fr : FVector α)
    (hM : CalculateBezierPointSeg s k (Lerp T0 T1 (1 / 2)) = some M)
    (hN : CalculateBezierPointSeg s k (Lerp T0 T1 (1 / 5)) = some Nr)
    (hF : CalculateBezierPointSeg s k (Lerp T0 T1 (4 / 5)) = some Fr)
    (h1 : (M - LerpV P0 P1 (1 / 2)).Size E ≤ Lerp 50 (1 / 100) s.TessellationQuality)
    (h2 : (Nr - LerpV P0 P1 (1 / 5)).Size E ≤ Lerp 50 (1 / 100) s.TessellationQuality)
    (h3 : (Fr - LerpV P0 P1 (4 / 5)).Size E ≤ Lerp 50 (1 / 100) s.TessellationQuality) :
    TessellateSegment E s (fuel + 1) k T0 P0 T1 P1 Tes = some (Tes ++ [P0, M]) := by
  rw [TessellateSegment]
  simp only [hM, hN, hF, Option.bind_eq_bind, Option.some_bind, gt_iff_lt,
    if_neg (not_lt.mpr h1), if_neg (not_lt.mpr h2), decide_eq_false (not_lt.mpr h3)]
  simp

/-- An iteration of the loop of `CalculateBezier` returns as soon as its call of
`TessellateSegment` does. -/
theorem CalculateBezierStep_isSome (E : Engine α) (fuel : Nat) (st : FBezierCalc α) (i : Nat)
    (h : (i : Int) < (st.Points.length : Int) - 1 →
      ∃ Tes, TessellateSegment E st fuel (i : Int) 0 (st.Points.getD i 0) 1
        (st.Points.getD (i + 1) 0) st.Tessellated = some Tes) :
    ∃ st', CalculateBezierStep E fuel st i = some st' := by
  unfold CalculateBezierStep
  split_ifs with hc
  · obtain ⟨Tes, hT⟩ := h hc
    obtain ⟨rest, hrest⟩ := TessellateSegment_append E _ _ _ _ _ _ _ _ _ hT
    have hcg : ∀ l : List Int, SameCurve st { st with SegmentTessIndexes := l } :=
      fun l => ⟨rfl, rfl, rfl, rfl, rfl, rfl⟩
    have hlast : ∃ Last, Tes.getLast? = some Last := by
      rw [hrest, List.getLast?_eq_getLast _ (by simp)]
      exact ⟨_, rfl⟩
    obtain ⟨Last, hLast⟩ := hlast
    simp only [TessellateSegment_congr E (hcg _), hT, hLast, Option.bind_eq_bind,
      Option.some_bind]
    exact ⟨_, rfl⟩
  · exact ⟨_, rfl⟩

/-- The deviation of the point `A + c (B - A)` from the chord point at fraction `x` has
size `|c - x| · |B - A|`. -/
theorem Size_deviation (E : Engine α) (hE : ∀ x, 0 ≤ E.Sqrt x)
    (hsq : ∀ x, 0 ≤ x → E.Sqrt x * E.Sqrt x = x) (A B : FVector α) (c x : α) :
    ((A + c * (B - A)) - LerpV A B x).Size E = |c - x| * (B - A).Size E := by
  unfold FVector.Size LerpV
  have e : ∀ (p q : α), (p + c * (q - p) - (p + x * (q - p))) *
      (p + c * (q - p) - (p + x * (q - p))) = |c - x| * |c - x| * ((q - p) * (q - p)) := by
    intro p q
    rw [abs_mul_abs_self]
    ring
  simp only [FVector.sub_X, FVector.sub_Y, FVector.sub_Z, FVector.add_X, FVector.add_Y,
    FVector.add_Z, FVector.smul_X, FVector.smul_Y, FVector.smul_Z, e]
  rw [← mul_add, ← mul_add]
  exact Sqrt_mul_self_mul E hE hsq _ _ (abs_nonneg _) (sum_squares_nonneg _ _ _)

/-- A smooth two-point line whose length does not exceed the tolerance is tessellated
without subdivision: `Calculate` returns with recursion depth `1`. -/
theorem twoPoint_terminates (E : Engine α) (hE : ∀ x, 0 ≤ E.Sqrt x)
    (hsq : ∀ x, 0 ≤ x → E.Sqrt x * E.Sqrt x = x) (st : FBezierCalc α) (A B : FVector α)
    (hP : st.Points = [A, B]) (hH : st.HardCorners = false)
    (htol : E.SmallNumber ≤ (B - A).SizeSquared)
    (hs0 : 0 < st.TangentStrength) (hs1 : st.TangentStrength ≤ 1 / 2)
    (hEQ : (B - A).Size E ≤ Lerp 50 (1 / 100) st.TessellationQuality) :
    ∃ s', Calculate E 1 st = some s' := by
  obtain ⟨tP, tI, tO, tOut, tIn⟩ := twoPoint_tangents E hE hsq st A B hP htol
  have tQ : (CalculateTangents E st).TessellationQuality = st.TessellationQuality :=
    (CalculateTangents_spec E st).1.2.2.2.1
  have tlen : (CalculateTangents E st).Points.length = 2 := by rw [tP]; rfl
  have hL : 0 ≤ (B - A).Size E := hE _
  have hdev : ∀ c x : α, |c - x| ≤ 1 →
      ((A + c * (B - A)) - LerpV A B x).Size E ≤
        Lerp 50 (1 / 100) (CalculateTangents E st).TessellationQuality := by
    intro c x hcx
    rw [Size_deviation E hE hsq, tQ]
    calc |c - x| * (B - A).Size E ≤ 1 * (B - A).Size E := mul_le_mul_of_nonneg_right hcx hL
      _ = (B - A).Size E := one_mul _
      _ ≤ _ := hEQ
  have hcurve : ∀ x : α, 0 ≤ x → x < 1 →
      CalculateBezierPointSeg (CalculateTangents E st) 0 (Lerp 0 1 x) =
        some (A + (3 * (1 - x) * (1 - x) * x * st.TangentStrength + 3 * (1 - x) * x * x +
          x * x * x) * (B - A)) := by
    intro x hx0 hx1
    have : Lerp 0 1 x = x := by simp [Lerp]
    rw [this]
    exact twoPoint_curve _ A B st.TangentStrength x tP tI tO tOut tIn hx0 hx1
  have hleaf : ∀ Tes, TessellateSegment E (CalculateTangents E st) 1 0 0 A 1 B Tes =
      some (Tes ++ [A, _]) := fun Tes =>
    TessellateSegment_leaf E _ 0 0 0 A 1 B Tes _ _ _
      (hcurve (1 / 2) (by norm_num) (by norm_num))
      (hcurve (1 / 5) (by norm_num) (by norm_num))
      (hcurve (4 / 5) (by norm_num) (by norm_num))
      (hdev _ _ (by rw [abs_le]; constructor <;> linarith))
      (hdev _ _ (by rw [abs_le]; constructor <;> linarith))
      (hdev _ _ (by rw [abs_le]; constructor <;> linarith))
  have aux : ∀ st0 : FBezierCalc α, SameCurve (CalculateTangents E st) st0 →
      ∃ s', (List.range 2).foldlM (CalculateBezierStep E 1) st0 = some s' := by
    intro st0 hc
    have hP0 : st0.Points = [A, B] := hc.1.trans tP
    obtain ⟨st1, h1⟩ := CalculateBezierStep_isSome E 1 st0 0 (fun _ => by
      rw [TessellateSegment_congr E hc, hP0]
      exact ⟨_, hleaf _⟩)
    have hP1 : st1.Points = [A, B] := (CalculateBezierStep_some E 1 st0 st1 0 h1).1.1.trans hP0
    obtain ⟨st2, h2⟩ := CalculateBezierStep_isSome E 1 st1 1 (fun hc1 => by
      rw [hP1] at hc1
      simp at hc1)
    refine ⟨st2, ?_⟩
    rw [show List.range 2 = [0, 1] from rfl]
    simp [List.foldlM_cons, h1, h2]
  have hcalc : Calculate E 1 st = CalculateBezier E 1 (CalculateTangents E st) := by
    simp [Calculate, hH]
  rw [hcalc]
  unfold CalculateBezier
  simp only []
  rw [if_neg (by omega), tlen]
  exact aux _ ⟨rfl, rfl, rfl, rfl, rfl, rfl⟩

/-- Witness of C4 (amended) over the real numbers with the real square root: the line from
`(0,0,0)` to `(1,0,0)`, strength `0.3`, quality `0.95`. -/
theorem C4_two_point_half_progress_witness :
    ∃ s', Calculate (⟨Real.sqrt, 1 / 100000000⟩ : Engine ℝ) 1
        (FBezierCalc.fresh [⟨0, 0, 0⟩, ⟨1, 0, 0⟩] false (3 / 10) (95 / 100)) = some s' ∧
      CalculateLinearPoint s' (1 / 2) =
        some ((⟨0, 0, 0⟩ : FVector ℝ) +
          (1 / 2 + 3 * (3 / 10) / 8 : ℝ) * ((⟨1, 0, 0⟩ : FVector ℝ) - ⟨0, 0, 0⟩)) ∧
      FVector.Size (⟨Real.sqrt, 1 / 100000000⟩ : Engine ℝ)
          (((FVector.mk 0 0 0 : FVector ℝ) +
            (1 / 2 + 3 * (3 / 10) / 8 : ℝ) *
              ((FVector.mk 1 0 0 : FVector ℝ) - (FVector.mk 0 0 0 : FVector ℝ))) -
            (FVector.mk 0 0 0 : FVector ℝ)) =
        (1 / 2 + 3 * (3 / 10) / 8) *
          FVector.Size (⟨Real.sqrt, 1 / 100000000⟩ : Engine ℝ)
            ((FVector.mk 1 0 0 : FVector ℝ) - (FVector.mk 0 0 0 : FVector ℝ)) := by
  have hE : ∀ x : ℝ, 0 ≤ (⟨Real.sqrt, 1 / 100000000⟩ : Engine ℝ).Sqrt x := Real.sqrt_nonneg
  have hsq : ∀ x : ℝ, 0 ≤ x → (⟨Real.sqrt, 1 / 100000000⟩ : Engine ℝ).Sqrt x *
      (⟨Real.sqrt, 1 / 100000000⟩ : Engine ℝ).Sqrt x = x := fun x hx => Real.mul_self_sqrt hx
  have htol : (⟨Real.sqrt, 1 / 100000000⟩ : Engine ℝ).SmallNumber ≤
      ((⟨1, 0, 0⟩ : FVector ℝ) - ⟨0, 0, 0⟩).SizeSquared := by
    simp [FVector.SizeSquared]
    norm_num
  have hAB : (⟨0, 0, 0⟩ : FVector ℝ) ≠ ⟨1, 0, 0⟩ := by
    intro h
    have := congrArg FVector.X h
    simp at this
  have hs0 : (0 : ℝ) < (FBezierCalc.fresh ([⟨0, 0, 0⟩, ⟨1, 0, 0⟩] : List (FVector ℝ)) false
      (3 / 10) (95 / 100)).TangentStrength := by
    simp [FBezierCalc.fresh]
  have hs1 : (FBezierCalc.fresh ([⟨0, 0, 0⟩, ⟨1, 0, 0⟩] : List (FVector ℝ)) false
      (3 / 10) (95 / 100)).TangentStrength ≤ 1 / 2 := by
    simp [FBezierCalc.fresh]
    norm_num
  have hEQ : (((⟨1, 0, 0⟩ : FVector ℝ) - ⟨0, 0, 0⟩)).Size ⟨Real.sqrt, 1 / 100000000⟩ ≤
      Lerp 50 (1 / 100) (FBezierCalc.fresh ([⟨0, 0, 0⟩, ⟨1, 0, 0⟩] : List (FVector ℝ)) false
        (3 / 10) (95 / 100)).TessellationQuality := by
    simp [FVector.Size, Lerp, FBezierCalc.fresh]
    norm_num
  obtain ⟨s', hs⟩ := twoPoint_terminates _ hE hsq _ _ _ rfl rfl htol hs0 hs1 hEQ
  exact ⟨s', hs,
    C4_two_point_half_progress _ hE hsq 1 _ s' (⟨0, 0, 0⟩ : FVector ℝ) (⟨1, 0, 0⟩ : FVector ℝ)
      rfl rfl hAB htol hs0 hs1 hs⟩

end TwoPoints

/-! ## The ribbon mesh -/

section MeshTheorems

variable {α : Type} [LinearOrderedField α] [FloorRing α]

theorem SetAt_of_lt {β : Type} (l : List β) (i : Nat) (v : β) (h : i < l.length) :
    SetAt l i v = some (l.set i v) := by
  simp [SetAt, h]

theorem GetAt_isSome {β : Type} (l : List β) (i : Int) (h0 : 0 ≤ i) (h : i.toNat < l.length) :
    ∃ v, GetAt l i = some v := by
  unfold GetAt
  rw [if_neg (not_lt.mpr h0), List.getElem?_eq_getElem h]
  exact ⟨_, rfl⟩

/-- Invariant rule for a counted loop whose body can fail: the loop returns when every
iteration does. -/
theorem foldlM_range_isSome {σ : Type} (P : Nat → σ → Prop) (n : Nat)
    (f : σ → Nat → Option σ) (init : σ) (h0 : P 0 init)
    (hstep : ∀ i st, i < n → P i st → ∃ st', f st i = some st' ∧ P (i + 1) st') :
    ∃ r, (List.range n).foldlM f init = some r ∧ P n r := by
  induction n with
  | zero => exact ⟨init, by simp, h0⟩
  | succ k ih =>
    obtain ⟨m, hm, hPm⟩ := ih (fun i st hi hp => hstep i st (Nat.lt_succ_of_lt hi) hp)
    obtain ⟨r, hr, hPr⟩ := hstep k m (Nat.lt_succ_self k) hPm
    refine ⟨r, ?_, hPr⟩
    rw [List.range_succ, List.foldlM_append, hm]
    simp [hr]

/-- The six writes to the vertex buffer of an arrowhead succeed on a buffer of size 6. -/
theorem WriteArrowVertices_isSome (Vertices : List (FVector α)) (P2 P3 : FVector α)
    (G : ArrowHeadPoints α) (h : Vertices.length = 6) :
    ∃ V, WriteArrowVertices Vertices P2 P3 G = some V ∧ V.length = 6 := by
  unfold WriteArrowVertices
  simp [SetAt, h]

/-- The six writes to the UV buffer of an arrowhead succeed on a buffer of size 6. -/
theorem WriteArrowUvs_isSome (Uvs : List (FVector2D α)) (Uv2 Uv3 : FVector2D α)
    (G : ArrowHeadPoints α) (h : Uvs.length = 6) :
    ∃ U, WriteArrowUvs Uvs Uv2 Uv3 G = some U ∧ U.length = 6 := by
  unfold WriteArrowUvs
  simp [SetAt, h, List.getElem?_set]

/-- With the four rectangle corners inside the line buffers and arrow buffers of size 6,
`CalculateArrowHeadVertices` returns, and keeps the sizes and the triangles. -/
theorem CalculateArrowHeadVertices_isSome (E : Engine α) (m : ULineMesh α)
    (ArrowMesh : FMeshParams α) (N0 N1 N2 N3 : Int)
    (hV : ArrowMesh.Vertices.length = 6) (hU : ArrowMesh.Uvs.length = 6)
    (hlen : m.LineUvs.length = m.LineVertices.length)
    (h0 : 0 ≤ N0 ∧ N0.toNat < m.LineVertices.length)
    (h1 : 0 ≤ N1 ∧ N1.toNat < m.LineVertices.length)
    (h2 : 0 ≤ N2 ∧ N2.toNat < m.LineVertices.length)
    (h3 : 0 ≤ N3 ∧ N3.toNat < m.LineVertices.length) :
    ∃ A, CalculateArrowHeadVertices E m ArrowMesh N0 N1 N2 N3 = some A ∧
      A.Vertices.length = 6 ∧ A.Uvs.length = 6 ∧ A.Triangles = ArrowMesh.Triangles := by
  unfold CalculateArrowHeadVertices
  obtain ⟨P0, hP0⟩ := GetAt_isSome m.LineVertices N0 h0.1 h0.2
  obtain ⟨P1, hP1⟩ := GetAt_isSome m.LineVertices N1 h1.1 h1.2
  obtain ⟨P2, hP2⟩ := GetAt_isSome m.LineVertices N2 h2.1 h2.2
  obtain ⟨P3, hP3⟩ := GetAt_isSome m.LineVertices N3 h3.1 h3.2
  obtain ⟨U0, hU0⟩ := GetAt_isSome m.LineUvs N0 h0.1 (by rw [hlen]; exact h0.2)
  obtain ⟨U2, hU2⟩ := GetAt_isSome m.LineUvs N2 h2.1 (by rw [hlen]; exact h2.2)
  obtain ⟨U3, hU3⟩ := GetAt_isSome m.LineUvs N3 h3.1 (by rw [hlen]; exact h3.2)
  rw [hP0, hP1, hP2, hP3, hU0, hU2, hU3]
  simp only [Option.some_bind]
  obtain ⟨V, hVs, hVl⟩ := WriteArrowVertices_isSome ArrowMesh.Vertices P2 P3
    (ArrowHeadGeometry E m.ArrowScale P0 P1 P2 P3 U0 U2 U3) hV
  obtain ⟨U, hUs, hUl⟩ := WriteArrowUvs_isSome ArrowMesh.Uvs U2 U3
    (ArrowHeadGeometry E m.ArrowScale P0 P1 P2 P3 U0 U2 U3) hU
  rw [hVs, hUs]
  exact ⟨_, rfl, hVl, hUl, rfl⟩

/-- The end-arrow half of `CalculateAllArrowHeadVertices` returns when the line has at least
four vertices and the end-arrow buffers have size 6. -/
theorem EndArrowHead_isSome (E : Engine α) (m1 : ULineMesh α)
    (hlen : m1.LineUvs.length = m1.LineVertices.length) (h4 : 4 ≤ m1.LineVertices.length)
    (hE : m1.EndArrow = true →
      m1.EndArrowMesh.Vertices.length = 6 ∧ m1.EndArrowMesh.Uvs.length = 6) :
    ∃ m2, (if m1.EndArrow = true then
        (CalculateArrowHeadVertices E m1 m1.EndArrowMesh ((m1.LineVertices.length : Int) - 1 - 3)
          ((m1.LineVertices.length : Int) - 1 - 2) ((m1.LineVertices.length : Int) - 1 - 1)
          ((m1.LineVertices.length : Int) - 1)).bind
          (fun Arrow => some { m1 with EndArrowMesh := Arrow })
      else some m1) = some m2 ∧ SameExceptArrows m1 m2 ∧
      m2.StartArrowMesh = m1.StartArrowMesh ∧
      m2.EndArrowMesh.Vertices.length = m1.EndArrowMesh.Vertices.length ∧
      m2.EndArrowMesh.Uvs.length = m1.EndArrowMesh.Uvs.length ∧
      m2.EndArrowMesh.Triangles = m1.EndArrowMesh.Triangles := by
  by_cases hend : m1.EndArrow = true
  · obtain ⟨A, hA, hAV, hAU, hAT⟩ := CalculateArrowHeadVertices_isSome E m1 m1.EndArrowMesh
      ((m1.LineVertices.length : Int) - 1 - 3) ((m1.LineVertices.length : Int) - 1 - 2)
      ((m1.LineVertices.length : Int) - 1 - 1) ((m1.LineVertices.length : Int) - 1)
      (hE hend).1 (hE hend).2 hlen
      ⟨by omega, by omega⟩ ⟨by omega, by omega⟩ ⟨by omega, by omega⟩ ⟨by omega, by omega⟩
    refine ⟨{ m1 with EndArrowMesh := A }, ?_, ?_, rfl, ?_, ?_, hAT⟩
    · rw [if_pos hend, hA]; rfl
    · exact ⟨rfl, rfl, rfl, rfl, rfl, rfl, rfl, rfl, rfl, rfl, rfl⟩
    · show A.Vertices.length = _
      rw [hAV, (hE hend).1]
    · show A.Uvs.length = _
      rw [hAU, (hE hend).2]
  · refine ⟨m1, ?_, ⟨rfl, rfl, rfl, rfl, rfl, rfl, rfl, rfl, rfl, rfl, rfl⟩, rfl, rfl, rfl, rfl⟩
    rw [if_neg hend]

/-- With at least four line vertices and arrow buffers of size 6 for the active arrows,
`CalculateAllArrowHeadVertices` returns and changes only the two arrow meshes, keeping
their sizes and triangles. -/
theorem CalculateAllArrowHeadVertices_isSome (E : Engine α) (m : ULineMesh α)
    (hlen : m.LineUvs.length = m.LineVertices.length) (h4 : 4 ≤ m.LineVertices.length)
    (hS : m.StartArrow = true →
      m.StartArrowMesh.Vertices.length = 6 ∧ m.StartArrowMesh.Uvs.length = 6)
    (hE : m.EndArrow = true →
      m.EndArrowMesh.Vertices.length = 6 ∧ m.EndArrowMesh.Uvs.length = 6) :
    ∃ m1, CalculateAllArrowHeadVertices E m = some m1 ∧ SameExceptArrows m m1 ∧
      m1.StartArrowMesh.Vertices.length = m.StartArrowMesh.Vertices.length ∧
      m1.StartArrowMesh.Uvs.length = m.StartArrowMesh.Uvs.length ∧
      m1.StartArrowMesh.Triangles = m.StartArrowMesh.Triangles ∧
      m1.EndArrowMesh.Vertices.length = m.EndArrowMesh.Vertices.length ∧
      m1.EndArrowMesh.Uvs.length = m.EndArrowMesh.Uvs.length ∧
      m1.EndArrowMesh.Triangles = m.EndArrowMesh.Triangles := by
  unfold CalculateAllArrowHeadVertices
  simp only [Option.bind_eq_bind]
  by_cases hs : m.StartArrow = true
  · obtain ⟨A, hA, hAV, hAU, hAT⟩ := CalculateArrowHeadVertices_isSome E m m.StartArrowMesh
      3 2 1 0 (hS hs).1 (hS hs).2 hlen ⟨by norm_num, by simp; omega⟩
      ⟨by norm_num, by simp; omega⟩ ⟨by norm_num, by simp; omega⟩ ⟨by norm_num, by simp; omega⟩
    rw [if_pos hs, hA]
    simp only [Option.some_bind]
    obtain ⟨m2, hm2, hsame, c1, c2, c3, c4⟩ :=
      EndArrowHead_isSome E { m with StartArrowMesh := A } hlen h4 hE
    refine ⟨m2, hm2, hsame, ?_, ?_, ?_, c2, c3, c4⟩
    · rw [c1]
      show A.Vertices.length = _
      rw [hAV, (hS hs).1]
    · rw [c1]
      show A.Uvs.length = _
      rw [hAU, (hS hs).2]
    · rw [c1]
      exact hAT
  · rw [if_neg hs]
    simp only [Option.some_bind]
    obtain ⟨m2, hm2, hsame, c1, c2, c3, c4⟩ := EndArrowHead_isSome E m hlen h4 hE
    exact ⟨m2, hm2, hsame, by rw [c1], by rw [c1], by rw [c1], c2, c3, c4⟩

/-- One iteration of the vertex loop writes the cross-section of chain point `i` at the
indices `2i`, `2i + 1` and keeps what earlier iterations wrote. -/
theorem CalculateVertexPositionsStep_spec (E : Engine α) (T : Trig α) (m : ULineMesh α)
    (st : VertexLoop α) (i L : Nat) (hV : st.LineVertices.length = L)
    (hU : st.LineUvs.length = L) (hi : i * 2 + 1 < L)
    (hprev : ∀ j, j < i → st.LineVertices[j * 2]? = some (RibbonC0 E T m j) ∧
      st.LineVertices[j * 2 + 1]? = some (RibbonC1 E T m j)) :
    ∃ st1, CalculateVertexPositionsStep E T m st i = some st1 ∧
      st1.LineVertices.length = L ∧ st1.LineUvs.length = L ∧
      ∀ j, j < i + 1 → st1.LineVertices[j * 2]? = some (RibbonC0 E T m j) ∧
        st1.LineVertices[j * 2 + 1]? = some (RibbonC1 E T m j) := by
  unfold CalculateVertexPositionsStep
  simp only [Option.bind_eq_bind, Nat.add_zero]
  rw [SetAt_of_lt _ _ _ (by omega)]
  simp only [Option.some_bind]
  rw [SetAt_of_lt _ _ _ (by rw [List.length_set]; omega)]
  simp only [Option.some_bind]
  rw [SetAt_of_lt _ _ _ (by omega)]
  simp only [Option.some_bind]
  rw [SetAt_of_lt _ _ _ (by rw [List.length_set]; omega)]
  simp only [Option.some_bind]
  refine ⟨_, rfl, by simp [hV], by simp [hU], ?_⟩
  intro j hj
  rcases Nat.lt_succ_iff_lt_or_eq.mp hj with hlt | heq
  · obtain ⟨p0, p1⟩ := hprev j hlt
    constructor
    · show ((st.LineVertices.set (i * 2) _).set (i * 2 + 1) _)[j * 2]? = _
      rw [List.getElem?_set_ne (by omega), List.getElem?_set_ne (by omega)]
      exact p0
    · show ((st.LineVertices.set (i * 2) _).set (i * 2 + 1) _)[j * 2 + 1]? = _
      rw [List.getElem?_set_ne (by omega), List.getElem?_set_ne (by omega)]
      exact p1
  · subst heq
    constructor
    · show ((st.LineVertices.set (j * 2) _).set (j * 2 + 1) _)[j * 2]? = _
      rw [List.getElem?_set_ne (by omega), List.getElem?_set_self (by omega)]
      rfl
    · show ((st.LineVertices.set (j * 2) _).set (j * 2 + 1) _)[j * 2 + 1]? = _
      rw [List.getElem?_set_self (by rw [List.length_set]; omega)]
      rfl

/-- With line buffers of size `2 * M` for a chain of `M` points, `CalculateVertexPositions`
returns, keeps the buffer sizes and changes nothing but the line vertices, the line UVs
and the cycle stamp. -/
theorem CalculateVertexPositions_isSome (E : Engine α) (T : Trig α) (m : ULineMesh α)
    (hV : m.LineVertices.length = m.Bezier.Tessellated.length * 2)
    (hU : m.LineUvs.length = m.Bezier.Tessellated.length * 2) :
    ∃ m1, CalculateVertexPositions E T m = some m1 ∧ SameExceptRibbon m m1 ∧
      m1.LineVertices.length = m.Bezier.Tessellated.length * 2 ∧
      m1.LineUvs.length = m.Bezier.Tessellated.length * 2 := by
  unfold CalculateVertexPositions
  by_cases h2 : m.Bezier.Points.length < 2
  · rw [if_pos h2]
    exact ⟨m, rfl, ⟨rfl, rfl, rfl, rfl, rfl, rfl, rfl, rfl, rfl, rfl⟩, hV, hU⟩
  rw [if_neg h2]
  by_cases hc : m.LastVertexPositionCalculation = m.DataCycle
  · rw [if_pos hc]
    exact ⟨m, rfl, ⟨rfl, rfl, rfl, rfl, rfl, rfl, rfl, rfl, rfl, rfl⟩, hV, hU⟩
  rw [if_neg hc]
  obtain ⟨r, hr, hrV, hrU, -⟩ := foldlM_range_isSome
    (fun k (st : VertexLoop α) =>
      st.LineVertices.length = m.Bezier.Tessellated.length * 2 ∧
      st.LineUvs.length = m.Bezier.Tessellated.length * 2 ∧
      ∀ j, j < k → st.LineVertices[j * 2]? = some (RibbonC0 E T m j) ∧
        st.LineVertices[j * 2 + 1]? = some (RibbonC1 E T m j))
    m.Bezier.Tessellated.length (CalculateVertexPositionsStep E T m)
    { TotalDistance := 0, LineVertices := m.LineVertices, LineUvs := m.LineUvs }
    ⟨hV, hU, fun j hj => absurd hj (Nat.not_lt_zero j)⟩
    (fun i st hi hP => by
      obtain ⟨st1, h1, h2, h3, h4⟩ := CalculateVertexPositionsStep_spec E T m st i
        (m.Bezier.Tessellated.length * 2) hP.1 hP.2.1 (by omega) hP.2.2
      exact ⟨st1, h1, h2, h3, h4⟩)
  simp only [Option.bind_eq_bind]
  rw [hr]
  exact ⟨_, rfl, ⟨rfl, rfl, rfl, rfl, rfl, rfl, rfl, rfl, rfl, rfl⟩, hrV, hrU⟩

/-- When the calculation is due (at least two control points, and a data cycle that differs
from the stamp of the last calculation), `CalculateVertexPositions` writes the cross-section
of every chain point. -/
theorem CalculateVertexPositions_spec (E : Engine α) (T : Trig α) (m : ULineMesh α)
    (hV : m.LineVertices.length = m.Bezier.Tessellated.length * 2)
    (hU : m.LineUvs.length = m.Bezier.Tessellated.length * 2)
    (h2 : 2 ≤ m.Bezier.Points.length) (hc : m.LastVertexPositionCalculation ≠ m.DataCycle) :
    ∃ m1, CalculateVertexPositions E T m = some m1 ∧ SameExceptRibbon m m1 ∧
      m1.LineVertices.length = m.Bezier.Tessellated.length * 2 ∧
      m1.LineUvs.length = m.Bezier.Tessellated.length * 2 ∧
      ∀ j, j < m.Bezier.Tessellated.length →
        m1.LineVertices[j * 2]? = some (RibbonC0 E T m j) ∧
        m1.LineVertices[j * 2 + 1]? = some (RibbonC1 E T m j) := by
  unfold CalculateVertexPositions
  rw [if_neg (by omega), if_neg hc]
  obtain ⟨r, hr, hrV, hrU, hrw⟩ := foldlM_range_isSome
    (fun k (st : VertexLoop α) =>
      st.LineVertices.length = m.Bezier.Tessellated.length * 2 ∧
      st.LineUvs.length = m.Bezier.Tessellated.length * 2 ∧
      ∀ j, j < k → st.LineVertices[j * 2]? = some (RibbonC0 E T m j) ∧
        st.LineVertices[j * 2 + 1]? = some (RibbonC1 E T m j))
    m.Bezier.Tessellated.length (CalculateVertexPositionsStep E T m)
    { TotalDistance := 0, LineVertices := m.LineVertices, LineUvs := m.LineUvs }
    ⟨hV, hU, fun j hj => absurd hj (Nat.not_lt_zero j)⟩
    (fun i st hi hP => by
      obtain ⟨st1, h1, h2, h3, h4⟩ := CalculateVertexPositionsStep_spec E T m st i
        (m.Bezier.Tessellated.length * 2) hP.1 hP.2.1 (by omega) hP.2.2
      exact ⟨st1, h1, h2, h3, h4⟩)
  simp only [Option.bind_eq_bind]
  rw [hr]
  exact ⟨_, rfl, ⟨rfl, rfl, rfl, rfl, rfl, rfl, rfl, rfl, rfl, rfl⟩, hrV, hrU, hrw⟩

/-- The triangle loop of `CreateMesh` keeps the buffer size and writes, for every quad
`i < n`, the six indices `(2i, 2i+1, 2i+3)`, `(2i, 2i+3, 2i+2)` at `6i, …, 6i + 5`. -/
theorem CreateMeshTriangles_spec (n : Nat) (L : List Int) (hL : L.length = n * 6) :
    (forRange 0 n CreateMeshTrianglesStep L).length = n * 6 ∧
    ∀ i, i < n →
      (forRange 0 n CreateMeshTrianglesStep L)[i * 6]? = some ((i : Int) * 2) ∧
      (forRange 0 n CreateMeshTrianglesStep L)[i * 6 + 1]? = some ((i : Int) * 2 + 1) ∧
      (forRange 0 n CreateMeshTrianglesStep L)[i * 6 + 2]? = some ((i : Int) * 2 + 3) ∧
      (forRange 0 n CreateMeshTrianglesStep L)[i * 6 + 3]? = some ((i : Int) * 2) ∧
      (forRange 0 n CreateMeshTrianglesStep L)[i * 6 + 4]? = some ((i : Int) * 2 + 3) ∧
      (forRange 0 n CreateMeshTrianglesStep L)[i * 6 + 5]? = some ((i : Int) * 2 + 2) := by
  have key := forRange_induction
    (fun k (R : List Int) => R.length = n * 6 ∧ ∀ i, i < k →
      R[i * 6]? = some ((i : Int) * 2) ∧ R[i * 6 + 1]? = some ((i : Int) * 2 + 1) ∧
      R[i * 6 + 2]? = some ((i : Int) * 2 + 3) ∧ R[i * 6 + 3]? = some ((i : Int) * 2) ∧
      R[i * 6 + 4]? = some ((i : Int) * 2 + 3) ∧ R[i * 6 + 5]? = some ((i : Int) * 2 + 2))
    0 n (Nat.zero_le n) CreateMeshTrianglesStep L
    ⟨hL, fun i hi => absurd hi (Nat.not_lt_zero i)⟩
    (fun k R hk0 hkn hP => by
      obtain ⟨hlen, hprev⟩ := hP
      refine ⟨by simp only [CreateMeshTrianglesStep, List.length_set]; exact hlen, ?_⟩
      intro i hi
      rcases Nat.lt_succ_iff_lt_or_eq.mp hi with hlt | heq
      · obtain ⟨p0, p1, p2, p3, p4, p5⟩ := hprev i hlt
        unfold CreateMeshTrianglesStep
        simp only [Nat.add_zero]
        refine ⟨?_, ?_, ?_, ?_, ?_, ?_⟩ <;>
        · rw [List.getElem?_set_ne (by omega), List.getElem?_set_ne (by omega),
            List.getElem?_set_ne (by omega), List.getElem?_set_ne (by omega),
            List.getElem?_set_ne (by omega), List.getElem?_set_ne (by omega)]
          assumption
      · subst heq
        unfold CreateMeshTrianglesStep
        simp only [Nat.add_zero]
        refine ⟨?_, ?_, ?_, ?_, ?_, ?_⟩ <;>
        simp [List.getElem?_set, hlen] <;> omega)
  exact key

theorem AddArrowHeadTriangles_sizes (ArrowMesh : FMeshParams α) (Active : Bool)
    (h : Active = true) :
    (AddArrowHeadTriangles ArrowMesh Active).Vertices.length = 6 ∧
    (AddArrowHeadTriangles ArrowMesh Active).Uvs.length = 6 := by
  subst h
  simp [AddArrowHeadTriangles, length_SetNumZeroed]

/-- For a chain of at least two points `CreateMesh` returns, with line buffers of size
`2 * M` and the triangles of `CreateMeshTriangles_spec`. -/
theorem CreateMesh_spec (E : Engine α) (T : Trig α) (m : ULineMesh α)
    (hM : 2 ≤ m.Bezier.Tessellated.length) :
    ∃ m1, CreateMesh E T m = some m1 ∧
      m1.LineVertices.length = m.Bezier.Tessellated.length * 2 ∧
      m1.LineUvs.length = m.Bezier.Tessellated.length * 2 ∧
      m1.LineTriangles = forRange 0 (m.Bezier.Tessellated.length - 1) CreateMeshTrianglesStep
        (SetNumZeroed m.LineTriangles ((m.Bezier.Tessellated.length - 1) * 6)) := by
  unfold CreateMesh
  simp only [ge_iff_le, if_pos hM, Option.bind_eq_bind]
  obtain ⟨m2, hm2, hsame, hV, hU⟩ := CalculateVertexPositions_isSome E T
    { m with
      LineVertices := SetNumZeroed m.LineVertices (m.Bezier.Tessellated.length * 2),
      LineUvs := SetNumZeroed m.LineUvs (m.Bezier.Tessellated.length * 2),
      LineTriangles := forRange 0 (m.Bezier.Tessellated.length - 1) CreateMeshTrianglesStep
        (SetNumZeroed m.LineTriangles ((m.Bezier.Tessellated.length - 1) * 6)) }
    (length_SetNumZeroed _ _) (length_SetNumZeroed _ _)
  rw [hm2]
  simp only [Option.some_bind]
  obtain ⟨b1, b2, b3, b4, b5, b6, b7, b8, b9, b10⟩ := hsame
  obtain ⟨m3, hm3, hsame3, -⟩ := CalculateAllArrowHeadVertices_isSome E
    { m2 with
      StartArrowMesh := AddArrowHeadTriangles m2.StartArrowMesh m2.StartArrow,
      EndArrowMesh := AddArrowHeadTriangles m2.EndArrowMesh m2.EndArrow }
    (by show m2.LineUvs.length = m2.LineVertices.length
        rw [hU, hV])
    (by show 4 ≤ m2.LineVertices.length
        rw [hV]
        show 4 ≤ m.Bezier.Tessellated.length * 2
        omega)
    (fun h => AddArrowHeadTriangles_sizes _ _ h)
    (fun h => AddArrowHeadTriangles_sizes _ _ h)
  refine ⟨m3, hm3, ?_, ?_, ?_⟩
  · rw [hsame3.2.2.2.2.2.2.2.2.1]
    exact hV
  · rw [hsame3.2.2.2.2.2.2.2.2.2.2]
    exact hU
  · rw [hsame3.2.2.2.2.2.2.2.2.2.1]
    exact b8

/-- C19: for every chain of `M ≥ 2` points `CreateMesh` returns a mesh with exactly `2M`
line vertices, `2M` UVs and `6(M-1)` triangle indices; for every `i ≤ M - 2` the six
indices at `6i, …, 6i+5` are `(2i, 2i+1, 2i+3)` and `(2i, 2i+3, 2i+2)`, and every triangle
index lies in `[0, 2M)`. -/
theorem C19_create_mesh_sizes_and_winding (E : Engine α) (T : Trig α) (m : ULineMesh α)
    (hM : 2 ≤ m.Bezier.Tessellated.length) :
    ∃ m1, CreateMesh E T m = some m1 ∧
      m1.LineVertices.length = 2 * m.Bezier.Tessellated.length ∧
      m1.LineUvs.length = 2 * m.Bezier.Tessellated.length ∧
      m1.LineTriangles.length = 6 * (m.Bezier.Tessellated.length - 1) ∧
      (∀ i, i < m.Bezier.Tessellated.length - 1 →
        m1.LineTriangles[6 * i]? = some (2 * (i : Int)) ∧
        m1.LineTriangles[6 * i + 1]? = some (2 * (i : Int) + 1) ∧
        m1.LineTriangles[6 * i + 2]? = some (2 * (i : Int) + 3) ∧
        m1.LineTriangles[6 * i + 3]? = some (2 * (i : Int)) ∧
        m1.LineTriangles[6 * i + 4]? = some (2 * (i : Int) + 3) ∧
        m1.LineTriangles[6 * i + 5]? = some (2 * (i : Int) + 2)) ∧
      ∀ x, x ∈ m1.LineTriangles → 0 ≤ x ∧ x < 2 * (m.Bezier.Tessellated.length : Int) := by
  obtain ⟨m1, hm1, hV, hU, hT⟩ := CreateMesh_spec E T m hM
  obtain ⟨hlen, hpat⟩ := CreateMeshTriangles_spec (m.Bezier.Tessellated.length - 1)
    (SetNumZeroed m.LineTriangles ((m.Bezier.Tessellated.length - 1) * 6))
    (length_SetNumZeroed _ _)
  rw [← hT] at hlen hpat
  have hpat2 : ∀ i, i < m.Bezier.Tessellated.length - 1 →
      m1.LineTriangles[6 * i]? = some (2 * (i : Int)) ∧
      m1.LineTriangles[6 * i + 1]? = some (2 * (i : Int) + 1) ∧
      m1.LineTriangles[6 * i + 2]? = some (2 * (i : Int) + 3) ∧
      m1.LineTriangles[6 * i + 3]? = some (2 * (i : Int)) ∧
      m1.LineTriangles[6 * i + 4]? = some (2 * (i : Int) + 3) ∧
      m1.LineTriangles[6 * i + 5]? = some (2 * (i : Int) + 2) := by
    intro i hi
    have h := hpat i hi
    rw [Nat.mul_comm i 6, mul_comm (i : Int) 2] at h
    exact h
  refine ⟨m1, hm1, by rw [hV, Nat.mul_comm], by rw [hU, Nat.mul_comm],
    by rw [hlen, Nat.mul_comm], hpat2, ?_⟩
  intro x hx
  obtain ⟨n, hn, hnx⟩ := List.getElem_of_mem hx
  have hq : n / 6 < m.Bezier.Tessellated.length - 1 := by
    rw [hlen] at hn
    exact Nat.div_lt_of_lt_mul (by rw [Nat.mul_comm]; exact hn)
  obtain ⟨p0, p1, p2, p3, p4, p5⟩ := hpat2 (n / 6) hq
  have hget : m1.LineTriangles[n]? = some x := by
    rw [List.getElem?_eq_getElem hn, hnx]
  have hr : n % 6 < 6 := Nat.mod_lt n (by norm_num)
  have hdm : 6 * (n / 6) + n % 6 = n := Nat.div_add_mod n 6
  have hcast : ((n / 6 : Nat) : Int) + 1 < (m.Bezier.Tessellated.length : Int) := by omega
  have hnn : (0 : Int) ≤ ((n / 6 : Nat) : Int) := Int.natCast_nonneg _
  rcases (by omega : n % 6 = 0 ∨ n % 6 = 1 ∨ n % 6 = 2 ∨ n % 6 = 3 ∨ n % 6 = 4 ∨ n % 6 = 5)
    with h | h | h | h | h | h
  · have e : n = 6 * (n / 6) := by omega
    rw [e, p0] at hget
    have := Option.some.inj hget
    omega
  · have e : n = 6 * (n / 6) + 1 := by omega
    rw [e, p1] at hget
    have := Option.some.inj hget
    omega
  · have e : n = 6 * (n / 6) + 2 := by omega
    rw [e, p2] at hget
    have := Option.some.inj hget
    omega
  · have e : n = 6 * (n / 6) + 3 := by omega
    rw [e, p3] at hget
    have := Option.some.inj hget
    omega
  · have e : n = 6 * (n / 6) + 4 := by omega
    rw [e, p4] at hget
    have := Option.some.inj hget
    omega
  · have e : n = 6 * (n / 6) + 5 := by omega
    rw [e, p5] at hget
    have := Option.some.inj hget
    omega

theorem C19_create_mesh_sizes_and_winding_witness :
    2 ≤ meshExample.Bezier.Tessellated.length ∧
    ∃ m1, CreateMesh ratEngine ratTrig meshExample = some m1 ∧
      m1.LineVertices.length = 2 * meshExample.Bezier.Tessellated.length ∧
      m1.LineUvs.length = 2 * meshExample.Bezier.Tessellated.length ∧
      m1.LineTriangles.length = 6 * (meshExample.Bezier.Tessellated.length - 1) ∧
      (∀ i, i < meshExample.Bezier.Tessellated.length - 1 →
        m1.LineTriangles[6 * i]? = some (2 * (i : Int)) ∧
        m1.LineTriangles[6 * i + 1]? = some (2 * (i : Int) + 1) ∧
        m1.LineTriangles[6 * i + 2]? = some (2 * (i : Int) + 3) ∧
        m1.LineTriangles[6 * i + 3]? = some (2 * (i : Int)) ∧
        m1.LineTriangles[6 * i + 4]? = some (2 * (i : Int) + 3) ∧
        m1.LineTriangles[6 * i + 5]? = some (2 * (i : Int) + 2)) ∧
      ∀ x, x ∈ m1.LineTriangles →
        0 ≤ x ∧ x < 2 * (meshExample.Bezier.Tessellated.length : Int) :=
  ⟨by decide, C19_create_mesh_sizes_and_winding ratEngine ratTrig meshExample (by decide)⟩

end MeshTheorems

/-! ## The ribbon of a straight line -/

section StraightRibbon

variable {α : Type} [LinearOrderedField α] [FloorRing α]

/-- Above the tolerance, `GetSafeNormal` scales the vector by a positive factor `k` with
`k² |v|² = 1`. -/
theorem GetSafeNormal_scale (E : Engine α) (hE : ∀ x, 0 ≤ E.Sqrt x)
    (hsq : ∀ x, 0 ≤ x → E.Sqrt x * E.Sqrt x = x) (v : FVector α)
    (h0 : 0 < E.SmallNumber) (htol : E.SmallNumber ≤ v.SizeSquared) :
    ∃ k, 0 < k ∧ v.GetSafeNormal E = v * k ∧ k * k * v.SizeSquared = 1 := by
  unfold FVector.SizeSquared at htol ⊢
  unfold FVector.GetSafeNormal
  simp only []
  split_ifs with h1 h2
  · refine ⟨1, one_pos, ?_, by rw [h1]; ring⟩
    ext <;> simp
  · exact absurd htol (not_le.mpr h2)
  · have hpos : 0 < v.X * v.X + v.Y * v.Y + v.Z * v.Z := lt_of_lt_of_le h0 htol
    have hs := hsq _ hpos.le
    have hne : E.Sqrt (v.X * v.X + v.Y * v.Y + v.Z * v.Z) ≠ 0 := by
      intro h
      rw [h] at hs
      simp at hs
      exact absurd hs.symm (ne_of_gt hpos)
    have hspos : 0 < E.Sqrt (v.X * v.X + v.Y * v.Y + v.Z * v.Z) :=
      lt_of_le_of_ne (hE _) (Ne.symm hne)
    refine ⟨1 / E.Sqrt (v.X * v.X + v.Y * v.Y + v.Z * v.Z), by positivity, rfl, ?_⟩
    field_simp
    exact hs.symm

theorem FVector.smul_SizeSquared (v : FVector α) (k : α) :
    (v * k).SizeSquared = k * k * v.SizeSquared := by
  unfold FVector.SizeSquared
  simp
  ring

/-- A unit vector is returned unchanged by `GetSafeNormal`. -/
theorem GetSafeNormal_of_unit (E : Engine α) (v : FVector α) (h : v.SizeSquared = 1) :
    v.GetSafeNormal E = v := by
  unfold FVector.SizeSquared at h
  unfold FVector.GetSafeNormal
  simp only []
  rw [if_pos h]

/-- The cross-sections of the straight chain `[A, B]`: at both chain points the
perpendicular is one unit vector `P` orthogonal to `B - A` and to the up vector, and the
effective width is the configured width. -/
theorem straight_cross_sections (E : Engine α) (T : Trig α) (hE : ∀ x, 0 ≤ E.Sqrt x)
    (hsq : ∀ x, 0 ≤ x → E.Sqrt x * E.Sqrt x = x) (hAcos : T.Acos 1 = 0) (hCos : T.Cos 0 = 1)
    (A B Up : FVector α) (w : α) (h0 : 0 < E.SmallNumber)
    (hlen : E.SmallNumber ≤ (B - A).SizeSquared)
    (hup : Up.SizeSquared = 1)
    (hcross : E.SmallNumber * (B - A).SizeSquared ≤
      (FVector.CrossProduct Up (B - A)).SizeSquared) :
    ∃ P : FVector α, P.SizeSquared = 1 ∧ FVector.DotProduct P (B - A) = 0 ∧
      FVector.DotProduct P Up = 0 ∧
      ∀ i, i < 2 → RibbonPerpendicular E Up [A, B] i = P ∧
        RibbonEffectiveLineWidth E T w [A, B] i = w := by
  obtain ⟨k, hk, hd, hk1⟩ := GetSafeNormal_scale E hE hsq (B - A) h0 hlen
  have hL : 0 < (B - A).SizeSquared := lt_of_lt_of_le h0 hlen
  -- the unit direction of the line
  have hdss : ((B - A) * k).SizeSquared = 1 := by rw [FVector.smul_SizeSquared]; exact hk1
  -- the average of the direction with itself is the direction
  have hsum : (((B - A) * k) + ((B - A) * k)).SizeSquared = 4 := by
    have : (((B - A) * k) + ((B - A) * k)).SizeSquared = 4 * ((B - A) * k).SizeSquared := by
      unfold FVector.SizeSquared
      simp
      ring
    rw [this, hdss, mul_one]
  have hcrossd : E.SmallNumber ≤ (FVector.CrossProduct Up ((B - A) * k)).SizeSquared := by
    have e : (FVector.CrossProduct Up ((B - A) * k)).SizeSquared =
        k * k * (FVector.CrossProduct Up (B - A)).SizeSquared := by
      unfold FVector.SizeSquared FVector.CrossProduct
      simp
      ring
    rw [e]
    have hkk : 0 ≤ k * k := mul_self_nonneg k
    calc E.SmallNumber = k * k * (E.SmallNumber * (B - A).SizeSquared) := by
          rw [mul_comm E.SmallNumber, ← mul_assoc, hk1, one_mul]
      _ ≤ k * k * (FVector.CrossProduct Up (B - A)).SizeSquared :=
          mul_le_mul_of_nonneg_left hcross hkk
  have hle1 : (FVector.CrossProduct Up ((B - A) * k)).SizeSquared ≤ 1 := by
    have e : (FVector.CrossProduct Up ((B - A) * k)).SizeSquared =
        Up.SizeSquared * ((B - A) * k).SizeSquared -
          FVector.DotProduct Up ((B - A) * k) * FVector.DotProduct Up ((B - A) * k) := by
      unfold FVector.SizeSquared FVector.CrossProduct FVector.DotProduct
      simp
      ring
    rw [e, hup, hdss]
    have := mul_self_nonneg (FVector.DotProduct Up ((B - A) * k))
    linarith
  have htol4 : E.SmallNumber ≤ (((B - A) * k) + ((B - A) * k)).SizeSquared := by
    rw [hsum]
    linarith
  obtain ⟨k2, hk2, havg, hk21⟩ := GetSafeNormal_scale E hE hsq _ h0 htol4
  have hk2v : k2 = 1 / 2 := by
    rw [hsum] at hk21
    have h4 : (2 * k2) * (2 * k2) = 1 * 1 := by linarith
    have := (mul_self_inj_of_nonneg (by positivity) zero_le_one).mp h4
    linarith
  have havg2 : (((B - A) * k) + ((B - A) * k)).GetSafeNormal E = (B - A) * k := by
    rw [havg, hk2v]
    ext <;> simp <;> ring
  obtain ⟨k3, hk3, hP, hk31⟩ := GetSafeNormal_scale E hE hsq _ h0 hcrossd
  have hin : A - (A - (B - A)) = B - A := by
    ext <;> simp
  have hout : B + (B - A) - B = B - A := by
    ext <;> simp
  refine ⟨FVector.CrossProduct Up ((B - A) * k) * k3, ?_, ?_, ?_, ?_⟩
  · rw [FVector.smul_SizeSquared]
    exact hk31
  · unfold FVector.DotProduct FVector.CrossProduct
    simp
    ring
  · unfold FVector.DotProduct FVector.CrossProduct
    simp
    ring
  · intro i hi
    have hdot : FVector.DotProduct ((B - A) * k) ((B - A) * k) = 1 := by
      have : FVector.DotProduct ((B - A) * k) ((B - A) * k) = ((B - A) * k).SizeSquared := rfl
      rw [this, hdss]
    have hfac : Clamp (T.Cos (T.Acos 1 / 2)) (1 / 5) 1 = (1 : α) := by
      rw [hAcos, zero_div, hCos]
      unfold Clamp
      rw [min_self, max_eq_left]
      norm_num
    rcases (by omega : i = 0 ∨ i = 1) with h | h
    · subst h
      constructor
      · unfold RibbonPerpendicular RibbonPrevPoint RibbonNextPoint
        simp only [List.getD_cons_zero, List.getD_cons_succ, List.length_cons,
          List.length_nil, if_true]
        norm_num
        rw [hin, hd, havg2, hP]
      · unfold RibbonEffectiveLineWidth RibbonPrevPoint RibbonNextPoint
        simp only [List.getD_cons_zero, List.getD_cons_succ, List.length_cons,
          List.length_nil, if_true]
        norm_num
        rw [hin, hd, hdot, hfac, div_one]
    · subst h
      constructor
      · unfold RibbonPerpendicular RibbonPrevPoint RibbonNextPoint
        simp only [List.getD_cons_zero, List.getD_cons_succ, List.length_cons,
          List.length_nil]
        norm_num
        rw [hout, hd, havg2, hP]
      · unfold RibbonEffectiveLineWidth RibbonPrevPoint RibbonNextPoint
        simp only [List.getD_cons_zero, List.getD_cons_succ, List.length_cons,
          List.length_nil]
        norm_num
        rw [hout, hd, hdot, hfac, div_one]

/-- For a chain of at least two points, at least two control points and a due vertex
calculation, `CreateMesh` returns a mesh whose line vertices are the cross-sections
`RibbonC0`, `RibbonC1` of the chain points. -/
theorem CreateMesh_vertices (E : Engine α) (T : Trig α) (m : ULineMesh α)
    (hM : 2 ≤ m.Bezier.Tessellated.length) (h2 : 2 ≤ m.Bezier.Points.length)
    (hc : m.LastVertexPositionCalculation ≠ m.DataCycle) :
    ∃ m1, CreateMesh E T m = some m1 ∧
      m1.LineVertices.length = m.Bezier.Tessellated.length * 2 ∧
      m1.LineTriangles = forRange 0 (m.Bezier.Tessellated.length - 1) CreateMeshTrianglesStep
        (SetNumZeroed m.LineTriangles ((m.Bezier.Tessellated.length - 1) * 6)) ∧
      ∀ j, j < m.Bezier.Tessellated.length →
        m1.LineVertices[j * 2]? = some (RibbonC0 E T m j) ∧
        m1.LineVertices[j * 2 + 1]? = some (RibbonC1 E T m j) := by
  unfold CreateMesh
  simp only [ge_iff_le, if_pos hM, Option.bind_eq_bind]
  obtain ⟨m2, hm2, hsame, hV, hU, hvert⟩ := CalculateVertexPositions_spec E T
    { m with
      LineVertices := SetNumZeroed m.LineVertices (m.Bezier.Tessellated.length * 2),
      LineUvs := SetNumZeroed m.LineUvs (m.Bezier.Tessellated.length * 2),
      LineTriangles := forRange 0 (m.Bezier.Tessellated.length - 1) CreateMeshTrianglesStep
        (SetNumZeroed m.LineTriangles ((m.Bezier.Tessellated.length - 1) * 6)) }
    (length_SetNumZeroed _ _) (length_SetNumZeroed _ _) h2 hc
  rw [hm2]
  simp only [Option.some_bind]
  obtain ⟨b1, b2, b3, b4, b5, b6, b7, b8, b9, b10⟩ := hsame
  obtain ⟨m3, hm3, hsame3, -⟩ := CalculateAllArrowHeadVertices_isSome E
    { m2 with
      StartArrowMesh := AddArrowHeadTriangles m2.StartArrowMesh m2.StartArrow,
      EndArrowMesh := AddArrowHeadTriangles m2.EndArrowMesh m2.EndArrow }
    (by show m2.LineUvs.length = m2.LineVertices.length
        rw [hU, hV])
    (by show 4 ≤ m2.LineVertices.length
        rw [hV]
        show 4 ≤ m.Bezier.Tessellated.length * 2
        omega)
    (fun h => AddArrowHeadTriangles_sizes _ _ h)
    (fun h => AddArrowHeadTriangles_sizes _ _ h)
  refine ⟨m3, hm3, ?_, ?_, ?_⟩
  · rw [hsame3.2.2.2.2.2.2.2.2.1]
    exact hV
  · rw [hsame3.2.2.2.2.2.2.2.2.2.1]
    exact b8
  · rw [hsame3.2.2.2.2.2.2.2.2.1]
    exact hvert

/-- The two vertices `C ± P * (w / 2)` of a cross-section with a unit perpendicular `P`
are at distance `w` from each other. -/
theorem cross_section_width (E : Engine α) (hE : ∀ x, 0 ≤ E.Sqrt x)
    (hsq : ∀ x, 0 ≤ x → E.Sqrt x * E.Sqrt x = x) (C P : FVector α) (w : α) (hw : 0 ≤ w)
    (hP : P.SizeSquared = 1) :
    ((C + P * (w / 2)) - (C - P * (w / 2))).Size E = w := by
  unfold FVector.SizeSquared at hP
  unfold FVector.Size
  simp only [FVector.add_X, FVector.add_Y, FVector.add_Z, FVector.sub_X, FVector.sub_Y,
    FVector.sub_Z, FVector.mul_X, FVector.mul_Y, FVector.mul_Z]
  have e : (C.X + P.X * (w / 2) - (C.X - P.X * (w / 2))) *
        (C.X + P.X * (w / 2) - (C.X - P.X * (w / 2))) +
      (C.Y + P.Y * (w / 2) - (C.Y - P.Y * (w / 2))) *
        (C.Y + P.Y * (w / 2) - (C.Y - P.Y * (w / 2))) +
      (C.Z + P.Z * (w / 2) - (C.Z - P.Z * (w / 2))) *
        (C.Z + P.Z * (w / 2) - (C.Z - P.Z * (w / 2))) = w * w * 1 := by
    rw [← hP]
    ring
  rw [e, Sqrt_mul_self_mul E hE hsq w 1 hw zero_le_one, Sqrt_one E hE hsq, mul_one]

/-- C20 (amended): for the hard-corner chain of two points `A`, `B` whose squared
distance is not below the tolerance of `GetSafeNormal`, a width `w > 0`, a unit up vector
whose cross product with `B - A` is not below the tolerance either, and a due vertex
calculation, `CreateMesh` returns a ribbon with exactly the four vertices `A ± P * (w/2)`,
`B ± P * (w/2)` and six triangle indices, where `P` is one unit vector perpendicular to
`B - A` and to the up vector; the two vertices of each cross-section are `w` apart. -/
theorem C20_straight_ribbon (E : Engine α) (T : Trig α) (hE : ∀ x, 0 ≤ E.Sqrt x)
    (hsq : ∀ x, 0 ≤ x → E.Sqrt x * E.Sqrt x = x) (hAcos : T.Acos 1 = 0) (hCos : T.Cos 0 = 1)
    (fuel : Nat) (s : FBezierCalc α) (m : ULineMesh α) (A B : FVector α)
    (hPts : s.Points = [A, B]) (hHard : s.HardCorners = true)
    (hCalc : Calculate E fuel s = some m.Bezier)
    (hdue : m.LastVertexPositionCalculation ≠ m.DataCycle)
    (hw : 0 < m.LineWidth) (h0 : 0 < E.SmallNumber)
    (hlen : E.SmallNumber ≤ (B - A).SizeSquared)
    (hup : m.UpVector.SizeSquared = 1)
    (hcross : E.SmallNumber * (B - A).SizeSquared ≤
      (FVector.CrossProduct m.UpVector (B - A)).SizeSquared) :
    ∃ m1 P, CreateMesh E T m = some m1 ∧
      m1.LineVertices = [A + P * (m.LineWidth / 2), A - P * (m.LineWidth / 2),
        B + P * (m.LineWidth / 2), B - P * (m.LineWidth / 2)] ∧
      m1.LineTriangles.length = 6 ∧
      P.SizeSquared = 1 ∧ FVector.DotProduct P (B - A) = 0 ∧
      FVector.DotProduct P m.UpVector = 0 ∧
      ((A + P * (m.LineWidth / 2)) - (A - P * (m.LineWidth / 2))).Size E = m.LineWidth ∧
      ((B + P * (m.LineWidth / 2)) - (B - P * (m.LineWidth / 2))).Size E = m.LineWidth := by
  have hB : m.Bezier = CalculateHard E s := by
    unfold Calculate at hCalc
    rw [if_pos hHard] at hCalc
    exact (Option.some.inj hCalc).symm
  have hTess : m.Bezier.Tessellated = [A, B] := by
    rw [hB, CalculateHard_Tessellated, hPts]
  have hPoints : m.Bezier.Points = [A, B] := by
    rw [hB, (CalculateHard_spec E s).1, hPts]
  obtain ⟨P, hP1, hPd, hPu, hsec⟩ := straight_cross_sections E T hE hsq hAcos hCos A B
    m.UpVector m.LineWidth h0 hlen hup hcross
  obtain ⟨m1, hm1, hV, hTri, hvert⟩ := CreateMesh_vertices E T m
    (by rw [hTess]; simp) (by rw [hPoints]; simp) hdue
  have hC0 : ∀ j, j < 2 → RibbonC0 E T m j = [A, B].getD j 0 + P * (m.LineWidth / 2) := by
    intro j hj
    unfold RibbonC0
    rw [hTess, (hsec j hj).1, (hsec j hj).2]
  have hC1 : ∀ j, j < 2 → RibbonC1 E T m j = [A, B].getD j 0 - P * (m.LineWidth / 2) := by
    intro j hj
    unfold RibbonC1
    rw [hTess, (hsec j hj).1, (hsec j hj).2]
  rw [hTess] at hV hvert hTri
  have v0 := (hvert 0 (by simp)).1
  have v1 := (hvert 0 (by simp)).2
  have v2 := (hvert 1 (by simp)).1
  have v3 := (hvert 1 (by simp)).2
  rw [hC0 0 (by norm_num)] at v0
  rw [hC1 0 (by norm_num)] at v1
  rw [hC0 1 (by norm_num)] at v2
  rw [hC1 1 (by norm_num)] at v3
  have hverts : m1.LineVertices = [A + P * (m.LineWidth / 2), A - P * (m.LineWidth / 2),
      B + P * (m.LineWidth / 2), B - P * (m.LineWidth / 2)] := by
    apply List.ext_getElem?
    intro n
    rcases (by omega : n = 0 ∨ n = 1 ∨ n = 2 ∨ n = 3 ∨ 4 ≤ n) with h | h | h | h | h
    · subst h; simpa using v0
    · subst h; simpa using v1
    · subst h; simpa using v2
    · subst h; simpa using v3
    · rw [List.getElem?_eq_none (by rw [hV]; simpa using h),
        List.getElem?_eq_none (by simpa using h)]
  have hTriLen : m1.LineTriangles.length = 6 := by
    rw [hTri]
    exact (CreateMeshTriangles_spec 1 _ (length_SetNumZeroed _ _)).1
  exact ⟨m1, P, hm1, hverts, hTriLen, hP1, hPd, hPu,
    cross_section_width E hE hsq A P m.LineWidth hw.le hP1,
    cross_section_width E hE hsq B P m.LineWidth hw.le hP1⟩

/-- Witness of C20 (amended) over the real numbers with the real square root, cosine and
arc cosine: the hard-corner line from `(0,0,0)` to `(100,0,0)`, width 10, up `(0,0,1)`;
and the vertices of the same ribbon computed over `ℚ`. -/
theorem C20_straight_ribbon_witness :
    (∃ (m1 : ULineMesh ℝ) (P : FVector ℝ),
      CreateMesh (⟨Real.sqrt, 1 / 100000000⟩ : Engine ℝ) (⟨Real.cos, Real.arccos⟩ : Trig ℝ)
        { Bezier := CalculateHard (⟨Real.sqrt, 1 / 100000000⟩ : Engine ℝ)
            (FBezierCalc.fresh [⟨0, 0, 0⟩, ⟨100, 0, 0⟩] true (3 / 10) (95 / 100)),
          UpVector := ⟨0, 0, 1⟩, LineWidth := 10, StartArrow := false, EndArrow := false,
          ArrowScale := 1, DataCycle := 1, LastVertexPositionCalculation := 0,
          LineVertices := [], LineTriangles := [], LineUvs := [],
          StartArrowMesh := ⟨[], [], []⟩, EndArrowMesh := ⟨[], [], []⟩ } = some m1 ∧
      m1.LineVertices = [(FVector.mk 0 0 0 : FVector ℝ) + P * ((10 : ℝ) / 2),
        (FVector.mk 0 0 0 : FVector ℝ) - P * ((10 : ℝ) / 2),
        (FVector.mk 100 0 0 : FVector ℝ) + P * ((10 : ℝ) / 2),
        (FVector.mk 100 0 0 : FVector ℝ) - P * ((10 : ℝ) / 2)] ∧
      m1.LineTriangles.length = 6 ∧
      P.SizeSquared = 1 ∧
      FVector.DotProduct P ((FVector.mk 100 0 0 : FVector ℝ) - FVector.mk 0 0 0) = 0 ∧
      FVector.DotProduct P (FVector.mk 0 0 1 : FVector ℝ) = 0 ∧
      FVector.Size (⟨Real.sqrt, 1 / 100000000⟩ : Engine ℝ)
        (((FVector.mk 0 0 0 : FVector ℝ) + P * ((10 : ℝ) / 2)) -
          ((FVector.mk 0 0 0 : FVector ℝ) - P * ((10 : ℝ) / 2))) = 10 ∧
      FVector.Size (⟨Real.sqrt, 1 / 100000000⟩ : Engine ℝ)
        (((FVector.mk 100 0 0 : FVector ℝ) + P * ((10 : ℝ) / 2)) -
          ((FVector.mk 100 0 0 : FVector ℝ) - P * ((10 : ℝ) / 2))) = 10) ∧
    (CreateMesh ratEngine ratTrig meshExample).map (fun m1 => (m1.LineVertices, m1.LineTriangles))
      = some ([⟨0, 5, 0⟩, ⟨0, -5, 0⟩, ⟨100, 5, 0⟩, ⟨100, -5, 0⟩], [0, 1, 3, 0, 3, 2]) := by
  have hE : ∀ x : ℝ, 0 ≤ (⟨Real.sqrt, 1 / 100000000⟩ : Engine ℝ).Sqrt x := Real.sqrt_nonneg
  have hsq : ∀ x : ℝ, 0 ≤ x → (⟨Real.sqrt, 1 / 100000000⟩ : Engine ℝ).Sqrt x *
      (⟨Real.sqrt, 1 / 100000000⟩ : Engine ℝ).Sqrt x = x := fun x hx => Real.mul_self_sqrt hx
  refine ⟨?_, by decide!⟩
  exact C20_straight_ribbon (⟨Real.sqrt, 1 / 100000000⟩ : Engine ℝ)
    (⟨Real.cos, Real.arccos⟩ : Trig ℝ) hE hsq Real.arccos_one Real.cos_zero 0
    (FBezierCalc.fresh [⟨0, 0, 0⟩, ⟨100, 0, 0⟩] true (3 / 10) (95 / 100))
    { Bezier := CalculateHard (⟨Real.sqrt, 1 / 100000000⟩ : Engine ℝ)
        (FBezierCalc.fresh [⟨0, 0, 0⟩, ⟨100, 0, 0⟩] true (3 / 10) (95 / 100)),
      UpVector := ⟨0, 0, 1⟩, LineWidth := 10, StartArrow := false, EndArrow := false,
      ArrowScale := 1, DataCycle := 1, LastVertexPositionCalculation := 0,
      LineVertices := [], LineTriangles := [], LineUvs := [],
      StartArrowMesh := ⟨[], [], []⟩, EndArrowMesh := ⟨[], [], []⟩ }
    (FVector.mk 0 0 0) (FVector.mk 100 0 0) rfl rfl rfl (by norm_num) (by norm_num)
    (by norm_num)
    (by simp [FVector.SizeSquared]; norm_num)
    (by simp [FVector.SizeSquared])
    (by simp [FVector.SizeSquared, FVector.CrossProduct]; norm_num)

/-- C20 as stated fails for two distinct points closer than the tolerance of
`GetSafeNormal`: on the hard-corner line from `(0,0,0)` to `(1/100000,0,0)` with width 10
and up `(0,0,1)` the perpendicular is the zero vector and both vertices of each
cross-section lie on the chain point, at distance 0 instead of 10. -/
theorem C20_straight_ribbon_counterexample :
    RibbonPerpendicular ratEngine shortMeshExample.UpVector
      shortMeshExample.Bezier.Tessellated 0 = 0 ∧
    (CreateMesh ratEngine ratTrig shortMeshExample).map (fun m1 => m1.LineVertices)
      = some [⟨0, 0, 0⟩, ⟨0, 0, 0⟩, ⟨1 / 100000, 0, 0⟩, ⟨1 / 100000, 0, 0⟩] := by
  decide!

end StraightRibbon

/-! ## Hit detection on the control points -/

section HitPoints

variable {α : Type} [LinearOrderedField α] [FloorRing α]

/-- C16: `HitDetectPoints` returns the nearest visible control point.  When every on-screen
point is closer to the query than `FloatMax`, the result is valid exactly when some control
point projects on screen; a valid result carries the least distance among the on-screen
points and the lowest index that attains it; a result that is not valid is the default
one. -/
theorem C16_hit_detect_points_nearest (E : Engine α) (FloatMax : α)
    (Project : FVector α → Bool × FVector2D α) (s : FBezierCalc α) (HitPos : FVector2D α)
    (hmax : ∀ i, i < s.Points.length → (Project (s.Points.getD i 0)).1 = true →
      FVector2D.Distance E HitPos (Project (s.Points.getD i 0)).2 < FloatMax) :
    ((HitDetectPoints E FloatMax Project s HitPos).Valid = true ↔
      ∃ i, i < s.Points.length ∧ (Project (s.Points.getD i 0)).1 = true) ∧
    ((HitDetectPoints E FloatMax Project s HitPos).Valid = true →
      ∃ j, j < s.Points.length ∧
        (HitDetectPoints E FloatMax Project s HitPos).Segment = (j : Int) ∧
        (Project (s.Points.getD j 0)).1 = true ∧
        (HitDetectPoints E FloatMax Project s HitPos).Distance =
          FVector2D.Distance E HitPos (Project (s.Points.getD j 0)).2 ∧
        (∀ i, i < s.Points.length → (Project (s.Points.getD i 0)).1 = true →
          FVector2D.Distance E HitPos (Project (s.Points.getD j 0)).2 ≤
            FVector2D.Distance E HitPos (Project (s.Points.getD i 0)).2) ∧
        (∀ i, i < j → (Project (s.Points.getD i 0)).1 = true →
          FVector2D.Distance E HitPos (Project (s.Points.getD j 0)).2 <
            FVector2D.Distance E HitPos (Project (s.Points.getD i 0)).2)) ∧
    ((HitDetectPoints E FloatMax Project s HitPos).Valid = false →
      HitDetectPoints E FloatMax Project s HitPos = FHitDetectionResult.default FloatMax) := by
  have key := forRange_induction
    (fun k (R : FHitDetectionResult α) =>
      (R.Valid = false → R = FHitDetectionResult.default FloatMax ∧
        ∀ i, i < k → ¬ (Project (s.Points.getD i 0)).1 = true) ∧
      (R.Valid = true → ∃ j, j < k ∧ R.Segment = (j : Int) ∧
        (Project (s.Points.getD j 0)).1 = true ∧
        R.Distance = FVector2D.Distance E HitPos (Project (s.Points.getD j 0)).2 ∧
        (∀ i, i < k → (Project (s.Points.getD i 0)).1 = true →
          FVector2D.Distance E HitPos (Project (s.Points.getD j 0)).2 ≤
            FVector2D.Distance E HitPos (Project (s.Points.getD i 0)).2) ∧
        (∀ i, i < j → (Project (s.Points.getD i 0)).1 = true →
          FVector2D.Distance E HitPos (Project (s.Points.getD j 0)).2 <
            FVector2D.Distance E HitPos (Project (s.Points.getD i 0)).2)))
    0 s.Points.length (Nat.zero_le _) (HitDetectPointsStep E Project s HitPos)
    (FHitDetectionResult.default FloatMax)
    ⟨fun _ => ⟨rfl, fun i hi => absurd hi (Nat.not_lt_zero i)⟩,
      fun h => by simp [FHitDetectionResult.default] at h⟩
    (fun k R _ hk hP => by
      obtain ⟨hinv, hval⟩ := hP
      unfold HitDetectPointsStep
      simp only []
      split_ifs with hc
      · obtain ⟨hvis, hlt⟩ := hc
        refine ⟨fun h => by simp at h, fun _ => ⟨k, Nat.lt_succ_self k, rfl, hvis, rfl, ?_, ?_⟩⟩
        · intro i hi hv
          rcases Nat.lt_succ_iff_lt_or_eq.mp hi with h | h
          · cases hR : R.Valid with
            | false => exact absurd hv ((hinv hR).2 i h)
            | true =>
              obtain ⟨j, hj, -, -, hd, hmin, -⟩ := hval hR
              rw [hd] at hlt
              exact le_of_lt (lt_of_lt_of_le hlt (hmin i h hv))
          · rw [h]
        · intro i hi hv
          cases hR : R.Valid with
          | false => exact absurd hv ((hinv hR).2 i hi)
          | true =>
            obtain ⟨j, hj, -, -, hd, hmin, -⟩ := hval hR
            rw [hd] at hlt
            exact lt_of_lt_of_le hlt (hmin i hi hv)
      · constructor
        · intro hR
          refine ⟨(hinv hR).1, ?_⟩
          intro i hi hv
          rcases Nat.lt_succ_iff_lt_or_eq.mp hi with h | h
          · exact (hinv hR).2 i h hv
          · subst h
            apply hc
            refine ⟨hv, ?_⟩
            rw [(hinv hR).1]
            exact hmax i hk hv
        · intro hR
          obtain ⟨j, hj, hseg, hvj, hd, hmin, hfirst⟩ := hval hR
          refine ⟨j, Nat.lt_succ_of_lt hj, hseg, hvj, hd, ?_, hfirst⟩
          intro i hi hv
          rcases Nat.lt_succ_iff_lt_or_eq.mp hi with h | h
          · exact hmin i h hv
          · subst h
            rw [← hd]
            by_contra hcon
            exact hc ⟨hv, not_le.mp hcon⟩)
  obtain ⟨hinv, hval⟩ := key
  refine ⟨⟨fun h => ?_, fun h => ?_⟩, hval, fun h => (hinv h).1⟩
  · obtain ⟨j, hj, -, hvj, -⟩ := hval h
    exact ⟨j, hj, hvj⟩
  · obtain ⟨i, hi, hv⟩ := h
    cases hR : (HitDetectPoints E FloatMax Project s HitPos).Valid with
    | true => rfl
    | false => exact absurd hv ((hinv hR).2 i hi)

/-- Witness of C16 on the points `(0,0,0)`, `(3,4,0)`, `(6,0,0)` and the query `(3,0)`:
the first and the last point are both at distance 3, and index 0 is reported. -/
theorem C16_hit_detect_points_nearest_witness :
    (∀ i, i < cornerExample.Points.length →
      (projectExample (cornerExample.Points.getD i 0)).1 = true →
      FVector2D.Distance ratEngine ⟨3, 0⟩ (projectExample (cornerExample.Points.getD i 0)).2 <
        floatMaxExample) ∧
    HitDetectPoints ratEngine floatMaxExample projectExample cornerExample ⟨3, 0⟩ =
      { Valid := true, Segment := 0, Progress := 0, Distance := 3 } ∧
    ((HitDetectPoints ratEngine floatMaxExample projectExample cornerExample ⟨3, 0⟩).Valid
        = true ↔
      ∃ i, i < cornerExample.Points.length ∧
        (projectExample (cornerExample.Points.getD i 0)).1 = true) :=
  ⟨by decide!, by decide!,
    (C16_hit_detect_points_nearest ratEngine floatMaxExample projectExample cornerExample
      ⟨3, 0⟩ (by decide!)).1⟩

end HitPoints

/-! ## The chain and its segment table -/

section Chain

variable {α : Type} [LinearOrderedField α] [FloorRing α]

theorem forRange_congr {σ : Type} (lo hi : Nat) (f g : Nat → σ → σ) (init : σ)
    (h : ∀ i st, lo ≤ i → i < hi → f i st = g i st) :
    forRange lo hi f init = forRange lo hi g init := by
  rcases Nat.lt_or_ge hi lo with hlt | hge
  · rw [forRange_of_ge _ _ (le_of_lt hlt), forRange_of_ge _ _ (le_of_lt hlt)]
  · exact forRange_induction (fun k st => st = forRange lo k g init) lo hi hge f init
      (by show init = forRange lo lo g init
          rw [forRange_self])
      (fun i st h1 h2 hp => by
        show f i st = forRange lo (i + 1) g init
        have hp2 : st = forRange lo i g init := hp
        rw [forRange_succ lo i h1, ← hp2, h i st h1 h2])

theorem ChainLengthFrom_eq (E : Engine α) (Tes : List (FVector α)) (From : Nat) :
    ChainLengthFrom E Tes From = PolylineLength E Tes From (Tes.length - 1) := rfl

theorem PolylineLength_self (E : Engine α) (X : List (FVector α)) (a : Nat) :
    PolylineLength E X a a = 0 := forRange_self _ _ _

theorem PolylineLength_succ (E : Engine α) (X : List (FVector α)) (a b : Nat) (h : a ≤ b) :
    PolylineLength E X a (b + 1) =
      PolylineLength E X a b + FVector.Dist E (X.getD b 0) (X.getD (b + 1) 0) := by
  unfold PolylineLength
  rw [forRange_succ a b h]

/-- The polyline length between two indices of a chain does not change when points are
appended to the chain. -/
theorem PolylineLength_append (E : Engine α) (X Y : List (FVector α)) (a b : Nat)
    (h : b < X.length) : PolylineLength E (X ++ Y) a b = PolylineLength E X a b := by
  unfold PolylineLength
  apply forRange_congr
  intro i st _ hi
  rw [List.getD_append _ _ _ _ (by omega), List.getD_append _ _ _ _ (by omega)]

theorem PolylineLength_add (E : Engine α) (X : List (FVector α)) (a b c : Nat)
    (hab : a ≤ b) (hbc : b ≤ c) :
    PolylineLength E X a c = PolylineLength E X a b + PolylineLength E X b c := by
  induction c with
  | zero =>
    have hb : b = 0 := by omega
    subst hb
    rw [PolylineLength_self, add_zero]
  | succ n ih =>
    rcases Nat.lt_or_ge n b with hlt | hge
    · have hb : b = n + 1 := by omega
      subst hb
      rw [PolylineLength_self, add_zero]
    · rw [PolylineLength_succ E X a n (le_trans hab hge), PolylineLength_succ E X b n hge,
        ih hge, add_assoc]

theorem PolylineLength_nonneg (E : Engine α) (hE : ∀ x, 0 ≤ E.Sqrt x) (X : List (FVector α))
    (a b : Nat) : 0 ≤ PolylineLength E X a b := by
  unfold PolylineLength
  rcases Nat.lt_or_ge b a with h | h
  · rw [forRange_of_ge _ _ (le_of_lt h)]
  · exact forRange_induction (fun _ (x : α) => 0 ≤ x) a b h _ 0 (le_refl _)
      (fun i x _ _ hx => add_nonneg hx (Dist_nonneg E hE _ _))

/-- The state of `CalculateBezier` before the iteration `k ≤ N - 1`, in terms of the chain
extended by the control point `k` that the next iteration starts with: the start indices
`idx 0 < … < idx k` of the segments, the control points found there, and the lengths
recorded so far. -/
theorem CalculateBezier_loop (E : Engine α) (fuel : Nat) (s mid : FBezierCalc α) (n : Nat)
    (hn : n + 1 ≤ s.Points.length)
    (h : (List.range n).foldlM (CalculateBezierStep E fuel)
      { s with
        Tessellated := [],
        SegmentTessIndexes := SetNumZeroed s.SegmentTessIndexes s.Points.length,
        SegmentLengths := SetNumZeroed s.SegmentLengths s.Points.length,
        SegmentStartLengths := SetNumZeroed s.SegmentStartLengths s.Points.length,
        TotalLength := 0 } = some mid) :
    ∃ idx : Nat → Nat,
      mid.Points = s.Points ∧ mid.SegmentTessIndexes.length = s.Points.length ∧
      mid.SegmentLengths.length = s.Points.length ∧
      mid.SegmentStartLengths.length = s.Points.length ∧
      idx n = mid.Tessellated.length ∧
      (∀ i, i ≤ n → idx i ≤ mid.Tessellated.length) ∧
      (∀ i, i < n → mid.SegmentTessIndexes[i]? = some (idx i : Int)) ∧
      (∀ i, i < n → idx i < idx (i + 1)) ∧
      (∀ i, i ≤ n →
        (mid.Tessellated ++ [s.Points.getD n 0])[idx i]? = some (s.Points.getD i 0)) ∧
      (∀ i, i < n → mid.SegmentLengths[i]? =
        some (PolylineLength E (mid.Tessellated ++ [s.Points.getD n 0]) (idx i) (idx (i + 1)))) ∧
      (∀ i, i < n → mid.SegmentStartLengths[i]? =
        some (PolylineLength E (mid.Tessellated ++ [s.Points.getD n 0]) 0 (idx i))) ∧
      mid.TotalLength = PolylineLength E (mid.Tessellated ++ [s.Points.getD n 0]) 0 (idx n) := by
  induction n generalizing mid with
  | zero =>
    simp only [List.range_zero, List.foldlM_nil, Option.pure_def, Option.some.injEq] at h
    subst h
    refine ⟨fun _ => 0, rfl, length_SetNumZeroed _ _, length_SetNumZeroed _ _,
      length_SetNumZeroed _ _, rfl, fun i _ => le_refl _, fun i hi => absurd hi (Nat.not_lt_zero i),
      fun i hi => absurd hi (Nat.not_lt_zero i), ?_, fun i hi => absurd hi (Nat.not_lt_zero i),
      fun i hi => absurd hi (Nat.not_lt_zero i), ?_⟩
    · intro i hi
      have : i = 0 := by omega
      subst this
      simp
    · show (0 : α) = _
      rw [PolylineLength_self]
  | succ k ih =>
    rw [List.range_succ, List.foldlM_append] at h
    cases hm : (List.range k).foldlM (CalculateBezierStep E fuel)
        { s with
          Tessellated := [],
          SegmentTessIndexes := SetNumZeroed s.SegmentTessIndexes s.Points.length,
          SegmentLengths := SetNumZeroed s.SegmentLengths s.Points.length,
          SegmentStartLengths := SetNumZeroed s.SegmentStartLengths s.Points.length,
          TotalLength := 0 } with
    | none => simp [hm] at h
    | some st =>
      simp [hm] at h
      obtain ⟨idx, hP, hl1, hl2, hl3, hik, hile, hsti, hmono, hpt, hsl, hssl, htl⟩ :=
        ih st (by omega) hm
      obtain ⟨_, hSTI, hSSL, L, hSL, hTL, _, hseg⟩ := CalculateBezierStep_some E fuel st mid k h
      have hc : (k : Int) < (st.Points.length : Int) - 1 := by rw [hP]; omega
      obtain ⟨Tes, Last, hT, hLast, hTess, hL⟩ := hseg hc
      obtain ⟨rest, hrest⟩ := TessellateSegment_append E _ _ _ _ _ _ _ _ _ hT
      rw [hP] at hrest
      have hTlen : Tes.length = st.Tessellated.length + 1 + rest.length := by
        rw [hrest]; simp; omega
      -- the extended chain before the step is a prefix of the one after it
      have hX : mid.Tessellated ++ [s.Points.getD (k + 1) 0] =
          (st.Tessellated ++ [s.Points.getD k 0]) ++ (rest ++ [s.Points.getD (k + 1) 0]) := by
        rw [hTess, hrest]; simp
      have hXlen : (st.Tessellated ++ [s.Points.getD k 0]).length = st.Tessellated.length + 1 := by
        simp
      have hidxle : ∀ i, i ≤ k → idx i ≤ st.Tessellated.length := hile
      have hgetk : (st.SegmentTessIndexes.set k (st.Tessellated.length : Int)).getD k 0 =
          (st.Tessellated.length : Int) := by
        apply getD_of_getElem?
        rw [List.getElem?_set_self (by omega)]
      refine ⟨fun i => if i = k + 1 then mid.Tessellated.length else idx i,
        ?_, ?_, ?_, ?_, ?_, ?_, ?_, ?_, ?_, ?_, ?_, ?_⟩
      · exact (CalculateBezierStep_some E fuel st mid k h).1.1.trans hP
      · rw [hSTI, List.length_set]; exact hl1
      · rw [hSL, List.length_set]; exact hl2
      · rw [hSSL, List.length_set]; exact hl3
      · simp
      · intro i hi
        show (if i = k + 1 then mid.Tessellated.length else idx i) ≤ _
        split_ifs with he
        · exact le_refl _
        · have := hidxle i (by omega)
          rw [hTess, hTlen]; omega
      · intro i hi
        show mid.SegmentTessIndexes[i]? =
          some (((if i = k + 1 then mid.Tessellated.length else idx i : Nat)) : Int)
        rw [if_neg (by omega), hSTI]
        rcases Nat.lt_succ_iff_lt_or_eq.mp hi with hlt | heq
        · rw [List.getElem?_set_ne (by omega)]
          exact hsti i hlt
        · subst heq
          rw [List.getElem?_set_self (by omega), hik]
      · intro i hi
        show (if i = k + 1 then mid.Tessellated.length else idx i) <
          (if i + 1 = k + 1 then mid.Tessellated.length else idx (i + 1))
        rw [if_neg (by omega)]
        rcases Nat.lt_succ_iff_lt_or_eq.mp hi with hlt | heq
        · rw [if_neg (by omega)]
          exact hmono i hlt
        · subst heq
          rw [if_pos rfl, hik, hTess, hTlen]
          omega
      · intro i hi
        show (mid.Tessellated ++ [s.Points.getD (k + 1) 0])[
          if i = k + 1 then mid.Tessellated.length else idx i]? = _
        split_ifs with he
        · subst he
          simp
        · rw [hX, List.getElem?_append_left (by rw [hXlen]; have := hidxle i (by omega); omega)]
          exact hpt i (by omega)
      · intro i hi
        show mid.SegmentLengths[i]? = some (PolylineLength E _
          (if i = k + 1 then mid.Tessellated.length else idx i)
          (if i + 1 = k + 1 then mid.Tessellated.length else idx (i + 1)))
        rw [if_neg (by omega), hSL]
        rcases Nat.lt_succ_iff_lt_or_eq.mp hi with hlt | heq
        · rw [List.getElem?_set_ne (by omega), if_neg (by omega), hX,
            PolylineLength_append E _ _ _ _
              (by rw [hXlen]; have := hidxle (i + 1) (by omega); omega)]
          exact hsl i hlt
        · subst heq
          rw [List.getElem?_set_self (by omega), if_pos rfl, hL, hgetk, Int.toNat_ofNat,
            ChainLengthFrom_eq, hik]
          congr 1
          have hlen1 : mid.Tessellated.length = (Tes.length - 1) + 1 := by
            rw [hTess, hTlen]; omega
          rw [hlen1, PolylineLength_succ E _ _ _ (by rw [hTlen]; omega), hTess,
            PolylineLength_append E Tes _ _ _ (by rw [hTlen]; omega)]
          congr 2
          · have hne : Tes ≠ [] := by rw [hrest]; simp
            rw [List.getLast?_eq_getLast _ hne] at hLast
            have hL2 : Last = Tes.getLast hne := (Option.some.inj hLast).symm
            rw [hL2, List.getLast_eq_getElem]
            symm
            apply getD_of_getElem?
            rw [List.getElem?_append_left (by rw [hTlen]; omega),
              List.getElem?_eq_getElem (by rw [hTlen]; omega)]
          · rw [hP]
            symm
            apply getD_of_getElem?
            have : Tes.length - 1 + 1 = Tes.length := by rw [hTlen]; omega
            rw [this]
            simp
      · intro i hi
        show mid.SegmentStartLengths[i]? = some (PolylineLength E _ 0
          (if i = k + 1 then mid.Tessellated.length else idx i))
        rw [if_neg (by omega), hSSL, hX,
          PolylineLength_append E _ _ _ _ (by rw [hXlen]; have := hidxle i (by omega); omega)]
        rcases Nat.lt_succ_iff_lt_or_eq.mp hi with hlt | heq
        · rw [List.getElem?_set_ne (by omega)]
          exact hssl i hlt
        · subst heq
          rw [List.getElem?_set_self (by omega), htl]
      · show mid.TotalLength = PolylineLength E _ 0
          (if k + 1 = k + 1 then mid.Tessellated.length else idx (k + 1))
        rw [if_pos rfl, hTL, PolylineLength_add E _ 0 (idx k) mid.Tessellated.length
          (Nat.zero_le _) (by rw [hik, hTess, hTlen]; omega)]
        congr 1
        · rw [hX, PolylineLength_append E _ _ _ _ (by rw [hXlen]; omega)]
          exact htl
        · -- the length of the new segment, as in the case `i = k` above
          rw [hL, hgetk, Int.toNat_ofNat, ChainLengthFrom_eq, hik]
          have hlen1 : mid.Tessellated.length = (Tes.length - 1) + 1 := by
            rw [hTess, hTlen]; omega
          rw [hlen1, PolylineLength_succ E _ _ _ (by rw [hTlen]; omega), hTess,
            PolylineLength_append E Tes _ _ _ (by rw [hTlen]; omega)]
          congr 2
          · have hne : Tes ≠ [] := by rw [hrest]; simp
            rw [List.getLast?_eq_getLast _ hne] at hLast
            have hL2 : Last = Tes.getLast hne := (Option.some.inj hLast).symm
            rw [hL2, List.getLast_eq_getElem]
            symm
            apply getD_of_getElem?
            rw [List.getElem?_append_left (by rw [hTlen]; omega),
              List.getElem?_eq_getElem (by rw [hTlen]; omega)]
          · rw [hP]
            symm
            apply getD_of_getElem?
            have : Tes.length - 1 + 1 = Tes.length := by rw [hTlen]; omega
            rw [this]
            simp

/-- The state after `CalculateBezier` on at least two points: the start indices
`idx 0 < … < idx (N - 1)` of the segments in the chain, the control points found there, the
last of them at the end of the chain, and the recorded lengths as polyline lengths of the
chain. -/
theorem CalculateBezier_chain (E : Engine α) (fuel : Nat) (s s' : FBezierCalc α)
    (hN : 2 ≤ s.Points.length) (h : CalculateBezier E fuel s = some s') :
    ∃ idx : Nat → Nat,
      s'.SegmentTessIndexes.length = s.Points.length ∧
      s'.SegmentLengths.length = s.Points.length ∧
      s'.SegmentStartLengths.length = s.Points.length ∧
      idx (s.Points.length - 1) + 1 = s'.Tessellated.length ∧
      (∀ i, i < s.Points.length → s'.SegmentTessIndexes[i]? = some (idx i : Int)) ∧
      (∀ i, i + 1 < s.Points.length → idx i < idx (i + 1)) ∧
      (∀ i, i < s.Points.length → s'.Tessellated[idx i]? = some (s.Points.getD i 0)) ∧
      (∀ i, i + 1 < s.Points.length → s'.SegmentLengths[i]? =
        some (PolylineLength E s'.Tessellated (idx i) (idx (i + 1)))) ∧
      s'.SegmentLengths[s.Points.length - 1]? = some 0 ∧
      (∀ i, i < s.Points.length → s'.SegmentStartLengths[i]? =
        some (PolylineLength E s'.Tessellated 0 (idx i))) ∧
      s'.TotalLength = PolylineLength E s'.Tessellated 0 (s'.Tessellated.length - 1) := by
  unfold CalculateBezier at h
  simp only [] at h
  rw [if_neg (by omega)] at h
  have hr : s.Points.length = (s.Points.length - 1) + 1 := by omega
  rw [hr, List.range_succ, List.foldlM_append] at h
  rw [← hr] at h
  cases hm : (List.range (s.Points.length - 1)).foldlM (CalculateBezierStep E fuel)
      { s with
        Tessellated := [],
        SegmentTessIndexes := SetNumZeroed s.SegmentTessIndexes s.Points.length,
        SegmentLengths := SetNumZeroed s.SegmentLengths s.Points.length,
        SegmentStartLengths := SetNumZeroed s.SegmentStartLengths s.Points.length,
        TotalLength := 0 } with
  | none => simp [hm] at h
  | some mid =>
    simp [hm] at h
    obtain ⟨idx, hP, hl1, hl2, hl3, hik, hile, hsti, hmono, hpt, hsl, hssl, htl⟩ :=
      CalculateBezier_loop E fuel s mid (s.Points.length - 1) (by omega) hm
    obtain ⟨_, hSTI, hSSL, L, hSL, hTL, hlast, _⟩ :=
      CalculateBezierStep_some E fuel mid s' (s.Points.length - 1) h
    have hc : ¬ (((s.Points.length - 1 : Nat) : Int) < (mid.Points.length : Int) - 1) := by
      rw [hP]; omega
    obtain ⟨hL0, hTess⟩ := hlast hc
    rw [hP] at hTess
    refine ⟨idx, by rw [hSTI, List.length_set]; exact hl1, by rw [hSL, List.length_set]; exact hl2,
      by rw [hSSL, List.length_set]; exact hl3, by rw [hTess, hik]; simp, ?_, ?_, ?_, ?_, ?_, ?_,
      ?_⟩
    · intro i hi
      rw [hSTI]
      rcases Nat.lt_or_ge i (s.Points.length - 1) with hlt | hge
      · rw [List.getElem?_set_ne (by omega)]
        exact hsti i hlt
      · have : i = s.Points.length - 1 := by omega
        subst this
        rw [List.getElem?_set_self (by omega), hik]
    · intro i hi
      exact hmono i (by omega)
    · intro i hi
      rw [hTess]
      exact hpt i (by omega)
    · intro i hi
      rw [hSL, List.getElem?_set_ne (by omega), hTess]
      exact hsl i (by omega)
    · rw [hSL, List.getElem?_set_self (by omega), hL0]
    · intro i hi
      rw [hSSL, hTess]
      rcases Nat.lt_or_ge i (s.Points.length - 1) with hlt | hge
      · rw [List.getElem?_set_ne (by omega)]
        exact hssl i hlt
      · have : i = s.Points.length - 1 := by omega
        subst this
        rw [List.getElem?_set_self (by omega), htl]
    · rw [hTL, hL0, add_zero, htl, hTess, hik]
      simp

/-- After `CalculateBezier` on at least two points `TotalLength` is the sum of the
entries of `SegmentLengths`. -/
theorem CalculateBezier_sum (E : Engine α) (fuel : Nat) (s s' : FBezierCalc α)
    (hN : 2 ≤ s.Points.length) (h : CalculateBezier E fuel s = some s') :
    s'.TotalLength = s'.SegmentLengths.sum := by
  unfold CalculateBezier at h
  simp only [] at h
  rw [if_neg (by omega)] at h
  have key := foldlM_range_induction
    (fun k (st : FBezierCalc α) => st.SegmentLengths.length = s.Points.length ∧
      st.TotalLength = (st.SegmentLengths.take k).sum)
    _ _ _ _ h ⟨length_SetNumZeroed _ _, by simp⟩
    (by
      rintro i st st' hi ⟨hlen, hsum⟩ hf
      obtain ⟨_, _, _, L, hSL, hTL, _, _⟩ := CalculateBezierStep_some E fuel st st' i hf
      refine ⟨by rw [hSL, List.length_set]; exact hlen, ?_⟩
      have e1 : (st.SegmentLengths.set i L).take i = st.SegmentLengths.take i := by
        rw [List.set_take, List.set_eq_of_length_le (by simp)]
      have e2 : (st.SegmentLengths.set i L)[i]? = some L :=
        List.getElem?_set_self (by omega)
      rw [hTL, hSL, List.take_succ, List.sum_append, e1, e2, hsum]
      simp)
  obtain ⟨hlen, hsum⟩ := key
  rw [hsum, List.take_of_length_le (by omega)]

/-- Strictly increasing start indices are non-decreasing along any pair `i ≤ j`. -/
theorem idx_mono (idx : Nat → Nat) (N : Nat) (h : ∀ i, i + 1 < N → idx i < idx (i + 1))
    (i j : Nat) (hij : i ≤ j) (hj : j < N) : idx i ≤ idx j := by
  induction j with
  | zero =>
    have : i = 0 := by omega
    subst this
    exact le_refl _
  | succ n ih =>
    rcases Nat.lt_or_ge i (n + 1) with hlt | hge
    · exact le_trans (ih (by omega) (by omega)) (le_of_lt (h n hj))
    · have : i = n + 1 := by omega
      subst this
      exact le_refl _

/-- C13: after `Calculate` with `N ≥ 2` control points (the hard-corner branch always
returns; the smooth branch when the tessellation returns) the chain is not empty,
`SegmentTessIndexes` has `N` entries, every entry `i` is a valid chain index at which the
chain holds `Points[i]`, the entries are non-decreasing, and the last entry is the last
chain index. -/
theorem C13_segment_start_indices (E : Engine α) (fuel : Nat) (s : FBezierCalc α)
    (hN : 2 ≤ s.Points.length) :
    (s.HardCorners = true → ∃ s', Calculate E fuel s = some s') ∧
    ∀ s', Calculate E fuel s = some s' →
      s'.Tessellated ≠ [] ∧ s'.SegmentTessIndexes.length = s.Points.length ∧
      (∀ i, i < s.Points.length → ∃ a : Nat, s'.SegmentTessIndexes[i]? = some (a : Int) ∧
        a < s'.Tessellated.length ∧ s'.Tessellated[a]? = s.Points[i]?) ∧
      (∀ i j x y, i ≤ j → j < s.Points.length → s'.SegmentTessIndexes[i]? = some x →
        s'.SegmentTessIndexes[j]? = some y → x ≤ y) ∧
      s'.SegmentTessIndexes[s.Points.length - 1]? =
        some ((s'.Tessellated.length : Int) - 1) := by
  refine ⟨fun hH => ⟨CalculateHard E s, by unfold Calculate; rw [if_pos hH]⟩, ?_⟩
  intro s' h
  unfold Calculate at h
  split_ifs at h with hH
  · -- hard corners: the chain is the point list and entry `i` is `i`
    have hs : s' = CalculateHard E s := (Option.some.inj h).symm
    obtain ⟨_, _, _, _, _, hl, hl2, _, hpt⟩ := CalculateHard_spec E s
    rw [← hs] at hl hl2 hpt
    refine ⟨?_, hl2, ?_, ?_, ?_⟩
    · intro he
      rw [he] at hl
      simp at hl
      omega
    · intro i hi
      exact ⟨i, (hpt i hi).2.1, by omega, (hpt i hi).1⟩
    · intro i j x y hij hj hx hy
      rw [(hpt i (by omega)).2.1] at hx
      rw [(hpt j hj).2.1] at hy
      have hx2 := Option.some.inj hx
      have hy2 := Option.some.inj hy
      omega
    · rw [(hpt (s.Points.length - 1) (by omega)).2.1, hl]
      congr 1
      omega
  · -- smooth: the loop of `CalculateBezier`
    have hPl : (CalculateTangents E s).Points.length = s.Points.length := by
      rw [(CalculateTangents_spec E s).1.1]
    have hPe : (CalculateTangents E s).Points = s.Points := (CalculateTangents_spec E s).1.1
    have h2 : 2 ≤ (CalculateTangents E s).Points.length := by rw [hPl]; exact hN
    obtain ⟨idx, hl1, _, _, hlast, hsti, hmono, hpt, _⟩ :=
      CalculateBezier_chain E fuel (CalculateTangents E s) s' h2 h
    rw [hPl] at hl1 hlast hsti hmono hpt
    rw [hPe] at hpt
    have hle : ∀ i, i < s.Points.length → idx i < s'.Tessellated.length := by
      intro i hi
      have := idx_mono idx s.Points.length hmono i (s.Points.length - 1) (by omega) (by omega)
      omega
    refine ⟨?_, hl1, ?_, ?_, ?_⟩
    · intro he
      rw [he] at hlast
      simp at hlast
    · intro i hi
      refine ⟨idx i, hsti i hi, hle i hi, ?_⟩
      rw [hpt i hi, List.getElem?_eq_getElem hi]
      congr 1
      apply getD_of_getElem?
      exact List.getElem?_eq_getElem hi
    · intro i j x y hij hj hx hy
      rw [hsti i (by omega)] at hx
      rw [hsti j hj] at hy
      have hx2 := Option.some.inj hx
      have hy2 := Option.some.inj hy
      have := idx_mono idx s.Points.length hmono i j hij hj
      omega
    · rw [hsti _ (by omega)]
      congr 1
      omega

/-- Witness of C13 on the smooth three-point example `(0,0,0), (3,4,0), (6,0,0)`: the chain
has five points and the start indices are `0, 2, 4`. -/
theorem C13_segment_start_indices_witness :
    2 ≤ cornerExample.Points.length ∧
    (Calculate ratEngine 1 cornerExample).map
      (fun s' => (s'.SegmentTessIndexes, s'.Tessellated.length)) = some ([0, 2, 4], 5) ∧
    ∃ s', Calculate ratEngine 1 cornerExample = some s' ∧
      s'.Tessellated ≠ [] ∧ s'.SegmentTessIndexes.length = cornerExample.Points.length ∧
      (∀ i, i < cornerExample.Points.length → ∃ a : Nat,
        s'.SegmentTessIndexes[i]? = some (a : Int) ∧
        a < s'.Tessellated.length ∧ s'.Tessellated[a]? = cornerExample.Points[i]?) ∧
      (∀ i j x y, i ≤ j → j < cornerExample.Points.length →
        s'.SegmentTessIndexes[i]? = some x → s'.SegmentTessIndexes[j]? = some y → x ≤ y) ∧
      s'.SegmentTessIndexes[cornerExample.Points.length - 1]? =
        some ((s'.Tessellated.length : Int) - 1) := by
  have h : (Calculate ratEngine 1 cornerExample).isSome = true := by decide!
  obtain ⟨s', hs⟩ := Option.isSome_iff_exists.mp h
  exact ⟨by decide, by decide!, s', hs,
    (C13_segment_start_indices ratEngine 1 cornerExample (by decide)).2 s' hs⟩

end Chain

/-! ## Tessellation quality and recomputation -/

section Quality

variable {α : Type} [LinearOrderedField α] [FloorRing α]

/-- A loop body that commutes with a map of the state makes the whole loop commute with
it. -/
theorem forRange_comm {σ : Type} (g : σ → σ) (lo hi : Nat) (body : Nat → σ → σ) (init : σ)
    (h : ∀ i st, body i (g st) = g (body i st)) :
    forRange lo hi body (g init) = g (forRange lo hi body init) := by
  rcases Nat.lt_or_ge hi lo with hlt | hge
  · rw [forRange_of_ge _ _ (le_of_lt hlt), forRange_of_ge _ _ (le_of_lt hlt)]
  · exact forRange_induction (fun k st => st = g (forRange lo k body init)) lo hi hge body
      (g init)
      (by show g init = g (forRange lo lo body init)
          rw [forRange_self])
      (fun i st h1 h2 hp => by
        show body i st = g (forRange lo (i + 1) body init)
        have hp2 : st = g (forRange lo i body init) := hp
        rw [forRange_succ lo i h1, hp2, h])

/-- The tangents do not depend on the tessellation quality. -/
theorem CalculateTangents_quality (E : Engine α) (s : FBezierCalc α) (q : α) :
    CalculateTangents E { s with TessellationQuality := q } =
      { CalculateTangents E s with TessellationQuality := q } := by
  unfold CalculateTangents
  simp only []
  have hloop := forRange_comm (fun st : FBezierCalc α => { st with TessellationQuality := q })
    1 (s.Points.length - 1) (CalculateTangentsStep E)
    { s with OutTangents := List.replicate s.Points.length 0,
             InTangents := List.replicate s.Points.length 0 }
    (fun i st => rfl)
  simp only [] at hloop
  rw [hloop]
  generalize forRange 1 (s.Points.length - 1) (CalculateTangentsStep E)
    { s with OutTangents := List.replicate s.Points.length 0,
             InTangents := List.replicate s.Points.length 0 } = s2
  have hfirst : CalculateTangentsFirst E { s2 with TessellationQuality := q } =
      { CalculateTangentsFirst E s2 with TessellationQuality := q } := by
    unfold CalculateTangentsFirst
    simp only []
    split_ifs <;> rfl
  rw [hfirst]
  generalize CalculateTangentsFirst E s2 = s3
  unfold CalculateTangentsLast
  simp only []
  split_ifs <;> rfl

/-- The function `CalculateBezierPoint(Segment, Progress)` reads only the points and the
tangents. -/
theorem CalculateBezierPointSeg_path {s st : FBezierCalc α} (h : SamePath s st) (k : Int)
    (t : α) : CalculateBezierPointSeg st k t = CalculateBezierPointSeg s k t := by
  obtain ⟨a1, a2, a3⟩ := h
  simp only [CalculateBezierPointSeg, CalculateBezierPoint, DecomposeFloatProgress, a1, a2, a3]

/-- A call of `TessellateSegment` that returns has appended at least two points. -/
theorem TessellateSegment_length (E : Engine α) (s : FBezierCalc α) :
    ∀ (fuel : Nat) (k : Int) (T0 : α) (P0 : FVector α) (T1 : α) (P1 : FVector α)
      (Tes R : List (FVector α)),
      TessellateSegment E s fuel k T0 P0 T1 P1 Tes = some R → Tes.length + 2 ≤ R.length := by
  intro fuel
  induction fuel with
  | zero =>
    intro k T0 P0 T1 P1 Tes R h
    simp [TessellateSegment] at h
  | succ n ih =>
    intro k T0 P0 T1 P1 Tes R h
    rw [TessellateSegment] at h
    simp only [Option.bind_eq_bind, Option.bind_eq_some] at h
    obtain ⟨Mid, _, b, _, h⟩ := h
    cases b with
    | true =>
      simp only [if_true, Option.bind_eq_some] at h
      obtain ⟨Ra, ha, hb⟩ := h
      have h1 := ih _ _ _ _ _ _ _ ha
      have h2 := ih _ _ _ _ _ _ _ hb
      omega
    | false =>
      simp at h
      rw [← h]
      simp

/-- The split decision of `TessellateSegment` is monotone in the tolerance: a fragment
that is split at a tolerance is split at every smaller tolerance. -/
theorem split_mono {β : Type} (e1 e2 a : α) (he : e2 ≤ e1) (oN oF : Option β) (fN fF : β → α)
    (b : Bool)
    (h1 : (if a > e1 then some true
      else oN.bind (fun n => if fN n > e1 then some true
        else oF.bind (fun f => some (decide (fF f > e1))))) = some true)
    (h2 : (if a > e2 then some true
      else oN.bind (fun n => if fN n > e2 then some true
        else oF.bind (fun f => some (decide (fF f > e2))))) = some b) : b = true := by
  by_cases c2 : a > e2
  · rw [if_pos c2] at h2
    exact (Option.some.inj h2).symm
  · rw [if_neg c2] at h2
    have c1 : ¬ a > e1 := fun hc => c2 (lt_of_le_of_lt he hc)
    rw [if_neg c1] at h1
    cases oN with
    | none => simp at h1
    | some n =>
      simp only [Option.some_bind] at h1 h2
      by_cases d2 : fN n > e2
      · rw [if_pos d2] at h2
        exact (Option.some.inj h2).symm
      · rw [if_neg d2] at h2
        have d1 : ¬ fN n > e1 := fun hc => d2 (lt_of_le_of_lt he hc)
        rw [if_neg d1] at h1
        cases oF with
        | none => simp at h1
        | some f =>
          simp only [Option.some_bind, Option.some.injEq, decide_eq_true_eq] at h1 h2
          rw [← h2]
          exact decide_eq_true (lt_of_le_of_lt he h1)

/-- On the same curve fragment, a run of `TessellateSegment` at a tolerance that is not
larger appends at least as many points. -/
theorem TessellateSegment_mono (E : Engine α) (s1 s2 : FBezierCalc α) (hp : SamePath s1 s2)
    (he : Lerp 50 (1 / 100) s2.TessellationQuality ≤ Lerp 50 (1 / 100) s1.TessellationQuality) :
    ∀ (fuel1 fuel2 : Nat) (k : Int) (T0 : α) (P0 : FVector α) (T1 : α) (P1 : FVector α)
      (Tes1 Tes2 R1 R2 : List (FVector α)),
      TessellateSegment E s1 fuel1 k T0 P0 T1 P1 Tes1 = some R1 →
      TessellateSegment E s2 fuel2 k T0 P0 T1 P1 Tes2 = some R2 →
      R1.length + Tes2.length ≤ R2.length + Tes1.length := by
  intro fuel1
  induction fuel1 with
  | zero =>
    intro fuel2 k T0 P0 T1 P1 Tes1 Tes2 R1 R2 h1 h2
    simp [TessellateSegment] at h1
  | succ n ih =>
    intro fuel2 k T0 P0 T1 P1 Tes1 Tes2 R1 R2 h1 h2
    have hlen2 := TessellateSegment_length E s2 _ _ _ _ _ _ _ _ h2
    cases fuel2 with
    | zero => simp [TessellateSegment] at h2
    | succ m =>
      rw [TessellateSegment] at h1 h2
      simp only [Option.bind_eq_bind, Option.bind_eq_some, CalculateBezierPointSeg_path hp]
        at h1 h2
      obtain ⟨M1, hM1, b1, hb1, h1⟩ := h1
      obtain ⟨M2, hM2, b2, hb2, h2⟩ := h2
      have hM : M2 = M1 := by
        rw [hM1] at hM2
        exact (Option.some.inj hM2).symm
      subst hM
      cases b1 with
      | false =>
        simp at h1
        rw [← h1]
        simp
        omega
      | true =>
        have hb : b2 = true := split_mono _ _ _ he _ _ _ _ b2 hb1 hb2
        subst hb
        simp only [if_true, Option.bind_eq_some] at h1 h2
        obtain ⟨Ra1, ha1, hr1⟩ := h1
        obtain ⟨Ra2, ha2, hr2⟩ := h2
        have i1 := ih _ _ _ _ _ _ _ _ _ _ ha1 ha2
        have i2 := ih _ _ _ _ _ _ _ _ _ _ hr1 hr2
        omega

/-- Invariant rule for two runs of a counted loop whose bodies can fail. -/
theorem foldlM_range_induction2 {σ τ : Type} (R : Nat → σ → τ → Prop) (n : Nat)
    (f : σ → Nat → Option σ) (g : τ → Nat → Option τ) (a : σ) (b : τ) (ra : σ) (rb : τ)
    (ha : (List.range n).foldlM f a = some ra) (hb : (List.range n).foldlM g b = some rb)
    (h0 : R 0 a b)
    (hstep : ∀ i x y x' y', i < n → R i x y → f x i = some x' → g y i = some y' →
      R (i + 1) x' y') :
    R n ra rb := by
  induction n generalizing ra rb with
  | zero =>
    simp at ha hb
    subst ha
    subst hb
    exact h0
  | succ k ih =>
    rw [List.range_succ, List.foldlM_append] at ha hb
    cases hma : (List.range k).foldlM f a with
    | none => simp [hma] at ha
    | some ma =>
      cases hmb : (List.range k).foldlM g b with
      | none => simp [hmb] at hb
      | some mb =>
        simp [hma] at ha
        simp [hmb] at hb
        exact hstep k ma mb ra rb (Nat.lt_succ_self k)
          (ih ma mb hma hmb (fun i x y x' y' h1 hr hf hg =>
            hstep i x y x' y' (Nat.lt_succ_of_lt h1) hr hf hg)) ha hb

/-- On the same control points and tangents, `CalculateBezier` at a tolerance that is not
larger produces a chain that is at least as long. -/
theorem CalculateBezier_mono (E : Engine α) (fuel1 fuel2 : Nat) (s1 s2 r1 r2 : FBezierCalc α)
    (hp : SamePath s1 s2)
    (he : Lerp 50 (1 / 100) s2.TessellationQuality ≤ Lerp 50 (1 / 100) s1.TessellationQuality)
    (h1 : CalculateBezier E fuel1 s1 = some r1) (h2 : CalculateBezier E fuel2 s2 = some r2) :
    r1.Tessellated.length ≤ r2.Tessellated.length := by
  unfold CalculateBezier at h1 h2
  simp only [] at h1 h2
  have hl : s2.Points.length = s1.Points.length := congrArg List.length hp.1
  rw [hl] at h2
  by_cases hN : s1.Points.length < 2
  · rw [if_pos hN] at h1 h2
    rw [← Option.some.inj h1, ← Option.some.inj h2]
  · rw [if_neg hN] at h1 h2
    have key := foldlM_range_induction2
      (fun _ (x y : FBezierCalc α) => SamePath x y ∧
        x.TessellationQuality = s1.TessellationQuality ∧
        y.TessellationQuality = s2.TessellationQuality ∧
        x.Tessellated.length ≤ y.Tessellated.length)
      _ _ _ _ _ _ _ h1 h2 ⟨⟨hp.1, hp.2.1, hp.2.2⟩, rfl, rfl, le_refl _⟩
      (by
        rintro i x y x' y' hi ⟨⟨p1, p2, p3⟩, q1, q2, hl⟩ hx hy
        obtain ⟨cx, _, _, Lx, _, _, hxlast, hxseg⟩ := CalculateBezierStep_some E fuel1 x x' i hx
        obtain ⟨cy, _, _, Ly, _, _, hylast, hyseg⟩ := CalculateBezierStep_some E fuel2 y y' i hy
        obtain ⟨x1, _, _, x4, x5, x6⟩ := cx
        obtain ⟨y1, _, _, y4, y5, y6⟩ := cy
        refine ⟨⟨by rw [y1, x1, p1], by rw [y5, x5, p2], by rw [y6, x6, p3]⟩,
          by rw [x4, q1], by rw [y4, q2], ?_⟩
        by_cases hc : (i : Int) < (x.Points.length : Int) - 1
        · obtain ⟨Tx, _, hTx, _, hx', _⟩ := hxseg hc
          obtain ⟨Ty, _, hTy, _, hy', _⟩ := hyseg (by rw [p1]; exact hc)
          have py : ∀ j, y.Points.getD j 0 = x.Points.getD j 0 := by
            intro j
            rw [p1]
          rw [py, py] at hTy
          have hm := TessellateSegment_mono E
            { x with SegmentTessIndexes :=
                x.SegmentTessIndexes.set i (x.Tessellated.length : Int) }
            { y with SegmentTessIndexes :=
                y.SegmentTessIndexes.set i (y.Tessellated.length : Int) }
            ⟨p1, p2, p3⟩
            (by show Lerp 50 (1 / 100) y.TessellationQuality ≤
                  Lerp 50 (1 / 100) x.TessellationQuality
                rw [q1, q2]; exact he)
            _ _ _ _ _ _ _ _ _ _ _ hTx hTy
          rw [hx', hy']
          omega
        · rw [(hxlast hc).2, (hylast (by rw [p1]; exact hc)).2]
          simp
          exact hl)
    exact key.2.2.2

/-- C11: for a smooth input and two tessellation qualities `q1 ≤ q2` at which `Calculate`
returns, the chain at `q2` has at least as many points as the chain at `q1`; and when
`q1 < q2` the effective tolerance `Lerp(50, 0.01, q)` at `q2` is strictly smaller. -/
theorem C11_quality_monotone (E : Engine α) (fuel1 fuel2 : Nat) (s s1 s2 : FBezierCalc α)
    (q1 q2 : α) (hH : s.HardCorners = false) (hq : q1 ≤ q2)
    (h1 : Calculate E fuel1 { s with TessellationQuality := q1 } = some s1)
    (h2 : Calculate E fuel2 { s with TessellationQuality := q2 } = some s2) :
    (q1 < q2 → Lerp 50 (1 / 100) q2 < Lerp 50 (1 / 100) q1) ∧
    s1.Tessellated.length ≤ s2.Tessellated.length := by
  have hlerp : ∀ a b : α, a ≤ b → Lerp 50 (1 / 100) b ≤ Lerp 50 (1 / 100) a := by
    intro a b hab
    unfold Lerp
    have : (1 / 100 - 50 : α) ≤ 0 := by norm_num
    nlinarith
  constructor
  · intro hlt
    unfold Lerp
    have : (1 / 100 - 50 : α) < 0 := by norm_num
    nlinarith
  · unfold Calculate at h1 h2
    have c1 : ¬ (({ s with TessellationQuality := q1 } : FBezierCalc α).HardCorners = true) := by
      show ¬ (s.HardCorners = true)
      rw [hH]
      simp
    have c2 : ¬ (({ s with TessellationQuality := q2 } : FBezierCalc α).HardCorners = true) := by
      show ¬ (s.HardCorners = true)
      rw [hH]
      simp
    rw [if_neg c1] at h1
    rw [if_neg c2] at h2
    rw [CalculateTangents_quality] at h1 h2
    generalize CalculateTangents E s = t at h1 h2
    have hp : SamePath ({ t with TessellationQuality := q1 } : FBezierCalc α)
        ({ t with TessellationQuality := q2 } : FBezierCalc α) := ⟨rfl, rfl, rfl⟩
    exact CalculateBezier_mono E fuel1 fuel2 { t with TessellationQuality := q1 }
      { t with TessellationQuality := q2 } s1 s2 hp (hlerp q1 q2 hq) h1 h2

/-- Witness of C11 on the smooth three-point example `(0,0,0), (3,4,0), (6,0,0)`: quality
`0.95` gives a chain of 5 points, quality `0.99` a chain of 9 points. -/
theorem C11_quality_monotone_witness :
    (Calculate ratEngine 1 { cornerExample with TessellationQuality := 95 / 100 }).map
      (fun s => s.Tessellated.length) = some 5 ∧
    (Calculate ratEngine 2 { cornerExample with TessellationQuality := 99 / 100 }).map
      (fun s => s.Tessellated.length) = some 9 ∧
    ∃ s1 s2,
      Calculate ratEngine 1 { cornerExample with TessellationQuality := 95 / 100 } = some s1 ∧
      Calculate ratEngine 2 { cornerExample with TessellationQuality := 99 / 100 } = some s2 ∧
      ((95 / 100 : ℚ) < 99 / 100 →
        Lerp 50 (1 / 100) (99 / 100 : ℚ) < Lerp 50 (1 / 100) (95 / 100 : ℚ)) ∧
      s1.Tessellated.length ≤ s2.Tessellated.length := by
  have h1 : (Calculate ratEngine 1
      { cornerExample with TessellationQuality := 95 / 100 }).isSome = true := by decide!
  have h2 : (Calculate ratEngine 2
      { cornerExample with TessellationQuality := 99 / 100 }).isSome = true := by decide!
  obtain ⟨s1, hs1⟩ := Option.isSome_iff_exists.mp h1
  obtain ⟨s2, hs2⟩ := Option.isSome_iff_exists.mp h2
  exact ⟨by decide!, by decide!, s1, s2, hs1, hs2,
    C11_quality_monotone ratEngine 1 2 cornerExample s1 s2 (95 / 100) (99 / 100) rfl
      (by norm_num) hs1 hs2⟩

/-- C15 (the code at the failing inputs): two calculators with the same inputs need not
agree after `Calculate`.  `hardExample` and `switchedExample` hold the same points and
settings (hard corners), but the recomputation leaves `TotalLength`, `SegmentStartLengths`
and both tangent arrays as they were: empty and `0` for the fresh calculator, the values of
the earlier smooth run for the other.  `singleExample` and `staleSingleExample` hold the
same single point in smooth mode, and `TotalLength` is `0` for the one and still `7` for
the other. -/
theorem C15_recompute_keeps_stale_state :
    (switchedExample.Points = hardExample.Points ∧
      switchedExample.HardCorners = hardExample.HardCorners ∧
      switchedExample.TangentStrength = hardExample.TangentStrength ∧
      switchedExample.TessellationQuality = hardExample.TessellationQuality) ∧
    (Calculate ratEngine 1 hardExample).map
        (fun s => (s.TotalLength, s.SegmentStartLengths, s.InTangents, s.OutTangents)) =
      some (0, [], [], []) ∧
    (Calculate ratEngine 1 switchedExample).map
        (fun s => (s.TotalLength, s.SegmentStartLengths, s.InTangents, s.OutTangents)) =
      some (5, [0, 5], [⟨0, 0, 0⟩, ⟨0, 0, 0⟩], [⟨9 / 10, 6 / 5, 0⟩, ⟨0, 0, 0⟩]) ∧
    (staleSingleExample.Points = singleExample.Points ∧
      staleSingleExample.HardCorners = singleExample.HardCorners ∧
      staleSingleExample.TangentStrength = singleExample.TangentStrength ∧
      staleSingleExample.TessellationQuality = singleExample.TessellationQuality) ∧
    (Calculate ratEngine 1 singleExample).map (fun s => s.TotalLength) = some 0 ∧
    (Calculate ratEngine 1 staleSingleExample).map (fun s => s.TotalLength) = some 7 := by
  refine ⟨by decide!, by decide!, by decide!, by decide!, by decide!, by decide!⟩

end Quality

/-! ## The tessellation with a negative tolerance -/

section Terminate

variable {α : Type} [LinearOrderedField α] [FloorRing α]

theorem Sqrt_le (E : Engine α) (hE : ∀ x, 0 ≤ E.Sqrt x)
    (hsq : ∀ x, 0 ≤ x → E.Sqrt x * E.Sqrt x = x) (x b : α) (hx : 0 ≤ x) (hb : 0 ≤ b)
    (h : x ≤ b * b) : E.Sqrt x ≤ b := by
  by_contra hc
  have hlt : b < E.Sqrt x := not_le.mp hc
  have := mul_self_lt_mul_self hb hlt
  rw [hsq x hx] at this
  linarith

/-- With a negative tolerance every fragment is split, so `TessellateSegment` returns at no
recursion depth. -/
theorem TessellateSegment_negative (E : Engine α) (hE : ∀ x, 0 ≤ E.Sqrt x)
    (s : FBezierCalc α) (hneg : Lerp 50 (1 / 100) s.TessellationQuality < 0) :
    ∀ (fuel : Nat) (k : Int) (T0 : α) (P0 : FVector α) (T1 : α) (P1 : FVector α)
      (Tes : List (FVector α)), TessellateSegment E s fuel k T0 P0 T1 P1 Tes = none := by
  intro fuel
  induction fuel with
  | zero =>
    intro k T0 P0 T1 P1 Tes
    simp [TessellateSegment]
  | succ n ih =>
    intro k T0 P0 T1 P1 Tes
    rw [TessellateSegment]
    cases hM : CalculateBezierPointSeg s k (Lerp T0 T1 (1 / 2)) with
    | none => simp
    | some M =>
      have hgt : (M - LerpV P0 P1 (1 / 2)).Size E > Lerp 50 (1 / 100) s.TessellationQuality :=
        lt_of_lt_of_le hneg (hE _)
      simp only [Option.bind_eq_bind, Option.some_bind, if_pos hgt, if_true, ih,
        Option.none_bind]

/-- With a negative tolerance and at least two points, `CalculateBezier` returns at no
recursion depth. -/
theorem CalculateBezier_negative (E : Engine α) (hE : ∀ x, 0 ≤ E.Sqrt x)
    (t : FBezierCalc α) (hN : 2 ≤ t.Points.length)
    (hneg : Lerp 50 (1 / 100) t.TessellationQuality < 0) (fuel : Nat) :
    CalculateBezier E fuel t = none := by
  cases h : CalculateBezier E fuel t with
  | none => rfl
  | some s' =>
    exfalso
    unfold CalculateBezier at h
    simp only [] at h
    rw [if_neg (by omega)] at h
    have key := foldlM_range_induction
      (fun k (st : FBezierCalc α) => (k = 0 → SameCurve t st) ∧ (1 ≤ k → False))
      _ _ _ _ h ⟨fun _ => ⟨rfl, rfl, rfl, rfl, rfl, rfl⟩, fun h1 => by omega⟩
      (by
        rintro i st st' hi ⟨hc0, hF⟩ hf
        refine ⟨fun h0 => by omega, fun _ => ?_⟩
        rcases Nat.eq_zero_or_pos i with h0 | hp
        · subst h0
          have hc := hc0 rfl
          obtain ⟨_, _, _, L, _, _, _, hseg⟩ := CalculateBezierStep_some E fuel st st' 0 hf
          obtain ⟨Tes, _, hT, _⟩ := hseg (by rw [hc.1]; omega)
          rw [TessellateSegment_negative E hE _
            (by show Lerp 50 (1 / 100) st.TessellationQuality < 0
                rw [hc.2.2.2.1]; exact hneg)] at hT
          simp at hT
        · exact hF hp)
    exact key.2 (by omega)

end Terminate

/-! ## Arrowheads, degenerate chains and corner widening -/

section Arrow

variable {α : Type} [LinearOrderedField α] [FloorRing α]

theorem list_of_length_12 {β : Type} (L : List β) (h : L.length = 12) :
    ∃ a0 a1 a2 a3 a4 a5 a6 a7 a8 a9 a10 a11,
      L = [a0, a1, a2, a3, a4, a5, a6, a7, a8, a9, a10, a11] := by
  match L, h with
  | [a0, a1, a2, a3, a4, a5, a6, a7, a8, a9, a10, a11], _ =>
    exact ⟨a0, a1, a2, a3, a4, a5, a6, a7, a8, a9, a10, a11, rfl⟩

/-- What `AddArrowHeadTriangles` leaves in an arrow mesh: six vertices, six UVs and the
twelve fixed triangle indices when active, empty buffers otherwise. -/
theorem AddArrowHeadTriangles_spec (ArrowMesh : FMeshParams α) (Active : Bool) :
    (Active = true →
      (AddArrowHeadTriangles ArrowMesh Active).Vertices.length = 6 ∧
      (AddArrowHeadTriangles ArrowMesh Active).Uvs.length = 6 ∧
      (AddArrowHeadTriangles ArrowMesh Active).Triangles =
        [0, 5, 2, 4, 5, 0, 4, 1, 5, 1, 3, 5]) ∧
    (Active = false →
      (AddArrowHeadTriangles ArrowMesh Active).Vertices = [] ∧
      (AddArrowHeadTriangles ArrowMesh Active).Uvs = [] ∧
      (AddArrowHeadTriangles ArrowMesh Active).Triangles = []) := by
  constructor
  · intro h
    subst h
    refine ⟨by simp [AddArrowHeadTriangles, length_SetNumZeroed],
      by simp [AddArrowHeadTriangles, length_SetNumZeroed], ?_⟩
    obtain ⟨a0, a1, a2, a3, a4, a5, a6, a7, a8, a9, a10, a11, hL⟩ :=
      list_of_length_12 (SetNumZeroed ArrowMesh.Triangles 12) (length_SetNumZeroed _ _)
    unfold AddArrowHeadTriangles
    simp only [if_true]
    rw [hL]
    rfl
  · intro h
    subst h
    exact ⟨rfl, rfl, rfl⟩

/-- For a chain of at least two points `CreateMesh` returns, and both arrow meshes have
the sizes and triangles that `AddArrowHeadTriangles` gave them. -/
theorem CreateMesh_arrows (E : Engine α) (T : Trig α) (m : ULineMesh α)
    (hM : 2 ≤ m.Bezier.Tessellated.length) :
    ∃ m1, CreateMesh E T m = some m1 ∧
      m1.StartArrowMesh.Vertices.length =
        (AddArrowHeadTriangles m.StartArrowMesh m.StartArrow).Vertices.length ∧
      m1.StartArrowMesh.Uvs.length =
        (AddArrowHeadTriangles m.StartArrowMesh m.StartArrow).Uvs.length ∧
      m1.StartArrowMesh.Triangles =
        (AddArrowHeadTriangles m.StartArrowMesh m.StartArrow).Triangles ∧
      m1.EndArrowMesh.Vertices.length =
        (AddArrowHeadTriangles m.EndArrowMesh m.EndArrow).Vertices.length ∧
      m1.EndArrowMesh.Uvs.length =
        (AddArrowHeadTriangles m.EndArrowMesh m.EndArrow).Uvs.length ∧
      m1.EndArrowMesh.Triangles =
        (AddArrowHeadTriangles m.EndArrowMesh m.EndArrow).Triangles := by
  unfold CreateMesh
  simp only [ge_iff_le, if_pos hM, Option.bind_eq_bind]
  obtain ⟨m2, hm2, hsame, hV, hU⟩ := CalculateVertexPositions_isSome E T
    { m with
      LineVertices := SetNumZeroed m.LineVertices (m.Bezier.Tessellated.length * 2),
      LineUvs := SetNumZeroed m.LineUvs (m.Bezier.Tessellated.length * 2),
      LineTriangles := forRange 0 (m.Bezier.Tessellated.length - 1) CreateMeshTrianglesStep
        (SetNumZeroed m.LineTriangles ((m.Bezier.Tessellated.length - 1) * 6)) }
    (length_SetNumZeroed _ _) (length_SetNumZeroed _ _)
  rw [hm2]
  simp only [Option.some_bind]
  obtain ⟨b1, b2, b3, b4, b5, b6, b7, b8, b9, b10⟩ := hsame
  obtain ⟨m3, hm3, hsame3, c1, c2, c3, c4, c5, c6⟩ := CalculateAllArrowHeadVertices_isSome E
    { m2 with
      StartArrowMesh := AddArrowHeadTriangles m2.StartArrowMesh m2.StartArrow,
      EndArrowMesh := AddArrowHeadTriangles m2.EndArrowMesh m2.EndArrow }
    (by show m2.LineUvs.length = m2.LineVertices.length
        rw [hU, hV])
    (by show 4 ≤ m2.LineVertices.length
        rw [hV]
        show 4 ≤ m.Bezier.Tessellated.length * 2
        omega)
    (fun h => AddArrowHeadTriangles_sizes _ _ h)
    (fun h => AddArrowHeadTriangles_sizes _ _ h)
  have e4 : m2.StartArrow = m.StartArrow := b4
  have e5 : m2.EndArrow = m.EndArrow := b5
  have e9 : m2.StartArrowMesh = m.StartArrowMesh := b9
  have e10 : m2.EndArrowMesh = m.EndArrowMesh := b10
  refine ⟨m3, hm3, ?_, ?_, ?_, ?_, ?_, ?_⟩
  · rw [c1]; show (AddArrowHeadTriangles m2.StartArrowMesh m2.StartArrow).Vertices.length = _
    rw [e4, e9]
  · rw [c2]; show (AddArrowHeadTriangles m2.StartArrowMesh m2.StartArrow).Uvs.length = _
    rw [e4, e9]
  · rw [c3]; show (AddArrowHeadTriangles m2.StartArrowMesh m2.StartArrow).Triangles = _
    rw [e4, e9]
  · rw [c4]; show (AddArrowHeadTriangles m2.EndArrowMesh m2.EndArrow).Vertices.length = _
    rw [e5, e10]
  · rw [c5]; show (AddArrowHeadTriangles m2.EndArrowMesh m2.EndArrow).Uvs.length = _
    rw [e5, e10]
  · rw [c6]; show (AddArrowHeadTriangles m2.EndArrowMesh m2.EndArrow).Triangles = _
    rw [e5, e10]

/-- C22: the arrowhead topology does not depend on the arrow scale.  For every mesh
component (with any `ArrowScale`) on a chain of at least two points, `CreateMesh` returns,
and each arrow mesh has exactly 6 vertices, 6 UVs and the 12 triangle indices
`[0,5,2, 4,5,0, 4,1,5, 1,3,5]` (all below 6) when its end is active, and empty vertex, UV
and triangle buffers when it is not. -/
theorem C22_arrowhead_topology (E : Engine α) (T : Trig α) (m : ULineMesh α)
    (hM : 2 ≤ m.Bezier.Tessellated.length) :
    ∃ m1, CreateMesh E T m = some m1 ∧
      (m.StartArrow = true →
        m1.StartArrowMesh.Vertices.length = 6 ∧ m1.StartArrowMesh.Uvs.length = 6 ∧
        m1.StartArrowMesh.Triangles = [0, 5, 2, 4, 5, 0, 4, 1, 5, 1, 3, 5] ∧
        ∀ x, x ∈ m1.StartArrowMesh.Triangles → 0 ≤ x ∧ x < 6) ∧
      (m.StartArrow = false →
        m1.StartArrowMesh.Vertices = [] ∧ m1.StartArrowMesh.Uvs = [] ∧
        m1.StartArrowMesh.Triangles = []) ∧
      (m.EndArrow = true →
        m1.EndArrowMesh.Vertices.length = 6 ∧ m1.EndArrowMesh.Uvs.length = 6 ∧
        m1.EndArrowMesh.Triangles = [0, 5, 2, 4, 5, 0, 4, 1, 5, 1, 3, 5] ∧
        ∀ x, x ∈ m1.EndArrowMesh.Triangles → 0 ≤ x ∧ x < 6) ∧
      (m.EndArrow = false →
        m1.EndArrowMesh.Vertices = [] ∧ m1.EndArrowMesh.Uvs = [] ∧
        m1.EndArrowMesh.Triangles = []) := by
  obtain ⟨m1, hm1, sV, sU, sT, eV, eU, eT⟩ := CreateMesh_arrows E T m hM
  obtain ⟨sOn, sOff⟩ := AddArrowHeadTriangles_spec m.StartArrowMesh m.StartArrow
  obtain ⟨eOn, eOff⟩ := AddArrowHeadTriangles_spec m.EndArrowMesh m.EndArrow
  have hmem : ∀ x : Int, x ∈ ([0, 5, 2, 4, 5, 0, 4, 1, 5, 1, 3, 5] : List Int) →
      0 ≤ x ∧ x < 6 := by
    intro x hx
    simp only [List.mem_cons, List.mem_singleton, List.not_mem_nil, or_false] at hx
    omega
  refine ⟨m1, hm1, ?_, ?_, ?_, ?_⟩
  · intro h
    obtain ⟨a, b, c⟩ := sOn h
    refine ⟨by rw [sV, a], by rw [sU, b], by rw [sT, c], ?_⟩
    rw [sT, c]
    exact hmem
  · intro h
    obtain ⟨a, b, c⟩ := sOff h
    rw [a] at sV
    rw [b] at sU
    exact ⟨List.length_eq_zero.mp sV, List.length_eq_zero.mp sU, by rw [sT, c]⟩
  · intro h
    obtain ⟨a, b, c⟩ := eOn h
    refine ⟨by rw [eV, a], by rw [eU, b], by rw [eT, c], ?_⟩
    rw [eT, c]
    exact hmem
  · intro h
    obtain ⟨a, b, c⟩ := eOff h
    rw [a] at eV
    rw [b] at eU
    exact ⟨List.length_eq_zero.mp eV, List.length_eq_zero.mp eU, by rw [eT, c]⟩

/-- Witness of C22 on the straight two-point ribbon with both arrows on and arrow
scale 2. -/
theorem C22_arrowhead_topology_witness :
    2 ≤ arrowMeshExample.Bezier.Tessellated.length ∧
    ∃ m1, CreateMesh ratEngine ratTrig arrowMeshExample = some m1 ∧
      (arrowMeshExample.StartArrow = true →
        m1.StartArrowMesh.Vertices.length = 6 ∧ m1.StartArrowMesh.Uvs.length = 6 ∧
        m1.StartArrowMesh.Triangles = [0, 5, 2, 4, 5, 0, 4, 1, 5, 1, 3, 5] ∧
        ∀ x, x ∈ m1.StartArrowMesh.Triangles → 0 ≤ x ∧ x < 6) ∧
      (arrowMeshExample.StartArrow = false →
        m1.StartArrowMesh.Vertices = [] ∧ m1.StartArrowMesh.Uvs = [] ∧
        m1.StartArrowMesh.Triangles = []) ∧
      (arrowMeshExample.EndArrow = true →
        m1.EndArrowMesh.Vertices.length = 6 ∧ m1.EndArrowMesh.Uvs.length = 6 ∧
        m1.EndArrowMesh.Triangles = [0, 5, 2, 4, 5, 0, 4, 1, 5, 1, 3, 5] ∧
        ∀ x, x ∈ m1.EndArrowMesh.Triangles → 0 ≤ x ∧ x < 6) ∧
      (arrowMeshExample.EndArrow = false →
        m1.EndArrowMesh.Vertices = [] ∧ m1.EndArrowMesh.Uvs = [] ∧
        m1.EndArrowMesh.Triangles = []) :=
  ⟨by decide, C22_arrowhead_topology ratEngine ratTrig arrowMeshExample (by decide)⟩

/-- C21 (the code at the failing input): on a chain of one point `CreateMesh` empties
every buffer, for every setting of the arrow switches; the `UpdatePosition` that the
pipeline runs next returns with the buffers still empty when both arrows are off, but with
an active start arrow it reads `LineVertices[3]`, and with an active end arrow
`LineVertices[Last - 3]` for `Last = -1`, in the empty vertex buffer: a failed range
check. -/
theorem C21_degenerate_mesh_update :
    (∀ a b : Bool, (CreateMesh ratEngine ratTrig (degenerateMeshExample a b)).map BuffersEmpty =
      some true) ∧
    ((CreateMesh ratEngine ratTrig (degenerateMeshExample false false)).bind
      (UpdatePosition ratEngine ratTrig)).map BuffersEmpty = some true ∧
    ((CreateMesh ratEngine ratTrig (degenerateMeshExample true false)).bind
      (UpdatePosition ratEngine ratTrig)).isNone = true ∧
    ((CreateMesh ratEngine ratTrig (degenerateMeshExample false true)).bind
      (UpdatePosition ratEngine ratTrig)).isNone = true ∧
    ((CreateMesh ratEngine ratTrig (degenerateMeshExample true true)).bind
      (UpdatePosition ratEngine ratTrig)).isNone = true := by
  refine ⟨?_, by decide!, by decide!, by decide!, by decide!⟩
  intro a b
  cases a <;> cases b <;> decide!

/-- The widening factor lies in `[1, 5]`: the corner width of a positive base width is at
least the base width and at most five times the base width. -/
theorem cornerWidth_bounds (T : Trig α) (w d : α) (hw : 0 < w) :
    w ≤ cornerWidth T w d ∧ cornerWidth T w d ≤ 5 * w := by
  unfold cornerWidth Clamp
  have h1 : (1 / 5 : α) ≤ max (min (T.Cos (T.Acos d / 2)) 1) (1 / 5) := le_max_right _ _
  have h2 : max (min (T.Cos (T.Acos d / 2)) 1) (1 / 5) ≤ (1 : α) :=
    max_le (min_le_right _ _) (by norm_num)
  have hpos : (0 : α) < max (min (T.Cos (T.Acos d / 2)) 1) (1 / 5) :=
    lt_of_lt_of_le (by norm_num) h1
  constructor
  · rw [le_div_iff₀ hpos]
    nlinarith
  · rw [div_le_iff₀ hpos]
    nlinarith

/-- C26: for a chain of at least two points and a due vertex calculation, `CreateMesh`
emits at every chain point `i` the two vertices `chain[i] ± perp * (width / 2)`, where
`perp = normalize(cross(up, normalize(incoming + outgoing)))` and
`width = LineWidth / clamp(cos(acos(d) / 2), 0.2, 1)` for `d = dot(incoming, outgoing)`;
for a positive `LineWidth` this width lies between `LineWidth` and `5 * LineWidth`. -/
theorem C26_corner_widening (E : Engine α) (T : Trig α) (m : ULineMesh α)
    (hM : 2 ≤ m.Bezier.Tessellated.length) (h2 : 2 ≤ m.Bezier.Points.length)
    (hc : m.LastVertexPositionCalculation ≠ m.DataCycle) (hw : 0 < m.LineWidth) :
    ∃ m1, CreateMesh E T m = some m1 ∧ ∀ i, i < m.Bezier.Tessellated.length →
      m1.LineVertices[2 * i]? = some (m.Bezier.Tessellated.getD i 0 +
        crossSectionDirection E m.UpVector (RibbonIncoming E m.Bezier.Tessellated i)
            (RibbonOutgoing E m.Bezier.Tessellated i) *
          (cornerWidth T m.LineWidth
            (FVector.DotProduct (RibbonIncoming E m.Bezier.Tessellated i)
              (RibbonOutgoing E m.Bezier.Tessellated i)) / 2)) ∧
      m1.LineVertices[2 * i + 1]? = some (m.Bezier.Tessellated.getD i 0 -
        crossSectionDirection E m.UpVector (RibbonIncoming E m.Bezier.Tessellated i)
            (RibbonOutgoing E m.Bezier.Tessellated i) *
          (cornerWidth T m.LineWidth
            (FVector.DotProduct (RibbonIncoming E m.Bezier.Tessellated i)
              (RibbonOutgoing E m.Bezier.Tessellated i)) / 2)) ∧
      m.LineWidth ≤ cornerWidth T m.LineWidth
        (FVector.DotProduct (RibbonIncoming E m.Bezier.Tessellated i)
          (RibbonOutgoing E m.Bezier.Tessellated i)) ∧
      cornerWidth T m.LineWidth
        (FVector.DotProduct (RibbonIncoming E m.Bezier.Tessellated i)
          (RibbonOutgoing E m.Bezier.Tessellated i)) ≤ 5 * m.LineWidth := by
  obtain ⟨m1, hm1, _, _, hvert⟩ := CreateMesh_vertices E T m hM h2 hc
  refine ⟨m1, hm1, fun i hi => ?_⟩
  obtain ⟨v0, v1⟩ := hvert i hi
  have hb := cornerWidth_bounds T m.LineWidth
    (FVector.DotProduct (RibbonIncoming E m.Bezier.Tessellated i)
      (RibbonOutgoing E m.Bezier.Tessellated i)) hw
  rw [Nat.mul_comm] at v0 v1
  exact ⟨v0, v1, hb.1, hb.2⟩

/-- Witness of C26 on the straight two-point ribbon of width 10. -/
theorem C26_corner_widening_witness :
    (2 ≤ meshExample.Bezier.Tessellated.length ∧ 2 ≤ meshExample.Bezier.Points.length ∧
      meshExample.LastVertexPositionCalculation ≠ meshExample.DataCycle ∧
      0 < meshExample.LineWidth) ∧
    ∃ m1, CreateMesh ratEngine ratTrig meshExample = some m1 ∧
      ∀ i, i < meshExample.Bezier.Tessellated.length →
      m1.LineVertices[2 * i]? = some (meshExample.Bezier.Tessellated.getD i 0 +
        crossSectionDirection ratEngine meshExample.UpVector
            (RibbonIncoming ratEngine meshExample.Bezier.Tessellated i)
            (RibbonOutgoing ratEngine meshExample.Bezier.Tessellated i) *
          (cornerWidth ratTrig meshExample.LineWidth
            (FVector.DotProduct (RibbonIncoming ratEngine meshExample.Bezier.Tessellated i)
              (RibbonOutgoing ratEngine meshExample.Bezier.Tessellated i)) / 2)) ∧
      m1.LineVertices[2 * i + 1]? = some (meshExample.Bezier.Tessellated.getD i 0 -
        crossSectionDirection ratEngine meshExample.UpVector
            (RibbonIncoming ratEngine meshExample.Bezier.Tessellated i)
            (RibbonOutgoing ratEngine meshExample.Bezier.Tessellated i) *
          (cornerWidth ratTrig meshExample.LineWidth
            (FVector.DotProduct (RibbonIncoming ratEngine meshExample.Bezier.Tessellated i)
              (RibbonOutgoing ratEngine meshExample.Bezier.Tessellated i)) / 2)) ∧
      meshExample.LineWidth ≤ cornerWidth ratTrig meshExample.LineWidth
        (FVector.DotProduct (RibbonIncoming ratEngine meshExample.Bezier.Tessellated i)
          (RibbonOutgoing ratEngine meshExample.Bezier.Tessellated i)) ∧
      cornerWidth ratTrig meshExample.LineWidth
        (FVector.DotProduct (RibbonIncoming ratEngine meshExample.Bezier.Tessellated i)
          (RibbonOutgoing ratEngine meshExample.Bezier.Tessellated i)) ≤
        5 * meshExample.LineWidth :=
  ⟨⟨by decide, by decide, by decide, by decide!⟩,
    C26_corner_widening ratEngine ratTrig meshExample (by decide) (by decide) (by decide)
      (by decide!)⟩

end Arrow

/-! ## Chain parity, slope samples and arrow scale -/

section Parity

variable {α : Type} [LinearOrderedField α] [FloorRing α]

/-- A call of `TessellateSegment` that returns has appended an even number of points, at
least two: every leaf appends its left end and its curve midpoint. -/
theorem TessellateSegment_even (E : Engine α) (s : FBezierCalc α) :
    ∀ (fuel : Nat) (k : Int) (T0 : α) (P0 : FVector α) (T1 : α) (P1 : FVector α)
      (Tes R : List (FVector α)),
      TessellateSegment E s fuel k T0 P0 T1 P1 Tes = some R →
      ∃ n, 1 ≤ n ∧ R.length = Tes.length + 2 * n := by
  intro fuel
  induction fuel with
  | zero =>
    intro k T0 P0 T1 P1 Tes R h
    simp [TessellateSegment] at h
  | succ n ih =>
    intro k T0 P0 T1 P1 Tes R h
    rw [TessellateSegment] at h
    simp only [Option.bind_eq_bind, Option.bind_eq_some] at h
    obtain ⟨Mid, _, b, _, h⟩ := h
    cases b with
    | true =>
      simp only [if_true, Option.bind_eq_some] at h
      obtain ⟨Ra, ha, hb⟩ := h
      obtain ⟨n1, h1, e1⟩ := ih _ _ _ _ _ _ _ ha
      obtain ⟨n2, h2, e2⟩ := ih _ _ _ _ _ _ _ hb
      exact ⟨n1 + n2, by omega, by omega⟩
    | false =>
      simp at h
      rw [← h]
      exact ⟨1, le_refl _, by simp⟩

/-- All entries of `SegmentTessIndexes` are even after `CalculateBezier` on at least two
points. -/
theorem CalculateBezier_even (E : Engine α) (fuel : Nat) (s s' : FBezierCalc α)
    (hN : 2 ≤ s.Points.length) (h : CalculateBezier E fuel s = some s') :
    ∀ i, i < s.Points.length →
      ∃ a : Nat, s'.SegmentTessIndexes[i]? = some (a : Int) ∧ a % 2 = 0 := by
  unfold CalculateBezier at h
  simp only [] at h
  rw [if_neg (by omega)] at h
  have key := foldlM_range_induction
    (fun k (st : FBezierCalc α) =>
      st.Points = s.Points ∧ st.SegmentTessIndexes.length = s.Points.length ∧
      (k + 1 ≤ s.Points.length → st.Tessellated.length % 2 = 0) ∧
      ∀ i, i < k → ∃ a : Nat, st.SegmentTessIndexes[i]? = some (a : Int) ∧ a % 2 = 0)
    _ _ _ _ h
    ⟨rfl, length_SetNumZeroed _ _, fun _ => rfl, fun i hi => absurd hi (Nat.not_lt_zero i)⟩
    (by
      rintro i st st' hi ⟨hP, hl, hev, hent⟩ hf
      obtain ⟨hsc, hSTI, _, L, _, _, _, hseg⟩ := CalculateBezierStep_some E fuel st st' i hf
      refine ⟨hsc.1.trans hP, by rw [hSTI, List.length_set]; exact hl, ?_, ?_⟩
      · intro hk
        obtain ⟨Tes, _, hT, _, hTess, _⟩ := hseg (by rw [hP]; omega)
        obtain ⟨n, _, hn⟩ := TessellateSegment_even E _ _ _ _ _ _ _ _ _ hT
        have := hev (by omega)
        rw [hTess, hn]
        omega
      · intro j hj
        rw [hSTI]
        rcases Nat.lt_succ_iff_lt_or_eq.mp hj with hlt | heq
        · rw [List.getElem?_set_ne (by omega)]
          exact hent j hlt
        · subst heq
          rw [List.getElem?_set_self (by omega)]
          exact ⟨st.Tessellated.length, rfl, hev (by omega)⟩)
  exact key.2.2.2

/-- C28: in smooth mode with `N ≥ 2`, when `Calculate` returns, every entry of
`SegmentTessIndexes` is even, every segment contributes an even number of chain points, at
least two, and the chain length is odd and at least `2N - 1`. -/
theorem C28_chain_parity (E : Engine α) (fuel : Nat) (s s' : FBezierCalc α)
    (hH : s.HardCorners = false) (hN : 2 ≤ s.Points.length)
    (h : Calculate E fuel s = some s') :
    (∀ i, i < s.Points.length →
      ∃ a : Nat, s'.SegmentTessIndexes[i]? = some (a : Int) ∧ a % 2 = 0) ∧
    (∀ i, i + 1 < s.Points.length → ∃ a b : Nat,
      s'.SegmentTessIndexes[i]? = some (a : Int) ∧
      s'.SegmentTessIndexes[i + 1]? = some (b : Int) ∧ a + 2 ≤ b ∧ (b - a) % 2 = 0) ∧
    s'.Tessellated.length % 2 = 1 ∧ 2 * s.Points.length - 1 ≤ s'.Tessellated.length := by
  have hPl : (CalculateTangents E s).Points.length = s.Points.length := by
    rw [(CalculateTangents_spec E s).1.1]
  have h2 : 2 ≤ (CalculateTangents E s).Points.length := by rw [hPl]; exact hN
  have hb := (Calculate_smooth E fuel s s' hH h).1
  have hev := CalculateBezier_even E fuel (CalculateTangents E s) s' h2 hb
  obtain ⟨idx, _, _, _, hlast, hsti, hmono, _⟩ :=
    CalculateBezier_chain E fuel (CalculateTangents E s) s' h2 hb
  rw [hPl] at hev hlast hsti hmono
  have hidx : ∀ i, i < s.Points.length → idx i % 2 = 0 := by
    intro i hi
    obtain ⟨a, ha, hpar⟩ := hev i hi
    rw [hsti i hi] at ha
    have := Option.some.inj ha
    omega
  have hgrow : ∀ i, i < s.Points.length → 2 * i ≤ idx i := by
    intro i
    induction i with
    | zero => intro _; omega
    | succ n ih =>
      intro hi
      have h1 := ih (by omega)
      have h3 := hmono n hi
      have h4 := hidx n (by omega)
      have h5 := hidx (n + 1) hi
      omega
  refine ⟨hev, ?_, ?_, ?_⟩
  · intro i hi
    have h3 := hmono i hi
    have h4 := hidx i (by omega)
    have h5 := hidx (i + 1) hi
    exact ⟨idx i, idx (i + 1), hsti i (by omega), hsti (i + 1) hi, by omega, by omega⟩
  · have := hidx (s.Points.length - 1) (by omega)
    omega
  · have := hgrow (s.Points.length - 1) (by omega)
    omega

/-- Witness of C28 on the smooth three-point example `(0,0,0), (3,4,0), (6,0,0)`: start
indices `0, 2, 4` and a chain of 5 points. -/
theorem C28_chain_parity_witness :
    ∃ s', Calculate ratEngine 1 cornerExample = some s' ∧
      (∀ i, i < cornerExample.Points.length →
        ∃ a : Nat, s'.SegmentTessIndexes[i]? = some (a : Int) ∧ a % 2 = 0) ∧
      (∀ i, i + 1 < cornerExample.Points.length → ∃ a b : Nat,
        s'.SegmentTessIndexes[i]? = some (a : Int) ∧
        s'.SegmentTessIndexes[i + 1]? = some (b : Int) ∧ a + 2 ≤ b ∧ (b - a) % 2 = 0) ∧
      s'.Tessellated.length % 2 = 1 ∧
      2 * cornerExample.Points.length - 1 ≤ s'.Tessellated.length := by
  have h : (Calculate ratEngine 1 cornerExample).isSome = true := by decide!
  obtain ⟨s', hs⟩ := Option.isSome_iff_exists.mp h
  exact ⟨s', hs, C28_chain_parity ratEngine 1 cornerExample s' rfl (by decide) hs⟩

/-- The two samples of `SlopeAtPoint` lie in `[0, N]` for `N ≥ 2` points, at least `0.02`
apart; the right sample stays within `[0, N - 1]` as long as `p ≤ N - 1 - 0.01`. -/
theorem slope_samples (s : FBezierCalc α) (p : α) (hN : 2 ≤ s.Points.length) :
    0 ≤ SlopeLeft s p ∧ SlopeLeft s p ≤ (s.Points.length : α) - 2 / 100 ∧
    2 / 100 ≤ SlopeRight s p ∧ SlopeRight s p ≤ (s.Points.length : α) ∧
    SlopeLeft s p + 2 / 100 ≤ SlopeRight s p ∧
    (p ≤ (s.Points.length : α) - 1 - 1 / 100 →
      SlopeRight s p ≤ (s.Points.length : α) - 1) := by
  have h1 : (2 : α) ≤ (s.Points.length : α) := by exact_mod_cast hN
  unfold SlopeLeft SlopeRight Clamp
  simp only []
  generalize (s.Points.length : α) = n at h1
  have hq0 : (0 : α) ≤ max (min p n) 0 := le_max_right _ _
  have hqn : max (min p n) 0 ≤ n := max_le (min_le_right _ _) (by linarith)
  have hqp : max (min p n) 0 ≤ max p 0 := max_le_max (min_le_left _ _) (le_refl _)
  generalize max (min p n) 0 = q at hq0 hqn hqp
  have ha0 : (0 : α) ≤ max (min (q - 1 / 100) n) 0 := le_max_right _ _
  have ha1 : max (min (q - 1 / 100) n) 0 ≤ max (q - 1 / 100) 0 :=
    max_le_max (min_le_left _ _) (le_refl _)
  generalize max (min (q - 1 / 100) n) 0 = a at ha0 ha1
  have hb0 : min (q + 1 / 100) n ≤ max (min (q + 1 / 100) n) 0 := le_max_left _ _
  have hb1 : max (min (q + 1 / 100) n) 0 ≤ n := max_le (min_le_right _ _) (by linarith)
  have hb2 : max (min (q + 1 / 100) n) 0 ≤ q + 1 / 100 :=
    max_le (min_le_left _ _) (by linarith)
  generalize max (min (q + 1 / 100) n) 0 = b at hb0 hb1 hb2
  have hLa : max (min a (n - 2 * (1 / 100))) 0 ≤ a := max_le (min_le_left _ _) ha0
  have hLn : max (min a (n - 2 * (1 / 100))) 0 ≤ n - 2 * (1 / 100) :=
    max_le (min_le_right _ _) (by linarith)
  have hRb : b ≤ max (min b n) (2 * (1 / 100)) := by
    rw [min_eq_left hb1]
    exact le_max_left _ _
  have hR2 : 2 * (1 / 100) ≤ max (min b n) (2 * (1 / 100)) := le_max_right _ _
  refine ⟨le_max_right _ _, by linarith, by linarith,
    max_le (min_le_right _ _) (by linarith), ?_, ?_⟩
  · rcases le_total (q + 1 / 100) n with hc | hc
    · rw [min_eq_left hc] at hb0
      rcases le_total (q - 1 / 100) 0 with hd | hd
      · rw [max_eq_right hd] at ha1
        linarith
      · rw [max_eq_left hd] at ha1
        linarith
    · rw [min_eq_right hc] at hb0
      linarith
  · intro hp
    have hq : q ≤ n - 1 - 1 / 100 := le_trans hqp (max_le hp (by linarith))
    apply max_le
    · exact le_trans (min_le_left _ _) (by linarith)
    · linarith

/-- C25 (amended): after a smooth `Calculate` on `N ≥ 2` points, for every progress `p` the
two samples `Left`, `Right` of `SlopeAtPoint` lie in `[0, N]` (the range the code clamps
to), `Left ≤ N - 0.02`, `Right ≥ 0.02` and `Right - Left ≥ 0.02`; `Right` stays within the
progress domain `[0, N - 1]` when `p ≤ N - 1 - 0.01`; both samples evaluate, and the result
is the normalised difference of the curve at the two samples. -/
theorem C25_slope_samples (E : Engine α) (fuel : Nat) (s s' : FBezierCalc α) (p : α)
    (hH : s.HardCorners = false) (hN : 2 ≤ s.Points.length)
    (h : Calculate E fuel s = some s') :
    (0 ≤ SlopeLeft s' p ∧ SlopeLeft s' p ≤ (s'.Points.length : α) - 2 / 100 ∧
      2 / 100 ≤ SlopeRight s' p ∧ SlopeRight s' p ≤ (s'.Points.length : α) ∧
      SlopeLeft s' p + 2 / 100 ≤ SlopeRight s' p ∧
      (p ≤ (s'.Points.length : α) - 1 - 1 / 100 →
        SlopeRight s' p ≤ (s'.Points.length : α) - 1)) ∧
    ∃ P0 P1, CalculateBezierPoint s' (SlopeLeft s' p) = some P0 ∧
      CalculateBezierPoint s' (SlopeRight s' p) = some P1 ∧
      SlopeAtPoint E s' p = some ((P1 - P0).GetSafeNormal E) := by
  obtain ⟨_, _, hP, hI, hO⟩ := Calculate_smooth E fuel s s' hH h
  have hN' : 1 ≤ s'.Points.length := by rw [hP]; omega
  obtain ⟨a1, a2, a3, a4, a5, a6⟩ := slope_samples s' p (by rw [hP]; exact hN)
  refine ⟨⟨a1, a2, a3, a4, a5, a6⟩, ?_⟩
  obtain ⟨P0, h0⟩ := Option.isSome_iff_exists.mp
    (CalculateBezierPoint_isSome s' (SlopeLeft s' p) hN' (by rw [hI, hP]) (by rw [hO, hP]))
  obtain ⟨P1, h1⟩ := Option.isSome_iff_exists.mp
    (CalculateBezierPoint_isSome s' (SlopeRight s' p) hN' (by rw [hI, hP]) (by rw [hO, hP]))
  refine ⟨P0, P1, h0, h1, ?_⟩
  have hdef : SlopeAtPoint E s' p =
      (CalculateBezierPoint s' (SlopeLeft s' p)).bind (fun Q0 =>
        (CalculateBezierPoint s' (SlopeRight s' p)).bind (fun Q1 =>
          some ((Q1 - Q0).GetSafeNormal E))) := rfl
  rw [hdef, h0, h1]
  rfl

/-- Witness of C25 (amended) on the smooth three-point example at `p = 1/2`. -/
theorem C25_slope_samples_witness :
    ∃ s', Calculate ratEngine 1 cornerExample = some s' ∧
      (0 ≤ SlopeLeft s' (1 / 2) ∧ SlopeLeft s' (1 / 2) ≤ (s'.Points.length : ℚ) - 2 / 100 ∧
        2 / 100 ≤ SlopeRight s' (1 / 2) ∧ SlopeRight s' (1 / 2) ≤ (s'.Points.length : ℚ) ∧
        SlopeLeft s' (1 / 2) + 2 / 100 ≤ SlopeRight s' (1 / 2) ∧
        ((1 / 2 : ℚ) ≤ (s'.Points.length : ℚ) - 1 - 1 / 100 →
          SlopeRight s' (1 / 2) ≤ (s'.Points.length : ℚ) - 1)) ∧
      ∃ P0 P1, CalculateBezierPoint s' (SlopeLeft s' (1 / 2)) = some P0 ∧
        CalculateBezierPoint s' (SlopeRight s' (1 / 2)) = some P1 ∧
        SlopeAtPoint ratEngine s' (1 / 2) = some ((P1 - P0).GetSafeNormal ratEngine) := by
  have h : (Calculate ratEngine 1 cornerExample).isSome = true := by decide!
  obtain ⟨s', hs⟩ := Option.isSome_iff_exists.mp h
  exact ⟨s', hs, C25_slope_samples ratEngine 1 cornerExample s' (1 / 2) rfl (by decide) hs⟩

/-- C25 as stated fails at the domain edge `p = N - 1`: on the smooth two-point example
(`N - 1 = 1`) the right sample of `SlopeAtPoint(1)` is `1.01`, outside `[0, N - 1]`; the
curve returns its last point `(4,0,0)` there, as it does at `1`. -/
theorem C25_slope_samples_counterexample :
    (Calculate ratEngine 1 smoothExample).map
      (fun s' => (SlopeLeft s' 1, SlopeRight s' 1, (s'.Points.length : ℚ) - 1)) =
      some (99 / 100, 101 / 100, 1) ∧
    (Calculate ratEngine 1 smoothExample).bind
      (fun s' => CalculateBezierPoint s' (SlopeRight s' 1)) = some ⟨4, 0, 0⟩ ∧
    (Calculate ratEngine 1 smoothExample).bind
      (fun s' => CalculateBezierPoint s' 1) = some ⟨4, 0, 0⟩ := by
  refine ⟨by decide!, by decide!, by decide!⟩

theorem Size_mul (E : Engine α) (hE : ∀ x, 0 ≤ E.Sqrt x)
    (hsq : ∀ x, 0 ≤ x → E.Sqrt x * E.Sqrt x = x) (v : FVector α) (k : α) (hk : 0 ≤ k) :
    (v * k).Size E = k * v.Size E := by
  unfold FVector.Size
  have e : (v * k).X * (v * k).X + (v * k).Y * (v * k).Y + (v * k).Z * (v * k).Z =
      k * k * (v.X * v.X + v.Y * v.Y + v.Z * v.Z) := by
    simp only [FVector.mul_X, FVector.mul_Y, FVector.mul_Z]
    ring
  rw [e]
  exact Sqrt_mul_self_mul E hE hsq k _ hk (sum_squares_nonneg _ _ _)

theorem Size_of_unit (E : Engine α) (hE : ∀ x, 0 ≤ E.Sqrt x)
    (hsq : ∀ x, 0 ≤ x → E.Sqrt x * E.Sqrt x = x) (v : FVector α) (h : v.SizeSquared = 1) :
    v.Size E = 1 := by
  unfold FVector.SizeSquared at h
  unfold FVector.Size
  rw [h]
  exact Sqrt_one E hE hsq

theorem Size_pos (E : Engine α) (hE : ∀ x, 0 ≤ E.Sqrt x)
    (hsq : ∀ x, 0 ≤ x → E.Sqrt x * E.Sqrt x = x) (v : FVector α) (h : 0 < v.SizeSquared) :
    0 < v.Size E := by
  unfold FVector.SizeSquared at h
  unfold FVector.Size
  apply lt_of_le_of_ne (hE _)
  intro hz
  have := Sqrt_eq_zero E hsq _ (le_of_lt h) hz.symm
  linarith

/-- Above the tolerance, `GetSafeNormal` returns a unit vector. -/
theorem GetSafeNormal_unit (E : Engine α) (hE : ∀ x, 0 ≤ E.Sqrt x)
    (hsq : ∀ x, 0 ≤ x → E.Sqrt x * E.Sqrt x = x) (v : FVector α)
    (h0 : 0 < E.SmallNumber) (htol : E.SmallNumber ≤ v.SizeSquared) :
    (v.GetSafeNormal E).SizeSquared = 1 := by
  obtain ⟨k, _, hk, hk1⟩ := GetSafeNormal_scale E hE hsq v h0 htol
  rw [hk, FVector.smul_SizeSquared]
  exact hk1

/-- A combination `a * 2 + b * (3/4)` or `b * (3/4) - a * 2` of two unit vectors is not
the zero vector. -/
theorem barb_offset_pos (a b : FVector α) (ha : a.SizeSquared = 1) (hb : b.SizeSquared = 1) :
    0 < (b * (3 / 4 : α) - a * (2 : α)).SizeSquared ∧
    0 < (a * (2 : α) + b * (3 / 4 : α)).SizeSquared := by
  unfold FVector.SizeSquared at ha hb ⊢
  simp only [FVector.sub_X, FVector.sub_Y, FVector.sub_Z, FVector.add_X, FVector.add_Y,
    FVector.add_Z, FVector.mul_X, FVector.mul_Y, FVector.mul_Z]
  -- |2a ± (3/4) b|² ≥ (2 - 3/4)² > 0, from 2 a·b ≤ |a|² + |b|²
  have c1 := mul_self_nonneg (a.X - b.X)
  have c2 := mul_self_nonneg (a.Y - b.Y)
  have c3 := mul_self_nonneg (a.Z - b.Z)
  have d1 := mul_self_nonneg (a.X + b.X)
  have d2 := mul_self_nonneg (a.Y + b.Y)
  have d3 := mul_self_nonneg (a.Z + b.Z)
  constructor <;> nlinarith

/-- C23 (amended): for an end rectangle whose far edge `P3 - P2` and whose midpoint
difference `M1 - M0` have squared lengths not below the tolerance of `GetSafeNormal`, with
`L = |P3 - P2|`: the tip extension `|Tip - M1|` is `3 * s * L` for every arrow scale
`s ≥ 0`, and for `0 ≤ s1 < s2` the tip extension and the displacement of each barb from its
corner (`|B0 - P2|`, `|B1 - P3|`) are strictly larger at `s2` than at `s1`. -/
theorem C23_arrow_scale_monotone (E : Engine α) (hE : ∀ x, 0 ≤ E.Sqrt x)
    (hsq : ∀ x, 0 ≤ x → E.Sqrt x * E.Sqrt x = x) (P0 P1 P2 P3 : FVector α)
    (Uv0 Uv2 Uv3 : FVector2D α) (s1 s2 : α) (h0 : 0 < E.SmallNumber)
    (hL : E.SmallNumber ≤ (P3 - P2).SizeSquared)
    (hM : E.SmallNumber ≤ ((P2 + P3).DivScalar 2 - (P0 + P1).DivScalar 2).SizeSquared)
    (hs1 : 0 ≤ s1) (hs : s1 < s2) :
    ((ArrowHeadGeometry E s1 P0 P1 P2 P3 Uv0 Uv2 Uv3).T0 -
        (ArrowHeadGeometry E s1 P0 P1 P2 P3 Uv0 Uv2 Uv3).M1).Size E =
      3 * s1 * (P3 - P2).Size E ∧
    ((ArrowHeadGeometry E s2 P0 P1 P2 P3 Uv0 Uv2 Uv3).T0 -
        (ArrowHeadGeometry E s2 P0 P1 P2 P3 Uv0 Uv2 Uv3).M1).Size E =
      3 * s2 * (P3 - P2).Size E ∧
    ((ArrowHeadGeometry E s1 P0 P1 P2 P3 Uv0 Uv2 Uv3).T0 -
        (ArrowHeadGeometry E s1 P0 P1 P2 P3 Uv0 Uv2 Uv3).M1).Size E <
      ((ArrowHeadGeometry E s2 P0 P1 P2 P3 Uv0 Uv2 Uv3).T0 -
        (ArrowHeadGeometry E s2 P0 P1 P2 P3 Uv0 Uv2 Uv3).M1).Size E ∧
    ((ArrowHeadGeometry E s1 P0 P1 P2 P3 Uv0 Uv2 Uv3).B0 - P2).Size E <
      ((ArrowHeadGeometry E s2 P0 P1 P2 P3 Uv0 Uv2 Uv3).B0 - P2).Size E ∧
    ((ArrowHeadGeometry E s1 P0 P1 P2 P3 Uv0 Uv2 Uv3).B1 - P3).Size E <
      ((ArrowHeadGeometry E s2 P0 P1 P2 P3 Uv0 Uv2 Uv3).B1 - P3).Size E := by
  have hLpos : 0 < (P3 - P2).Size E :=
    Size_pos E hE hsq _ (lt_of_lt_of_le h0 hL)
  have hM' : E.SmallNumber ≤ ((P0 + P1).DivScalar 2 - (P2 + P3).DivScalar 2).SizeSquared := by
    have e : ((P0 + P1).DivScalar 2 - (P2 + P3).DivScalar 2).SizeSquared =
        ((P2 + P3).DivScalar 2 - (P0 + P1).DivScalar 2).SizeSquared := by
      unfold FVector.SizeSquared
      simp only [FVector.sub_X, FVector.sub_Y, FVector.sub_Z]
      ring
    rw [e]
    exact hM
  have uN := GetSafeNormal_unit E hE hsq (P3 - P2) h0 hL
  have uT := GetSafeNormal_unit E hE hsq _ h0 hM
  have uB := GetSafeNormal_unit E hE hsq _ h0 hM'
  obtain ⟨w0, w1⟩ := barb_offset_pos ((P3 - P2).GetSafeNormal E)
    (((P0 + P1).DivScalar 2 - (P2 + P3).DivScalar 2).GetSafeNormal E) uN uB
  have hw0 := Size_pos E hE hsq _ w0
  have hw1 := Size_pos E hE hsq _ w1
  -- the three displacements as a fixed vector scaled by `s * L`
  have tip : ∀ s : α, 0 ≤ s →
      ((ArrowHeadGeometry E s P0 P1 P2 P3 Uv0 Uv2 Uv3).T0 -
        (ArrowHeadGeometry E s P0 P1 P2 P3 Uv0 Uv2 Uv3).M1).Size E =
      3 * s * (P3 - P2).Size E := by
    intro s hs0
    have e : (ArrowHeadGeometry E s P0 P1 P2 P3 Uv0 Uv2 Uv3).T0 -
        (ArrowHeadGeometry E s P0 P1 P2 P3 Uv0 Uv2 Uv3).M1 =
        (((P2 + P3).DivScalar 2 - (P0 + P1).DivScalar 2).GetSafeNormal E) *
          ((P3 - P2).Size E * (3 * s)) := by
      unfold ArrowHeadGeometry
      ext <;> simp
    rw [e, Size_mul E hE hsq _ _ (mul_nonneg hLpos.le (by linarith)),
      Size_of_unit E hE hsq _ uT]
    ring
  have barb0 : ∀ s : α, 0 ≤ s →
      ((ArrowHeadGeometry E s P0 P1 P2 P3 Uv0 Uv2 Uv3).B0 - P2).Size E =
      (s * (P3 - P2).Size E) *
        ((((P0 + P1).DivScalar 2 - (P2 + P3).DivScalar 2).GetSafeNormal E) * (3 / 4 : α) -
          ((P3 - P2).GetSafeNormal E) * (2 : α)).Size E := by
    intro s hs0
    have e : (ArrowHeadGeometry E s P0 P1 P2 P3 Uv0 Uv2 Uv3).B0 - P2 =
        ((((P0 + P1).DivScalar 2 - (P2 + P3).DivScalar 2).GetSafeNormal E) * (3 / 4 : α) -
          ((P3 - P2).GetSafeNormal E) * (2 : α)) * (s * (P3 - P2).Size E) := by
      unfold ArrowHeadGeometry
      ext <;> simp <;> ring
    rw [e, Size_mul E hE hsq _ _ (mul_nonneg hs0 hLpos.le)]
  have barb1 : ∀ s : α, 0 ≤ s →
      ((ArrowHeadGeometry E s P0 P1 P2 P3 Uv0 Uv2 Uv3).B1 - P3).Size E =
      (s * (P3 - P2).Size E) *
        (((P3 - P2).GetSafeNormal E) * (2 : α) +
          (((P0 + P1).DivScalar 2 - (P2 + P3).DivScalar 2).GetSafeNormal E) * (3 / 4 : α)).Size E := by
    intro s hs0
    have e : (ArrowHeadGeometry E s P0 P1 P2 P3 Uv0 Uv2 Uv3).B1 - P3 =
        (((P3 - P2).GetSafeNormal E) * (2 : α) +
          (((P0 + P1).DivScalar 2 - (P2 + P3).DivScalar 2).GetSafeNormal E) * (3 / 4 : α)) *
          (s * (P3 - P2).Size E) := by
      unfold ArrowHeadGeometry
      ext <;> simp <;> ring
    rw [e, Size_mul E hE hsq _ _ (mul_nonneg hs0 hLpos.le)]
  have hs2 : 0 ≤ s2 := by linarith
  have hsL : s1 * (P3 - P2).Size E < s2 * (P3 - P2).Size E :=
    mul_lt_mul_of_pos_right hs hLpos
  refine ⟨tip s1 hs1, tip s2 hs2, ?_, ?_, ?_⟩
  · rw [tip s1 hs1, tip s2 hs2]
    nlinarith
  · rw [barb0 s1 hs1, barb0 s2 hs2]
    exact mul_lt_mul_of_pos_right hsL hw0
  · rw [barb1 s1 hs1, barb1 s2 hs2]
    exact mul_lt_mul_of_pos_right hsL hw1

/-- Witness of C23 (amended) over the real numbers with the real square root: the end
rectangle `(0,5,0), (0,-5,0), (100,5,0), (100,-5,0)` of the straight ribbon, scales 1
and 2. -/
theorem C23_arrow_scale_monotone_witness :
    FVector.Size (⟨Real.sqrt, 1 / 100000000⟩ : Engine ℝ)
      ((ArrowHeadGeometry (⟨Real.sqrt, 1 / 100000000⟩ : Engine ℝ) 1 ⟨0, 5, 0⟩ ⟨0, -5, 0⟩
          ⟨100, 5, 0⟩ ⟨100, -5, 0⟩ ⟨0, 0⟩ ⟨0, 1⟩ ⟨1, 1⟩).T0 -
        (ArrowHeadGeometry (⟨Real.sqrt, 1 / 100000000⟩ : Engine ℝ) 1 ⟨0, 5, 0⟩ ⟨0, -5, 0⟩
          ⟨100, 5, 0⟩ ⟨100, -5, 0⟩ ⟨0, 0⟩ ⟨0, 1⟩ ⟨1, 1⟩).M1) <
    FVector.Size (⟨Real.sqrt, 1 / 100000000⟩ : Engine ℝ)
      ((ArrowHeadGeometry (⟨Real.sqrt, 1 / 100000000⟩ : Engine ℝ) 2 ⟨0, 5, 0⟩ ⟨0, -5, 0⟩
          ⟨100, 5, 0⟩ ⟨100, -5, 0⟩ ⟨0, 0⟩ ⟨0, 1⟩ ⟨1, 1⟩).T0 -
        (ArrowHeadGeometry (⟨Real.sqrt, 1 / 100000000⟩ : Engine ℝ) 2 ⟨0, 5, 0⟩ ⟨0, -5, 0⟩
          ⟨100, 5, 0⟩ ⟨100, -5, 0⟩ ⟨0, 0⟩ ⟨0, 1⟩ ⟨1, 1⟩).M1) :=
  (C23_arrow_scale_monotone (⟨Real.sqrt, 1 / 100000000⟩ : Engine ℝ) Real.sqrt_nonneg
    (fun x hx => Real.mul_self_sqrt hx) ⟨0, 5, 0⟩ ⟨0, -5, 0⟩ ⟨100, 5, 0⟩ ⟨100, -5, 0⟩
    ⟨0, 0⟩ ⟨0, 1⟩ ⟨1, 1⟩ 1 2 (by norm_num)
    (by simp [FVector.SizeSquared]; norm_num)
    (by simp [FVector.SizeSquared, FVector.DivScalar]; norm_num)
    (by norm_num) (by norm_num)).2.2.1

/-- C23 as stated fails for a rectangle below the tolerance of `GetSafeNormal`: for the
rectangle `(0,0,0), (0,1e-5,0), (1e-5,0,0), (1e-5,1e-5,0)` the far edge has the positive
length `1e-5` and the edge midpoints differ, but every direction is normalised to the zero
vector, so for both arrow scales 1 and 2 the tip is `M1` and the barbs are the corners
`P2`, `P3`: the extension is 0 and does not increase. -/
theorem C23_arrow_scale_counterexample :
    FVector.Size ratEngine ((⟨1 / 100000, 1 / 100000, 0⟩ : FVector ℚ) - ⟨1 / 100000, 0, 0⟩) =
      1 / 100000 ∧
    (ArrowHeadGeometry ratEngine 1 ⟨0, 0, 0⟩ ⟨0, 1 / 100000, 0⟩ ⟨1 / 100000, 0, 0⟩
        ⟨1 / 100000, 1 / 100000, 0⟩ ⟨0, 0⟩ ⟨0, 1⟩ ⟨1, 1⟩).T0 =
      (ArrowHeadGeometry ratEngine 2 ⟨0, 0, 0⟩ ⟨0, 1 / 100000, 0⟩ ⟨1 / 100000, 0, 0⟩
        ⟨1 / 100000, 1 / 100000, 0⟩ ⟨0, 0⟩ ⟨0, 1⟩ ⟨1, 1⟩).T0 ∧
    (ArrowHeadGeometry ratEngine 2 ⟨0, 0, 0⟩ ⟨0, 1 / 100000, 0⟩ ⟨1 / 100000, 0, 0⟩
        ⟨1 / 100000, 1 / 100000, 0⟩ ⟨0, 0⟩ ⟨0, 1⟩ ⟨1, 1⟩).T0 =
      (ArrowHeadGeometry ratEngine 2 ⟨0, 0, 0⟩ ⟨0, 1 / 100000, 0⟩ ⟨1 / 100000, 0, 0⟩
        ⟨1 / 100000, 1 / 100000, 0⟩ ⟨0, 0⟩ ⟨0, 1⟩ ⟨1, 1⟩).M1 ∧
    (ArrowHeadGeometry ratEngine 1 ⟨0, 0, 0⟩ ⟨0, 1 / 100000, 0⟩ ⟨1 / 100000, 0, 0⟩
        ⟨1 / 100000, 1 / 100000, 0⟩ ⟨0, 0⟩ ⟨0, 1⟩ ⟨1, 1⟩).B0 = ⟨1 / 100000, 0, 0⟩ ∧
    (ArrowHeadGeometry ratEngine 2 ⟨0, 0, 0⟩ ⟨0, 1 / 100000, 0⟩ ⟨1 / 100000, 0, 0⟩
        ⟨1 / 100000, 1 / 100000, 0⟩ ⟨0, 0⟩ ⟨0, 1⟩ ⟨1, 1⟩).B0 = ⟨1 / 100000, 0, 0⟩ := by
  refine ⟨by decide!, by decide!, by decide!, by decide!, by decide!⟩

end Parity

/-! ## Tangent synthesis under path reversal -/

section Reversal
variable {α : Type} [LinearOrderedField α] [FloorRing α]

theorem FVector.neg_zero_eq : -(0 : FVector α) = 0 := by
  ext <;> simp

theorem FVector.sub_eq_neg_sub (a b : FVector α) : a - b = -(b - a) := by
  ext <;> simp

/-- The function `GetSafeNormal` is odd. -/
theorem GetSafeNormal_neg (E : Engine α) (v : FVector α) :
    (-v).GetSafeNormal E = -(v.GetSafeNormal E) := by
  unfold FVector.GetSafeNormal
  simp only [FVector.neg_X, FVector.neg_Y, FVector.neg_Z, neg_mul_neg]
  split_ifs
  · rfl
  · exact FVector.neg_zero_eq.symm
  · ext <;> simp

theorem Size_neg (E : Engine α) (v : FVector α) : (-v).Size E = v.Size E := by
  unfold FVector.Size
  simp only [FVector.neg_X, FVector.neg_Y, FVector.neg_Z, neg_mul_neg]

theorem getD_reverse (P : List (FVector α)) (i : Nat) (hi : i < P.length) :
    P.reverse.getD i 0 = P.getD (P.length - 1 - i) 0 := by
  rw [List.getD_eq_getElem?_getD, List.getD_eq_getElem?_getD, List.getElem?_reverse hi]

/-- Reversing the point list negates the tangent direction of an interior point. -/
theorem dir_reverse (E : Engine α) (P : List (FVector α)) (i : Nat) (h1 : 1 ≤ i)
    (h2 : i + 1 < P.length) :
    TangentSolver.dir E P.reverse (P.length - 1 - i) = -TangentSolver.dir E P i := by
  unfold TangentSolver.dir
  have e0 : P.reverse.getD (P.length - 1 - i) 0 = P.getD i 0 := by
    rw [getD_reverse P _ (by omega)]
    congr 1
    omega
  have e1 : P.reverse.getD (P.length - 1 - i - 1) 0 = P.getD (i + 1) 0 := by
    rw [getD_reverse P _ (by omega)]
    congr 1
    omega
  have e2 : P.reverse.getD (P.length - 1 - i + 1) 0 = P.getD (i - 1) 0 := by
    rw [getD_reverse P _ (by omega)]
    congr 1
    omega
  rw [e0, e1, e2]
  have g1 : (P.getD i 0 - P.getD (i + 1) 0).GetSafeNormal E =
      -((P.getD (i + 1) 0 - P.getD i 0).GetSafeNormal E) := by
    rw [FVector.sub_eq_neg_sub, GetSafeNormal_neg]
  have g2 : (P.getD (i - 1) 0 - P.getD i 0).GetSafeNormal E =
      -((P.getD i 0 - P.getD (i - 1) 0).GetSafeNormal E) := by
    rw [FVector.sub_eq_neg_sub, GetSafeNormal_neg]
  have g3 : ∀ a b : FVector α, -b + -a = -(a + b) := by
    intro a b
    ext
    · show -b.X + -a.X = -(a.X + b.X)
      ring
    · show -b.Y + -a.Y = -(a.Y + b.Y)
      ring
    · show -b.Z + -a.Z = -(a.Z + b.Z)
      ring
  rw [g1, g2, g3, GetSafeNormal_neg]

theorem outInterior_reverse (E : Engine α) (P : List (FVector α)) (s : α) (i : Nat)
    (h1 : 1 ≤ i) (h2 : i + 1 < P.length) :
    TangentSolver.outInterior E P.reverse s (P.length - 1 - i) =
      -TangentSolver.inInterior E P s i := by
  unfold TangentSolver.outInterior TangentSolver.inInterior
  rw [dir_reverse E P i h1 h2]
  have e0 : P.reverse.getD (P.length - 1 - i) 0 = P.getD i 0 := by
    rw [getD_reverse P _ (by omega)]
    congr 1
    omega
  have e2 : P.reverse.getD (P.length - 1 - i + 1) 0 = P.getD (i - 1) 0 := by
    rw [getD_reverse P _ (by omega)]
    congr 1
    omega
  rw [e0, e2, FVector.sub_eq_neg_sub (P.getD (i - 1) 0) (P.getD i 0), Size_neg]
  ext <;> simp

theorem inInterior_reverse (E : Engine α) (P : List (FVector α)) (s : α) (i : Nat)
    (h1 : 1 ≤ i) (h2 : i + 1 < P.length) :
    TangentSolver.inInterior E P.reverse s (P.length - 1 - i) =
      -TangentSolver.outInterior E P s i := by
  unfold TangentSolver.outInterior TangentSolver.inInterior
  rw [dir_reverse E P i h1 h2]
  have e0 : P.reverse.getD (P.length - 1 - i) 0 = P.getD i 0 := by
    rw [getD_reverse P _ (by omega)]
    congr 1
    omega
  have e1 : P.reverse.getD (P.length - 1 - i - 1) 0 = P.getD (i + 1) 0 := by
    rw [getD_reverse P _ (by omega)]
    congr 1
    omega
  rw [e0, e1, FVector.sub_eq_neg_sub (P.getD i 0) (P.getD (i + 1) 0), Size_neg]
  ext <;> simp

theorem outFirst_reverse (E : Engine α) (P : List (FVector α)) (s : α) (O : FVector α)
    (hN : 2 ≤ P.length) :
    TangentSolver.outFirst E P.reverse s (-O) = -TangentSolver.inLast E P s O := by
  unfold TangentSolver.outFirst TangentSolver.inLast
  have e0 : P.reverse.getD 0 0 = P.getD (P.length - 1) 0 := by
    rw [getD_reverse P _ (by omega), Nat.sub_zero]
  have e1 : P.reverse.getD 1 0 = P.getD (P.length - 2) 0 := by
    rw [getD_reverse P _ (by omega)]
    congr 1
  rw [e0, e1, FVector.sub_eq_neg_sub (P.getD (P.length - 2) 0) (P.getD (P.length - 1) 0),
    Size_neg]
  have e : P.getD (P.length - 2) 0 - -O - P.getD (P.length - 1) 0 =
      P.getD (P.length - 2) 0 + O - P.getD (P.length - 1) 0 := by
    ext <;> simp
  rw [e]
  ext <;> simp

theorem inLast_reverse (E : Engine α) (P : List (FVector α)) (s : α) (I : FVector α)
    (hN : 2 ≤ P.length) :
    TangentSolver.inLast E P.reverse s (-I) = -TangentSolver.outFirst E P s I := by
  unfold TangentSolver.outFirst TangentSolver.inLast
  have hl : P.reverse.length = P.length := List.length_reverse P
  have e0 : P.reverse.getD (P.reverse.length - 1) 0 = P.getD 0 0 := by
    rw [hl, getD_reverse P _ (by omega)]
    congr 1
    omega
  have e1 : P.reverse.getD (P.reverse.length - 2) 0 = P.getD 1 0 := by
    rw [hl, getD_reverse P _ (by omega)]
    congr 1
    omega
  rw [e0, e1, FVector.sub_eq_neg_sub (P.getD 0 0) (P.getD 1 0), Size_neg]
  have e : P.getD 1 0 + -I - P.getD 0 0 = P.getD 1 0 - I - P.getD 0 0 := by
    ext
    · show (P.getD 1 0).X + -I.X - (P.getD 0 0).X = (P.getD 1 0).X - I.X - (P.getD 0 0).X
      ring
    · show (P.getD 1 0).Y + -I.Y - (P.getD 0 0).Y = (P.getD 1 0).Y - I.Y - (P.getD 0 0).Y
      ring
    · show (P.getD 1 0).Z + -I.Z - (P.getD 0 0).Z = (P.getD 1 0).Z - I.Z - (P.getD 0 0).Z
      ring
  rw [e]
  ext <;> simp

/-- C30: tangent synthesis is symmetric under path reversal.  For a point list with
`N ≥ 3` and the reversed list with the same strength, the out-tangent at `i` of the
reversed list is the negated in-tangent at `N - 1 - i` of the original list, and the
in-tangent at `i` is the negated out-tangent at `N - 1 - i`, for every `i`. -/
theorem C30_tangent_reversal (E : Engine α) (s sr : FBezierCalc α)
    (hP : sr.Points = s.Points.reverse) (hS : sr.TangentStrength = s.TangentStrength)
    (hN : 3 ≤ s.Points.length) :
    ∀ i, i < s.Points.length → ∃ I O,
      (CalculateTangents E s).InTangents[s.Points.length - 1 - i]? = some I ∧
      (CalculateTangents E s).OutTangents[s.Points.length - 1 - i]? = some O ∧
      (CalculateTangents E sr).OutTangents[i]? = some (-I) ∧
      (CalculateTangents E sr).InTangents[i]? = some (-O) := by
  obtain ⟨_, _, _, hint, hfirst, hlast, hz1, hz2, _⟩ := CalculateTangents_spec E s
  obtain ⟨_, _, _, hint', hfirst', hlast', hz1', hz2', _⟩ := CalculateTangents_spec E sr
  have hl : sr.Points.length = s.Points.length := by rw [hP, List.length_reverse]
  rw [hl] at hint' hfirst' hlast' hz1' hz2'
  rw [hP, hS] at hint' hfirst' hlast'
  generalize CalculateTangents E s = T at hint hfirst hlast hz1 hz2 ⊢
  generalize CalculateTangents E sr = T' at hint' hfirst' hlast' hz1' hz2' ⊢
  generalize s.TangentStrength = c at hint hfirst hlast hint' hfirst' hlast'
  generalize s.Points = P at hN hint hfirst hlast hz1 hz2 hint' hfirst' hlast' hz1' hz2' ⊢
  intro i hi
  rcases Nat.eq_zero_or_pos i with h0 | hpos
  · -- the first point of the reversed list is the last point of the original list
    subst h0
    have hO2 := (hint (P.length - 2) (by omega) (by omega)).1
    have hI1' := (hint' 1 (by omega) (by omega)).2
    have e1 : (1 : Nat) = P.length - 1 - (P.length - 2) := by omega
    rw [e1, inInterior_reverse E P c (P.length - 2) (by omega) (by omega)] at hI1'
    rw [← e1] at hI1'
    have hf := hfirst' (by omega)
    rw [getD_of_getElem? _ _ 0 _ hI1',
      outFirst_reverse E P c _ (by omega)] at hf
    have hL := hlast (by omega)
    rw [getD_of_getElem? _ _ 0 _ hO2] at hL
    refine ⟨_, 0, hL, hz2 (by omega), hf, ?_⟩
    rw [FVector.neg_zero_eq]
    exact hz1' (by omega)
  · rcases Nat.lt_or_ge (i + 1) P.length with hlt | hge
    · -- interior points
      have hj := hint (P.length - 1 - i) (by omega) (by omega)
      have hi' := hint' i hpos hlt
      have e : i = P.length - 1 - (P.length - 1 - i) := by omega
      rw [e, outInterior_reverse E P c (P.length - 1 - i) (by omega) (by omega),
        inInterior_reverse E P c (P.length - 1 - i) (by omega) (by omega)] at hi'
      rw [← e] at hi'
      exact ⟨_, _, hj.2, hj.1, hi'.1, hi'.2⟩
    · -- the last point of the reversed list is the first point of the original list
      have hiN : i = P.length - 1 := by omega
      subst hiN
      have hI1 := (hint 1 (by omega) (by omega)).2
      have hO2' := (hint' (P.length - 2) (by omega) (by omega)).1
      have e1 : P.length - 2 = P.length - 1 - 1 := by omega
      rw [e1, outInterior_reverse E P c 1 (by omega) (by omega)] at hO2'
      rw [← e1] at hO2'
      have hL' := hlast' (by omega)
      rw [getD_of_getElem? _ _ 0 _ hO2', inLast_reverse E P c _ (by omega)] at hL'
      have hF := hfirst (by omega)
      rw [getD_of_getElem? _ _ 0 _ hI1] at hF
      have e0 : P.length - 1 - (P.length - 1) = 0 := by omega
      rw [e0]
      refine ⟨0, _, hz1 (by omega), hF, ?_, hL'⟩
      rw [FVector.neg_zero_eq]
      exact hz2' (by omega)

/-- Witness of C30 on the smooth three-point example and its reversal; and the two-point
example, for which the symmetry fails: the out-tangent at 0 of the reversed list is
`(-1.2, 0, 0)`, while the in-tangent at 1 of the original list is left zero. -/
theorem C30_tangent_reversal_witness :
    (∀ i, i < cornerExample.Points.length → ∃ I O,
      (CalculateTangents ratEngine cornerExample).InTangents[
        cornerExample.Points.length - 1 - i]? = some I ∧
      (CalculateTangents ratEngine cornerExample).OutTangents[
        cornerExample.Points.length - 1 - i]? = some O ∧
      (CalculateTangents ratEngine cornerReversedExample).OutTangents[i]? = some (-I) ∧
      (CalculateTangents ratEngine cornerReversedExample).InTangents[i]? = some (-O)) ∧
    (CalculateTangents ratEngine smoothReversedExample).OutTangents[0]? =
      some ⟨-(6 / 5), 0, 0⟩ ∧
    (CalculateTangents ratEngine smoothExample).InTangents[1]? = some ⟨0, 0, 0⟩ :=
  ⟨C30_tangent_reversal ratEngine cornerExample cornerReversedExample (by decide) rfl
    (by decide), by decide!, by decide!⟩

end Reversal

/-! ## The spline hit test -/

section HitSpline

variable {α : Type} [LinearOrderedField α] [FloorRing α]

/-- The first start index that `CalculateBezier` records is `0`. -/
theorem CalculateBezier_first (E : Engine α) (fuel : Nat) (s s' : FBezierCalc α)
    (hN : 2 ≤ s.Points.length) (h : CalculateBezier E fuel s = some s') :
    s'.SegmentTessIndexes[0]? = some 0 := by
  unfold CalculateBezier at h
  simp only [] at h
  rw [if_neg (by omega)] at h
  have key := foldlM_range_induction
    (fun k (st : FBezierCalc α) => st.SegmentTessIndexes.length = s.Points.length ∧
      (k = 0 → st.Tessellated = []) ∧ (0 < k → st.SegmentTessIndexes[0]? = some 0))
    _ _ _ _ h ⟨length_SetNumZeroed _ _, fun _ => rfl, fun h0 => absurd h0 (lt_irrefl 0)⟩
    (by
      rintro i st st' hi ⟨hlen, ht, hz⟩ hf
      obtain ⟨_, hSTI, _⟩ := CalculateBezierStep_some E fuel st st' i hf
      refine ⟨by rw [hSTI, List.length_set]; exact hlen, fun h0 => absurd h0 (Nat.succ_ne_zero i),
        fun _ => ?_⟩
      rw [hSTI]
      rcases Nat.eq_zero_or_pos i with h0 | hpos
      · subst h0
        rw [List.getElem?_set_self (by omega), ht rfl]
        rfl
      · rw [List.getElem?_set_ne (by omega)]
        exact hz hpos)
  exact key.2.2 (by omega)

theorem Dist_eq_Size (E : Engine α) (a b : FVector α) :
    FVector.Dist E a b = (b - a).Size E := rfl

/-- Every state that `Calculate` produces from at least two control points carries a
segment table. -/
theorem Calculate_ChainTable (E : Engine α) (fuel : Nat) (s s' : FBezierCalc α)
    (hN : 2 ≤ s.Points.length) (h : Calculate E fuel s = some s') :
    ∃ idx : Nat → Nat, ChainTable E s' s.Points.length idx ∧
      ∀ k, k < s.Points.length → s'.Tessellated[idx k]? = some (s.Points.getD k 0) := by
  unfold Calculate at h
  split_ifs at h with hH
  · have hs : s' = CalculateHard E s := (Option.some.inj h).symm
    obtain ⟨_, _, _, _, _, hl, hl2, hl3, hpt⟩ := CalculateHard_spec E s
    rw [← hs] at hl hl2 hl3 hpt
    have hg : ∀ i, i < s.Points.length → s'.Tessellated.getD i 0 = s.Points.getD i 0 := by
      intro i hi
      rw [List.getD_eq_getElem?_getD, List.getD_eq_getElem?_getD, (hpt i hi).1]
    refine ⟨fun k => k, ⟨hN, hl2, rfl, fun k _ => Nat.lt_succ_self k, ?_,
      fun k hk => (hpt k hk).2.1, ?_⟩, ?_⟩
    · show s.Points.length - 1 + 1 = _
      rw [hl]; omega
    · intro k hk
      rw [(hpt k (by omega)).2.2, PolylineLength_succ E _ k k (le_refl k), PolylineLength_self,
        zero_add, Dist_eq_Size, hg k (by omega), hg (k + 1) hk]
      unfold hardLength
      rw [if_pos (by omega)]
    · intro k hk
      rw [(hpt k hk).1, List.getD_eq_getElem?_getD]
      rw [List.getElem?_eq_getElem hk]
      rfl
  · obtain ⟨hfr, _⟩ := CalculateTangents_spec E s
    have hPl : (CalculateTangents E s).Points.length = s.Points.length := by rw [hfr.1]
    have h2 : 2 ≤ (CalculateTangents E s).Points.length := by rw [hPl]; exact hN
    have hf := CalculateBezier_first E fuel _ s' h2 h
    obtain ⟨idx, hl1, _, _, hM, hsti, hmono, hpt, hsl, _⟩ :=
      CalculateBezier_chain E fuel _ s' h2 h
    rw [hPl] at hl1 hM hsti hmono hpt hsl
    rw [hfr.1] at hpt
    have h0 : idx 0 = 0 := by
      have := hsti 0 (by omega)
      rw [hf] at this
      have := Option.some.inj this
      omega
    exact ⟨idx, ⟨hN, hl1, h0, hmono, hM, hsti, hsl⟩, hpt⟩

/-- Strictly increasing start indices reflect the order of the segments. -/
theorem idx_lt_imp (idx : Nat → Nat) (N : Nat) (h : ∀ i, i + 1 < N → idx i < idx (i + 1))
    (a b : Nat) (ha : a < N) (hab : idx a < idx b) : a < b := by
  by_contra hc
  have := idx_mono idx N h b a (by omega) ha
  omega

theorem AdvanceSegment_stay (STI : List Int) (i : Int) (fuel Seg : Nat) (nx : Int)
    (hf : 1 ≤ fuel) (h : STI[Seg + 1]? = some nx) (hlt : i < nx) :
    AdvanceSegment STI i fuel Seg = some Seg := by
  obtain ⟨n, rfl⟩ : ∃ n, fuel = n + 1 := ⟨fuel - 1, by omega⟩
  unfold AdvanceSegment
  rw [h]
  simp only []
  rw [if_neg (by omega)]

theorem AdvanceSegment_next (STI : List Int) (i : Int) (fuel Seg : Nat) (nx nx2 : Int)
    (hf : 2 ≤ fuel) (h : STI[Seg + 1]? = some nx) (hge : nx ≤ i)
    (h2 : STI[Seg + 1 + 1]? = some nx2) (hlt : i < nx2) :
    AdvanceSegment STI i fuel Seg = some (Seg + 1) := by
  obtain ⟨n, rfl⟩ : ∃ n, fuel = n + 1 := ⟨fuel - 1, by omega⟩
  unfold AdvanceSegment
  rw [h]
  simp only []
  rw [if_pos (by omega)]
  exact AdvanceSegment_stay STI i n (Seg + 1) nx2 (by omega) h2 hlt

/-- One iteration of the walk of `HitDetectSpline` on a chain with a segment table: the
reads are in bounds, the cursor moves to the segment `k` that owns the fragment `i`, and the
best match is replaced by the match on the fragment `i` when that is strictly closer. -/
theorem HitDetectSplineStep_spec (E : Engine α) (s : FBezierCalc α)
    (Screen : List (FVector2D α)) (Q : FVector2D α) (N : Nat) (idx : Nat → Nat)
    (hT : ChainTable E s N idx) (w : SplineWalk α) (i : Nat)
    (hi : i + 1 < s.Tessellated.length) (h1 : w.Segment + 1 < N)
    (h2 : idx w.Segment ≤ i) (h3 : i ≤ idx (w.Segment + 1))
    (h4 : w.ProgressLength = PolylineLength E s.Tessellated (idx w.Segment) i) :
    ∃ k, k + 1 < N ∧ idx k ≤ i ∧ i < idx (k + 1) ∧
      HitDetectSplineStep E s Screen Q w i = some
        { Result := if FragmentDistance E Screen Q i < w.Result.Distance then
            SplineHit E s Screen Q (idx k) i k else w.Result,
          Segment := k,
          ProgressLength := PolylineLength E s.Tessellated (idx k) (i + 1) } := by
  obtain ⟨hN, hlen, h0, hmono, hM, hsti, hsl⟩ := hT
  have hadv : ∃ k, k + 1 < N ∧ idx k ≤ i ∧ i < idx (k + 1) ∧
      AdvanceSegment s.SegmentTessIndexes (i : Int) (s.SegmentTessIndexes.length + 1)
        w.Segment = some k ∧
      (if k = w.Segment then w.ProgressLength else 0) =
        PolylineLength E s.Tessellated (idx k) i := by
    rcases Nat.lt_or_ge i (idx (w.Segment + 1)) with hlt | hge
    · refine ⟨w.Segment, h1, h2, hlt, ?_, ?_⟩
      · exact AdvanceSegment_stay _ _ _ _ _ (by omega) (hsti _ h1) (by omega)
      · rw [if_pos rfl, h4]
    · have he : i = idx (w.Segment + 1) := le_antisymm h3 hge
      have hk : w.Segment + 1 + 1 < N := by
        have : idx (w.Segment + 1) < idx (N - 1) := by omega
        have := idx_lt_imp idx N hmono _ _ h1 this
        omega
      have hm := hmono (w.Segment + 1) hk
      refine ⟨w.Segment + 1, hk, by omega, by omega, ?_, ?_⟩
      · exact AdvanceSegment_next _ _ _ _ _ _ (by omega) (hsti _ h1) (by omega)
          (hsti _ hk) (by omega)
      · rw [if_neg (by omega), he, PolylineLength_self]
  obtain ⟨k, hk1, hk2, hk3, hA, hPL⟩ := hadv
  refine ⟨k, hk1, hk2, hk3, ?_⟩
  have hS := hsl k hk1
  have hSg : s.SegmentLengths.getD k 0 =
      PolylineLength E s.Tessellated (idx k) (idx (k + 1)) := getD_of_getElem? _ _ 0 _ hS
  unfold HitDetectSplineStep
  rw [hA]
  simp only [Option.bind_eq_bind, Option.some_bind, hPL, hS]
  rw [PolylineLength_succ E _ _ _ hk2, Dist_eq_Size]
  by_cases hd : FragmentDistance E Screen Q i < w.Result.Distance
  · rw [if_pos hd]
    have hd' := hd
    unfold FragmentDistance FragmentProgress at hd'
    rw [if_pos hd']
    unfold SplineHit LocalProgress
    rw [hSg]
    rfl
  · rw [if_neg hd]
    have hd' := hd
    unfold FragmentDistance FragmentProgress at hd'
    rw [if_neg hd']

theorem SplineHit_Distance (E : Engine α) (s : FBezierCalc α) (Screen : List (FVector2D α))
    (Q : FVector2D α) (start j k : Nat) :
    (SplineHit E s Screen Q start j k).Distance = FragmentDistance E Screen Q j := by
  unfold SplineHit
  split_ifs <;> rfl

/-- The walk of `HitDetectSpline` over the first `n` fragments of a chain with a segment
table: it returns, its cursor stays at most `N - 2`, and its result is the default one when
no fragment is closer than `FloatMax`, and otherwise the match on the first fragment of least
distance. -/
theorem HitDetectSpline_walk (E : Engine α) (FloatMax : α) (s : FBezierCalc α)
    (Screen : List (FVector2D α)) (Q : FVector2D α) (N : Nat) (idx : Nat → Nat)
    (hT : ChainTable E s N idx) (n : Nat) (hn : n + 1 ≤ s.Tessellated.length) :
    ∃ w, (List.range n).foldlM (HitDetectSplineStep E s Screen Q)
        (SplineWalk.init FloatMax) = some w ∧
      w.Segment + 1 < N ∧
      ((w.Result = FHitDetectionResult.default FloatMax ∧
          ∀ j, j < n → FloatMax ≤ FragmentDistance E Screen Q j) ∨
        ∃ j k, j < n ∧ k + 1 < N ∧ idx k ≤ j ∧ j < idx (k + 1) ∧
          FragmentDistance E Screen Q j < FloatMax ∧
          (∀ j', j' < n → FragmentDistance E Screen Q j ≤ FragmentDistance E Screen Q j') ∧
          (∀ j', j' < j → FragmentDistance E Screen Q j < FragmentDistance E Screen Q j') ∧
          w.Result = SplineHit E s Screen Q (idx k) j k) := by
  have hT' := hT
  obtain ⟨hN, hlen, h0, hmono, hM, hsti, hsl⟩ := hT'
  have key := foldlM_range_isSome
    (fun i (w : SplineWalk α) =>
      w.Segment + 1 < N ∧ idx w.Segment ≤ i ∧ i ≤ idx (w.Segment + 1) ∧
      w.ProgressLength = PolylineLength E s.Tessellated (idx w.Segment) i ∧
      ((w.Result = FHitDetectionResult.default FloatMax ∧
          ∀ j, j < i → FloatMax ≤ FragmentDistance E Screen Q j) ∨
        ∃ j k, j < i ∧ k + 1 < N ∧ idx k ≤ j ∧ j < idx (k + 1) ∧
          FragmentDistance E Screen Q j < FloatMax ∧
          (∀ j', j' < i → FragmentDistance E Screen Q j ≤ FragmentDistance E Screen Q j') ∧
          (∀ j', j' < j → FragmentDistance E Screen Q j < FragmentDistance E Screen Q j') ∧
          w.Result = SplineHit E s Screen Q (idx k) j k))
    n (HitDetectSplineStep E s Screen Q) (SplineWalk.init FloatMax)
    ⟨by show 0 + 1 < N; omega, by show idx 0 ≤ 0; omega, Nat.zero_le _,
      by show (0 : α) = PolylineLength E s.Tessellated (idx 0) 0; rw [h0, PolylineLength_self],
      Or.inl ⟨rfl, fun j hj => absurd hj (Nat.not_lt_zero j)⟩⟩
    (by
      rintro i w hi ⟨h1, h2, h3, h4, hR⟩
      obtain ⟨k, hk1, hk2, hk3, hstep⟩ :=
        HitDetectSplineStep_spec E s Screen Q N idx hT w i (by omega) h1 h2 h3 h4
      refine ⟨_, hstep, hk1, by show idx k ≤ i + 1; omega, by show i + 1 ≤ idx (k + 1); omega,
        rfl, ?_⟩
      show (_ ∨ _)
      rcases hR with ⟨hdef, hall⟩ | ⟨j, kj, hj, hkj1, hkj2, hkj3, hlt, hmin, hfirst, hres⟩
      · have hD : w.Result.Distance = FloatMax := by rw [hdef]; rfl
        by_cases hd : FragmentDistance E Screen Q i < w.Result.Distance
        · right
          refine ⟨i, k, Nat.lt_succ_self i, hk1, hk2, hk3, by rw [← hD]; exact hd, ?_, ?_, ?_⟩
          · intro j' hj'
            rcases Nat.lt_or_ge j' i with hl | hg
            · exact le_of_lt (lt_of_lt_of_le (by rw [← hD]; exact hd) (hall j' hl))
            · have : j' = i := by omega
              rw [this]
          · intro j' hj'
            exact lt_of_lt_of_le (by rw [← hD]; exact hd) (hall j' hj')
          · show (if _ then _ else _) = _
            rw [if_pos hd]
        · left
          refine ⟨by show (if _ then _ else _) = _; rw [if_neg hd]; exact hdef, ?_⟩
          intro j' hj'
          rcases Nat.lt_or_ge j' i with hl | hg
          · exact hall j' hl
          · have : j' = i := by omega
            rw [this, ← hD]
            exact not_lt.mp hd
      · have hD : w.Result.Distance = FragmentDistance E Screen Q j := by
          rw [hres, SplineHit_Distance]
        right
        by_cases hd : FragmentDistance E Screen Q i < w.Result.Distance
        · have hd2 : FragmentDistance E Screen Q i < FragmentDistance E Screen Q j := by
            rw [← hD]; exact hd
          refine ⟨i, k, Nat.lt_succ_self i, hk1, hk2, hk3, lt_trans hd2 hlt, ?_, ?_, ?_⟩
          · intro j' hj'
            rcases Nat.lt_or_ge j' i with hl | hg
            · exact le_of_lt (lt_of_lt_of_le hd2 (hmin j' hl))
            · have : j' = i := by omega
              rw [this]
          · intro j' hj'
            exact lt_of_lt_of_le hd2 (hmin j' hj')
          · show (if _ then _ else _) = _
            rw [if_pos hd]
        · refine ⟨j, kj, by omega, hkj1, hkj2, hkj3, hlt, ?_, hfirst, ?_⟩
          · intro j' hj'
            rcases Nat.lt_or_ge j' i with hl | hg
            · exact hmin j' hl
            · have : j' = i := by omega
              rw [this, ← hD]
              exact not_lt.mp hd
          · show (if _ then _ else _) = _
            rw [if_neg hd]
            exact hres)
  obtain ⟨w, hw, h1, _, _, _, hR⟩ := key
  exact ⟨w, hw, h1, hR⟩

theorem FragmentProgress_bounds (Screen : List (FVector2D α)) (Q : FVector2D α) (i : Nat) :
    0 ≤ FragmentProgress Screen Q i ∧ FragmentProgress Screen Q i ≤ 1 := by
  unfold FragmentProgress Clamp
  exact ⟨le_max_right _ _, max_le (min_le_right _ _) zero_le_one⟩

theorem HitDetectSpline_eq (E : Engine α) (FloatMax : α)
    (Project : FVector α → Bool × FVector2D α) (s : FBezierCalc α) (Q : FVector2D α) :
    HitDetectSpline E FloatMax Project s Q =
      ((List.range (s.Tessellated.length - 1)).foldlM
        (HitDetectSplineStep E s (ScreenLine Project s) Q) (SplineWalk.init FloatMax)).map
        (fun w => w.Result) := rfl

/-- The result of `HitDetectSpline` on a chain with a segment table: the call returns; the
result is the default one when no fragment is closer than `FloatMax`, and otherwise the
match on the first fragment of least distance. -/
theorem HitDetectSpline_spec (E : Engine α) (FloatMax : α)
    (Project : FVector α → Bool × FVector2D α) (s : FBezierCalc α) (Q : FVector2D α)
    (N : Nat) (idx : Nat → Nat) (hT : ChainTable E s N idx) :
    ∃ r, HitDetectSpline E FloatMax Project s Q = some r ∧
      ((r = FHitDetectionResult.default FloatMax ∧
          ∀ j, j + 1 < s.Tessellated.length →
            FloatMax ≤ FragmentDistance E (ScreenLine Project s) Q j) ∨
        ∃ j k, j + 1 < s.Tessellated.length ∧ k + 1 < N ∧ idx k ≤ j ∧ j < idx (k + 1) ∧
          FragmentDistance E (ScreenLine Project s) Q j < FloatMax ∧
          (∀ j', j' + 1 < s.Tessellated.length →
            FragmentDistance E (ScreenLine Project s) Q j ≤
              FragmentDistance E (ScreenLine Project s) Q j') ∧
          (∀ j', j' < j →
            FragmentDistance E (ScreenLine Project s) Q j <
              FragmentDistance E (ScreenLine Project s) Q j') ∧
          r = SplineHit E s (ScreenLine Project s) Q (idx k) j k) := by
  have hM : 1 ≤ s.Tessellated.length := by
    have := hT.2.2.2.2.1
    omega
  obtain ⟨w, hw, _, hR⟩ := HitDetectSpline_walk E FloatMax s (ScreenLine Project s) Q N idx hT
    (s.Tessellated.length - 1) (by omega)
  refine ⟨w.Result, by rw [HitDetectSpline_eq, hw]; rfl, ?_⟩
  rcases hR with ⟨hdef, hall⟩ | ⟨j, k, hj, hk, h1, h2, hlt, hmin, hfirst, hres⟩
  · exact Or.inl ⟨hdef, fun j hj => hall j (by omega)⟩
  · exact Or.inr ⟨j, k, by omega, hk, h1, h2, hlt, fun j' hj' => hmin j' (by omega), hfirst, hres⟩

/-- With at most one control point `Calculate` leaves at most one chain point. -/
theorem Calculate_short (E : Engine α) (fuel : Nat) (s s' : FBezierCalc α)
    (hN : s.Points.length < 2) (h : Calculate E fuel s = some s') :
    s'.Tessellated.length < 2 := by
  unfold Calculate at h
  split_ifs at h with hH
  · have hs : s' = CalculateHard E s := (Option.some.inj h).symm
    obtain ⟨_, _, _, _, _, hl, _⟩ := CalculateHard_spec E s
    rw [hs, hl]
    exact hN
  · obtain ⟨hfr, _⟩ := CalculateTangents_spec E s
    have hPl : (CalculateTangents E s).Points.length = s.Points.length := by rw [hfr.1]
    unfold CalculateBezier at h
    simp only [] at h
    rw [if_pos (by rw [hPl]; exact hN)] at h
    have hs := (Option.some.inj h).symm
    rw [hs]
    show (0 : Nat) < 2
    omega

/-- C29: `HitDetectSpline` is index-safe on every state that `Calculate` produces, for
every number `N` of control points and either mode.  Every prefix of the walk returns (no
read of `SegmentTessIndexes[Segment + 1]` or `SegmentLengths[Segment]` is out of bounds and
the inner loop stops), with the cursor at most `N - 2` when `N ≥ 2`; the call returns; and
with fewer than two chain points the result is the invalid default. -/
theorem C29_spline_walk_index_safe (E : Engine α) (FloatMax : α)
    (Project : FVector α → Bool × FVector2D α) (fuel : Nat) (s s' : FBezierCalc α)
    (Q : FVector2D α) (h : Calculate E fuel s = some s') :
    (∀ n, n + 1 ≤ s'.Tessellated.length → ∃ w,
      (List.range n).foldlM (HitDetectSplineStep E s' (ScreenLine Project s') Q)
        (SplineWalk.init FloatMax) = some w ∧
      (2 ≤ s.Points.length → w.Segment + 2 ≤ s.Points.length)) ∧
    (∃ r, HitDetectSpline E FloatMax Project s' Q = some r) ∧
    (s'.Tessellated.length < 2 →
      HitDetectSpline E FloatMax Project s' Q = some (FHitDetectionResult.default FloatMax) ∧
      (FHitDetectionResult.default FloatMax).Valid = false) := by
  have hshort : s'.Tessellated.length < 2 →
      HitDetectSpline E FloatMax Project s' Q =
        some (FHitDetectionResult.default FloatMax) := by
    intro hlt
    rw [HitDetectSpline_eq]
    have : s'.Tessellated.length - 1 = 0 := by omega
    rw [this]
    rfl
  rcases Nat.lt_or_ge s.Points.length 2 with hN | hN
  · have hl := Calculate_short E fuel s s' hN h
    refine ⟨?_, ⟨_, hshort hl⟩, fun _ => ⟨hshort hl, rfl⟩⟩
    intro n hn
    have : n = 0 := by omega
    subst this
    exact ⟨SplineWalk.init FloatMax, rfl, fun h2 => absurd h2 (by omega)⟩
  · obtain ⟨idx, hT, _⟩ := Calculate_ChainTable E fuel s s' hN h
    refine ⟨?_, ?_, fun hlt => ⟨hshort hlt, rfl⟩⟩
    · intro n hn
      obtain ⟨w, hw, hseg, _⟩ :=
        HitDetectSpline_walk E FloatMax s' (ScreenLine Project s') Q _ idx hT n hn
      exact ⟨w, hw, fun _ => by omega⟩
    · obtain ⟨r, hr, _⟩ := HitDetectSpline_spec E FloatMax Project s' Q _ idx hT
      exact ⟨r, hr⟩

/-- Witness of C29 on the smooth three-point example: the chain has five points, the walk
over its four fragments returns, and the call reports segment 0 for the query `(3, 0)`; on
the single-point example the call returns the invalid default. -/
theorem C29_spline_walk_index_safe_witness :
    (∃ s', Calculate ratEngine 1 cornerExample = some s' ∧
      (∀ n, n + 1 ≤ s'.Tessellated.length → ∃ w,
        (List.range n).foldlM
          (HitDetectSplineStep ratEngine s' (ScreenLine projectExample s') ⟨3, 0⟩)
          (SplineWalk.init floatMaxExample) = some w ∧
        (2 ≤ cornerExample.Points.length → w.Segment + 2 ≤ cornerExample.Points.length))) ∧
    (Calculate ratEngine 1 cornerExample).bind
      (fun s' => HitDetectSpline ratEngine floatMaxExample projectExample s' ⟨3, 0⟩) =
      some { Valid := true, Segment := 0, Progress := 20264832 / 85138187,
             Distance := 984 / 359 } ∧
    (Calculate ratEngine 1 singleExample).bind
      (fun s' => HitDetectSpline ratEngine floatMaxExample projectExample s' ⟨3, 0⟩) =
      some (FHitDetectionResult.default floatMaxExample) := by
  have h : (Calculate ratEngine 1 cornerExample).isSome = true := by decide!
  obtain ⟨s', hs⟩ := Option.isSome_iff_exists.mp h
  exact ⟨⟨s', hs, (C29_spline_walk_index_safe ratEngine floatMaxExample projectExample 1
    cornerExample s' ⟨3, 0⟩ hs).1⟩, by decide!, by decide!⟩

/-- The local progress of a match lies in `[0, 1]` when the segment has positive length. -/
theorem LocalProgress_bounds (E : Engine α) (hE : ∀ x, 0 ≤ E.Sqrt x) (s : FBezierCalc α)
    (Screen : List (FVector2D α)) (Q : FVector2D α) (N : Nat) (idx : Nat → Nat)
    (hT : ChainTable E s N idx) (j k : Nat) (hk : k + 1 < N) (h1 : idx k ≤ j)
    (h2 : j < idx (k + 1)) (hpos : 0 < s.SegmentLengths.getD k 0) :
    0 ≤ LocalProgress E s Screen Q (idx k) j k ∧
    LocalProgress E s Screen Q (idx k) j k ≤ 1 := by
  obtain ⟨hN, hlen, h0, hmono, hM, hsti, hsl⟩ := hT
  have hSg : s.SegmentLengths.getD k 0 =
      PolylineLength E s.Tessellated (idx k) (idx (k + 1)) :=
    getD_of_getElem? _ _ 0 _ (hsl k hk)
  obtain ⟨ht0, ht1⟩ := FragmentProgress_bounds Screen Q j
  have hf : 0 ≤ (s.Tessellated.getD (j + 1) 0 - s.Tessellated.getD j 0).Size E := hE _
  have hp1 := PolylineLength_nonneg E hE s.Tessellated (idx k) j
  have hp2 := PolylineLength_nonneg E hE s.Tessellated (j + 1) (idx (k + 1))
  have e1 := PolylineLength_add E s.Tessellated (idx k) (j + 1) (idx (k + 1)) (by omega)
    (by omega)
  have e2 := PolylineLength_succ E s.Tessellated (idx k) j h1
  rw [Dist_eq_Size] at e2
  unfold LocalProgress
  constructor
  · exact div_nonneg (add_nonneg hp1 (mul_nonneg ht0 hf)) (le_of_lt hpos)
  · rw [div_le_one hpos, hSg, e1, e2]
    have := mul_le_mul_of_nonneg_right ht1 hf
    linarith

/-- What a match stores when its local progress lies in `[0, 1]`. -/
theorem SplineHit_cases (E : Engine α) (s : FBezierCalc α) (Screen : List (FVector2D α))
    (Q : FVector2D α) (start j k : Nat)
    (h0 : 0 ≤ LocalProgress E s Screen Q start j k)
    (h1 : LocalProgress E s Screen Q start j k ≤ 1) :
    (SplineHit E s Screen Q start j k).Valid = true ∧
    0 ≤ (SplineHit E s Screen Q start j k).Progress ∧
    (SplineHit E s Screen Q start j k).Progress < 1 ∧
    (LocalProgress E s Screen Q start j k = 1 →
      (SplineHit E s Screen Q start j k).Segment = (k : Int) + 1 ∧
      (SplineHit E s Screen Q start j k).Progress = 0) ∧
    (LocalProgress E s Screen Q start j k < 1 →
      (SplineHit E s Screen Q start j k).Segment = (k : Int) ∧
      (SplineHit E s Screen Q start j k).Progress = LocalProgress E s Screen Q start j k) := by
  unfold SplineHit
  by_cases hc : LocalProgress E s Screen Q start j k ≥ 1
  · have he : LocalProgress E s Screen Q start j k = 1 := le_antisymm h1 hc
    rw [if_pos hc]
    refine ⟨rfl, ?_, ?_, fun _ => ⟨rfl, ?_⟩, fun hlt => absurd hlt (not_lt.mpr hc)⟩
    · show 0 ≤ LocalProgress E s Screen Q start j k - 1
      rw [he]; simp
    · show LocalProgress E s Screen Q start j k - 1 < 1
      rw [he]; simp
    · show LocalProgress E s Screen Q start j k - 1 = 0
      rw [he]; simp
  · rw [if_neg hc]
    exact ⟨rfl, h0, not_le.mp hc, fun he => absurd (le_of_eq he.symm) hc, fun _ => ⟨rfl, rfl⟩⟩

/-- C17: `HitDetectSpline` never reports a progress of 1 or more.  After `Calculate` with
`N ≥ 2`, positive segment lengths, distinct consecutive projected chain points and fragment
distances below `FloatMax`, the call returns a valid result with `0 ≤ Progress < 1` and
`0 ≤ Segment ≤ N - 1`; the result comes from a fragment `j` of a segment `k ≤ N - 2` whose
local progress lies in `[0, 1]`, and a local progress of exactly 1 is reported as
`(k + 1, 0)`, a smaller one as `(k, progress)`. -/
theorem C17_progress_below_one (E : Engine α) (hE : ∀ x, 0 ≤ E.Sqrt x) (FloatMax : α)
    (Project : FVector α → Bool × FVector2D α) (fuel : Nat) (s s' : FBezierCalc α)
    (Q : FVector2D α) (hN : 2 ≤ s.Points.length) (h : Calculate E fuel s = some s')
    (hpos : ∀ k, k + 1 < s.Points.length → 0 < s'.SegmentLengths.getD k 0)
    (hdist : ∀ i, i + 1 < s'.Tessellated.length →
      (ScreenLine Project s').getD i 0 ≠ (ScreenLine Project s').getD (i + 1) 0)
    (hmax : ∀ i, i + 1 < s'.Tessellated.length →
      FragmentDistance E (ScreenLine Project s') Q i < FloatMax) :
    ∃ r, HitDetectSpline E FloatMax Project s' Q = some r ∧ r.Valid = true ∧
      0 ≤ r.Progress ∧ r.Progress < 1 ∧ 0 ≤ r.Segment ∧
      r.Segment ≤ (s.Points.length : Int) - 1 ∧
      ∃ j k : Nat, ∃ start : Nat, j + 1 < s'.Tessellated.length ∧ k + 1 < s.Points.length ∧
        s'.SegmentTessIndexes[k]? = some (start : Int) ∧ start ≤ j ∧
        (∃ next : Nat, s'.SegmentTessIndexes[k + 1]? = some (next : Int) ∧ j < next) ∧
        0 ≤ LocalProgress E s' (ScreenLine Project s') Q start j k ∧
        LocalProgress E s' (ScreenLine Project s') Q start j k ≤ 1 ∧
        (LocalProgress E s' (ScreenLine Project s') Q start j k = 1 →
          r.Segment = (k : Int) + 1 ∧ r.Progress = 0) ∧
        (LocalProgress E s' (ScreenLine Project s') Q start j k < 1 →
          r.Segment = (k : Int) ∧
          r.Progress = LocalProgress E s' (ScreenLine Project s') Q start j k) := by
  obtain ⟨idx, hT, _⟩ := Calculate_ChainTable E fuel s s' hN h
  obtain ⟨r, hr, hR⟩ := HitDetectSpline_spec E FloatMax Project s' Q _ idx hT
  have hT' := hT
  obtain ⟨_, hlen, h0, hmono, hM, hsti, hsl⟩ := hT'
  have hM2 : 0 + 1 < s'.Tessellated.length := by
    have a : idx 0 < idx 1 := hmono 0 (by omega)
    have := idx_mono idx s.Points.length hmono 1 (s.Points.length - 1) (by omega) (by omega)
    omega
  rcases hR with ⟨_, hall⟩ | ⟨j, k, hj, hk, h1, h2, hlt, hmin, hfirst, hres⟩
  · exact absurd (hmax 0 hM2) (not_lt.mpr (hall 0 hM2))
  · obtain ⟨b0, b1⟩ := LocalProgress_bounds E hE s' (ScreenLine Project s') Q _ idx hT j k hk
      h1 h2 (hpos k hk)
    obtain ⟨c1, c2, c3, c4, c5⟩ := SplineHit_cases E s' (ScreenLine Project s') Q (idx k) j k
      b0 b1
    rw [← hres] at c1 c2 c3 c4 c5
    have hseg : r.Segment = (k : Int) ∨ r.Segment = (k : Int) + 1 := by
      rcases lt_or_eq_of_le b1 with hl | he
      · exact Or.inl (c5 hl).1
      · exact Or.inr (c4 he).1
    refine ⟨r, hr, c1, c2, c3, ?_, ?_, j, k, idx k, hj, hk, hsti k (by omega), h1,
      ⟨idx (k + 1), hsti (k + 1) hk, h2⟩, b0, b1, c4, c5⟩
    · rcases hseg with e | e <;> rw [e] <;> omega
    · rcases hseg with e | e <;> rw [e] <;> omega

theorem getD_of_isSome {β : Type} (o : Option β) (d : β) (h : o.isSome = true) :
    o = some (o.getD d) := by
  cases o with
  | none => simp at h
  | some x => rfl

theorem cornerChainExample_eq : Calculate ratEngine 1 cornerExample = some cornerChainExample :=
  getD_of_isSome _ _ (by decide!)

/-- Witness of C17 on the smooth three-point example and the query `(3, 4)`, the projection
of the middle control point: the closest fragment is the second of segment 0 with local
progress exactly 1, and the call reports segment 1 with progress 0. -/
theorem C17_progress_below_one_witness :
    HitDetectSpline ratEngine floatMaxExample projectExample cornerChainExample ⟨3, 4⟩ =
      some { Valid := true, Segment := 1, Progress := 0, Distance := 0 } ∧
    LocalProgress ratEngine cornerChainExample (ScreenLine projectExample cornerChainExample)
      ⟨3, 4⟩ 0 1 0 = 1 ∧
    ∃ r, HitDetectSpline ratEngine floatMaxExample projectExample cornerChainExample ⟨3, 4⟩ =
        some r ∧ r.Valid = true ∧ 0 ≤ r.Progress ∧ r.Progress < 1 ∧ 0 ≤ r.Segment ∧
      r.Segment ≤ (cornerExample.Points.length : Int) - 1 := by
  have hpos : ∀ k, k < 2 → 0 < cornerChainExample.SegmentLengths.getD k 0 := by decide!
  have hdist : ∀ i, i < 4 →
      (ScreenLine projectExample cornerChainExample).getD i 0 ≠
        (ScreenLine projectExample cornerChainExample).getD (i + 1) 0 := by decide!
  have hmax : ∀ i, i < 4 →
      FragmentDistance ratEngine (ScreenLine projectExample cornerChainExample) ⟨3, 4⟩ i <
        floatMaxExample := by decide!
  have hl : cornerChainExample.Tessellated.length = 5 := by decide!
  obtain ⟨r, hr, h1, h2, h3, h4, h5, _⟩ :=
    C17_progress_below_one ratEngine ratSqrt_nonneg floatMaxExample projectExample 1
      cornerExample cornerChainExample ⟨3, 4⟩ (by decide) cornerChainExample_eq
      (fun k hk => hpos k (by have : k + 1 < 3 := hk; omega))
      (fun i hi => hdist i (by rw [hl] at hi; omega))
      (fun i hi => hmax i (by rw [hl] at hi; omega))
  exact ⟨by decide!, by decide!, r, hr, h1, h2, h3, h4, h5⟩

end HitSpline

/-! ## The distance and the vertex queries of the spline hit test -/

section HitDistance

variable {α : Type} [LinearOrderedField α] [FloorRing α]

theorem Sqrt_mono (E : Engine α) (hE : ∀ x, 0 ≤ E.Sqrt x)
    (hsq : ∀ x, 0 ≤ x → E.Sqrt x * E.Sqrt x = x) (x y : α) (hx : 0 ≤ x) (hxy : x ≤ y) :
    E.Sqrt x ≤ E.Sqrt y :=
  Sqrt_le E hE hsq x (E.Sqrt y) hx (hE y) (by rw [hsq y (le_trans hx hxy)]; exact hxy)

theorem Sqrt_zero_eq (E : Engine α) (hsq : ∀ x, 0 ≤ x → E.Sqrt x * E.Sqrt x = x) :
    E.Sqrt 0 = 0 :=
  mul_self_eq_zero.mp (hsq 0 (le_refl 0))

/-- Two distinct screen points span a fragment of positive squared length. -/
theorem screen_gap_pos (A B : FVector2D α) (h : A ≠ B) :
    0 < (B.X - A.X) * (B.X - A.X) + (B.Y - A.Y) * (B.Y - A.Y) := by
  by_contra hc
  have h1 := mul_self_nonneg (B.X - A.X)
  have h2 := mul_self_nonneg (B.Y - A.Y)
  have e1 : (B.X - A.X) * (B.X - A.X) = 0 := by linarith
  have e2 : (B.Y - A.Y) * (B.Y - A.Y) = 0 := by linarith
  have x := mul_self_eq_zero.mp e1
  have y := mul_self_eq_zero.mp e2
  apply h
  ext
  · linarith
  · linarith

/-- The clamped projection fraction gives the point of the fragment from `A` to `B` that
is closest to `Q`: no point `A + (B - A) * u` with `0 ≤ u ≤ 1` is closer. -/
theorem closest_le (ax ay bx b2 qx qy u : α)
    (hL : 0 < (bx - ax) * (bx - ax) + (b2 - ay) * (b2 - ay)) (hu0 : 0 ≤ u) (hu1 : u ≤ 1) :
    (qx - (ax + (bx - ax) * Clamp (((qx - ax) * (bx - ax) + (qy - ay) * (b2 - ay)) /
        ((bx - ax) * (bx - ax) + (b2 - ay) * (b2 - ay))) 0 1)) *
      (qx - (ax + (bx - ax) * Clamp (((qx - ax) * (bx - ax) + (qy - ay) * (b2 - ay)) /
        ((bx - ax) * (bx - ax) + (b2 - ay) * (b2 - ay))) 0 1)) +
      (qy - (ay + (b2 - ay) * Clamp (((qx - ax) * (bx - ax) + (qy - ay) * (b2 - ay)) /
        ((bx - ax) * (bx - ax) + (b2 - ay) * (b2 - ay))) 0 1)) *
      (qy - (ay + (b2 - ay) * Clamp (((qx - ax) * (bx - ax) + (qy - ay) * (b2 - ay)) /
        ((bx - ax) * (bx - ax) + (b2 - ay) * (b2 - ay))) 0 1)) ≤
    (qx - (ax + (bx - ax) * u)) * (qx - (ax + (bx - ax) * u)) +
      (qy - (ay + (b2 - ay) * u)) * (qy - (ay + (b2 - ay) * u)) := by
  have hdot : ((qx - ax) * (bx - ax) + (qy - ay) * (b2 - ay)) /
      ((bx - ax) * (bx - ax) + (b2 - ay) * (b2 - ay)) *
      ((bx - ax) * (bx - ax) + (b2 - ay) * (b2 - ay)) =
      (qx - ax) * (bx - ax) + (qy - ay) * (b2 - ay) := div_mul_cancel₀ _ (ne_of_gt hL)
  generalize ((qx - ax) * (bx - ax) + (qy - ay) * (b2 - ay)) /
      ((bx - ax) * (bx - ax) + (b2 - ay) * (b2 - ay)) = p at hdot ⊢
  generalize hdx : bx - ax = dx at hdot hL ⊢
  generalize hdy : b2 - ay = dy at hdot hL ⊢
  generalize hex : qx - ax = ex at hdot ⊢
  generalize hey : qy - ay = ey at hdot ⊢
  have eqx : qx = ex + ax := by rw [← hex]; ring
  have eqy : qy = ey + ay := by rw [← hey]; ring
  subst eqx eqy
  have hu : u * (p * (dx * dx + dy * dy)) = u * (ex * dx + ey * dy) := by rw [hdot]
  have hp : p * (p * (dx * dx + dy * dy)) = p * (ex * dx + ey * dy) := by rw [hdot]
  unfold Clamp
  rcases le_total p 0 with h0 | h0
  · rw [max_eq_right (le_trans (min_le_left _ _) h0)]
    have k : 0 ≤ (dx * dx + dy * dy) * (u * (u - 2 * p)) :=
      mul_nonneg (le_of_lt hL) (mul_nonneg hu0 (by linarith))
    linarith
  · rcases le_total p 1 with h1 | h1
    · rw [min_eq_left h1, max_eq_left h0]
      have k : 0 ≤ (dx * dx + dy * dy) * ((u - p) * (u - p)) :=
        mul_nonneg (le_of_lt hL) (mul_self_nonneg _)
      linarith
    · rw [min_eq_right h1, max_eq_left zero_le_one]
      have k : 0 ≤ (dx * dx + dy * dy) * ((1 - u) * (2 * p - 1 - u)) :=
        mul_nonneg (le_of_lt hL) (mul_nonneg (by linarith) (by linarith))
      linarith

theorem ScreenLine_getD (Project : FVector α → Bool × FVector2D α) (s : FBezierCalc α)
    (i : Nat) (hi : i < s.Tessellated.length) :
    (ScreenLine Project s).getD i 0 = (Project (s.Tessellated.getD i 0)).2 := by
  unfold ScreenLine
  rw [List.getD_eq_getElem?_getD, List.getD_eq_getElem?_getD, List.getElem?_map,
    List.getElem?_eq_getElem hi]
  rfl

/-- A chain with a segment table has at least two points. -/
theorem ChainTable_two (E : Engine α) (s : FBezierCalc α) (N : Nat) (idx : Nat → Nat)
    (hT : ChainTable E s N idx) : 2 ≤ s.Tessellated.length := by
  obtain ⟨hN, _, h0, hmono, hM, _, _⟩ := hT
  have a : idx 0 < idx 1 := hmono 0 (by omega)
  have := idx_mono idx N hmono 1 (N - 1) (by omega) (by omega)
  omega

theorem FragmentDistance_nonneg (E : Engine α) (hE : ∀ x, 0 ≤ E.Sqrt x)
    (Screen : List (FVector2D α)) (Q : FVector2D α) (i : Nat) :
    0 ≤ FragmentDistance E Screen Q i := hE _

/-- No point of a fragment is closer to the query than the clamped projection. -/
theorem FragmentDistance_le (E : Engine α) (hE : ∀ x, 0 ≤ E.Sqrt x)
    (hsq : ∀ x, 0 ≤ x → E.Sqrt x * E.Sqrt x = x) (Screen : List (FVector2D α))
    (Q : FVector2D α) (i : Nat) (hd : Screen.getD i 0 ≠ Screen.getD (i + 1) 0) (u : α)
    (hu0 : 0 ≤ u) (hu1 : u ≤ 1) :
    FragmentDistance E Screen Q i ≤
      (Q - (Screen.getD i 0 + (Screen.getD (i + 1) 0 - Screen.getD i 0) * u)).Size E := by
  unfold FragmentDistance FVector2D.Size
  apply Sqrt_mono E hE hsq _ _ (add_nonneg (mul_self_nonneg _) (mul_self_nonneg _))
  unfold FragmentProgress FVector2D.DotProduct FVector2D.SizeSquared
  exact closest_le _ _ _ _ Q.X Q.Y u (screen_gap_pos _ _ hd) hu0 hu1

theorem FragmentProgress_end (Screen : List (FVector2D α)) (i : Nat)
    (hd : Screen.getD i 0 ≠ Screen.getD (i + 1) 0) :
    FragmentProgress Screen (Screen.getD (i + 1) 0) i = 1 := by
  unfold FragmentProgress FVector2D.DotProduct FVector2D.SizeSquared Clamp
  show max (min ((((Screen.getD (i + 1) 0).X - (Screen.getD i 0).X) *
      ((Screen.getD (i + 1) 0).X - (Screen.getD i 0).X) +
    ((Screen.getD (i + 1) 0).Y - (Screen.getD i 0).Y) *
      ((Screen.getD (i + 1) 0).Y - (Screen.getD i 0).Y)) /
    (((Screen.getD (i + 1) 0).X - (Screen.getD i 0).X) *
      ((Screen.getD (i + 1) 0).X - (Screen.getD i 0).X) +
    ((Screen.getD (i + 1) 0).Y - (Screen.getD i 0).Y) *
      ((Screen.getD (i + 1) 0).Y - (Screen.getD i 0).Y))) 1) 0 = 1
  rw [div_self (ne_of_gt (screen_gap_pos _ _ hd)), min_self, max_eq_left zero_le_one]

/-- A query at the second end of a fragment is at distance `Sqrt 0 = 0` from it. -/
theorem FragmentDistance_end (E : Engine α) (hsq : ∀ x, 0 ≤ x → E.Sqrt x * E.Sqrt x = x)
    (Screen : List (FVector2D α)) (i : Nat)
    (hd : Screen.getD i 0 ≠ Screen.getD (i + 1) 0) :
    FragmentDistance E Screen (Screen.getD (i + 1) 0) i = 0 := by
  unfold FragmentDistance
  rw [FragmentProgress_end Screen i hd]
  unfold FVector2D.Size
  have e : ∀ A B : FVector2D α,
      (B - (A + (B - A) * (1 : α))).X * (B - (A + (B - A) * (1 : α))).X +
      (B - (A + (B - A) * (1 : α))).Y * (B - (A + (B - A) * (1 : α))).Y = 0 := by
    intro A B
    show (B.X - (A.X + (B.X - A.X) * 1)) * (B.X - (A.X + (B.X - A.X) * 1)) +
      (B.Y - (A.Y + (B.Y - A.Y) * 1)) * (B.Y - (A.Y + (B.Y - A.Y) * 1)) = 0
    ring
  rw [e]
  exact Sqrt_zero_eq E hsq

theorem Size2D_congr (E : Engine α) (a b : FVector2D α) (hx : a.X = b.X) (hy : a.Y = b.Y) :
    a.Size E = b.Size E := by
  unfold FVector2D.Size
  rw [hx, hy]

/-- C24: the `Distance` that `HitDetectSpline` returns is the distance from the query to the
projected polyline.  After `Calculate` with `N ≥ 2` (so the chain has `M ≥ 2` points), with
distinct consecutive projections and fragment distances below `FloatMax`, the call returns
the least of the fragment distances `|Q - (A + (B - A) * clamp(((Q-A).(B-A)) / |B-A|^2, 0,
1))|`; it is at most `|Q - X|` for every point `X = A + (B - A) * u`, `0 ≤ u ≤ 1`, of every
projected fragment, and so for every projected chain vertex. -/
theorem C24_distance_is_minimum (E : Engine α) (hE : ∀ x, 0 ≤ E.Sqrt x)
    (hsq : ∀ x, 0 ≤ x → E.Sqrt x * E.Sqrt x = x) (FloatMax : α)
    (Project : FVector α → Bool × FVector2D α) (fuel : Nat) (s s' : FBezierCalc α)
    (Q : FVector2D α) (hN : 2 ≤ s.Points.length) (h : Calculate E fuel s = some s')
    (hdist : ∀ i, i + 1 < s'.Tessellated.length →
      (ScreenLine Project s').getD i 0 ≠ (ScreenLine Project s').getD (i + 1) 0)
    (hmax : ∀ i, i + 1 < s'.Tessellated.length →
      FragmentDistance E (ScreenLine Project s') Q i < FloatMax) :
    2 ≤ s'.Tessellated.length ∧
    ∃ r, HitDetectSpline E FloatMax Project s' Q = some r ∧
      (∃ j, j + 1 < s'.Tessellated.length ∧
        r.Distance = FragmentDistance E (ScreenLine Project s') Q j) ∧
      (∀ j, j + 1 < s'.Tessellated.length →
        r.Distance ≤ FragmentDistance E (ScreenLine Project s') Q j) ∧
      (∀ (j : Nat) (u : α), j + 1 < s'.Tessellated.length → 0 ≤ u → u ≤ 1 →
        r.Distance ≤ (Q - ((ScreenLine Project s').getD j 0 +
          ((ScreenLine Project s').getD (j + 1) 0 - (ScreenLine Project s').getD j 0) * u)).Size
            E) ∧
      (∀ v, v < s'.Tessellated.length →
        r.Distance ≤ (Q - (ScreenLine Project s').getD v 0).Size E) := by
  obtain ⟨idx, hT, _⟩ := Calculate_ChainTable E fuel s s' hN h
  obtain ⟨r, hr, hR⟩ := HitDetectSpline_spec E FloatMax Project s' Q _ idx hT
  have hM2 := ChainTable_two E s' _ idx hT
  refine ⟨hM2, ?_⟩
  rcases hR with ⟨_, hall⟩ | ⟨j, k, hj, hk, h1, h2, hlt, hmin, hfirst, hres⟩
  · exact absurd (hmax 0 (by omega)) (not_lt.mpr (hall 0 (by omega)))
  · have hD : r.Distance = FragmentDistance E (ScreenLine Project s') Q j := by
      rw [hres, SplineHit_Distance]
    have hfrag : ∀ (j' : Nat) (u : α), j' + 1 < s'.Tessellated.length → 0 ≤ u → u ≤ 1 →
        r.Distance ≤ (Q - ((ScreenLine Project s').getD j' 0 +
          ((ScreenLine Project s').getD (j' + 1) 0 -
            (ScreenLine Project s').getD j' 0) * u)).Size E := by
      intro j' u hj' hu0 hu1
      rw [hD]
      exact le_trans (hmin j' hj')
        (FragmentDistance_le E hE hsq _ Q j' (hdist j' hj') u hu0 hu1)
    refine ⟨r, hr, ⟨j, hj, hD⟩, fun j' hj' => by rw [hD]; exact hmin j' hj', hfrag, ?_⟩
    intro v hv
    rcases Nat.lt_or_ge (v + 1) s'.Tessellated.length with hlt2 | hge
    · have := hfrag v 0 hlt2 (le_refl 0) zero_le_one
      refine le_trans this (le_of_eq (Size2D_congr E _ _ ?_ ?_))
      · show Q.X - (((ScreenLine Project s').getD v 0).X +
          (((ScreenLine Project s').getD (v + 1) 0).X -
            ((ScreenLine Project s').getD v 0).X) * 0) =
          Q.X - ((ScreenLine Project s').getD v 0).X
        ring
      · show Q.Y - (((ScreenLine Project s').getD v 0).Y +
          (((ScreenLine Project s').getD (v + 1) 0).Y -
            ((ScreenLine Project s').getD v 0).Y) * 0) =
          Q.Y - ((ScreenLine Project s').getD v 0).Y
        ring
    · obtain ⟨i, rfl⟩ : ∃ i, v = i + 1 := ⟨v - 1, by omega⟩
      have := hfrag i 1 hv (zero_le_one) (le_refl 1)
      refine le_trans this (le_of_eq (Size2D_congr E _ _ ?_ ?_))
      · show Q.X - (((ScreenLine Project s').getD i 0).X +
          (((ScreenLine Project s').getD (i + 1) 0).X -
            ((ScreenLine Project s').getD i 0).X) * 1) =
          Q.X - ((ScreenLine Project s').getD (i + 1) 0).X
        ring
      · show Q.Y - (((ScreenLine Project s').getD i 0).Y +
          (((ScreenLine Project s').getD (i + 1) 0).Y -
            ((ScreenLine Project s').getD i 0).Y) * 1) =
          Q.Y - ((ScreenLine Project s').getD (i + 1) 0).Y
        ring

/-- The hard-corner chain on `(0,0,0), (3,4,0)` over the real numbers, projected by
dropping the third coordinate: its chain, its screen points and its segment length. -/
theorem real_hard_chain :
    (CalculateHard (⟨Real.sqrt, 1 / 100000000⟩ : Engine ℝ)
      (FBezierCalc.fresh [⟨0, 0, 0⟩, ⟨3, 4, 0⟩] true (3 / 10) (95 / 100))).Tessellated =
      [⟨0, 0, 0⟩, ⟨3, 4, 0⟩] ∧
    ScreenLine (fun p : FVector ℝ => (true, (⟨p.X, p.Y⟩ : FVector2D ℝ)))
      (CalculateHard (⟨Real.sqrt, 1 / 100000000⟩ : Engine ℝ)
        (FBezierCalc.fresh [⟨0, 0, 0⟩, ⟨3, 4, 0⟩] true (3 / 10) (95 / 100))) =
      [⟨0, 0⟩, ⟨3, 4⟩] ∧
    0 < (CalculateHard (⟨Real.sqrt, 1 / 100000000⟩ : Engine ℝ)
      (FBezierCalc.fresh [⟨0, 0, 0⟩, ⟨3, 4, 0⟩] true (3 / 10) (95 / 100))).SegmentLengths.getD
        0 0 := by
  refine ⟨rfl, rfl, ?_⟩
  show 0 < Real.sqrt ((3 - 0) * (3 - 0) + (4 - 0) * (4 - 0) + (0 - 0) * (0 - 0))
  apply Real.sqrt_pos.mpr
  norm_num

/-- Witness of C24 over the real numbers with the real square root: the hard-corner chain
on `(0,0,0), (3,4,0)` and the query `(3, 4)`. -/
theorem C24_distance_is_minimum_witness :
    ∃ r, HitDetectSpline (⟨Real.sqrt, 1 / 100000000⟩ : Engine ℝ) 1000
        (fun p : FVector ℝ => (true, (⟨p.X, p.Y⟩ : FVector2D ℝ)))
        (CalculateHard (⟨Real.sqrt, 1 / 100000000⟩ : Engine ℝ)
          (FBezierCalc.fresh [⟨0, 0, 0⟩, ⟨3, 4, 0⟩] true (3 / 10) (95 / 100)))
        ⟨3, 4⟩ = some r ∧
      ∀ v, v < 2 → r.Distance ≤ FVector2D.Size (⟨Real.sqrt, 1 / 100000000⟩ : Engine ℝ)
        ((⟨3, 4⟩ : FVector2D ℝ) - ([⟨0, 0⟩, ⟨3, 4⟩] : List (FVector2D ℝ)).getD v 0) := by
  obtain ⟨hT, hS, hL⟩ := real_hard_chain
  have hne : (⟨0, 0⟩ : FVector2D ℝ) ≠ ⟨3, 4⟩ := by
    intro hc
    have := congrArg FVector2D.X hc
    norm_num at this
  obtain ⟨_, r, hr, _, _, _, hvert⟩ :=
    C24_distance_is_minimum (⟨Real.sqrt, 1 / 100000000⟩ : Engine ℝ) Real.sqrt_nonneg
      (fun x hx => Real.mul_self_sqrt hx) 1000
      (fun p : FVector ℝ => (true, (⟨p.X, p.Y⟩ : FVector2D ℝ))) 0
      (FBezierCalc.fresh [⟨0, 0, 0⟩, ⟨3, 4, 0⟩] true (3 / 10) (95 / 100))
      (CalculateHard (⟨Real.sqrt, 1 / 100000000⟩ : Engine ℝ)
        (FBezierCalc.fresh [⟨0, 0, 0⟩, ⟨3, 4, 0⟩] true (3 / 10) (95 / 100)))
      ⟨3, 4⟩ (by simp [FBezierCalc.fresh]) rfl
      (by
        intro i hi
        rw [hT] at hi
        have : i = 0 := by
          simp at hi
          omega
        subst this
        rw [hS]
        exact hne)
      (by
        intro i hi
        rw [hT] at hi
        have : i = 0 := by
          simp at hi
          omega
        subst this
        rw [hS]
        have e := FragmentDistance_end (⟨Real.sqrt, 1 / 100000000⟩ : Engine ℝ)
          (fun x hx => Real.mul_self_sqrt hx) [⟨0, 0⟩, ⟨3, 4⟩] 0 hne
        have e2 : FragmentDistance (⟨Real.sqrt, 1 / 100000000⟩ : Engine ℝ)
            [⟨0, 0⟩, ⟨3, 4⟩] ⟨3, 4⟩ 0 = 0 := e
        rw [e2]
        norm_num)
  refine ⟨r, hr, ?_⟩
  intro v hv
  have := hvert v (by rw [hT]; exact hv)
  rw [hS] at this
  exact this

end HitDistance

/-! ## Collinear control points -/

section Collinear

variable {α : Type} [LinearOrderedField α] [FloorRing α]

/-- The function `GetSafeNormal` returns a scalar multiple of its argument. -/
theorem GetSafeNormal_span (E : Engine α) (v : FVector α) :
    ∃ c : α, v.GetSafeNormal E = v * c := by
  unfold FVector.GetSafeNormal
  simp only []
  split_ifs
  · exact ⟨1, by ext <;> simp⟩
  · exact ⟨0, by ext <;> simp⟩
  · exact ⟨1 / E.Sqrt (v.X * v.X + v.Y * v.Y + v.Z * v.Z), rfl⟩

theorem mul_mul_along (e : FVector α) (a c : α) : e * a * c = e * (a * c) := by
  ext
  · show e.X * a * c = e.X * (a * c)
    ring
  · show e.Y * a * c = e.Y * (a * c)
    ring
  · show e.Z * a * c = e.Z * (a * c)
    ring

theorem add_along (e : FVector α) (a c : α) : e * a + e * c = e * (a + c) := by
  ext
  · show e.X * a + e.X * c = e.X * (a + c)
    ring
  · show e.Y * a + e.Y * c = e.Y * (a + c)
    ring
  · show e.Z * a + e.Z * c = e.Z * (a + c)
    ring

theorem neg_along (e : FVector α) (a : α) : -(e * a) = e * (-a) := by
  ext
  · show -(e.X * a) = e.X * (-a)
    ring
  · show -(e.Y * a) = e.Y * (-a)
    ring
  · show -(e.Z * a) = e.Z * (-a)
    ring

theorem zero_along (e : FVector α) : (0 : FVector α) = e * (0 : α) := by
  ext
  · show (0 : α) = e.X * 0
    ring
  · show (0 : α) = e.Y * 0
    ring
  · show (0 : α) = e.Z * 0
    ring

theorem sub_on_line (A e : FVector α) (a c : α) : (A + e * a) - (A + e * c) = e * (a - c) := by
  ext
  · show (A.X + e.X * a) - (A.X + e.X * c) = e.X * (a - c)
    ring
  · show (A.Y + e.Y * a) - (A.Y + e.Y * c) = e.Y * (a - c)
    ring
  · show (A.Z + e.Z * a) - (A.Z + e.Z * c) = e.Z * (a - c)
    ring

/-- The function `GetSafeNormal` keeps a vector along `e` along `e`. -/
theorem GetSafeNormal_on (E : Engine α) (e : FVector α) (a : α) :
    ∃ b : α, (e * a).GetSafeNormal E = e * b := by
  obtain ⟨c, hc⟩ := GetSafeNormal_span E (e * a)
  exact ⟨a * c, by rw [hc, mul_mul_along]⟩

/-- With an exact square root, `GetSafeNormal` maps `e * d` to the unit vector `e` when
`d > 0` and `d * d` is not below the tolerance. -/
theorem GetSafeNormal_along (E : Engine α) (hE : ∀ x, 0 ≤ E.Sqrt x)
    (hsq : ∀ x, 0 ≤ x → E.Sqrt x * E.Sqrt x = x) (h0 : 0 < E.SmallNumber) (e : FVector α)
    (he : e.SizeSquared = 1) (d : α) (hd : 0 < d) (htol : E.SmallNumber ≤ d * d) :
    (e * d).GetSafeNormal E = e := by
  have hss : (e * d).SizeSquared = d * d := by rw [FVector.smul_SizeSquared, he, mul_one]
  obtain ⟨k, hk, hk1, hk2⟩ := GetSafeNormal_scale E hE hsq (e * d) h0 (by rw [hss]; exact htol)
  rw [hss] at hk2
  have hkd : d * k = 1 := by
    have : (d * k) * (d * k) = 1 * 1 := by
      rw [mul_one]
      linarith [hk2]
    exact (mul_self_inj_of_nonneg (le_of_lt (mul_pos hd hk)) zero_le_one).mp this
  rw [hk1, mul_mul_along, hkd]
  ext
  · show e.X * 1 = e.X
    ring
  · show e.Y * 1 = e.Y
    ring
  · show e.Z * 1 = e.Z
    ring

theorem Size_along (E : Engine α) (hE : ∀ x, 0 ≤ E.Sqrt x)
    (hsq : ∀ x, 0 ≤ x → E.Sqrt x * E.Sqrt x = x) (e : FVector α) (he : e.SizeSquared = 1)
    (d : α) (hd : 0 ≤ d) : (e * d).Size E = d := by
  rw [Size_mul E hE hsq e d hd, Size_of_unit E hE hsq e he, mul_one]

/-- On control points `A + e * t i` every tangent that `CalculateTangents` computes is a
multiple of `e`. -/
theorem CalculateTangents_collinear (E : Engine α) (s : FBezierCalc α) (A e : FVector α)
    (t : Nat → α) (hN : 3 ≤ s.Points.length)
    (hP : ∀ i, i < s.Points.length → s.Points.getD i 0 = A + e * t i) :
    ∀ i, i < s.Points.length →
      (∃ a : α, (CalculateTangents E s).OutTangents[i]? = some (e * a)) ∧
      (∃ b : α, (CalculateTangents E s).InTangents[i]? = some (e * b)) := by
  obtain ⟨_, _, _, hint, hfirst, hlast, hz1, hz2, _⟩ := CalculateTangents_spec E s
  have hinterior : ∀ i, 1 ≤ i → i + 1 < s.Points.length →
      (∃ a : α, (CalculateTangents E s).OutTangents[i]? = some (e * a)) ∧
      (∃ b : α, (CalculateTangents E s).InTangents[i]? = some (e * b)) := by
    intro i h1 h2
    obtain ⟨ho, hi⟩ := hint i h1 h2
    have hdir : ∃ c : α, TangentSolver.dir E s.Points i = e * c := by
      unfold TangentSolver.dir
      rw [hP i (by omega), hP (i - 1) (by omega), hP (i + 1) h2, sub_on_line, sub_on_line]
      obtain ⟨b1, e1⟩ := GetSafeNormal_on E e (t i - t (i - 1))
      obtain ⟨b2, e2⟩ := GetSafeNormal_on E e (t (i + 1) - t i)
      rw [e1, e2, add_along]
      exact GetSafeNormal_on E e _
    obtain ⟨c, hc⟩ := hdir
    constructor
    · refine ⟨c * (s.TangentStrength * (s.Points.getD (i + 1) 0 - s.Points.getD i 0).Size E), ?_⟩
      rw [ho]
      unfold TangentSolver.outInterior
      rw [hc, mul_mul_along, mul_mul_along]
    · refine ⟨c * (s.TangentStrength * (s.Points.getD i 0 - s.Points.getD (i - 1) 0).Size E), ?_⟩
      rw [hi]
      unfold TangentSolver.inInterior
      rw [hc, mul_mul_along, mul_mul_along]
  intro i hi
  rcases Nat.eq_zero_or_pos i with h0 | hpos
  · subst h0
    refine ⟨?_, 0, by rw [hz1 (by omega), ← zero_along]⟩
    obtain ⟨b, hb⟩ := (hinterior 1 (le_refl 1) (by omega)).2
    have hf := hfirst (by omega)
    rw [getD_of_getElem? _ _ 0 _ hb] at hf
    unfold TangentSolver.outFirst at hf
    rw [hP 1 (by omega), hP 0 (by omega)] at hf
    have e1 : A + e * t 1 - e * b - (A + e * t 0) = e * (t 1 - b - t 0) := by
      ext
      · show A.X + e.X * t 1 - e.X * b - (A.X + e.X * t 0) = e.X * (t 1 - b - t 0)
        ring
      · show A.Y + e.Y * t 1 - e.Y * b - (A.Y + e.Y * t 0) = e.Y * (t 1 - b - t 0)
        ring
      · show A.Z + e.Z * t 1 - e.Z * b - (A.Z + e.Z * t 0) = e.Z * (t 1 - b - t 0)
        ring
    rw [e1] at hf
    obtain ⟨c, hc⟩ := GetSafeNormal_on E e (t 1 - b - t 0)
    rw [hc, mul_mul_along, mul_mul_along] at hf
    exact ⟨_, hf⟩
  · rcases Nat.lt_or_ge (i + 1) s.Points.length with hlt | hge
    · exact hinterior i hpos hlt
    · have hiN : i = s.Points.length - 1 := by omega
      subst hiN
      refine ⟨⟨0, by rw [hz2 (by omega), ← zero_along]⟩, ?_⟩
      obtain ⟨a, ha⟩ := (hinterior (s.Points.length - 2) (by omega) (by omega)).1
      have hl := hlast (by omega)
      rw [getD_of_getElem? _ _ 0 _ ha] at hl
      unfold TangentSolver.inLast at hl
      rw [hP (s.Points.length - 2) (by omega), hP (s.Points.length - 1) (by omega)] at hl
      have e1 : A + e * t (s.Points.length - 2) + e * a - (A + e * t (s.Points.length - 1)) =
          e * (t (s.Points.length - 2) + a - t (s.Points.length - 1)) := by
        ext
        · show A.X + e.X * t (s.Points.length - 2) + e.X * a -
            (A.X + e.X * t (s.Points.length - 1)) =
            e.X * (t (s.Points.length - 2) + a - t (s.Points.length - 1))
          ring
        · show A.Y + e.Y * t (s.Points.length - 2) + e.Y * a -
            (A.Y + e.Y * t (s.Points.length - 1)) =
            e.Y * (t (s.Points.length - 2) + a - t (s.Points.length - 1))
          ring
        · show A.Z + e.Z * t (s.Points.length - 2) + e.Z * a -
            (A.Z + e.Z * t (s.Points.length - 1)) =
            e.Z * (t (s.Points.length - 2) + a - t (s.Points.length - 1))
          ring
      rw [e1] at hl
      obtain ⟨c, hc⟩ := GetSafeNormal_on E e
        (t (s.Points.length - 2) + a - t (s.Points.length - 1))
      rw [hc, neg_along, mul_mul_along, mul_mul_along] at hl
      exact ⟨_, hl⟩

/-- With gaps `t (i + 1) - t i > 0` whose squares are not below the tolerance, an exact
square root and a unit vector `e`, the interior tangents are `e * (s * gap)`. -/
theorem CalculateTangents_collinear_interior (E : Engine α) (hE : ∀ x, 0 ≤ E.Sqrt x)
    (hsq : ∀ x, 0 ≤ x → E.Sqrt x * E.Sqrt x = x) (h0 : 0 < E.SmallNumber)
    (h1 : E.SmallNumber ≤ 1) (s : FBezierCalc α) (A e : FVector α) (t : Nat → α)
    (he : e.SizeSquared = 1)
    (hP : ∀ i, i < s.Points.length → s.Points.getD i 0 = A + e * t i)
    (hgap : ∀ i, i + 1 < s.Points.length → t i < t (i + 1) ∧
      E.SmallNumber ≤ (t (i + 1) - t i) * (t (i + 1) - t i))
    (i : Nat) (hi1 : 1 ≤ i) (hi2 : i + 1 < s.Points.length) :
    (CalculateTangents E s).OutTangents[i]? =
      some (e * (s.TangentStrength * (t (i + 1) - t i))) ∧
    (CalculateTangents E s).InTangents[i]? =
      some (e * (s.TangentStrength * (t i - t (i - 1)))) := by
  obtain ⟨_, _, _, hint, _⟩ := CalculateTangents_spec E s
  obtain ⟨ho, hi⟩ := hint i hi1 hi2
  obtain ⟨g1, g1t⟩ := hgap (i - 1) (by omega)
  obtain ⟨g2, g2t⟩ := hgap i hi2
  have ei : i - 1 + 1 = i := by omega
  rw [ei] at g1 g1t
  have d1 : 0 < t i - t (i - 1) := by linarith
  have d2 : 0 < t (i + 1) - t i := by linarith
  have hdir : TangentSolver.dir E s.Points i = e := by
    unfold TangentSolver.dir
    rw [hP i (by omega), hP (i - 1) (by omega), hP (i + 1) hi2, sub_on_line, sub_on_line,
      GetSafeNormal_along E hE hsq h0 e he _ d1 g1t,
      GetSafeNormal_along E hE hsq h0 e he _ d2 g2t]
    have e2 : e + e = e * (2 : α) := by
      ext
      · show e.X + e.X = e.X * 2
        ring
      · show e.Y + e.Y = e.Y * 2
        ring
      · show e.Z + e.Z = e.Z * 2
        ring
    rw [e2]
    exact GetSafeNormal_along E hE hsq h0 e he 2 (by norm_num) (by linarith)
  constructor
  · rw [ho]
    unfold TangentSolver.outInterior
    rw [hdir, hP i (by omega), hP (i + 1) hi2, sub_on_line,
      Size_along E hE hsq e he _ (le_of_lt d2), mul_mul_along]
  · rw [hi]
    unfold TangentSolver.inInterior
    rw [hdir, hP i (by omega), hP (i - 1) (by omega), sub_on_line,
      Size_along E hE hsq e he _ (le_of_lt d1), mul_mul_along]

/-- A cubic whose control points lie on the line `A + e * c` stays on that line. -/
theorem cubicPoint_collinear (s : FBezierCalc α) (A e : FVector α) (k : Nat) (T : α)
    (p0 p1 o i : α) (h0 : s.Points.getD k 0 = A + e * p0)
    (h1 : s.Points.getD (k + 1) 0 = A + e * p1) (ho : s.OutTangents.getD k 0 = e * o)
    (hi : s.InTangents.getD (k + 1) 0 = e * i) : ∃ c : α, cubicPoint s k T = A + e * c := by
  refine ⟨(1 - T) * (1 - T) * (1 - T) * p0 + 3 * (1 - T) * (1 - T) * T * (p0 + o) +
    3 * (1 - T) * T * T * (p1 - i) + T * T * T * p1, ?_⟩
  unfold cubicPoint
  rw [h0, h1, ho, hi]
  ext
  · simp only [FVector.add_X, FVector.sub_X, FVector.smul_X, FVector.mul_X]
    ring
  · simp only [FVector.add_Y, FVector.sub_Y, FVector.smul_Y, FVector.mul_Y]
    ring
  · simp only [FVector.add_Z, FVector.sub_Z, FVector.smul_Z, FVector.mul_Z]
    ring

/-- Every curve sample of a segment `k ≤ N - 2` lies on the line of the control points
when the tangents are along the line. -/
theorem CalculateBezierPointSeg_collinear (s : FBezierCalc α) (A e : FVector α) (t : Nat → α)
    (hI : s.InTangents.length = s.Points.length) (hO : s.OutTangents.length = s.Points.length)
    (hP : ∀ i, i < s.Points.length → s.Points.getD i 0 = A + e * t i)
    (hT : ∀ i, i < s.Points.length → (∃ a : α, s.OutTangents[i]? = some (e * a)) ∧
      (∃ b : α, s.InTangents[i]? = some (e * b)))
    (k : Nat) (hk : k + 1 < s.Points.length) (T : α) (p : FVector α)
    (h : CalculateBezierPointSeg s (k : Int) T = some p) : ∃ c : α, p = A + e * c := by
  unfold CalculateBezierPointSeg at h
  rw [Clamp_of_mem (k : Int) 0 _ (by omega) (by omega)] at h
  have hc0 : 0 ≤ Clamp T 0 1 := le_max_right _ _
  generalize Clamp T 0 1 = c at h hc0
  have hq0 : (0 : α) ≤ ((k : Int) : α) + c := by
    have : (0 : α) ≤ ((k : Int) : α) := by exact_mod_cast Nat.zero_le k
    linarith
  rcases le_or_lt (((s.Points.length : Int) - 1 : Int) : α) (((k : Int) : α) + c) with hge | hlt
  · rw [CalculateBezierPoint_ge s _ hge, List.getLast?_eq_getElem?] at h
    have := getD_of_getElem? _ _ 0 _ h
    rw [hP _ (by omega)] at this
    exact ⟨_, this.symm⟩
  · rw [CalculateBezierPoint_inner s _ hI hO hq0 hlt] at h
    have hfl : ⌊((k : Int) : α) + c⌋ < (s.Points.length : Int) - 1 := Int.floor_lt.mpr hlt
    have hfl0 : 0 ≤ ⌊((k : Int) : α) + c⌋ := Int.floor_nonneg.mpr hq0
    have hm : ⌊((k : Int) : α) + c⌋.toNat + 1 < s.Points.length := by omega
    obtain ⟨⟨a, ha⟩, _⟩ := hT ⌊((k : Int) : α) + c⌋.toNat (by omega)
    obtain ⟨_, ⟨b, hb⟩⟩ := hT (⌊((k : Int) : α) + c⌋.toNat + 1) hm
    obtain ⟨x, hx⟩ := cubicPoint_collinear s A e ⌊((k : Int) : α) + c⌋.toNat
      (((k : Int) : α) + c - (⌊((k : Int) : α) + c⌋ : α)) _ _ a b
      (hP _ (by omega)) (hP _ hm) (getD_of_getElem? _ _ 0 _ ha) (getD_of_getElem? _ _ 0 _ hb)
    exact ⟨x, by rw [← hx]; exact (Option.some.inj h).symm⟩

/-- A call of `TessellateSegment` appends only its start point and curve samples: a
property of the start point, of the chain so far and of all samples of the segment holds
for the whole chain it returns. -/
theorem TessellateSegment_forall (E : Engine α) (s : FBezierCalc α) (Q : FVector α → Prop)
    (k : Int) (hQ : ∀ T p, CalculateBezierPointSeg s k T = some p → Q p) :
    ∀ (fuel : Nat) (T0 : α) (P0 : FVector α) (T1 : α) (P1 : FVector α)
      (Tes R : List (FVector α)),
      TessellateSegment E s fuel k T0 P0 T1 P1 Tes = some R → Q P0 → (∀ x ∈ Tes, Q x) →
      ∀ x ∈ R, Q x := by
  intro fuel
  induction fuel with
  | zero =>
    intro T0 P0 T1 P1 Tes R h
    simp [TessellateSegment] at h
  | succ n ih =>
    intro T0 P0 T1 P1 Tes R h hP0 hTes
    rw [TessellateSegment] at h
    simp only [Option.bind_eq_bind, Option.bind_eq_some] at h
    obtain ⟨Mid, hMid, b, _, h⟩ := h
    have hQM : Q Mid := hQ _ _ hMid
    cases b with
    | true =>
      simp only [if_true, Option.bind_eq_some] at h
      obtain ⟨Ra, ha, hb⟩ := h
      exact ih _ _ _ _ _ _ hb hQM (ih _ _ _ _ _ _ ha hP0 hTes)
    | false =>
      simp at h
      rw [← h]
      intro x hx
      simp only [List.mem_append, List.mem_cons, List.mem_singleton, List.not_mem_nil,
        or_false] at hx
      rcases hx with hx | hx | hx
      · exact hTes x hx
      · rw [hx]; exact hP0
      · rw [hx]; exact hQM

/-- Every chain point that `CalculateBezier` produces is a control point or a curve sample
of a segment `k ≤ N - 2`: a property of those holds for the whole chain. -/
theorem CalculateBezier_forall (E : Engine α) (fuel : Nat) (t s' : FBezierCalc α)
    (Q : FVector α → Prop) (hPts : ∀ i, i < t.Points.length → Q (t.Points.getD i 0))
    (hQ : ∀ k : Nat, k + 1 < t.Points.length → ∀ T p,
      CalculateBezierPointSeg t (k : Int) T = some p → Q p)
    (h : CalculateBezier E fuel t = some s') : ∀ x ∈ s'.Tessellated, Q x := by
  unfold CalculateBezier at h
  simp only [] at h
  split_ifs at h with hN
  · simp only [Option.some.injEq] at h
    subst h
    intro x hx
    simp at hx
  · have key := foldlM_range_induction
      (fun _ (st : FBezierCalc α) => SameCurve t st ∧ ∀ x ∈ st.Tessellated, Q x)
      _ _ _ _ h ⟨⟨rfl, rfl, rfl, rfl, rfl, rfl⟩, fun x hx => by simp at hx⟩
      (by
        rintro i st st' hi ⟨hc, hall⟩ hf
        obtain ⟨hc', _, _, L, _, _, hlast, hseg⟩ := CalculateBezierStep_some E fuel st st' i hf
        refine ⟨SameCurve_trans hc hc', ?_⟩
        by_cases hcase : (i : Int) < (st.Points.length : Int) - 1
        · obtain ⟨Tes, Last, hT, _, hst, _⟩ := hseg hcase
          rw [hst]
          have hc2 : SameCurve t
              { st with SegmentTessIndexes := st.SegmentTessIndexes.set i st.Tessellated.length } :=
            hc
          refine TessellateSegment_forall E _ Q (i : Int) ?_ fuel _ _ _ _ _ _ hT ?_ hall
          · intro T p hp
            rw [CalculateBezierPointSeg_congr hc2] at hp
            exact hQ i (by rw [hc.1] at hcase; omega) T p hp
          · rw [hc.1]
            exact hPts i hi
        · obtain ⟨_, hst⟩ := hlast hcase
          rw [hst]
          intro x hx
          simp only [List.mem_append, List.mem_singleton] at hx
          rcases hx with hx | hx
          · exact hall x hx
          · rw [hx, hc.1]
            exact hPts i hi)
    exact key.2

/-- C27 as stated fails for control points closer than the tolerance of `GetSafeNormal`:
on the strictly ordered points `(0,0,0), (10⁻⁵,0,0), (2·10⁻⁵,0,0)` of the x-axis with
strength `0.3` both tangents of the middle point are zero, not a positive multiple of the
line direction `(1,0,0)`. -/
theorem C27_collinear_counterexample :
    tinyCollinearExample.HardCorners = false ∧ tinyCollinearExample.Points.length = 3 ∧
    tinyCollinearExample.TangentStrength = 3 / 10 ∧
    (∀ i, i < 3 → tinyCollinearExample.Points.getD i 0 =
      (0 : FVector ℚ) + (⟨1, 0, 0⟩ : FVector ℚ) * ((i : ℚ) / 100000)) ∧
    (CalculateTangents ratEngine tinyCollinearExample).OutTangents[1]? = some 0 ∧
    (CalculateTangents ratEngine tinyCollinearExample).InTangents[1]? = some 0 ∧
    ¬ ∃ a : ℚ, 0 < a ∧ (0 : FVector ℚ) = (⟨1, 0, 0⟩ : FVector ℚ) * a := by
  refine ⟨rfl, rfl, rfl, by decide!, by decide!, by decide!, ?_⟩
  rintro ⟨a, ha, h⟩
  have hx : (0 : ℚ) = 1 * a := congrArg FVector.X h
  linarith

end Collinear

/-! ## The rounding to `float` -/

section Rounding

theorem roundHalfEven_floor_le (x : ℚ) : ⌊x⌋ ≤ roundHalfEven x := by
  unfold roundHalfEven
  split_ifs <;> omega

theorem roundHalfEven_le_floor (x : ℚ) : roundHalfEven x ≤ ⌊x⌋ + 1 := by
  unfold roundHalfEven
  split_ifs <;> omega

/-- Rounding to the nearest integer keeps the order. -/
theorem roundHalfEven_mono (x y : ℚ) (h : x ≤ y) : roundHalfEven x ≤ roundHalfEven y := by
  rcases lt_or_eq_of_le (Int.floor_mono h) with hlt | heq
  · have := roundHalfEven_le_floor x
    have := roundHalfEven_floor_le y
    omega
  · unfold roundHalfEven
    rw [← heq]
    by_cases hx : 1 / 2 < x - ⌊x⌋ ∨ (x - ⌊x⌋ = 1 / 2 ∧ ⌊x⌋ % 2 = 1)
    · have hy : 1 / 2 < y - ⌊x⌋ ∨ (y - ⌊x⌋ = 1 / 2 ∧ ⌊x⌋ % 2 = 1) := by
        rcases hx with hx | ⟨hx, hp⟩
        · left; linarith
        · rcases lt_or_eq_of_le h with hl | he
          · left; linarith
          · right; exact ⟨by rw [← he]; exact hx, hp⟩
      rw [if_pos hx, if_pos hy]
    · rw [if_neg hx]
      split_ifs <;> omega

/-- An integer is its own rounding. -/
theorem roundHalfEven_int (z : Int) : roundHalfEven (z : ℚ) = z := by
  unfold roundHalfEven
  rw [Int.floor_intCast, sub_self]
  rw [if_neg (by
    rintro (h | ⟨h, _⟩)
    · norm_num at h
    · norm_num at h)]

theorem twoPow_eq (k : Int) : twoPow k = (2 : ℚ) ^ k := by
  unfold twoPow
  split_ifs with h
  · obtain ⟨n, rfl⟩ := Int.eq_ofNat_of_zero_le h
    simp
  · obtain ⟨n, hn⟩ := Int.eq_ofNat_of_zero_le (show (0 : Int) ≤ -k by omega)
    have hk : k = -(n : Int) := by omega
    subst hk
    simp

/-- The function `floorLog2Aux` finds the binary logarithm when it is given enough fuel. -/
theorem floorLog2Aux_spec : ∀ (fuel n : Nat), n ≤ fuel → 0 < n →
    2 ^ floorLog2Aux fuel n ≤ n ∧ n < 2 ^ (floorLog2Aux fuel n + 1) := by
  intro fuel
  induction fuel with
  | zero =>
    intro n h1 h2
    omega
  | succ k ih =>
    intro n h1 h2
    unfold floorLog2Aux
    split_ifs with h
    · obtain ⟨a, b⟩ := ih (n / 2) (by omega) (by omega)
      constructor
      · rw [pow_succ]
        omega
      · rw [pow_succ]
        omega
    · constructor
      · simp
        omega
      · simp
        omega

theorem floorLog2_spec (n : Nat) (h : 0 < n) :
    2 ^ floorLog2 n ≤ n ∧ n < 2 ^ (floorLog2 n + 1) :=
  floorLog2Aux_spec n n (le_refl n) h

/-- The integer `binaryExponent n d` is the binary exponent of `n / d`. -/
theorem binaryExponent_spec (n d : Nat) (hn : 0 < n) (hd : 0 < d) :
    (2 : ℚ) ^ binaryExponent n d ≤ (n : ℚ) / d ∧
    (n : ℚ) / d < (2 : ℚ) ^ (binaryExponent n d + 1) := by
  have hdq : (0 : ℚ) < d := by exact_mod_cast hd
  have a1 : 2 ^ floorLog2 n ≤ n := (floorLog2_spec n hn).1
  have a2 : n < 2 ^ (floorLog2 n + 1) := (floorLog2_spec n hn).2
  have b1 : 2 ^ floorLog2 d ≤ d := (floorLog2_spec d hd).1
  have b2 : d < 2 ^ (floorLog2 d + 1) := (floorLog2_spec d hd).2
  have a1q : (2 : ℚ) ^ floorLog2 n ≤ n := by exact_mod_cast a1
  have a2q : (n : ℚ) < 2 ^ (floorLog2 n + 1) := by exact_mod_cast a2
  have b1q : (2 : ℚ) ^ floorLog2 d ≤ d := by exact_mod_cast b1
  have b2q : (d : ℚ) < 2 ^ (floorLog2 d + 1) := by exact_mod_cast b2
  have hA : (0 : ℚ) < 2 ^ floorLog2 n := by positivity
  have hB : (0 : ℚ) < 2 ^ floorLog2 d := by positivity
  have z1 : (2 : ℚ) ^ ((floorLog2 n : Int) - (floorLog2 d : Int)) =
      2 ^ floorLog2 n / 2 ^ floorLog2 d := by
    rw [zpow_sub₀ (by norm_num), zpow_natCast, zpow_natCast]
  unfold binaryExponent
  split_ifs with h
  · have hq : (d : ℚ) * 2 ^ floorLog2 n ≤ n * 2 ^ floorLog2 d := by exact_mod_cast h
    constructor
    · rw [z1, div_le_div_iff₀ hB hdq]
      linarith
    · rw [zpow_add_one₀ (by norm_num), z1, div_lt_iff₀ hdq, div_mul_eq_mul_div,
        div_mul_eq_mul_div, lt_div_iff₀ hB]
      have : (2 : ℚ) ^ (floorLog2 n + 1) = 2 ^ floorLog2 n * 2 := pow_succ _ _
      nlinarith
  · have hq : (n : ℚ) * 2 ^ floorLog2 d < d * 2 ^ floorLog2 n := by exact_mod_cast not_le.mp h
    have e1 : (floorLog2 n : Int) - (floorLog2 d : Int) - 1 + 1 =
        (floorLog2 n : Int) - (floorLog2 d : Int) := by ring
    constructor
    · rw [zpow_sub_one₀ (by norm_num), z1, div_mul_eq_mul_div, div_le_div_iff₀ hB hdq]
      have : (2 : ℚ) ^ (floorLog2 d + 1) = 2 ^ floorLog2 d * 2 := pow_succ _ _
      have h2 : (2 : ℚ)⁻¹ = 1 / 2 := by norm_num
      rw [h2]
      nlinarith
    · rw [e1, z1, div_lt_div_iff₀ hdq hB]
      linarith

/-- A positive value rounds on the grid of its binary exponent. -/
theorem ratFloat_pos_eq (q : ℚ) (hq : 0 < q) :
    ∃ e : Int, (2 : ℚ) ^ e ≤ q ∧ q < (2 : ℚ) ^ (e + 1) ∧
      ratFloat q = (roundHalfEven (q * (2 : ℚ) ^ (min (23 - e) 149)) : ℚ) /
        (2 : ℚ) ^ (min (23 - e) 149) := by
  have hnum : 0 < q.num := Rat.num_pos.mpr hq
  have hn : 0 < q.num.natAbs := Int.natAbs_pos.mpr (ne_of_gt hnum)
  have hcast : ((q.num.natAbs : Nat) : ℚ) / (q.den : ℚ) = q := by
    have h1 : ((q.num.natAbs : Nat) : ℚ) = ((q.num : Int) : ℚ) := by
      rw [Nat.cast_natAbs, abs_of_pos hnum]
    rw [h1]
    exact Rat.num_div_den q
  obtain ⟨h1, h2⟩ := binaryExponent_spec q.num.natAbs q.den hn q.den_pos
  rw [hcast] at h1 h2
  refine ⟨binaryExponent q.num.natAbs q.den, h1, h2, ?_⟩
  unfold ratFloat
  rw [if_neg (ne_of_gt hq), twoPow_eq]

/-- Rounding on a fixed grid keeps the order. -/
theorem grid_mono (k : Int) (x y : ℚ) (h : x ≤ y) :
    (roundHalfEven (x * (2 : ℚ) ^ k) : ℚ) / (2 : ℚ) ^ k ≤
      (roundHalfEven (y * (2 : ℚ) ^ k) : ℚ) / (2 : ℚ) ^ k := by
  have hp : (0 : ℚ) < (2 : ℚ) ^ k := by positivity
  apply div_le_div_of_nonneg_right _ (le_of_lt hp)
  have := roundHalfEven_mono (x * (2 : ℚ) ^ k) (y * (2 : ℚ) ^ k)
    (mul_le_mul_of_nonneg_right h (le_of_lt hp))
  exact_mod_cast this

/-- A value on the grid is its own rounding. -/
theorem grid_fix (k : Int) (x : ℚ) (z : Int) (h : x * (2 : ℚ) ^ k = (z : ℚ)) :
    (roundHalfEven (x * (2 : ℚ) ^ k) : ℚ) / (2 : ℚ) ^ k = x := by
  have hp : (0 : ℚ) < (2 : ℚ) ^ k := by positivity
  rw [h, roundHalfEven_int, ← h]
  field_simp

/-- A power of two is on every grid that is fine enough. -/
theorem grid_two_pow (j k : Int) (h : 0 ≤ j + k) :
    (roundHalfEven ((2 : ℚ) ^ j * (2 : ℚ) ^ k) : ℚ) / (2 : ℚ) ^ k = (2 : ℚ) ^ j := by
  apply grid_fix k _ ((2 : Int) ^ (j + k).toNat)
  rw [← zpow_add₀ (by norm_num : (2 : ℚ) ≠ 0)]
  obtain ⟨n, hn⟩ := Int.eq_ofNat_of_zero_le h
  rw [hn]
  simp

theorem two_zpow_lt (a b : Int) (h : (2 : ℚ) ^ a < (2 : ℚ) ^ b) : a < b :=
  (zpow_lt_zpow_iff_right₀ (by norm_num : (1 : ℚ) < 2)).mp h

theorem two_zpow_le (a b : Int) (h : a ≤ b) : (2 : ℚ) ^ a ≤ (2 : ℚ) ^ b :=
  (zpow_le_zpow_iff_right₀ (by norm_num : (1 : ℚ) < 2)).mpr h

theorem roundHalfEven_nonneg (x : ℚ) (h : 0 ≤ x) : 0 ≤ roundHalfEven x := by
  have := roundHalfEven_mono 0 x h
  have h0 : roundHalfEven 0 = 0 := by
    have := roundHalfEven_int 0
    simpa using this
  omega

/-- The rounding to `float` of a non-negative value is not negative. -/
theorem ratFloat_nonneg (x : ℚ) (h : 0 ≤ x) : 0 ≤ ratFloat x := by
  rcases eq_or_lt_of_le h with h0 | hp
  · rw [← h0]
    unfold ratFloat
    rw [if_pos rfl]
  · obtain ⟨e, _, _, he⟩ := ratFloat_pos_eq x hp
    rw [he]
    apply div_nonneg _ (by positivity)
    have := roundHalfEven_nonneg (x * (2 : ℚ) ^ (min (23 - e) 149)) (by positivity)
    exact_mod_cast this

/-- The rounding to `float` keeps the order of non-negative values. -/
theorem ratFloat_mono (x y : ℚ) (hx : 0 ≤ x) (h : x ≤ y) : ratFloat x ≤ ratFloat y := by
  rcases eq_or_lt_of_le hx with h0 | hp
  · rw [← h0]
    have : ratFloat 0 = 0 := by unfold ratFloat; rw [if_pos rfl]
    rw [this]
    exact ratFloat_nonneg y (le_trans hx h)
  · obtain ⟨e1, a1, b1, he1⟩ := ratFloat_pos_eq x hp
    obtain ⟨e2, a2, b2, he2⟩ := ratFloat_pos_eq y (lt_of_lt_of_le hp h)
    have hee : e1 ≤ e2 := by
      have : (2 : ℚ) ^ e1 < (2 : ℚ) ^ (e2 + 1) := lt_of_le_of_lt (le_trans a1 h) b2
      have := two_zpow_lt _ _ this
      omega
    rw [he1, he2]
    rcases eq_or_lt_of_le hee with heq | hlt
    · rw [heq]
      exact grid_mono _ x y h
    · -- the power of two between the values is on both grids
      have hB1 : x ≤ (2 : ℚ) ^ e2 := le_trans (le_of_lt b1) (two_zpow_le _ _ (by omega))
      by_cases hk : min (23 - e1) 149 = min (23 - e2) 149
      · rw [hk]
        exact grid_mono _ x y h
      · have hk2 : min (23 - e2) 149 = 23 - e2 := by omega
        have hk1 : 23 - e2 < min (23 - e1) 149 := by omega
        calc (roundHalfEven (x * (2 : ℚ) ^ (min (23 - e1) 149)) : ℚ) /
              (2 : ℚ) ^ (min (23 - e1) 149)
            ≤ (roundHalfEven ((2 : ℚ) ^ e2 * (2 : ℚ) ^ (min (23 - e1) 149)) : ℚ) /
              (2 : ℚ) ^ (min (23 - e1) 149) := grid_mono _ _ _ hB1
          _ = (2 : ℚ) ^ e2 := grid_two_pow _ _ (by omega)
          _ = (roundHalfEven ((2 : ℚ) ^ e2 * (2 : ℚ) ^ (min (23 - e2) 149)) : ℚ) /
              (2 : ℚ) ^ (min (23 - e2) 149) := (grid_two_pow _ _ (by omega)).symm
          _ ≤ _ := grid_mono _ _ _ a2

/-- A `float` is its own rounding: rounding a non-negative value twice is rounding it
once. -/
theorem ratFloat_idem (x : ℚ) (hx : 0 ≤ x) : ratFloat (ratFloat x) = ratFloat x := by
  have h00 : ratFloat 0 = 0 := by unfold ratFloat; rw [if_pos rfl]
  rcases eq_or_lt_of_le hx with h0 | hp
  · rw [← h0, h00, h00]
  · rcases eq_or_lt_of_le (ratFloat_nonneg x hx) with hr0 | hrp
    · rw [← hr0, h00]
    · obtain ⟨e, a1, b1, he⟩ := ratFloat_pos_eq x hp
      obtain ⟨e2, a2, b2, he2⟩ := ratFloat_pos_eq (ratFloat x) hrp
      have hpk : (0 : ℚ) < (2 : ℚ) ^ (min (23 - e) 149) := by positivity
      -- the rounded value as an integer multiple of the grid step
      have hm : ratFloat x * (2 : ℚ) ^ (min (23 - e) 149) =
          (roundHalfEven (x * (2 : ℚ) ^ (min (23 - e) 149)) : ℚ) := by
        rw [he]
        field_simp
      by_cases hgrid : 0 ≤ e + 1 + min (23 - e) 149
      · -- the rounded value is at most the next power of two
        have hle : ratFloat x ≤ (2 : ℚ) ^ (e + 1) := by
          rw [he, ← grid_two_pow (e + 1) (min (23 - e) 149) hgrid]
          exact grid_mono _ _ _ (le_of_lt b1)
        have hee : e2 ≤ e + 1 := by
          have : (2 : ℚ) ^ e2 < (2 : ℚ) ^ (e + 1 + 1) :=
            lt_of_le_of_lt (le_trans a2 hle) (by
              apply (zpow_lt_zpow_iff_right₀ (by norm_num : (1 : ℚ) < 2)).mpr
              omega)
          have := two_zpow_lt _ _ this
          omega
        rw [he2]
        rcases eq_or_lt_of_le hee with heq | hlt
        · -- the rounded value is the next power of two
          have hval : ratFloat x = (2 : ℚ) ^ (e + 1) :=
            le_antisymm hle (by rw [← heq]; exact a2)
          rw [heq, hval]
          exact grid_two_pow _ _ (by omega)
        · have hkk : min (23 - e) 149 ≤ min (23 - e2) 149 := by omega
          obtain ⟨n, hn⟩ := Int.eq_ofNat_of_zero_le
            (show (0 : Int) ≤ min (23 - e2) 149 - min (23 - e) 149 by omega)
          apply grid_fix _ _
            (roundHalfEven (x * (2 : ℚ) ^ (min (23 - e) 149)) * (2 : Int) ^ n)
          have hsplit : (2 : ℚ) ^ (min (23 - e2) 149) =
              (2 : ℚ) ^ (min (23 - e) 149) * (2 : ℚ) ^ (n : Int) := by
            rw [← zpow_add₀ (by norm_num : (2 : ℚ) ≠ 0)]
            congr 1
            omega
          rw [hsplit, ← mul_assoc, hm]
          simp
      · -- the value is below half the grid step and rounds to zero
        exfalso
        have hlt : x * (2 : ℚ) ^ (min (23 - e) 149) < 1 / 2 := by
          have h1 : x * (2 : ℚ) ^ (min (23 - e) 149) <
              (2 : ℚ) ^ (e + 1) * (2 : ℚ) ^ (min (23 - e) 149) :=
            mul_lt_mul_of_pos_right b1 hpk
          rw [← zpow_add₀ (by norm_num : (2 : ℚ) ≠ 0)] at h1
          have h2 : (2 : ℚ) ^ (e + 1 + min (23 - e) 149) ≤ (2 : ℚ) ^ (-1 : Int) :=
            two_zpow_le _ _ (by omega)
          have h3 : (2 : ℚ) ^ (-1 : Int) = 1 / 2 := by norm_num
          rw [h3] at h2
          exact lt_of_lt_of_le h1 h2
        have hfl : ⌊x * (2 : ℚ) ^ (min (23 - e) 149)⌋ = 0 := by
          rw [Int.floor_eq_iff]
          constructor
          · simp only [Int.cast_zero]
            positivity
          · simp only [Int.cast_zero]
            linarith
        have hz : roundHalfEven (x * (2 : ℚ) ^ (min (23 - e) 149)) = 0 := by
          unfold roundHalfEven
          rw [hfl, if_neg]
          rintro (h | ⟨h, _⟩)
          · simp only [Int.cast_zero, sub_zero] at h
            linarith
          · simp only [Int.cast_zero, sub_zero] at h
            linarith
        rw [he, hz] at hrp
        simp at hrp

end Rounding

/-! ## Single precision: the arc-length table -/

section SingleTable

variable {α : Type} [LinearOrderedField α] [FloorRing α]

/-- The function `TessellateSegment` in single precision appends to the chain, and the
first point it appends is `P0`. -/
theorem TessellateSegmentF_append (E : Engine α) (F : α → α) (s : FBezierCalc α) :
    ∀ (fuel : Nat) (k : Int) (T0 : α) (P0 : FVector α) (T1 : α) (P1 : FVector α)
      (Tes R : List (FVector α)),
      TessellateSegmentF E F s fuel k T0 P0 T1 P1 Tes = some R →
        ∃ rest, R = Tes ++ P0 :: rest := by
  intro fuel
  induction fuel with
  | zero =>
    intro k T0 P0 T1 P1 Tes R h
    simp [TessellateSegmentF] at h
  | succ n ih =>
    intro k T0 P0 T1 P1 Tes R h
    rw [TessellateSegmentF] at h
    simp only [Option.bind_eq_bind, Option.bind_eq_some] at h
    obtain ⟨Mid, _, b, _, h⟩ := h
    cases b with
    | true =>
      simp only [if_true, Option.bind_eq_some] at h
      obtain ⟨R1, h1, h2⟩ := h
      obtain ⟨r1, e1⟩ := ih _ _ _ _ _ _ _ h1
      obtain ⟨r2, e2⟩ := ih _ _ _ _ _ _ _ h2
      exact ⟨r1 ++ Mid :: r2, by rw [e2, e1]; simp⟩
    | false =>
      simp only [Bool.false_eq_true, if_false, Option.some.injEq] at h
      exact ⟨[Mid], h.symm⟩

/-- With the identity for `F` the single-precision curve point is the exact one. -/
theorem CalculateBezierPointSegF_exact (s : FBezierCalc α) (k : Int) (T : α) :
    CalculateBezierPointSegF (fun x => x) s k T = CalculateBezierPointSeg s k T := rfl

/-- With the identity for `F` the single-precision tessellation is the exact one. -/
theorem TessellateSegmentF_exact (E : Engine α) (s : FBezierCalc α) :
    ∀ (fuel : Nat) (k : Int) (T0 : α) (P0 : FVector α) (T1 : α) (P1 : FVector α)
      (Tes : List (FVector α)),
      TessellateSegmentF E (fun x => x) s fuel k T0 P0 T1 P1 Tes =
        TessellateSegment E s fuel k T0 P0 T1 P1 Tes := by
  intro fuel
  induction fuel with
  | zero =>
    intro k T0 P0 T1 P1 Tes
    rfl
  | succ n ih =>
    intro k T0 P0 T1 P1 Tes
    rw [TessellateSegmentF, TessellateSegment]
    simp only [ih, CalculateBezierPointSegF_exact]
    rfl

/-- With the identity for `F` the single-precision `Calculate` is the exact one. -/
theorem CalculateF_exact (E : Engine α) (fuel : Nat) (s : FBezierCalc α) :
    CalculateF E (fun x => x) fuel s = Calculate E fuel s := by
  have hstep : CalculateBezierStepF E (fun x => x) fuel = CalculateBezierStep E fuel := by
    funext st i
    unfold CalculateBezierStepF CalculateBezierStep
    simp only [TessellateSegmentF_exact]
    rfl
  unfold CalculateF Calculate CalculateBezierF CalculateBezier
  rw [hstep]
  rfl

/-- With a negative tolerance every fragment is split, so `TessellateSegment` returns at no
recursion depth, also in single precision. -/
theorem TessellateSegmentF_negative (E : Engine α) (hE : ∀ x, 0 ≤ E.Sqrt x) (F : α → α)
    (s : FBezierCalc α) (hneg : F (Lerp 50 (1 / 100) s.TessellationQuality) < 0) :
    ∀ (fuel : Nat) (k : Int) (T0 : α) (P0 : FVector α) (T1 : α) (P1 : FVector α)
      (Tes : List (FVector α)), TessellateSegmentF E F s fuel k T0 P0 T1 P1 Tes = none := by
  intro fuel
  induction fuel with
  | zero =>
    intro k T0 P0 T1 P1 Tes
    simp [TessellateSegmentF]
  | succ n ih =>
    intro k T0 P0 T1 P1 Tes
    rw [TessellateSegmentF]
    cases hM : CalculateBezierPointSegF F s k (LerpF F T0 T1 (1 / 2)) with
    | none => simp
    | some M =>
      have hgt : (M - LerpV P0 P1 (1 / 2)).Size E >
          F (Lerp 50 (1 / 100) s.TessellationQuality) :=
        lt_of_lt_of_le hneg (hE _)
      simp only [Option.bind_eq_bind, Option.some_bind, if_pos hgt, if_true, ih,
        Option.none_bind]

/-- One iteration of the loop of `CalculateBezier` in single precision, when it returns. -/
theorem CalculateBezierStepF_some (E : Engine α) (F : α → α) (fuel : Nat)
    (st st' : FBezierCalc α) (i : Nat) (h : CalculateBezierStepF E F fuel st i = some st') :
    SameCurve st st' ∧
    st'.SegmentTessIndexes = st.SegmentTessIndexes.set i (st.Tessellated.length : Int) ∧
    st'.SegmentStartLengths = st.SegmentStartLengths.set i st.TotalLength ∧
    ∃ L, st'.SegmentLengths = st.SegmentLengths.set i L ∧
      st'.TotalLength = F (st.TotalLength + L) ∧
      (¬ ((i : Int) < (st.Points.length : Int) - 1) →
        L = 0 ∧ st'.Tessellated = st.Tessellated ++ [st.Points.getD i 0]) ∧
      ((i : Int) < (st.Points.length : Int) - 1 →
        ∃ Tes Last,
          TessellateSegmentF E F
            { st with SegmentTessIndexes :=
                st.SegmentTessIndexes.set i (st.Tessellated.length : Int) }
            fuel (i : Int) 0 (st.Points.getD i 0) 1 (st.Points.getD (i + 1) 0)
            st.Tessellated = some Tes ∧
          Tes.getLast? = some Last ∧ st'.Tessellated = Tes ∧
          L = F (ChainLengthFromF E F Tes
                ((st.SegmentTessIndexes.set i (st.Tessellated.length : Int)).getD i 0).toNat +
              FVector.Dist E Last (st.Points.getD (i + 1) 0))) := by
  unfold CalculateBezierStepF at h
  split_ifs at h with hc
  · simp only [Option.bind_eq_bind, Option.bind_eq_some] at h
    obtain ⟨Tes, hT, Last, hL, hst⟩ := h
    simp only [Option.some.injEq] at hst
    subst hst
    refine ⟨⟨rfl, rfl, rfl, rfl, rfl, rfl⟩, rfl, rfl, _, rfl, rfl, fun hn => absurd hc hn, ?_⟩
    intro _
    exact ⟨Tes, Last, hT, hL, rfl, rfl⟩
  · simp only [Option.some.injEq] at h
    subst h
    refine ⟨⟨rfl, rfl, rfl, rfl, rfl, rfl⟩, rfl, rfl, 0, rfl, rfl, fun _ => ⟨rfl, rfl⟩, ?_⟩
    intro hn
    exact absurd hn hc

theorem ChainLengthFromF_eq (E : Engine α) (F : α → α) (Tes : List (FVector α))
    (From : Nat) :
    ChainLengthFromF E F Tes From = PolylineLengthF E F Tes From (Tes.length - 1) := rfl

theorem PolylineLengthF_self (E : Engine α) (F : α → α) (X : List (FVector α)) (a : Nat) :
    PolylineLengthF E F X a a = 0 := forRange_self _ _ _

theorem PolylineLengthF_succ (E : Engine α) (F : α → α) (X : List (FVector α)) (a b : Nat)
    (h : a ≤ b) :
    PolylineLengthF E F X a (b + 1) =
      F (PolylineLengthF E F X a b + FVector.Dist E (X.getD b 0) (X.getD (b + 1) 0)) := by
  unfold PolylineLengthF
  rw [forRange_succ a b h]

/-- The single-precision polyline length between two indices of a chain does not change
when points are appended to the chain. -/
theorem PolylineLengthF_append (E : Engine α) (F : α → α) (X Y : List (FVector α))
    (a b : Nat) (h : b < X.length) :
    PolylineLengthF E F (X ++ Y) a b = PolylineLengthF E F X a b := by
  unfold PolylineLengthF
  apply forRange_congr
  intro i st _ hi
  rw [List.getD_append _ _ _ _ (by omega), List.getD_append _ _ _ _ (by omega)]

/-- A rounding that keeps `0` and the order keeps a single-precision polyline length
non-negative. -/
theorem PolylineLengthF_nonneg (E : Engine α) (hE : ∀ x, 0 ≤ E.Sqrt x) (F : α → α)
    (hF0 : F 0 = 0) (hFm : ∀ x y, 0 ≤ x → x ≤ y → F x ≤ F y) (X : List (FVector α))
    (a b : Nat) :
    0 ≤ PolylineLengthF E F X a b := by
  unfold PolylineLengthF
  rcases Nat.lt_or_ge b a with h | h
  · rw [forRange_of_ge _ _ (le_of_lt h)]
  · exact forRange_induction (fun _ (x : α) => 0 ≤ x) a b h _ 0 (le_refl _)
      (fun i x _ _ hx => by
        have := hFm 0 _ (le_refl 0)
          (add_nonneg hx (Dist_nonneg E hE (X.getD i 0) (X.getD (i + 1) 0)))
        rw [hF0] at this
        exact this)

/-- The state of the single-precision `CalculateBezier` before the iteration `k ≤ N - 1`,
in terms of the chain extended by the point `k`. -/
theorem CalculateBezierF_loop (E : Engine α) (F : α → α) (fuel : Nat)
    (s mid : FBezierCalc α) (n : Nat) (hn : n + 1 ≤ s.Points.length)
    (h : (List.range n).foldlM (CalculateBezierStepF E F fuel)
      { s with
        Tessellated := [],
        SegmentTessIndexes := SetNumZeroed s.SegmentTessIndexes s.Points.length,
        SegmentLengths := SetNumZeroed s.SegmentLengths s.Points.length,
        SegmentStartLengths := SetNumZeroed s.SegmentStartLengths s.Points.length,
        TotalLength := 0 } = some mid) :
    ∃ idx : Nat → Nat,
      mid.Points = s.Points ∧ mid.SegmentTessIndexes.length = s.Points.length ∧
      mid.SegmentLengths.length = s.Points.length ∧
      mid.SegmentStartLengths.length = s.Points.length ∧
      idx 0 = 0 ∧
      idx n = mid.Tessellated.length ∧
      (∀ i, i ≤ n → idx i ≤ mid.Tessellated.length) ∧
      (∀ i, i < n → mid.SegmentTessIndexes[i]? = some (idx i : Int)) ∧
      (∀ i, i < n → idx i < idx (i + 1)) ∧
      (∀ i, i ≤ n →
        (mid.Tessellated ++ [s.Points.getD n 0])[idx i]? = some (s.Points.getD i 0)) ∧
      (∀ i, i < n → mid.SegmentLengths[i]? =
        some (PolylineLengthF E F (mid.Tessellated ++ [s.Points.getD n 0]) (idx i)
          (idx (i + 1)))) := by
  induction n generalizing mid with
  | zero =>
    simp only [List.range_zero, List.foldlM_nil, Option.pure_def, Option.some.injEq] at h
    subst h
    refine ⟨fun _ => 0, rfl, length_SetNumZeroed _ _, length_SetNumZeroed _ _,
      length_SetNumZeroed _ _, rfl, rfl, fun i _ => le_refl _,
      fun i hi => absurd hi (Nat.not_lt_zero i),
      fun i hi => absurd hi (Nat.not_lt_zero i), ?_, fun i hi => absurd hi (Nat.not_lt_zero i)⟩
    intro i hi
    have : i = 0 := by omega
    subst this
    simp
  | succ k ih =>
    rw [List.range_succ, List.foldlM_append] at h
    cases hm : (List.range k).foldlM (CalculateBezierStepF E F fuel)
        { s with
          Tessellated := [],
          SegmentTessIndexes := SetNumZeroed s.SegmentTessIndexes s.Points.length,
          SegmentLengths := SetNumZeroed s.SegmentLengths s.Points.length,
          SegmentStartLengths := SetNumZeroed s.SegmentStartLengths s.Points.length,
          TotalLength := 0 } with
    | none => simp [hm] at h
    | some st =>
      simp [hm] at h
      obtain ⟨idx, hP, hl1, hl2, hl3, hi0, hik, hile, hsti, hmono, hpt, hsl⟩ :=
        ih st (by omega) hm
      obtain ⟨_, hSTI, hSSL, L, hSL, hTL, _, hseg⟩ :=
        CalculateBezierStepF_some E F fuel st mid k h
      have hc : (k : Int) < (st.Points.length : Int) - 1 := by rw [hP]; omega
      obtain ⟨Tes, Last, hT, hLast, hTess, hL⟩ := hseg hc
      obtain ⟨rest, hrest⟩ := TessellateSegmentF_append E F _ _ _ _ _ _ _ _ _ hT
      rw [hP] at hrest
      have hTlen : Tes.length = st.Tessellated.length + 1 + rest.length := by
        rw [hrest]; simp; omega
      -- the extended chain before the step is a prefix of the one after it
      have hX : mid.Tessellated ++ [s.Points.getD (k + 1) 0] =
          (st.Tessellated ++ [s.Points.getD k 0]) ++ (rest ++ [s.Points.getD (k + 1) 0]) := by
        rw [hTess, hrest]; simp
      have hXlen : (st.Tessellated ++ [s.Points.getD k 0]).length = st.Tessellated.length + 1 := by
        simp
      have hidxle : ∀ i, i ≤ k → idx i ≤ st.Tessellated.length := hile
      have hgetk : (st.SegmentTessIndexes.set k (st.Tessellated.length : Int)).getD k 0 =
          (st.Tessellated.length : Int) := by
        apply getD_of_getElem?
        rw [List.getElem?_set_self (by omega)]
      refine ⟨fun i => if i = k + 1 then mid.Tessellated.length else idx i,
        ?_, ?_, ?_, ?_, ?_, ?_, ?_, ?_, ?_, ?_, ?_⟩
      · exact (CalculateBezierStepF_some E F fuel st mid k h).1.1.trans hP
      · rw [hSTI, List.length_set]; exact hl1
      · rw [hSL, List.length_set]; exact hl2
      · rw [hSSL, List.length_set]; exact hl3
      · show (if 0 = k + 1 then mid.Tessellated.length else idx 0) = 0
        rw [if_neg (by omega)]
        exact hi0
      · simp
      · intro i hi
        show (if i = k + 1 then mid.Tessellated.length else idx i) ≤ _
        split_ifs with he
        · exact le_refl _
        · have := hidxle i (by omega)
          rw [hTess, hTlen]; omega
      · intro i hi
        show mid.SegmentTessIndexes[i]? =
          some (((if i = k + 1 then mid.Tessellated.length else idx i : Nat)) : Int)
        rw [if_neg (by omega), hSTI]
        rcases Nat.lt_succ_iff_lt_or_eq.mp hi with hlt | heq
        · rw [List.getElem?_set_ne (by omega)]
          exact hsti i hlt
        · subst heq
          rw [List.getElem?_set_self (by omega), hik]
      · intro i hi
        show (if i = k + 1 then mid.Tessellated.length else idx i) <
          (if i + 1 = k + 1 then mid.Tessellated.length else idx (i + 1))
        rw [if_neg (by omega)]
        rcases Nat.lt_succ_iff_lt_or_eq.mp hi with hlt | heq
        · rw [if_neg (by omega)]
          exact hmono i hlt
        · subst heq
          rw [if_pos rfl, hik, hTess, hTlen]
          omega
      · intro i hi
        show (mid.Tessellated ++ [s.Points.getD (k + 1) 0])[
          if i = k + 1 then mid.Tessellated.length else idx i]? = _
        split_ifs with he
        · subst he
          simp
        · rw [hX, List.getElem?_append_left (by rw [hXlen]; have := hidxle i (by omega); omega)]
          exact hpt i (by omega)
      · intro i hi
        show mid.SegmentLengths[i]? = some (PolylineLengthF E F _
          (if i = k + 1 then mid.Tessellated.length else idx i)
          (if i + 1 = k + 1 then mid.Tessellated.length else idx (i + 1)))
        rw [if_neg (by omega), hSL]
        rcases Nat.lt_succ_iff_lt_or_eq.mp hi with hlt | heq
        · rw [List.getElem?_set_ne (by omega), if_neg (by omega), hX,
            PolylineLengthF_append E F _ _ _ _
              (by rw [hXlen]; have := hidxle (i + 1) (by omega); omega)]
          exact hsl i hlt
        · subst heq
          rw [List.getElem?_set_self (by omega), if_pos rfl, hL, hgetk, Int.toNat_ofNat,
            ChainLengthFromF_eq, hik]
          congr 1
          have hlen1 : mid.Tessellated.length = (Tes.length - 1) + 1 := by
            rw [hTess, hTlen]; omega
          rw [hlen1, PolylineLengthF_succ E F _ _ _ (by rw [hTlen]; omega), hTess,
            PolylineLengthF_append E F Tes _ _ _ (by rw [hTlen]; omega)]
          congr 3
          · have hne : Tes ≠ [] := by rw [hrest]; simp
            rw [List.getLast?_eq_getLast _ hne] at hLast
            have hL2 : Last = Tes.getLast hne := (Option.some.inj hLast).symm
            rw [hL2, List.getLast_eq_getElem]
            symm
            apply getD_of_getElem?
            rw [List.getElem?_append_left (by rw [hTlen]; omega),
              List.getElem?_eq_getElem (by rw [hTlen]; omega)]
          · rw [hP]
            symm
            apply getD_of_getElem?
            have : Tes.length - 1 + 1 = Tes.length := by rw [hTlen]; omega
            rw [this]
            simp

/-- The state after the single-precision `CalculateBezier` on at least two points: the
start indices `0 = idx 0 < … < idx (N - 1)` of the segments in the chain, the control
points found there, the last of them at the end of the chain, and the recorded segment
lengths as single-precision polyline lengths of the chain. -/
theorem CalculateBezierF_chain (E : Engine α) (F : α → α) (fuel : Nat)
    (s s' : FBezierCalc α) (hN : 2 ≤ s.Points.length)
    (h : CalculateBezierF E F fuel s = some s') :
    ∃ idx : Nat → Nat,
      s'.SegmentTessIndexes.length = s.Points.length ∧
      s'.SegmentLengths.length = s.Points.length ∧
      s'.SegmentStartLengths.length = s.Points.length ∧
      idx 0 = 0 ∧
      idx (s.Points.length - 1) + 1 = s'.Tessellated.length ∧
      (∀ i, i < s.Points.length → s'.SegmentTessIndexes[i]? = some (idx i : Int)) ∧
      (∀ i, i + 1 < s.Points.length → idx i < idx (i + 1)) ∧
      (∀ i, i < s.Points.length → s'.Tessellated[idx i]? = some (s.Points.getD i 0)) ∧
      (∀ i, i + 1 < s.Points.length → s'.SegmentLengths[i]? =
        some (PolylineLengthF E F s'.Tessellated (idx i) (idx (i + 1)))) ∧
      s'.SegmentLengths[s.Points.length - 1]? = some 0 := by
  unfold CalculateBezierF at h
  simp only [] at h
  rw [if_neg (by omega)] at h
  have hr : s.Points.length = (s.Points.length - 1) + 1 := by omega
  rw [hr, List.range_succ, List.foldlM_append] at h
  rw [← hr] at h
  cases hm : (List.range (s.Points.length - 1)).foldlM (CalculateBezierStepF E F fuel)
      { s with
        Tessellated := [],
        SegmentTessIndexes := SetNumZeroed s.SegmentTessIndexes s.Points.length,
        SegmentLengths := SetNumZeroed s.SegmentLengths s.Points.length,
        SegmentStartLengths := SetNumZeroed s.SegmentStartLengths s.Points.length,
        TotalLength := 0 } with
  | none => simp [hm] at h
  | some mid =>
    simp [hm] at h
    obtain ⟨idx, hP, hl1, hl2, hl3, hi0, hik, hile, hsti, hmono, hpt, hsl⟩ :=
      CalculateBezierF_loop E F fuel s mid (s.Points.length - 1) (by omega) hm
    obtain ⟨_, hSTI, hSSL, L, hSL, hTL, hlast, _⟩ :=
      CalculateBezierStepF_some E F fuel mid s' (s.Points.length - 1) h
    have hc : ¬ (((s.Points.length - 1 : Nat) : Int) < (mid.Points.length : Int) - 1) := by
      rw [hP]; omega
    obtain ⟨hL0, hTess⟩ := hlast hc
    rw [hP] at hTess
    refine ⟨idx, by rw [hSTI, List.length_set]; exact hl1, by rw [hSL, List.length_set]; exact hl2,
      by rw [hSSL, List.length_set]; exact hl3, hi0, by rw [hTess, hik]; simp, ?_, ?_, ?_, ?_, ?_⟩
    · intro i hi
      rw [hSTI]
      rcases Nat.lt_or_ge i (s.Points.length - 1) with hlt | hge
      · rw [List.getElem?_set_ne (by omega)]
        exact hsti i hlt
      · have : i = s.Points.length - 1 := by omega
        subst this
        rw [List.getElem?_set_self (by omega), hik]
    · intro i hi
      exact hmono i (by omega)
    · intro i hi
      rw [hTess]
      exact hpt i (by omega)
    · intro i hi
      rw [hSL, List.getElem?_set_ne (by omega), hTess]
      exact hsl i (by omega)
    · rw [hSL, List.getElem?_set_self (by omega), hL0]

/-- With a negative tolerance and at least two points, `CalculateBezier` returns at no
recursion depth, also in single precision. -/
theorem CalculateBezierF_negative (E : Engine α) (hE : ∀ x, 0 ≤ E.Sqrt x) (F : α → α)
    (t : FBezierCalc α) (hN : 2 ≤ t.Points.length)
    (hneg : F (Lerp 50 (1 / 100) t.TessellationQuality) < 0) (fuel : Nat) :
    CalculateBezierF E F fuel t = none := by
  cases h : CalculateBezierF E F fuel t with
  | none => rfl
  | some s' =>
    exfalso
    unfold CalculateBezierF at h
    simp only [] at h
    rw [if_neg (by omega)] at h
    have key := foldlM_range_induction
      (fun k (st : FBezierCalc α) => (k = 0 → SameCurve t st) ∧ (1 ≤ k → False))
      _ _ _ _ h ⟨fun _ => ⟨rfl, rfl, rfl, rfl, rfl, rfl⟩, fun h1 => by omega⟩
      (by
        rintro i st st' hi ⟨hc0, hF⟩ hf
        refine ⟨fun h0 => by omega, fun _ => ?_⟩
        rcases Nat.eq_zero_or_pos i with h0 | hp
        · subst h0
          have hc := hc0 rfl
          obtain ⟨_, _, _, L, _, _, _, hseg⟩ := CalculateBezierStepF_some E F fuel st st' 0 hf
          obtain ⟨Tes, _, hT, _⟩ := hseg (by rw [hc.1]; omega)
          rw [TessellateSegmentF_negative E hE F _
            (by show F (Lerp 50 (1 / 100) st.TessellationQuality) < 0
                rw [hc.2.2.2.1]; exact hneg)] at hT
          simp at hT
        · exact hF hp)
    exact key.2 (by omega)

theorem take_set_le {β : Type} (l : List β) (i j : Nat) (L : β) (h : j ≤ i) :
    (l.set i L).take j = l.take j := by
  apply List.ext_getElem?
  intro n
  rw [List.getElem?_take, List.getElem?_take]
  split_ifs with hn
  · rw [List.getElem?_set_ne (by omega)]
  · rfl

theorem take_set_succ {β : Type} (l : List β) (i : Nat) (L : β) (h : i < l.length) :
    (l.set i L).take (i + 1) = l.take i ++ [L] := by
  rw [List.take_succ, List.getElem?_set_self h, take_set_le l i i L (le_refl i)]
  rfl

/-- A `float` sum of non-negative `float` summands is a non-negative `float`. -/
theorem floatSum_fixed (F : α → α) (hFm : ∀ x y, 0 ≤ x → x ≤ y → F x ≤ F y)
    (hFi : ∀ x, 0 ≤ x → F (F x) = F x) (l : List α) (hl : ∀ x ∈ l, 0 ≤ x) :
    ∀ a : α, 0 ≤ a → F a = a →
      0 ≤ l.foldl (fun a x => F (a + x)) a ∧
      F (l.foldl (fun a x => F (a + x)) a) = l.foldl (fun a x => F (a + x)) a := by
  induction l with
  | nil =>
    intro a ha hfa
    exact ⟨ha, hfa⟩
  | cons x t ih =>
    intro a ha hfa
    have hx : 0 ≤ x := hl x (List.mem_cons_self _ _)
    have hax : 0 ≤ a + x := add_nonneg ha hx
    have h1 : 0 ≤ F (a + x) := by
      have := hFm a (a + x) ha (by linarith)
      rw [hfa] at this
      exact le_trans ha this
    exact ih (fun y hy => hl y (List.mem_cons_of_mem _ hy)) (F (a + x)) h1 (hFi _ hax)

/-- The arc-length table after `CalculateBezier` in single precision on at least two
points: `TotalLength` is the `float` sum of `SegmentLengths`, `SegmentStartLengths[i]` is
the `float` sum of the first `i` of them, and no segment length is negative. -/
theorem CalculateBezierF_table (E : Engine α) (hE : ∀ x, 0 ≤ E.Sqrt x) (F : α → α)
    (hF0 : F 0 = 0) (hFm : ∀ x y, 0 ≤ x → x ≤ y → F x ≤ F y) (fuel : Nat)
    (s s' : FBezierCalc α) (hN : 2 ≤ s.Points.length)
    (h : CalculateBezierF E F fuel s = some s') :
    s'.SegmentLengths.length = s.Points.length ∧
    s'.SegmentStartLengths.length = s.Points.length ∧
    s'.TotalLength = s'.SegmentLengths.foldl (fun a x => F (a + x)) 0 ∧
    (∀ i, i < s.Points.length → s'.SegmentStartLengths[i]? =
      some ((s'.SegmentLengths.take i).foldl (fun a x => F (a + x)) 0)) ∧
    (∀ x ∈ s'.SegmentLengths, 0 ≤ x) := by
  unfold CalculateBezierF at h
  simp only [] at h
  rw [if_neg (by omega)] at h
  have key := foldlM_range_induction
    (fun k (st : FBezierCalc α) =>
      st.Points = s.Points ∧
      st.SegmentLengths.length = s.Points.length ∧
      st.SegmentStartLengths.length = s.Points.length ∧
      st.TotalLength = (st.SegmentLengths.take k).foldl (fun a x => F (a + x)) 0 ∧
      (∀ i, i < k → st.SegmentStartLengths[i]? =
        some ((st.SegmentLengths.take i).foldl (fun a x => F (a + x)) 0)) ∧
      (∀ i x, i < k → st.SegmentLengths[i]? = some x → 0 ≤ x))
    _ _ _ _ h
    ⟨rfl, by simp [length_SetNumZeroed], by simp [length_SetNumZeroed], by simp,
      fun i hi => absurd hi (Nat.not_lt_zero i),
      fun i x hi => absurd hi (Nat.not_lt_zero i)⟩
    (by
      rintro i st st' hi ⟨hP, hl1, hl2, hTL, hssl, hnn⟩ hf
      obtain ⟨hsc, _, hSSL, L, hSL, hTL', hlast, hseg⟩ :=
        CalculateBezierStepF_some E F fuel st st' i hf
      have hL : 0 ≤ L := by
        by_cases hc : (i : Int) < (st.Points.length : Int) - 1
        · obtain ⟨Tes, Last, _, _, _, hLeq⟩ := hseg hc
          rw [hLeq, ChainLengthFromF_eq]
          have h0 := PolylineLengthF_nonneg E hE F hF0 hFm Tes
            ((st.SegmentTessIndexes.set i (st.Tessellated.length : Int)).getD i 0).toNat
            (Tes.length - 1)
          have := hFm 0 _ (le_refl 0) (add_nonneg h0 (Dist_nonneg E hE Last
            (st.Points.getD (i + 1) 0)))
          rw [hF0] at this
          exact this
        · rw [(hlast hc).1]
      have hi1 : i < st.SegmentLengths.length := by omega
      have hi2 : i < st.SegmentStartLengths.length := by omega
      refine ⟨hsc.1.trans hP, by rw [hSL, List.length_set]; exact hl1,
        by rw [hSSL, List.length_set]; exact hl2, ?_, ?_, ?_⟩
      · rw [hTL', hSL, take_set_succ _ _ _ hi1, List.foldl_append, hTL]
        rfl
      · intro j hj
        rw [hSSL, hSL, take_set_le _ _ _ _ (by omega : j ≤ i)]
        rcases Nat.lt_succ_iff_lt_or_eq.mp hj with hlt | heq
        · rw [List.getElem?_set_ne (by omega)]
          exact hssl j hlt
        · subst heq
          rw [List.getElem?_set_self hi2, hTL]
      · intro j x hj hx
        rw [hSL] at hx
        rcases Nat.lt_succ_iff_lt_or_eq.mp hj with hlt | heq
        · rw [List.getElem?_set_ne (by omega)] at hx
          exact hnn j x hlt hx
        · subst heq
          rw [List.getElem?_set_self hi1] at hx
          rw [← Option.some.inj hx]
          exact hL)
  obtain ⟨_, hl1, hl2, hTL, hssl, hnn⟩ := key
  refine ⟨hl1, hl2, ?_, hssl, ?_⟩
  · rw [hTL, List.take_of_length_le (by omega)]
  · intro x hx
    obtain ⟨i, hi, rfl⟩ := List.getElem_of_mem hx
    exact hnn i _ (by omega) (List.getElem?_eq_getElem hi)

/-- C14 (amended): the arc-length table after a smooth `Calculate` with `N ≥ 2` control
points, as its `float` variables hold it.  With `idx i` the start index
`SegmentTessIndexes[i]` of segment `i`: `SegmentLengths[i]` is the polyline length of the
chain from `idx i` to `idx (i + 1)` accumulated in `float`, and `0` for `i = N - 1`;
`SegmentStartLengths[0]` is `0`, `SegmentStartLengths[i + 1]` is the `float` sum
`F (SegmentStartLengths[i] + SegmentLengths[i])`, the cumulative lengths are non-decreasing;
and `TotalLength` is the `float` sum of `SegmentLengths` from left to right.  The rounding
`F` to `float` keeps `0`, keeps the order of non-negative values and keeps a `float`; the
table is taken within the `float` range, with `TotalLength` up to `FloatMax`. -/
theorem C14_arc_length_table (E : Engine α) (hE : ∀ x, 0 ≤ E.Sqrt x) (F : α → α)
    (hF0 : F 0 = 0) (hFm : ∀ x y, 0 ≤ x → x ≤ y → F x ≤ F y)
    (hFi : ∀ x, 0 ≤ x → F (F x) = F x) (FloatMax : α) (fuel : Nat)
    (s s' : FBezierCalc α) (hH : s.HardCorners = false) (hN : 2 ≤ s.Points.length)
    (h : CalculateF E F fuel s = some s') (hrange : s'.TotalLength ≤ FloatMax) :
    ∃ idx : Nat → Nat,
      (∀ i, i < s.Points.length → s'.SegmentTessIndexes[i]? = some (idx i : Int)) ∧
      (∀ i, i + 1 < s.Points.length → s'.SegmentLengths[i]? =
        some (PolylineLengthF E F s'.Tessellated (idx i) (idx (i + 1)))) ∧
      s'.SegmentLengths[s.Points.length - 1]? = some 0 ∧
      s'.SegmentStartLengths[0]? = some 0 ∧
      (∀ i, i + 1 < s.Points.length → ∃ x l, s'.SegmentStartLengths[i]? = some x ∧
        s'.SegmentLengths[i]? = some l ∧ s'.SegmentStartLengths[i + 1]? = some (F (x + l))) ∧
      (∀ i j x y, i ≤ j → j < s.Points.length → s'.SegmentStartLengths[i]? = some x →
        s'.SegmentStartLengths[j]? = some y → x ≤ y) ∧
      s'.TotalLength = s'.SegmentLengths.foldl (fun a l => F (a + l)) 0 := by
  have hPl : (CalculateTangents E s).Points.length = s.Points.length := by
    rw [(CalculateTangents_spec E s).1.1]
  have h2 : 2 ≤ (CalculateTangents E s).Points.length := by rw [hPl]; exact hN
  have hb : CalculateBezierF E F fuel (CalculateTangents E s) = some s' := by
    unfold CalculateF at h
    rw [if_neg (by rw [hH]; simp)] at h
    exact h
  obtain ⟨idx, _, _, _, _, _, hsti, _, _, hsl, hsl0⟩ :=
    CalculateBezierF_chain E F fuel (CalculateTangents E s) s' h2 hb
  obtain ⟨hl1, hl2, hTL, hssl, hnn⟩ :=
    CalculateBezierF_table E hE F hF0 hFm fuel (CalculateTangents E s) s' h2 hb
  rw [hPl] at hsti hsl hsl0 hl1 hl2 hssl
  -- the cumulative length before segment `i`
  have hstep : ∀ i, i < s.Points.length →
      (s'.SegmentLengths.take (i + 1)).foldl (fun a l => F (a + l)) 0 =
        F ((s'.SegmentLengths.take i).foldl (fun a l => F (a + l)) 0 +
          s'.SegmentLengths.getD i 0) := by
    intro i hi
    rw [List.take_succ, List.foldl_append, List.getElem?_eq_getElem (by omega),
      List.getD_eq_getElem _ _ (by omega)]
    rfl
  have hfix : ∀ i, 0 ≤ (s'.SegmentLengths.take i).foldl (fun a l => F (a + l)) 0 ∧
      F ((s'.SegmentLengths.take i).foldl (fun a l => F (a + l)) 0) =
        (s'.SegmentLengths.take i).foldl (fun a l => F (a + l)) 0 := fun i =>
    floatSum_fixed F hFm hFi _ (fun x hx => hnn x (List.mem_of_mem_take hx)) 0 (le_refl 0) hF0
  have hup : ∀ i, i < s.Points.length →
      (s'.SegmentLengths.take i).foldl (fun a l => F (a + l)) 0 ≤
        (s'.SegmentLengths.take (i + 1)).foldl (fun a l => F (a + l)) 0 := by
    intro i hi
    rw [hstep i hi]
    have hnonneg : 0 ≤ s'.SegmentLengths.getD i 0 := by
      rw [List.getD_eq_getElem _ _ (by omega)]
      exact hnn _ (List.getElem_mem _)
    have := hFm _ _ (hfix i).1 (le_add_of_nonneg_right hnonneg)
    rw [(hfix i).2] at this
    exact this
  have hmono : ∀ d i, i + d < s.Points.length →
      (s'.SegmentLengths.take i).foldl (fun a l => F (a + l)) 0 ≤
        (s'.SegmentLengths.take (i + d)).foldl (fun a l => F (a + l)) 0 := by
    intro d
    induction d with
    | zero => intro i _; exact le_refl _
    | succ d ih =>
      intro i hi
      exact le_trans (ih i (by omega)) (hup (i + d) (by omega))
  refine ⟨idx, hsti, hsl, hsl0, by rw [hssl 0 (by omega)]; rfl, ?_, ?_, hTL⟩
  · intro i hi
    refine ⟨_, s'.SegmentLengths.getD i 0, hssl i (by omega), ?_, ?_⟩
    · rw [List.getD_eq_getElem _ _ (by omega), List.getElem?_eq_getElem (by omega)]
    · rw [hssl (i + 1) hi, hstep i (by omega)]
  · intro i j x y hij hj hx hy
    rw [hssl i (by omega)] at hx
    rw [hssl j hj] at hy
    rw [← Option.some.inj hx, ← Option.some.inj hy]
    obtain ⟨d, rfl⟩ : ∃ d, j = i + d := ⟨j - i, by omega⟩
    exact hmono d i hj

end SingleTable

/-! ## Single precision: the spline hit test -/

section SingleHit

variable {α : Type} [LinearOrderedField α] [FloorRing α]

/-- Every state that `Calculate` produces in single precision from at least two control
points carries the start indices of its segments: they start at `0`, increase strictly and
end at the last chain index. -/
theorem CalculateF_index (E : Engine α) (F : α → α) (fuel : Nat) (s s' : FBezierCalc α)
    (hN : 2 ≤ s.Points.length) (h : CalculateF E F fuel s = some s') :
    ∃ idx : Nat → Nat, idx 0 = 0 ∧
      (∀ k, k + 1 < s.Points.length → idx k < idx (k + 1)) ∧
      idx (s.Points.length - 1) + 1 = s'.Tessellated.length ∧
      s'.SegmentTessIndexes.length = s.Points.length ∧
      (∀ k, k < s.Points.length → s'.SegmentTessIndexes[k]? = some (idx k : Int)) ∧
      s'.SegmentLengths.length = s.Points.length := by
  unfold CalculateF at h
  split_ifs at h with hH
  · have hs : s' = CalculateHardF E F s := (Option.some.inj h).symm
    obtain ⟨_, _, _, _, _, hl, hl2, hl3, hpt⟩ := CalculateHardF_spec E F s
    rw [← hs] at hl hl2 hl3 hpt
    refine ⟨fun k => k, rfl, fun k _ => Nat.lt_succ_self k, ?_, hl2,
      fun k hk => (hpt k hk).2.1, hl3⟩
    show s.Points.length - 1 + 1 = _
    rw [hl]; omega
  · have hPl : (CalculateTangents E s).Points.length = s.Points.length := by
      rw [(CalculateTangents_spec E s).1.1]
    have h2 : 2 ≤ (CalculateTangents E s).Points.length := by rw [hPl]; exact hN
    obtain ⟨idx, hl1, hl2, _, h0, hM, hsti, hmono, _, _, _⟩ :=
      CalculateBezierF_chain E F fuel _ s' h2 h
    rw [hPl] at hl1 hl2 hM hsti hmono
    exact ⟨idx, h0, hmono, hM, hl1, hsti, hl2⟩

theorem FragmentHitF_Valid (E : Engine α) (F : α → α) (s : FBezierCalc α)
    (Screen : List (FVector2D α)) (Q : FVector2D α) (i k : Nat) (PL L : α) :
    (FragmentHitF E F s Screen Q i k PL L).Valid = true := by
  unfold FragmentHitF
  split_ifs <;> rfl

theorem FragmentHitF_Distance (E : Engine α) (F : α → α) (s : FBezierCalc α)
    (Screen : List (FVector2D α)) (Q : FVector2D α) (i k : Nat) (PL L : α) :
    (FragmentHitF E F s Screen Q i k PL L).Distance = FragmentDistanceF E F Screen Q i := by
  unfold FragmentHitF
  split_ifs <;> rfl

/-- A query at the first end of a fragment projects to the fraction `0`, also in single
precision. -/
theorem FragmentProgressF_start (F : α → α) (hF0 : F 0 = 0) (Screen : List (FVector2D α))
    (i : Nat) : FragmentProgressF F Screen (Screen.getD i 0) i = 0 := by
  unfold FragmentProgressF FVector2D.DotProduct Clamp
  have e : ((Screen.getD i 0 - Screen.getD i 0).X *
      (Screen.getD (i + 1) 0 - Screen.getD i 0).X +
      (Screen.getD i 0 - Screen.getD i 0).Y *
      (Screen.getD (i + 1) 0 - Screen.getD i 0).Y) = 0 := by
    show ((Screen.getD i 0).X - (Screen.getD i 0).X) * _ +
      ((Screen.getD i 0).Y - (Screen.getD i 0).Y) * _ = 0
    rw [sub_self, sub_self, zero_mul, zero_mul, add_zero]
  rw [e, zero_div, hF0, min_eq_left zero_le_one, max_self]

/-- A query at the first end of a fragment is at the computed distance `0` from it. -/
theorem FragmentDistanceF_start (E : Engine α) (hS0 : E.Sqrt 0 = 0) (F : α → α)
    (hF0 : F 0 = 0) (Screen : List (FVector2D α)) (i : Nat) :
    FragmentDistanceF E F Screen (Screen.getD i 0) i = 0 := by
  unfold FragmentDistanceF
  rw [FragmentProgressF_start F hF0]
  unfold FVector2D.Size
  have e : ∀ A B : FVector2D α,
      (A - (A + (B - A) * (0 : α))).X * (A - (A + (B - A) * (0 : α))).X +
      (A - (A + (B - A) * (0 : α))).Y * (A - (A + (B - A) * (0 : α))).Y = 0 := by
    intro A B
    show (A.X - (A.X + (B.X - A.X) * 0)) * (A.X - (A.X + (B.X - A.X) * 0)) +
      (A.Y - (A.Y + (B.Y - A.Y) * 0)) * (A.Y - (A.Y + (B.Y - A.Y) * 0)) = 0
    ring
  rw [e, hS0, hF0]

theorem FragmentDistanceF_nonneg (E : Engine α) (hE : ∀ x, 0 ≤ E.Sqrt x) (F : α → α)
    (hFn : ∀ x, 0 ≤ x → 0 ≤ F x) (Screen : List (FVector2D α)) (Q : FVector2D α) (i : Nat) :
    0 ≤ FragmentDistanceF E F Screen Q i := by
  unfold FragmentDistanceF FVector2D.Size
  exact hFn _ (hE _)

/-- A match at the first end of the first fragment of a segment is stored as that segment
with progress `0`. -/
theorem FragmentHitF_start (E : Engine α) (F : α → α) (hF0 : F 0 = 0)
    (s : FBezierCalc α) (Screen : List (FVector2D α)) (i k : Nat) (L : α) :
    (FragmentHitF E F s Screen (Screen.getD i 0) i k 0 L).Segment = (k : Int) ∧
    (FragmentHitF E F s Screen (Screen.getD i 0) i k 0 L).Progress = 0 := by
  have e : F (F (0 + F (FragmentProgressF F Screen (Screen.getD i 0) i *
      F ((s.Tessellated.getD (i + 1) 0 - s.Tessellated.getD i 0).Size E))) / L) = 0 := by
    rw [FragmentProgressF_start F hF0, zero_mul, hF0, add_zero, hF0, zero_div, hF0]
  unfold FragmentHitF
  rw [e, if_neg (by norm_num)]
  exact ⟨rfl, rfl⟩

/-- One iteration of the walk of `HitDetectSpline` in single precision on a chain with
start indices `idx`: the reads are in bounds, the cursor moves to the segment `k` that owns
the fragment `i`, the length walked restarts at `0` when the cursor moves, and the best
match is replaced by the match on the fragment `i` when that is strictly closer. -/
theorem HitDetectSplineStepF_spec (E : Engine α) (F : α → α) (s : FBezierCalc α)
    (Screen : List (FVector2D α)) (Q : FVector2D α) (N : Nat) (idx : Nat → Nat)
    (hmono : ∀ k, k + 1 < N → idx k < idx (k + 1))
    (hM : idx (N - 1) + 1 = s.Tessellated.length)
    (hsti : ∀ k, k < N → s.SegmentTessIndexes[k]? = some (idx k : Int))
    (hlen : s.SegmentLengths.length = N)
    (w : SplineWalk α) (i : Nat)
    (hi : i + 1 < s.Tessellated.length) (h1 : w.Segment + 1 < N)
    (h2 : idx w.Segment ≤ i) (h3 : i ≤ idx (w.Segment + 1)) :
    ∃ (k : Nat) (L : α), k + 1 < N ∧ idx k ≤ i ∧ i < idx (k + 1) ∧
      HitDetectSplineStepF E F s Screen Q w i = some
        { Result := if FragmentDistanceF E F Screen Q i < w.Result.Distance then
            FragmentHitF E F s Screen Q i k (if k = w.Segment then w.ProgressLength else 0) L
            else w.Result,
          Segment := k,
          ProgressLength := F ((if k = w.Segment then w.ProgressLength else 0) +
            F ((s.Tessellated.getD (i + 1) 0 - s.Tessellated.getD i 0).Size E)) } := by
  have hadv : ∃ k, k + 1 < N ∧ idx k ≤ i ∧ i < idx (k + 1) ∧
      AdvanceSegment s.SegmentTessIndexes (i : Int) (s.SegmentTessIndexes.length + 1)
        w.Segment = some k := by
    rcases Nat.lt_or_ge i (idx (w.Segment + 1)) with hlt | hge
    · refine ⟨w.Segment, h1, h2, hlt, ?_⟩
      exact AdvanceSegment_stay _ _ _ _ _ (by omega) (hsti _ h1) (by omega)
    · have he : i = idx (w.Segment + 1) := le_antisymm h3 hge
      have hk : w.Segment + 1 + 1 < N := by
        have : idx (w.Segment + 1) < idx (N - 1) := by omega
        have := idx_lt_imp idx N hmono _ _ h1 this
        omega
      have hm := hmono (w.Segment + 1) hk
      have hl : 2 ≤ s.SegmentTessIndexes.length + 1 := by
        have := hsti 0 (by omega)
        have : 0 < s.SegmentTessIndexes.length := by
          by_contra hc
          rw [List.getElem?_eq_none (by omega)] at this
          exact absurd this (by simp)
        omega
      refine ⟨w.Segment + 1, hk, by omega, by omega, ?_⟩
      exact AdvanceSegment_next _ _ _ _ _ _ hl (hsti _ h1) (by omega)
        (hsti _ (by omega)) (by omega)
  obtain ⟨k, hk1, hk2, hk3, hA⟩ := hadv
  have hS : s.SegmentLengths[k]? = some (s.SegmentLengths.getD k 0) := by
    rw [List.getD_eq_getElem _ _ (by omega), List.getElem?_eq_getElem (by omega)]
  refine ⟨k, s.SegmentLengths.getD k 0, hk1, hk2, hk3, ?_⟩
  unfold HitDetectSplineStepF
  rw [hA]
  simp only [Option.bind_eq_bind, Option.some_bind, hS]
  by_cases hd : FragmentDistanceF E F Screen Q i < w.Result.Distance
  · rw [if_pos hd]
    have hd' := hd
    unfold FragmentDistanceF FragmentProgressF at hd'
    rw [if_pos hd']
    unfold FragmentHitF
    rfl
  · rw [if_neg hd]
    have hd' := hd
    unfold FragmentDistanceF FragmentProgressF at hd'
    rw [if_neg hd']

theorem HitDetectSplineF_eq (E : Engine α) (F : α → α) (FloatMax : α)
    (Project : FVector α → Bool × FVector2D α) (s : FBezierCalc α) (Q : FVector2D α) :
    HitDetectSplineF E F FloatMax Project s Q =
      ((List.range (s.Tessellated.length - 1)).foldlM
        (HitDetectSplineStepF E F s (ScreenLine Project s) Q) (SplineWalk.init FloatMax)).map
        (fun w => w.Result) := rfl

/-- C18 (amended): a `HitDetectSpline` query at the projection of a chain vertex `v`, as the
`float` variables of the walk compute it.  After `Calculate` with `N ≥ 2`, positive segment
lengths, projected fragments of non-zero squared length and fragment lengths in the `float`
range, for every vertex `v` but the last one the call returns a valid result at distance 0:
the fragment that starts at `v` is at the computed distance 0 from the query.  When no
fragment before `v` is at the computed distance 0, the vertex of the control point `k`
(chain index `SegmentTessIndexes[k]`) is reported as segment `k` with progress 0.  The
rounding `F` to `float` keeps `0` and the sign. -/
theorem C18_hit_at_chain_vertex (E : Engine α) (hE : ∀ x, 0 ≤ E.Sqrt x)
    (hS0 : E.Sqrt 0 = 0) (F : α → α) (hF0 : F 0 = 0) (hFn : ∀ x, 0 ≤ x → 0 ≤ F x)
    (FloatMax : α) (Project : FVector α → Bool × FVector2D α) (fuel : Nat)
    (s s' : FBezierCalc α) (v : Nat) (hN : 2 ≤ s.Points.length)
    (h : CalculateF E F fuel s = some s') (hv : v + 1 < s'.Tessellated.length)
    (hpos : ∀ k, k + 1 < s.Points.length → 0 < s'.SegmentLengths.getD k 0)
    (hdeg : ∀ i, i + 1 < s'.Tessellated.length →
      F ((ScreenLine Project s').getD (i + 1) 0 -
        (ScreenLine Project s').getD i 0).SizeSquared ≠ 0)
    (hrange : ∀ i, i + 1 < s'.Tessellated.length →
      (s'.Tessellated.getD (i + 1) 0 - s'.Tessellated.getD i 0).Size E ≤ FloatMax)
    (hmax : 0 < FloatMax) :
    ∃ r, HitDetectSplineF E F FloatMax Project s' ((ScreenLine Project s').getD v 0) = some r ∧
      r.Valid = true ∧ r.Distance = 0 ∧
      ((∀ j, j < v → FragmentDistanceF E F (ScreenLine Project s')
          ((ScreenLine Project s').getD v 0) j ≠ 0) →
        ∀ k, k < s.Points.length → s'.SegmentTessIndexes[k]? = some (v : Int) →
          r.Segment = (k : Int) ∧ r.Progress = 0) := by
  obtain ⟨idx, h0, hmono, hM, hl1, hsti, hl2⟩ := CalculateF_index E F fuel s s' hN h
  have hD0 := FragmentDistanceF_start E hS0 F hF0 (ScreenLine Project s') v
  have hDn := FragmentDistanceF_nonneg E hE F hFn (ScreenLine Project s')
    ((ScreenLine Project s').getD v 0)
  have key := foldlM_range_isSome
    (fun i (w : SplineWalk α) =>
      w.Segment + 1 < s.Points.length ∧ idx w.Segment ≤ i ∧ i ≤ idx (w.Segment + 1) ∧
      (1 ≤ i → idx w.Segment < i) ∧ (i = 0 → w.ProgressLength = 0) ∧
      0 ≤ w.Result.Distance ∧
      (w.Result.Valid = true ∨ w.Result.Distance = FloatMax) ∧
      (v < i → w.Result.Valid = true ∧ w.Result.Distance = 0) ∧
      ((∀ j, j < v → FragmentDistanceF E F (ScreenLine Project s')
          ((ScreenLine Project s').getD v 0) j ≠ 0) →
        (i ≤ v → 0 < w.Result.Distance) ∧
        (v < i → ∀ k, k < s.Points.length → s'.SegmentTessIndexes[k]? = some (v : Int) →
          w.Result.Segment = (k : Int) ∧ w.Result.Progress = 0)))
    (s'.Tessellated.length - 1)
    (HitDetectSplineStepF E F s' (ScreenLine Project s')
      ((ScreenLine Project s').getD v 0)) (SplineWalk.init FloatMax)
    ⟨by show 0 + 1 < s.Points.length; omega, by show idx 0 ≤ 0; omega, Nat.zero_le _,
      fun h1 => absurd h1 (by omega), fun _ => rfl, le_of_lt hmax, Or.inr rfl,
      fun hc => absurd hc (Nat.not_lt_zero v),
      fun _ => ⟨fun _ => hmax, fun hc => absurd hc (Nat.not_lt_zero v)⟩⟩
    (by
      rintro i w hi ⟨h1, h2, h3, h4, h5, h6, h7, h8, h9⟩
      obtain ⟨k, L, hk1, hk2, hk3, hstep⟩ :=
        HitDetectSplineStepF_spec E F s' (ScreenLine Project s')
          ((ScreenLine Project s').getD v 0) s.Points.length idx hmono hM hsti hl2 w i
          (by omega) h1 h2 h3
      by_cases hd : FragmentDistanceF E F (ScreenLine Project s')
          ((ScreenLine Project s').getD v 0) i < w.Result.Distance
      · -- the fragment `i` is strictly closer than the best match so far
        rw [if_pos hd] at hstep
        have hnot : ¬ v < i := by
          intro hvi
          rw [(h8 hvi).2] at hd
          exact absurd hd (not_lt.mpr (hDn i))
        refine ⟨_, hstep, hk1, by show idx k ≤ i + 1; omega,
          by show i + 1 ≤ idx (k + 1); omega, fun _ => by show idx k < i + 1; omega,
          fun hc => absurd hc (by omega), ?_, ?_, ?_, ?_⟩
        · show 0 ≤ (FragmentHitF E F s' _ _ i k _ L).Distance
          rw [FragmentHitF_Distance]
          exact hDn i
        · left
          exact FragmentHitF_Valid _ _ _ _ _ _ _ _ _
        · intro hvi
          have heq : v = i := by omega
          subst heq
          show (FragmentHitF E F s' _ _ v k _ L).Valid = true ∧
            (FragmentHitF E F s' _ _ v k _ L).Distance = 0
          exact ⟨FragmentHitF_Valid _ _ _ _ _ _ _ _ _, by rw [FragmentHitF_Distance, hD0]⟩
        · intro hu
          obtain ⟨hb1, hb2⟩ := h9 hu
          constructor
          · intro hiv
            show 0 < (FragmentHitF E F s' _ _ i k _ L).Distance
            rw [FragmentHitF_Distance]
            exact lt_of_le_of_ne (hDn i) (Ne.symm (hu i (by omega)))
          · intro hvi k0 hk0 hs
            have heq : v = i := by omega
            subst heq
            have e := hsti k0 hk0
            rw [hs] at e
            have e2 : idx k0 = v := by
              have := Option.some.inj e
              omega
            have hkk : k = k0 := by
              have a1 : k < k0 + 1 := by
                by_contra hc
                have := idx_mono idx _ hmono (k0 + 1) k (by omega) (by omega)
                have := hmono k0 (by omega)
                omega
              have a2 : k0 < k + 1 := by
                by_contra hc
                have := idx_mono idx _ hmono (k + 1) k0 (by omega) hk0
                omega
              omega
            subst hkk
            have hPL : (if k = w.Segment then w.ProgressLength else 0) = 0 := by
              split_ifs with hks
              · apply h5
                by_contra hne
                have := h4 (by omega)
                rw [← hks] at this
                omega
              · rfl
            show (FragmentHitF E F s' _ _ v k
                (if k = w.Segment then w.ProgressLength else 0) L).Segment = (k : Int) ∧
              (FragmentHitF E F s' _ _ v k
                (if k = w.Segment then w.ProgressLength else 0) L).Progress = 0
            rw [hPL]
            exact FragmentHitF_start E F hF0 s' (ScreenLine Project s') v k L
      · -- the best match so far is kept
        rw [if_neg hd] at hstep
        refine ⟨_, hstep, hk1, by show idx k ≤ i + 1; omega,
          by show i + 1 ≤ idx (k + 1); omega, fun _ => by show idx k < i + 1; omega,
          fun hc => absurd hc (by omega), h6, h7, ?_, ?_⟩
        · intro hvi
          rcases Nat.lt_succ_iff_lt_or_eq.mp hvi with hlt | heq
          · exact h8 hlt
          · subst heq
            rw [hD0] at hd
            have hz : w.Result.Distance = 0 := le_antisymm (not_lt.mp hd) h6
            refine ⟨?_, hz⟩
            rcases h7 with hval | hdef
            · exact hval
            · rw [hdef] at hz
              exact absurd hz (ne_of_gt hmax)
        · intro hu
          obtain ⟨hb1, hb2⟩ := h9 hu
          refine ⟨fun hiv => hb1 (by omega), ?_⟩
          intro hvi k0 hk0 hs
          rcases Nat.lt_succ_iff_lt_or_eq.mp hvi with hlt | heq
          · exact hb2 hlt k0 hk0 hs
          · subst heq
            rw [hD0] at hd
            exact absurd (hb1 (le_refl _)) hd)
  obtain ⟨w, hw, _, _, _, _, _, _, _, h8, h9⟩ := key
  refine ⟨w.Result, by rw [HitDetectSplineF_eq, hw]; rfl, (h8 (by omega)).1,
    (h8 (by omega)).2, fun hu => (h9 hu).2 (by omega)⟩

end SingleHit

/-! ## Single precision: examples -/

section SingleExamples

/-- C12 (amended): termination does not hold for every quality value.  The subdivision has
no depth bound, and for a smooth input with `N ≥ 2` and a quality whose effective tolerance
`Lerp(50, 0.01, q) = 50 + q * (0.01 - 50)`, converted to `float` by `F`, is negative, every
deviation (a length, never negative) exceeds the tolerance: no call of `TessellateSegment`
is a leaf, and `Calculate` returns at no recursion depth.  This holds for the `float`
variables of the source with any rounding `F`, and with the identity for `F` for the exact
model. -/
theorem C12_tessellation_never_returns {α : Type} [LinearOrderedField α] [FloorRing α]
    (E : Engine α) (hE : ∀ x, 0 ≤ E.Sqrt x) (F : α → α)
    (s : FBezierCalc α) (hH : s.HardCorners = false) (hN : 2 ≤ s.Points.length)
    (hneg : F (Lerp 50 (1 / 100) s.TessellationQuality) < 0) :
    (∀ (fuel : Nat) (k : Int) (T0 : α) (P0 : FVector α) (T1 : α) (P1 : FVector α)
      (Tes : List (FVector α)),
      TessellateSegmentF E F (CalculateTangents E s) fuel k T0 P0 T1 P1 Tes = none) ∧
    ∀ fuel, CalculateF E F fuel s = none := by
  obtain ⟨hfr, _⟩ := CalculateTangents_spec E s
  have hq : F (Lerp 50 (1 / 100) (CalculateTangents E s).TessellationQuality) < 0 := by
    rw [hfr.2.2.2.1]; exact hneg
  have h2 : 2 ≤ (CalculateTangents E s).Points.length := by rw [hfr.1]; exact hN
  refine ⟨TessellateSegmentF_negative E hE F _ hq, fun fuel => ?_⟩
  unfold CalculateF
  rw [if_neg (by rw [hH]; simp)]
  exact CalculateBezierF_negative E hE F _ h2 hq fuel

/-- Witness of C12 (amended) on the smooth line from `(0,0,0)` to `(4,0,0)` with quality
`3/2`: the effective tolerance `-24.985` is negative as a `float`, and `Calculate` returns
at no depth. -/
theorem C12_tessellation_never_returns_witness :
    Lerp 50 (1 / 100) overQualityLineExample.TessellationQuality = -(24985 / 1000) ∧
    ratFloat (Lerp 50 (1 / 100) overQualityLineExample.TessellationQuality) < 0 ∧
    ∀ fuel, CalculateF ratEngine ratFloat fuel overQualityLineExample = none :=
  ⟨by decide!, by decide!,
    (C12_tessellation_never_returns ratEngine ratSqrt_nonneg ratFloat overQualityLineExample
      rfl (by decide) (by decide!)).2⟩

/-- C12 as stated fails for a quality outside the valid range: at quality `2` the effective
tolerance is negative, every fragment is split, and `Calculate` returns at no recursion
depth on the three points `(0,0,0), (3,4,0), (6,0,0)`, in exact arithmetic and in single
precision. -/
theorem C12_tessellation_counterexample :
    Lerp 50 (1 / 100) overQualityExample.TessellationQuality = -(4998 / 100) ∧
    (¬ ∃ fuel, (Calculate ratEngine fuel overQualityExample).isSome = true) ∧
    ¬ ∃ fuel, (CalculateF ratEngine ratFloat fuel overQualityExample).isSome = true := by
  have hfr := (CalculateTangents_spec ratEngine overQualityExample).1
  have h2 : 2 ≤ (CalculateTangents ratEngine overQualityExample).Points.length := by
    rw [hfr.1]
    decide
  refine ⟨by decide!, ?_, ?_⟩
  · rintro ⟨fuel, h⟩
    have hnone := CalculateBezier_negative ratEngine ratSqrt_nonneg
      (CalculateTangents ratEngine overQualityExample) h2
      (by rw [hfr.2.2.2.1]; decide!) fuel
    have hcalc : Calculate ratEngine fuel overQualityExample =
        CalculateBezier ratEngine fuel (CalculateTangents ratEngine overQualityExample) := by
      unfold Calculate
      rw [if_neg (by decide)]
    rw [hcalc, hnone] at h
    simp at h
  · rintro ⟨fuel, h⟩
    have hnone := CalculateBezierF_negative ratEngine ratSqrt_nonneg ratFloat
      (CalculateTangents ratEngine overQualityExample) h2
      (by rw [hfr.2.2.2.1]; decide!) fuel
    have hcalc : CalculateF ratEngine ratFloat fuel overQualityExample =
        CalculateBezierF ratEngine ratFloat fuel
          (CalculateTangents ratEngine overQualityExample) := by
      unfold CalculateF
      rw [if_neg (by decide)]
    rw [hcalc, hnone] at h
    simp at h

/-- Witness of C14 (amended) on the smooth three-point example `(0,0,0), (3,4,0), (6,0,0)`
with the rounding `ratFloat` to `float`. -/
theorem C14_arc_length_table_witness :
    ∃ s', CalculateF ratEngine ratFloat 1 cornerExample = some s' ∧
      ∃ idx : Nat → Nat,
      (∀ i, i < cornerExample.Points.length →
        s'.SegmentTessIndexes[i]? = some (idx i : Int)) ∧
      (∀ i, i + 1 < cornerExample.Points.length → s'.SegmentLengths[i]? =
        some (PolylineLengthF ratEngine ratFloat s'.Tessellated (idx i) (idx (i + 1)))) ∧
      s'.SegmentLengths[cornerExample.Points.length - 1]? = some 0 ∧
      s'.SegmentStartLengths[0]? = some 0 ∧
      (∀ i, i + 1 < cornerExample.Points.length → ∃ x l,
        s'.SegmentStartLengths[i]? = some x ∧
        s'.SegmentLengths[i]? = some l ∧
        s'.SegmentStartLengths[i + 1]? = some (ratFloat (x + l))) ∧
      (∀ i j x y, i ≤ j → j < cornerExample.Points.length →
        s'.SegmentStartLengths[i]? = some x → s'.SegmentStartLengths[j]? = some y → x ≤ y) ∧
      s'.TotalLength = s'.SegmentLengths.foldl (fun a l => ratFloat (a + l)) 0 := by
  have h : (CalculateF ratEngine ratFloat 1 cornerExample).isSome = true := by decide!
  obtain ⟨s', hs⟩ := Option.isSome_iff_exists.mp h
  have hT : (CalculateF ratEngine ratFloat 1 cornerExample).map (fun s => s.TotalLength) =
      some (659 / 64) := by decide!
  rw [hs] at hT
  have hT' : s'.TotalLength = 659 / 64 := Option.some.inj hT
  exact ⟨s', hs, C14_arc_length_table ratEngine ratSqrt_nonneg ratFloat (by decide!)
    ratFloat_mono ratFloat_idem floatMaxExample 1 cornerExample s' rfl (by decide) hs
    (by rw [hT']; decide!)⟩

/-- C14 as stated fails in the `float` variables of the table: on the smooth points
`(0,0,0), (1.1,0,0), (3.4,0,0)` of the x-axis the chain is `0, 0.55, 1.1, 2.25, 3.4`, the
segment lengths are the `float` values next to `1.1` and `2.3`, not the chain lengths; the
last cumulative length is the `float` sum of the two, which is not their sum; and
`TotalLength` is neither the sum of the segment lengths nor the length `3.4` of the
chain. -/
theorem C14_arc_length_counterexample :
    (CalculateF ratEngine ratFloat 1 smoothNarrowExample).map
      (fun s' => (s'.Tessellated, s'.SegmentTessIndexes, s'.SegmentLengths,
        s'.SegmentStartLengths, s'.TotalLength)) =
      some ([⟨0, 0, 0⟩, ⟨11 / 20, 0, 0⟩, ⟨11 / 10, 0, 0⟩, ⟨9 / 4, 0, 0⟩, ⟨17 / 5, 0, 0⟩],
        [0, 2, 4], [9227469 / 8388608, 9646899 / 4194304, 0],
        [0, 9227469 / 8388608, 7130317 / 2097152], 7130317 / 2097152) ∧
    PolylineLength ratEngine
      [⟨0, 0, 0⟩, ⟨11 / 20, 0, 0⟩, ⟨11 / 10, 0, 0⟩, ⟨9 / 4, 0, 0⟩, ⟨17 / 5, 0, 0⟩] 0 2 =
      11 / 10 ∧
    PolylineLength ratEngine
      [⟨0, 0, 0⟩, ⟨11 / 20, 0, 0⟩, ⟨11 / 10, 0, 0⟩, ⟨9 / 4, 0, 0⟩, ⟨17 / 5, 0, 0⟩] 0 4 =
      17 / 5 ∧
    (9227469 / 8388608 : ℚ) ≠ 11 / 10 ∧
    (9227469 / 8388608 + 9646899 / 4194304 : ℚ) ≠ 7130317 / 2097152 ∧
    ([9227469 / 8388608, 9646899 / 4194304, 0] : List ℚ).sum ≠ 7130317 / 2097152 ∧
    (7130317 / 2097152 : ℚ) ≠ 17 / 5 := by
  refine ⟨by decide!, by decide!, by decide!, by decide!, by decide!, by decide!, by decide!⟩

/-- Witness of C18 (amended) on the hard-corner chain `(0,0,0), (1.1,0,0), (2.2,0,0)` with
the rounding `ratFloat`, projected by dropping the third coordinate: the query at the
projection of the chain vertex 1, the control point 1.  The fragment before it is at the
computed distance `6.6e-8`, and the vertex is reported as segment 1 with progress 0 at
distance 0. -/
theorem C18_hit_at_chain_vertex_witness :
    FragmentDistanceF ratEngine ratFloat
      (ScreenLine projectExample
        (CalculateHardF ratEngine ratFloat hardNarrowChainExample))
      ⟨11 / 10, 0⟩ 0 = 9227469 / 140737488355328 ∧
    ∃ r, HitDetectSplineF ratEngine ratFloat floatMaxExample
        projectExample
        (CalculateHardF ratEngine ratFloat hardNarrowChainExample) ⟨11 / 10, 0⟩ = some r ∧
      r.Valid = true ∧ r.Distance = 0 ∧ r.Segment = 1 ∧ r.Progress = 0 := by
  refine ⟨by decide!, ?_⟩
  obtain ⟨r, hr, hv, hd, hrest⟩ :=
    C18_hit_at_chain_vertex ratEngine ratSqrt_nonneg (by decide!) ratFloat (by decide!)
      ratFloat_nonneg floatMaxExample
      projectExample 0
      hardNarrowChainExample (CalculateHardF ratEngine ratFloat hardNarrowChainExample)
      1 (by decide) rfl (by decide!)
      (by
        intro k hk
        have hk2 : k = 0 ∨ k = 1 := by
          have : k + 1 < 3 := hk
          omega
        rcases hk2 with rfl | rfl
        · decide!
        · decide!)
      (by
        intro i hi
        have hl : (CalculateHardF ratEngine ratFloat hardNarrowChainExample).Tessellated.length
            = 3 := by decide!
        rw [hl] at hi
        have hi2 : i = 0 ∨ i = 1 := by omega
        rcases hi2 with rfl | rfl
        · decide!
        · decide!)
      (by
        intro i hi
        have hl : (CalculateHardF ratEngine ratFloat hardNarrowChainExample).Tessellated.length
            = 3 := by decide!
        rw [hl] at hi
        have hi2 : i = 0 ∨ i = 1 := by omega
        rcases hi2 with rfl | rfl
        · decide!
        · decide!)
      (by decide!)
  have hq : (ScreenLine projectExample
      (CalculateHardF ratEngine ratFloat hardNarrowChainExample)).getD 1 0 =
      (⟨11 / 10, 0⟩ : FVector2D ℚ) := by decide!
  rw [hq] at hr hrest
  obtain ⟨hs, hp⟩ := hrest
    (by
      intro j hj
      have : j = 0 := by omega
      subst this
      decide!)
    1 (by decide) (by decide!)
  exact ⟨r, hr, hv, hd, hs, hp⟩

/-- C18 as stated fails at the last chain vertex: on the hard-corner chain
`(0,0,0), (1.1,0,0)` with its one fragment, of segment length `float(1.1) > 0` and projected
squared length `float(1.21) > 0`, the query at the projection `(1.1, 0)` of the chain vertex
1, the control point 1, projects to the fraction `float(1.21 / float(1.21)) = 1 - 2⁻²⁴` of
the fragment: the result is at the distance `6.6e-8`, not 0, and it is segment 0 with
progress `0.99999988`, not segment 1 with progress 0. -/
theorem C18_hit_at_chain_vertex_counterexample :
    (CalculateF ratEngine ratFloat 0 hardNarrowExample).map
      (fun s' => (s'.Tessellated, s'.SegmentTessIndexes, s'.SegmentLengths)) =
      some ([⟨0, 0, 0⟩, ⟨11 / 10, 0, 0⟩], [0, 1], [9227469 / 8388608, 0]) ∧
    ScreenLine projectExample
      (CalculateHardF ratEngine ratFloat hardNarrowExample) = [⟨0, 0⟩, ⟨11 / 10, 0⟩] ∧
    FragmentProgressF ratFloat [⟨0, 0⟩, ⟨11 / 10, 0⟩] (⟨11 / 10, 0⟩ : FVector2D ℚ) 0 =
      16777215 / 16777216 ∧
    HitDetectSplineF ratEngine ratFloat floatMaxExample
      projectExample
      (CalculateHardF ratEngine ratFloat hardNarrowExample) ⟨11 / 10, 0⟩ =
      some { Valid := true, Segment := 0, Progress := 8388607 / 8388608,
             Distance := 9227469 / 140737488355328 } := by
  refine ⟨by decide!, by decide!, by decide!, by decide!⟩

end SingleExamples

/-! ## Single precision: collinear control points -/

section SingleCollinear

variable {α : Type} [LinearOrderedField α] [FloorRing α]

/-- With control points `A + e * t i` and tangents along `e`, every curve point that
`CalculateBezierPoint` returns in single precision is a combination of `A` and `e`: the
rounded Bernstein coefficients need not add up to `1`. -/
theorem CalculateBezierPointF_span (F : α → α) (s : FBezierCalc α) (A e : FVector α)
    (t : Nat → α)
    (hP : ∀ i, i < s.Points.length → s.Points.getD i 0 = A + e * t i)
    (hT : ∀ i, i < s.Points.length → (∃ a : α, s.OutTangents[i]? = some (e * a)) ∧
      (∃ b : α, s.InTangents[i]? = some (e * b)))
    (x : α) (p : FVector α) (h : CalculateBezierPointF F s x = some p) :
    ∃ a c : α, p = A * a + e * c := by
  have hget : ∀ (i : Nat) (q : FVector α), s.Points[i]? = some q → q = A + e * t i := by
    intro i q hq
    have hi : i < s.Points.length := by
      by_contra hc
      rw [List.getElem?_eq_none (by omega)] at hq
      exact absurd hq (by simp)
    rw [← hP i hi]
    exact (getD_of_getElem? _ _ 0 _ hq).symm
  unfold CalculateBezierPointF at h
  simp only [] at h
  split_ifs at h with h1 h2
  · rw [List.getLast?_eq_getElem?] at h
    refine ⟨1, t (s.Points.length - 1), ?_⟩
    rw [hget _ _ h]
    ext
    · simp only [FVector.add_X, FVector.mul_X]
      ring
    · simp only [FVector.add_Y, FVector.mul_Y]
      ring
    · simp only [FVector.add_Z, FVector.mul_Z]
      ring
  · refine ⟨0, 0, ?_⟩
    rw [← Option.some.inj h]
    ext
    · simp only [FVector.add_X, FVector.mul_X]
      show (0 : α) = _
      ring
    · simp only [FVector.add_Y, FVector.mul_Y]
      show (0 : α) = _
      ring
    · simp only [FVector.add_Z, FVector.mul_Z]
      show (0 : α) = _
      ring
  · simp only [Option.bind_eq_bind, Option.bind_eq_some] at h
    obtain ⟨P0, hP0, Out, hO, P3, hP3, In, hI, hp⟩ := h
    have hj : (DecomposeFloatProgress s (Clamp x 0 (s.Points.length : α))).1.toNat + 1 <
        s.Points.length := by
      by_contra hc
      rw [List.getElem?_eq_none (by omega)] at hP3
      exact absurd hP3 (by simp)
    obtain ⟨⟨a, ha⟩, _⟩ := hT _ (show
      (DecomposeFloatProgress s (Clamp x 0 (s.Points.length : α))).1.toNat < s.Points.length
      by omega)
    obtain ⟨_, ⟨b, hb⟩⟩ := hT _ hj
    rw [ha] at hO
    rw [hb] at hI
    have e0 := hget _ _ hP0
    have e3 := hget _ _ hP3
    have eO : Out = e * a := (Option.some.inj hO).symm
    have eI : In = e * b := (Option.some.inj hI).symm
    rw [← Option.some.inj hp, e0, e3, eO, eI]
    generalize F (F (F (1 - (DecomposeFloatProgress s (Clamp x 0 (s.Points.length : α))).2) *
      F (1 - (DecomposeFloatProgress s (Clamp x 0 (s.Points.length : α))).2)) *
      F (1 - (DecomposeFloatProgress s (Clamp x 0 (s.Points.length : α))).2)) = c0
    generalize F (F (F (3 * F (1 - (DecomposeFloatProgress s
      (Clamp x 0 (s.Points.length : α))).2)) *
      F (1 - (DecomposeFloatProgress s (Clamp x 0 (s.Points.length : α))).2)) *
      (DecomposeFloatProgress s (Clamp x 0 (s.Points.length : α))).2) = c1
    generalize F (F (F (3 * F (1 - (DecomposeFloatProgress s
      (Clamp x 0 (s.Points.length : α))).2)) *
      (DecomposeFloatProgress s (Clamp x 0 (s.Points.length : α))).2) *
      (DecomposeFloatProgress s (Clamp x 0 (s.Points.length : α))).2) = c2
    generalize F (F ((DecomposeFloatProgress s (Clamp x 0 (s.Points.length : α))).2 *
      (DecomposeFloatProgress s (Clamp x 0 (s.Points.length : α))).2) *
      (DecomposeFloatProgress s (Clamp x 0 (s.Points.length : α))).2) = c3
    generalize t (DecomposeFloatProgress s (Clamp x 0 (s.Points.length : α))).1.toNat = t0
    generalize t ((DecomposeFloatProgress s (Clamp x 0 (s.Points.length : α))).1.toNat + 1)
      = t1
    refine ⟨c0 + c1 + c2 + c3, c0 * t0 + c1 * (t0 + a) + c2 * (t1 - b) + c3 * t1, ?_⟩
    ext
    · simp only [FVector.add_X, FVector.sub_X, FVector.smul_X, FVector.mul_X]
      ring
    · simp only [FVector.add_Y, FVector.sub_Y, FVector.smul_Y, FVector.mul_Y]
      ring
    · simp only [FVector.add_Z, FVector.sub_Z, FVector.smul_Z, FVector.mul_Z]
      ring

/-- A call of `TessellateSegment` in single precision appends only its start point and
curve samples: a property of the start point, of the chain so far and of all curve points
holds for the whole chain it returns. -/
theorem TessellateSegmentF_forall (E : Engine α) (F : α → α) (s : FBezierCalc α)
    (Q : FVector α → Prop) (hQ : ∀ x p, CalculateBezierPointF F s x = some p → Q p) :
    ∀ (fuel : Nat) (k : Int) (T0 : α) (P0 : FVector α) (T1 : α) (P1 : FVector α)
      (Tes R : List (FVector α)),
      TessellateSegmentF E F s fuel k T0 P0 T1 P1 Tes = some R → Q P0 → (∀ x ∈ Tes, Q x) →
      ∀ x ∈ R, Q x := by
  intro fuel
  induction fuel with
  | zero =>
    intro k T0 P0 T1 P1 Tes R h
    simp [TessellateSegmentF] at h
  | succ n ih =>
    intro k T0 P0 T1 P1 Tes R h hP0 hTes
    rw [TessellateSegmentF] at h
    simp only [Option.bind_eq_bind, Option.bind_eq_some] at h
    obtain ⟨Mid, hMid, b, _, h⟩ := h
    have hQM : Q Mid := hQ _ _ hMid
    cases b with
    | true =>
      simp only [if_true, Option.bind_eq_some] at h
      obtain ⟨Ra, ha, hb⟩ := h
      exact ih _ _ _ _ _ _ _ hb hQM (ih _ _ _ _ _ _ _ ha hP0 hTes)
    | false =>
      simp at h
      rw [← h]
      intro x hx
      simp only [List.mem_append, List.mem_cons, List.mem_singleton, List.not_mem_nil,
        or_false] at hx
      rcases hx with hx | hx | hx
      · exact hTes x hx
      · rw [hx]; exact hP0
      · rw [hx]; exact hQM

/-- The curve point of single precision reads the state only through the curve it holds. -/
theorem CalculateBezierPointF_congr (F : α → α) {s st : FBezierCalc α} (hc : SameCurve s st)
    (x : α) : CalculateBezierPointF F st x = CalculateBezierPointF F s x := by
  obtain ⟨h1, h2, h3, h4, h5, h6⟩ := hc
  unfold CalculateBezierPointF DecomposeFloatProgress
  rw [h1, h5, h6]

/-- Every chain point that `CalculateBezier` produces in single precision is a control
point or a curve point: a property of those holds for the whole chain. -/
theorem CalculateBezierF_forall (E : Engine α) (F : α → α) (fuel : Nat)
    (t s' : FBezierCalc α) (Q : FVector α → Prop)
    (hPts : ∀ i, i < t.Points.length → Q (t.Points.getD i 0))
    (hQ : ∀ x p, CalculateBezierPointF F t x = some p → Q p)
    (h : CalculateBezierF E F fuel t = some s') : ∀ x ∈ s'.Tessellated, Q x := by
  unfold CalculateBezierF at h
  simp only [] at h
  split_ifs at h with hN
  · simp only [Option.some.injEq] at h
    subst h
    intro x hx
    simp at hx
  · have key := foldlM_range_induction
      (fun _ (st : FBezierCalc α) => SameCurve t st ∧ ∀ x ∈ st.Tessellated, Q x)
      _ _ _ _ h ⟨⟨rfl, rfl, rfl, rfl, rfl, rfl⟩, fun x hx => by simp at hx⟩
      (by
        rintro i st st' hi ⟨hc, hall⟩ hf
        obtain ⟨hc', _, _, L, _, _, hlast, hseg⟩ :=
          CalculateBezierStepF_some E F fuel st st' i hf
        refine ⟨SameCurve_trans hc hc', ?_⟩
        by_cases hcase : (i : Int) < (st.Points.length : Int) - 1
        · obtain ⟨Tes, Last, hT, _, hst, _⟩ := hseg hcase
          rw [hst]
          have hc2 : SameCurve t
              { st with SegmentTessIndexes := st.SegmentTessIndexes.set i st.Tessellated.length } :=
            hc
          refine TessellateSegmentF_forall E F _ Q ?_ fuel _ _ _ _ _ _ _ hT ?_ hall
          · intro x p hp
            rw [CalculateBezierPointF_congr F hc2] at hp
            exact hQ x p hp
          · rw [hc.1]
            exact hPts i hi
        · obtain ⟨_, hst⟩ := hlast hcase
          rw [hst]
          intro x hx
          simp only [List.mem_append, List.mem_singleton] at hx
          rcases hx with hx | hx
          · exact hall x hx
          · rw [hx, hc.1]
            exact hPts i hi)
    exact key.2

/-- C27 (amended): `N ≥ 3` control points `A + e * t i` on a line with unit direction `e`,
strictly ordered with gaps `t (i + 1) - t i` whose squares are not below the tolerance of
`GetSafeNormal`, in smooth mode with a positive strength `s` and an exact square root.
Every interior out-tangent is `e * (s * (t (i + 1) - t i))` and every interior in-tangent
is `e * (s * (t i - t (i - 1)))`, a positive multiple of `e`.  Whenever `Calculate`
returns, the tangents it leaves are those of `CalculateTangents` and every point of the
chain is on the line `A + e * c`, with the curve parameters evaluated exactly.  With the
`float` curve parameters of the source, rounded by any `F`, the rounded Bernstein
coefficients need not add up to `1`: every point of the chain is a combination
`A * a + e * c`, which is on the line when the line passes through the origin. -/
theorem C27_collinear_points (E : Engine α) (hE : ∀ x, 0 ≤ E.Sqrt x)
    (hsq : ∀ x, 0 ≤ x → E.Sqrt x * E.Sqrt x = x) (h0 : 0 < E.SmallNumber)
    (h1 : E.SmallNumber ≤ 1) (s : FBezierCalc α) (A e : FVector α) (t : Nat → α)
    (hH : s.HardCorners = false) (hN : 3 ≤ s.Points.length) (hs : 0 < s.TangentStrength)
    (he : e.SizeSquared = 1)
    (hP : ∀ i, i < s.Points.length → s.Points.getD i 0 = A + e * t i)
    (hgap : ∀ i, i + 1 < s.Points.length → t i < t (i + 1) ∧
      E.SmallNumber ≤ (t (i + 1) - t i) * (t (i + 1) - t i)) :
    (∀ i, 1 ≤ i → i + 1 < s.Points.length →
      (CalculateTangents E s).OutTangents[i]? =
        some (e * (s.TangentStrength * (t (i + 1) - t i))) ∧
      0 < s.TangentStrength * (t (i + 1) - t i) ∧
      (CalculateTangents E s).InTangents[i]? =
        some (e * (s.TangentStrength * (t i - t (i - 1)))) ∧
      0 < s.TangentStrength * (t i - t (i - 1))) ∧
    (∀ fuel s', Calculate E fuel s = some s' →
      s'.OutTangents = (CalculateTangents E s).OutTangents ∧
      s'.InTangents = (CalculateTangents E s).InTangents ∧
      ∀ p ∈ s'.Tessellated, ∃ c : α, p = A + e * c) ∧
    (∀ (F : α → α) fuel s', CalculateF E F fuel s = some s' →
      ∀ p ∈ s'.Tessellated, ∃ a c : α, p = A * a + e * c) := by
  refine ⟨?_, ?_, ?_⟩
  · intro i hi1 hi2
    obtain ⟨ho, hi⟩ := CalculateTangents_collinear_interior E hE hsq h0 h1 s A e t he hP hgap
      i hi1 hi2
    have g1 := (hgap (i - 1) (by omega)).1
    have ei : i - 1 + 1 = i := by omega
    rw [ei] at g1
    have g2 := (hgap i hi2).1
    exact ⟨ho, mul_pos hs (by linarith), hi, mul_pos hs (by linarith)⟩
  · intro fuel s' h
    obtain ⟨hcb, hc, _⟩ := Calculate_smooth E fuel s s' hH h
    obtain ⟨hfr, hl1, hl2, _⟩ := CalculateTangents_spec E s
    have hT := CalculateTangents_collinear E s A e t hN hP
    refine ⟨hc.2.2.2.2.2, hc.2.2.2.2.1, ?_⟩
    generalize CalculateTangents E s = T at hcb hc hfr hl1 hl2 hT
    have hPl : T.Points = s.Points := hfr.1
    have hP' : ∀ i, i < T.Points.length → T.Points.getD i 0 = A + e * t i := by
      rw [hPl]; exact hP
    have hT' : ∀ i, i < T.Points.length → (∃ a : α, T.OutTangents[i]? = some (e * a)) ∧
        (∃ b : α, T.InTangents[i]? = some (e * b)) := by
      rw [hPl]; exact hT
    exact CalculateBezier_forall E fuel T s' (fun p => ∃ c : α, p = A + e * c)
      (fun i hi => ⟨t i, hP' i hi⟩)
      (fun k hk T1 p hp => CalculateBezierPointSeg_collinear T A e t (by rw [hl1, hPl])
        (by rw [hl2, hPl]) hP' hT' k hk T1 p hp) hcb
  · intro F fuel s' h
    unfold CalculateF at h
    rw [if_neg (by rw [hH]; simp)] at h
    obtain ⟨hfr, _⟩ := CalculateTangents_spec E s
    have hT := CalculateTangents_collinear E s A e t hN hP
    generalize CalculateTangents E s = T at h hfr hT
    have hPl : T.Points = s.Points := hfr.1
    have hP' : ∀ i, i < T.Points.length → T.Points.getD i 0 = A + e * t i := by
      rw [hPl]; exact hP
    have hT' : ∀ i, i < T.Points.length → (∃ a : α, T.OutTangents[i]? = some (e * a)) ∧
        (∃ b : α, T.InTangents[i]? = some (e * b)) := by
      rw [hPl]; exact hT
    refine CalculateBezierF_forall E F fuel T s' (fun p => ∃ a c : α, p = A * a + e * c)
      ?_ (fun x p hp => CalculateBezierPointF_span F T A e t hP' hT' x p hp) h
    intro i hi
    refine ⟨1, t i, ?_⟩
    rw [hP' i hi]
    ext
    · simp only [FVector.add_X, FVector.mul_X]
      ring
    · simp only [FVector.add_Y, FVector.mul_Y]
      ring
    · simp only [FVector.add_Z, FVector.mul_Z]
      ring

/-- Witness of C27 (amended) over the real numbers with the real square root, on the points
`(0,0,0), (50,0,0), (100,0,0)` of the x-axis with strength `0.3`: both tangents of the
middle point are `(15, 0, 0)`.  With the rational square root `Calculate` returns the chain
`(0,0,0), (25,0,0), (50,0,0), (75,0,0), (100,0,0)` on these points, with exact curve
parameters and with the rounding `ratFloat` to `float`. -/
theorem C27_collinear_points_witness :
    ((CalculateTangents (⟨Real.sqrt, 1 / 100000000⟩ : Engine ℝ)
        (FBezierCalc.fresh [⟨0, 0, 0⟩, ⟨50, 0, 0⟩, ⟨100, 0, 0⟩] false (3 / 10)
          (95 / 100))).OutTangents[1]? = some ((⟨1, 0, 0⟩ : FVector ℝ) * (15 : ℝ)) ∧
      (CalculateTangents (⟨Real.sqrt, 1 / 100000000⟩ : Engine ℝ)
        (FBezierCalc.fresh [⟨0, 0, 0⟩, ⟨50, 0, 0⟩, ⟨100, 0, 0⟩] false (3 / 10)
          (95 / 100))).InTangents[1]? = some ((⟨1, 0, 0⟩ : FVector ℝ) * (15 : ℝ))) ∧
    (Calculate ratEngine 1 collinearExample).map (fun s' => s'.Tessellated) =
      some [⟨0, 0, 0⟩, ⟨25, 0, 0⟩, ⟨50, 0, 0⟩, ⟨75, 0, 0⟩, ⟨100, 0, 0⟩] ∧
    (CalculateF ratEngine ratFloat 1 collinearExample).map (fun s' => s'.Tessellated) =
      some [⟨0, 0, 0⟩, ⟨25, 0, 0⟩, ⟨50, 0, 0⟩, ⟨75, 0, 0⟩, ⟨100, 0, 0⟩] := by
  have key := (C27_collinear_points (⟨Real.sqrt, 1 / 100000000⟩ : Engine ℝ)
    Real.sqrt_nonneg
    (fun x hx => Real.mul_self_sqrt hx) (by norm_num) (by norm_num)
    (FBezierCalc.fresh [⟨0, 0, 0⟩, ⟨50, 0, 0⟩, ⟨100, 0, 0⟩] false (3 / 10) (95 / 100))
    0 ⟨1, 0, 0⟩ (fun i => 50 * (i : ℝ)) rfl (by simp [FBezierCalc.fresh])
    (by simp [FBezierCalc.fresh]) (by simp [FVector.SizeSquared])
    (by
      intro i hi
      have hi3 : i < 3 := by simpa [FBezierCalc.fresh] using hi
      interval_cases i
      · ext <;> simp [FBezierCalc.fresh]
      · ext <;> simp [FBezierCalc.fresh]
      · ext <;> simp [FBezierCalc.fresh]
        norm_num)
    (by
      intro i hi
      constructor
      · push_cast
        linarith
      · show (1 / 100000000 : ℝ) ≤ _
        push_cast
        ring_nf
        norm_num)).1 1 (le_refl 1) (by simp [FBezierCalc.fresh])
  have e1 : (3 / 10 : ℝ) * (50 * ((1 + 1 : Nat) : ℝ) - 50 * ((1 : Nat) : ℝ)) = 15 := by
    norm_num
  have e2 : (3 / 10 : ℝ) * (50 * ((1 : Nat) : ℝ) - 50 * ((1 - 1 : Nat) : ℝ)) = 15 := by
    norm_num
  have k1 := key.1
  have k2 := key.2.2.1
  rw [show (FBezierCalc.fresh [(⟨0, 0, 0⟩ : FVector ℝ), ⟨50, 0, 0⟩, ⟨100, 0, 0⟩] false
    (3 / 10) (95 / 100)).TangentStrength = (3 / 10 : ℝ) from rfl] at k1 k2
  rw [e1] at k1
  rw [e2] at k2
  exact ⟨⟨k1, k2⟩, by decide!, by decide!⟩

end SingleCollinear

end LineRenderer
